import Mathlib

/-!
# NumCPP: the matrix class, broadcasting, the device operations and the eigen solver

A shallow embedding of `src/numcpp.cpp` and `src/matrix.h`.

* `float` values are an abstract type `α`; the copy routines need nothing of it,
  the device kernels need the operations of a linearly ordered ring (arithmetic
  is exact, comparisons are decidable). The conversion of an integer to
  `float` is not exact: `float_of_size` and `float_of_int` round to the 24
  binary digits of the significand.
* `size_t` values are natural numbers, `long long int` values are integers.
  The one place where the unsigned wrap-around of `size_t` changes what the
  program does for matrices that fit in memory, the bound of the
  column-replication loop of `broadcast2`, is computed modulo `2^64`.
* A buffer is a list; every read and write is bounds-checked, and an access
  outside the buffer (undefined behaviour in C++) is the fault `out_of_bounds`.
* `dominant_eigen` needs the operations of a linearly ordered field; its
  `goto` loop is run under a budget of passes. It is given twice. In
  `dominant_eigen` the values are numbers and a division by an estimate that
  is zero ends the run with the fault `division_by_zero`. In
  `dominant_eigen_ieee` the values are numbers extended by the infinities and
  NaN (`IEEE`), the division by zero gives such a value and the run goes on, as
  the program does; `dominant_eigen_ieee_extends` shows that a run of the
  first is a run of the second.
* A kernel that leaves its buffers is undefined behaviour; `launch` ends the
  run there. `transpose_on_host` is `transpose` with that behaviour confined
  to the device: the host goes on with unspecified contents in the output
  buffer.
* An operation on the device runs in a session that counts the OpenCL calls and
  records the buffers created and released; the return code of each call is
  given by an oracle, so that every failure path of the pipeline is a run.
-/

namespace numcpp

/-- Ways in which the C++ program leaves defined behaviour. -/
inductive Fault where
  /-- an access outside an allocated buffer -/
  | out_of_bounds
  /-- a `/` or `%` whose right operand is zero: undefined for integers, and for
  `float` a quotient that is infinite or not a number, which exact arithmetic
  does not have -/
  | division_by_zero
  /-- the step budget of a modelled loop ran out: the loops of `broadcast2` get
  budgets they cannot use up, and `dominant_eigen`, whose loop has no cap, ends
  so on a run that does not return within the budget -/
  | out_of_fuel
deriving DecidableEq, Repr

/-- The class `MatrixStatus` of `matrix.h`: a message and a numeric code. -/
structure MatrixStatus where
  error_message : String
  error_code : Int
deriving DecidableEq, Repr

/-- The class `Matrix` of `matrix.h`: `columns`, `rows` and the flattened buffer `matrix`. -/
structure Matrix (α : Type) where
  columns : Nat
  rows : Nat
  matrix : List α
deriving DecidableEq, Repr

/-- The data-model invariant: both extents are positive and the buffer holds
`rows * columns` values. -/
def Matrix.wf {α : Type} (m : Matrix α) : Prop :=
  1 ≤ m.rows ∧ 1 ≤ m.columns ∧ m.matrix.length = m.rows * m.columns

/-- The number `2^64` of values of `size_t` (and of `unsigned long long`). -/
def SIZE_RANGE : Nat := 2 ^ 64

/-- Subtraction of two `size_t` values: it wraps modulo `2^64`. -/
def size_sub (a b : Nat) : Nat := (a % SIZE_RANGE + (SIZE_RANGE - b % SIZE_RANGE)) % SIZE_RANGE

/-- The `size_t` expression `a % b`; undefined for `b = 0`. -/
def size_mod (a b : Nat) : Except Fault Nat :=
  if b = 0 then .error .division_by_zero else .ok (a % b)

/-- The `size_t` expression `a / b`; undefined for `b = 0`. -/
def size_div (a b : Nat) : Except Fault Nat :=
  if b = 0 then .error .division_by_zero else .ok (a / b)

/-- A read `buf[i]` through a `long long` index. -/
def read {α : Type} (buf : List α) (i : Int) : Except Fault α :=
  if 0 ≤ i then
    match buf[i.toNat]? with
    | some v => .ok v
    | none => .error .out_of_bounds
  else .error .out_of_bounds

/-- A write `buf[i] = v` through a `long long` index. -/
def write {α : Type} (buf : List α) (i : Int) (v : α) : Except Fault (List α) :=
  if 0 ≤ i ∧ i.toNat < buf.length then .ok (buf.set i.toNat v) else .error .out_of_bounds

/-- The method `Matrix::get_element`: `matrix[row * columns + column]`. -/
def Matrix.get_element {α : Type} (m : Matrix α) (row column : Nat) : Except Fault α :=
  read m.matrix ((row * m.columns + column : Nat) : Int)

/-- The method `Matrix::get_rows`. -/
def Matrix.get_rows {α : Type} (m : Matrix α) : Nat := m.rows

/-- The method `Matrix::get_columns`. -/
def Matrix.get_columns {α : Type} (m : Matrix α) : Nat := m.columns

/-- The method `Matrix::set_matrix`: the buffer pointer is replaced. -/
def Matrix.set_matrix {α : Type} (m : Matrix α) (mat : List α) : Matrix α :=
  { m with matrix := mat }

/-- A loop `for (long long int i = 0; i < n; i++) body`, whose body does not assign `i`. -/
def for_range {σ : Type} (n : Nat) (body : Nat → σ → Except Fault σ) (s : σ) : Except Fault σ :=
  (List.range n).foldlM (fun st i => body i st) s

/-! ## The broadcast resolver -/

/-- What `is_broadcast_possible` returns and writes through its two pointers. -/
structure BroadcastPlan where
  flag : Int
  highest_cols : Int
  highest_rows : Int
deriving DecidableEq, Repr

/-- The condition `big.rows >= small.rows && big.rows % small.rows == 0 &&
big.columns >= small.columns && big.columns % small.columns == 0`, evaluated
from left to right with the short-circuit of `&&`. -/
def absorbs {α : Type} (big small : Matrix α) : Except Fault Bool :=
  if big.rows ≥ small.rows then do
    let r ← size_mod big.rows small.rows
    if r = 0 then
      if big.columns ≥ small.columns then do
        let c ← size_mod big.columns small.columns
        pure (decide (c = 0))
      else pure false
    else pure false
  else pure false

/-- The function `is_broadcast_possible` (numcpp.cpp, lines 227-257). -/
def is_broadcast_possible {α : Type} (valid_a valid_b : Matrix α) : Except Fault BroadcastPlan := do
  if (← absorbs valid_a valid_b) then
    pure { flag := 2, highest_cols := valid_a.columns, highest_rows := valid_a.rows }
  else if (← absorbs valid_b valid_a) then
    pure { flag := 1, highest_cols := valid_b.columns, highest_rows := valid_b.rows }
  else
    pure { flag := 0, highest_cols := -1, highest_rows := -1 }

/-! ## The broadcast materializer -/

/-- Conversion of a `long long` value to the unsigned 64-bit type of a mixed comparison. -/
def to_unsigned (z : Int) : Nat := (z % (SIZE_RANGE : Int)).toNat

/-- The first loop nest of a branch of `broadcast2`: the matrix that gives the
target shape is copied element by element, `output[i * columns + j] = get_element(i, j)`. -/
def copy_verbatim {α : Type} (big : Matrix α) (output : List α) : Except Fault (List α) :=
  for_range big.rows (fun i out =>
    for_range big.columns (fun j out => do
      let v ← big.get_element i j
      write out ((i * big.columns + j : Nat) : Int) v) out) output

/-- The second loop nest: `output[index] = small.get_matrix()[i * small.columns + j]`
with `index++` after each element and `index -= small.columns; index += big.columns`
after each row. The state is the buffer and `index`. -/
def strided_copy {α : Type} (big small : Matrix α) (output : List α) :
    Except Fault (List α × Int) :=
  for_range small.rows (fun i st => do
    let st ← for_range small.columns (fun j (st : List α × Int) => do
      let v ← read small.matrix ((i * small.columns + j : Nat) : Int)
      let out ← write st.1 st.2 v
      pure (out, st.2 + 1)) st
    pure (st.1, st.2 - (small.columns : Int) + (big.columns : Int))) (output, 0)

/-- The inner loop of the band replication,
`for (j = i * jump; j < i * jump + jump; j++)`, whose body copies
`output[j + jump] = output[j]`, counts `k` and, once `k >= small.columns`,
resets `k` and moves `j` by `- small.columns + big.columns`. The arguments are
the step budget, `j` and `k`; `limit` is `i * jump + jump`. -/
def band_loop {α : Type} (small_cols big_cols : Nat) (jump limit : Int) :
    Nat → Int → Int → List α → Except Fault (List α)
  | 0, j, _, out => if j < limit then .error .out_of_fuel else .ok out
  | fuel + 1, j, k, out =>
    if j < limit then do
      let v ← read out j
      let out ← write out (j + jump) v
      let k := k + 1
      if k ≥ (small_cols : Int) then
        band_loop small_cols big_cols jump limit fuel
          (j - (small_cols : Int) + (big_cols : Int) + 1) 0 out
      else
        band_loop small_cols big_cols jump limit fuel (j + 1) k out
    else .ok out

/-- The inner loop of the column replication,
`for (j = curr_position; j <= bound; j++) output[j + small.columns] = output[j]`.
The comparison is made in unsigned 64-bit arithmetic. -/
def column_loop {α : Type} (small_cols bound : Nat) :
    Nat → Int → List α → Except Fault (List α)
  | 0, j, out => if to_unsigned j ≤ bound then .error .out_of_fuel else .ok out
  | fuel + 1, j, out =>
    if to_unsigned j ≤ bound then do
      let v ← read out j
      let out ← write out (j + (small_cols : Int)) v
      column_loop small_cols bound fuel (j + 1) out
    else .ok out

/-- The bound `curr_position + (big.columns - 1 - small.columns)` of the column
loop: the parenthesis is `size_t` arithmetic, the sum is unsigned 64-bit. -/
def column_bound (big_cols small_cols : Nat) (curr_position : Int) : Nat :=
  (to_unsigned curr_position + size_sub (size_sub big_cols 1) small_cols) % SIZE_RANGE

/-- The three steps that fill the buffer of the smaller matrix in a branch of
`broadcast2`: strided copy, band replication, column replication. The step
budgets handed to the two inner loops exceed the number of iterations that can
stay inside the buffer. -/
def tile {α : Type} (big small : Matrix α) (output : List α) : Except Fault (List α) := do
  let st ← strided_copy big small output
  let rows_rep ← size_div big.rows small.rows
  let jump : Int := ((small.rows * big.columns : Nat) : Int)
  let out ← for_range (rows_rep - 1) (fun i out =>
    band_loop small.columns big.columns jump ((i : Int) * jump + jump)
      ((jump.toNat + 1) * (small.columns + 1)) ((i : Int) * jump) 0 out) st.1
  for_range big.rows (fun i out =>
    let curr_position : Int := ((i * big.columns : Nat) : Int)
    column_loop small.columns (column_bound big.columns small.columns curr_position)
      (out.length + 1) curr_position out) out

/-- The function `broadcast2` (numcpp.cpp, lines 259-383). The result is the
returned flag and the two output buffers. -/
def broadcast2 {α : Type} (valid_a valid_b : Matrix α) (output_a output_b : List α)
    (flag : Int) : Except Fault (Int × List α × List α) :=
  if flag = 0 then pure (flag, output_a, output_b)
  else if flag = 2 then do
    let output_a ← copy_verbatim valid_a output_a
    let output_b ← tile valid_a valid_b output_b
    pure (flag, output_a, output_b)
  else if flag = 1 then do
    let output_b ← copy_verbatim valid_b output_b
    let output_a ← tile valid_b valid_a output_a
    pure (flag, output_a, output_b)
  else pure (flag, output_a, output_b)

/-! ## The dispatch pipeline -/

/-- How a modelled operation ends when it does not return a matrix. -/
inductive Failure where
  /-- a `MatrixStatus` exception leaves the function -/
  | thrown (status : MatrixStatus)
  /-- a `MatrixStatus` was caught by the operator, which printed its code and
  message and called `exit(0)` -/
  | exited (status : MatrixStatus)
  /-- undefined behaviour on the host or in a kernel -/
  | undefined (fault : Fault)
deriving DecidableEq, Repr

/-- The steps of an operation that are observed from outside. -/
inductive Event where
  /-- host allocation `new float[n]` -/
  | new_float (n : Nat)
  /-- a call of `broadcast2` with the given flag -/
  | called_broadcast2 (flag : Int)
  /-- a call of `clCreateBuffer` succeeded: device buffer number `buffer` of `size` bytes -/
  | created (buffer : Nat) (size : Nat)
  /-- a call of `clReleaseMemObject` on the device buffer -/
  | released (buffer : Nat)
  /-- the warning 98 printed by `release` -/
  | warning
deriving DecidableEq, Repr

/-- The state threaded through an operation: the number of OpenCL calls made so
far and the events so far, oldest first. -/
structure Session where
  calls : Nat
  events : List Event
deriving DecidableEq, Repr

/-- An operation: it may fail, and the session state survives the failure. -/
abbrev Run (β : Type) : Type := ExceptT Failure (StateM Session) β

/-- Host code inside an operation; a fault is undefined behaviour. -/
def host {β : Type} (x : Except Fault β) : Run β :=
  match x with
  | .ok v => pure v
  | .error f => throw (Failure.undefined f)

/-- Append an event to the session. -/
def log (e : Event) : Run Unit :=
  modify (fun s => { s with events := s.events ++ [e] })

/-- One call of the OpenCL API: `cl k` is the code returned by the `k`-th call
of the operation (`0` is `CL_SUCCESS`). -/
def cl_call (cl : Nat → Int) : Run Int := do
  let s ← get
  set { s with calls := s.calls + 1 }
  pure (cl s.calls)

/-- Memory as `new float[n]` and `clCreateBuffer` hand it out: `n` cells whose
contents are whatever `junk` holds. -/
def uninitialised {α : Type} (junk : Nat → α) (n : Nat) : List α := (List.range n).map junk

/-- The expression `new float[n]`. -/
def new_float {α : Type} (junk : Nat → α) (n : Nat) : Run (List α) := do
  log (Event.new_float n)
  pure (uninitialised junk n)

/-- The function `get_memory_buffer`; the buffer is named by the number of the
call that created it. -/
def get_memory_buffer (cl : Nat → Int) (size : Nat) : Run Nat := do
  let s ← get
  let ret ← cl_call cl
  if ret ≠ 0 then
    throw (Failure.thrown ⟨"Memory buffer could not be created.", 92⟩)
  log (Event.created s.calls size)
  pure s.calls

/-- The three overloads of `enqueue_write`: on success the device buffer holds
the host data. -/
def enqueue_write {α : Type} (cl : Nat → Int) (data : List α) : Run (List α) := do
  let ret ← cl_call cl
  if ret ≠ 0 then
    throw (Failure.thrown ⟨"Memory buffer value could not be set.", 93⟩)
  pure data

/-- The function `set_argument`. -/
def set_argument (cl : Nat → Int) : Run Unit := do
  let ret ← cl_call cl
  if ret ≠ 0 then
    throw (Failure.thrown ⟨"Kernel arguments could not be set.", 94⟩)

/-- The call of `clEnqueueNDRangeKernel` with its check; on success the kernel
`kernel` runs on the device. -/
def launch {β : Type} (cl : Nat → Int) (kernel : Except Fault β) : Run β := do
  let ret ← cl_call cl
  if ret ≠ 0 then
    throw (Failure.thrown ⟨"Error launching kernel.", 95⟩)
  host kernel

/-- The function `synchronize`. -/
def synchronize (cl : Nat → Int) : Run Unit := do
  let ret ← cl_call cl
  if ret ≠ 0 then
    throw (Failure.thrown ⟨"Error synchronizing kernel tasks.", 96⟩)

/-- The call of `clEnqueueReadBuffer` with its check; on success the host
buffer holds the device data. -/
def read_buffer {α : Type} (cl : Nat → Int) (device : List α) : Run (List α) := do
  let ret ← cl_call cl
  if ret ≠ 0 then
    throw (Failure.thrown ⟨"Error reading output from kernel.", 97⟩)
  pure device

/-- The function `release`: a failure is only a warning. -/
def release (cl : Nat → Int) (buffer : Nat) : Run Unit := do
  let ret ← cl_call cl
  log (Event.released buffer)
  if ret ≠ 0 then
    log Event.warning

/-- The `catch (MatrixStatus& status)` block of an operator: the status is
printed and the process exits. -/
def abort_on_status {β : Type} (body : Run β) : Run β :=
  tryCatch body (fun e =>
    match e with
    | Failure.thrown status => throw (Failure.exited status)
    | other => throw other)

/-- Run an operation from a given session: the outcome and the session at the end. -/
def Run.exec {β : Type} (x : Run β) (s : Session) : Except Failure β × Session :=
  (ExceptT.run x).run s

/-- Run an operation from a fresh session. -/
def Run.start {β : Type} (x : Run β) : Except Failure β × Session :=
  x.exec { calls := 0, events := [] }

/-! ## Kernels (the string returned by `kernelCode`) -/

/-- The common shape of the eight matrix-on-matrix kernels, for the work-item
`i = get_global_id(0)`: `results[i] = f(a[i], b[i])`. -/
def elementwise_kernel {α : Type} (f : α → α → α) (a b results : List α) (i : Nat) :
    Except Fault (List α) := do
  let x ← read a (i : Int)
  let y ← read b (i : Int)
  write results (i : Int) (f x y)

/-- The value of a relational operator of OpenCL C stored into a `float`. -/
def truth {α : Type} [LinearOrderedRing α] (p : Prop) [Decidable p] : α := if p then 1 else 0

/-- Kernel `parallel_adder`: `results[i] = a[i] + b[i]`. -/
def parallel_adder {α : Type} [LinearOrderedRing α] :
    List α → List α → List α → Nat → Except Fault (List α) :=
  elementwise_kernel (fun x y => x + y)

/-- Kernel `parallel_subtracter`: `results[i] = a[i] - b[i]`. -/
def parallel_subtracter {α : Type} [LinearOrderedRing α] :
    List α → List α → List α → Nat → Except Fault (List α) :=
  elementwise_kernel (fun x y => x - y)

/-- Kernel `parallel_multiplier`: `results[i] = a[i] * b[i]`. -/
def parallel_multiplier {α : Type} [LinearOrderedRing α] :
    List α → List α → List α → Nat → Except Fault (List α) :=
  elementwise_kernel (fun x y => x * y)

/-- Kernel `parallel_gt`: `results[i] = a[i] > b[i]`. -/
def parallel_gt {α : Type} [LinearOrderedRing α] :
    List α → List α → List α → Nat → Except Fault (List α) :=
  elementwise_kernel (fun x y => truth (x > y))

/-- Kernel `parallel_lt`: `results[i] = a[i] < b[i]`. -/
def parallel_lt {α : Type} [LinearOrderedRing α] :
    List α → List α → List α → Nat → Except Fault (List α) :=
  elementwise_kernel (fun x y => truth (x < y))

/-- Kernel `parallel_equals`: `results[i] = a[i] == b[i]`. -/
def parallel_equals {α : Type} [LinearOrderedRing α] :
    List α → List α → List α → Nat → Except Fault (List α) :=
  elementwise_kernel (fun x y => truth (x = y))

/-- Kernel `parallel_gte`: `results[i] = a[i] >= b[i]`. -/
def parallel_gte {α : Type} [LinearOrderedRing α] :
    List α → List α → List α → Nat → Except Fault (List α) :=
  elementwise_kernel (fun x y => truth (x ≥ y))

/-- Kernel `parallel_lte`: `results[i] = a[i] <= b[i]`. -/
def parallel_lte {α : Type} [LinearOrderedRing α] :
    List α → List α → List α → Nat → Except Fault (List α) :=
  elementwise_kernel (fun x y => truth (x ≤ y))

/-- Kernel `parallel_matrix_multiply` for the work-item
`(row, col) = (get_global_id(0), get_global_id(1))`:
`sum += A[k*M + row] * B[col*K + k]` for `k < K`, then `C[col*M + row] = sum`. -/
def parallel_matrix_multiply {α : Type} [LinearOrderedRing α] (M _N K : Nat)
    (A B C : List α) (row col : Nat) : Except Fault (List α) := do
  let sum ← for_range K (fun k sum => do
    let x ← read A ((k * M + row : Nat) : Int)
    let y ← read B ((col * K + k : Nat) : Int)
    pure (sum + x * y)) (0 : α)
  write C ((col * M + row : Nat) : Int) sum

/-- A launch over a one-dimensional global work size: the work-items write
distinct cells, so they are run one after the other. -/
def run_1d {α : Type} (global_work_size : Nat) (item : List α → Nat → Except Fault (List α))
    (results : List α) : Except Fault (List α) :=
  for_range global_work_size (fun i res => item res i) results

/-- A launch over a two-dimensional global work size. -/
def run_2d {α : Type} (size0 size1 : Nat) (item : List α → Nat → Nat → Except Fault (List α))
    (results : List α) : Except Fault (List α) :=
  for_range size0 (fun row res => for_range size1 (fun col res => item res row col) res) results

/-! ## Operations -/

/-- The size in bytes of a `float`. -/
def sizeof_float : Nat := 4

/-- The body shared by the eight matrix-on-matrix operators (numcpp.cpp, lines
559-1213); they differ in the kernel they launch. -/
def matrix_operator {α : Type}
    (kernel : List α → List α → List α → Nat → Except Fault (List α))
    (cl : Nat → Int) (junk : Nat → α) (first second : Matrix α) : Run (Matrix α) :=
  abort_on_status (do
    let plan ← host (is_broadcast_possible first second)
    if plan.flag = 0 then
      throw (Failure.thrown
        ⟨"Matrix Dimensions are unmatchable and could not be broad-casted.", 10⟩)
    let count : Nat := (plan.highest_rows * plan.highest_cols).toNat
    let output_a ← new_float junk count
    let output_b ← new_float junk count
    log (Event.called_broadcast2 plan.flag)
    let filled ← host (broadcast2 first second output_a output_b plan.flag)
    if filled.1 = 0 then
      throw (Failure.thrown
        ⟨"Matrix Dimensions are unmatchable and could not be broad-casted.", 10⟩)
    -- `Matrix result(rows_highest, columns_highest)`: the constructor allocates
    -- a buffer and fills it with random values, which `set_matrix` replaces
    -- before the matrix is returned
    let buffer ← new_float junk count
    let result : Matrix α :=
      { rows := plan.highest_rows.toNat, columns := plan.highest_cols.toNat,
        matrix := buffer }
    let memory_input_a ← get_memory_buffer cl (count * sizeof_float)
    let memory_input_b ← get_memory_buffer cl (count * sizeof_float)
    let memory_output_a ← get_memory_buffer cl (count * sizeof_float)
    let device_a ← enqueue_write cl filled.2.1
    let device_b ← enqueue_write cl filled.2.2
    set_argument cl
    set_argument cl
    set_argument cl
    let device_out ← launch cl
      (run_1d count (kernel device_a device_b) (uninitialised junk count))
    synchronize cl
    let _output_final ← new_float junk count
    let output_final ← read_buffer cl device_out
    release cl memory_input_a
    release cl memory_input_b
    release cl memory_output_a
    pure (result.set_matrix output_final))

/-- Operator `+` on two matrices. -/
def operator_add {α : Type} [LinearOrderedRing α] :
    (Nat → Int) → (Nat → α) → Matrix α → Matrix α → Run (Matrix α) :=
  matrix_operator parallel_adder

/-- Operator `-` on two matrices. -/
def operator_subtract {α : Type} [LinearOrderedRing α] :
    (Nat → Int) → (Nat → α) → Matrix α → Matrix α → Run (Matrix α) :=
  matrix_operator parallel_subtracter

/-- Operator `*` on two matrices. -/
def operator_multiply {α : Type} [LinearOrderedRing α] :
    (Nat → Int) → (Nat → α) → Matrix α → Matrix α → Run (Matrix α) :=
  matrix_operator parallel_multiplier

/-- Operator `>` on two matrices. -/
def operator_gt {α : Type} [LinearOrderedRing α] :
    (Nat → Int) → (Nat → α) → Matrix α → Matrix α → Run (Matrix α) :=
  matrix_operator parallel_gt

/-- Operator `<` on two matrices. -/
def operator_lt {α : Type} [LinearOrderedRing α] :
    (Nat → Int) → (Nat → α) → Matrix α → Matrix α → Run (Matrix α) :=
  matrix_operator parallel_lt

/-- Operator `==` on two matrices. -/
def operator_equals {α : Type} [LinearOrderedRing α] :
    (Nat → Int) → (Nat → α) → Matrix α → Matrix α → Run (Matrix α) :=
  matrix_operator parallel_equals

/-- Operator `>=` on two matrices. -/
def operator_gte {α : Type} [LinearOrderedRing α] :
    (Nat → Int) → (Nat → α) → Matrix α → Matrix α → Run (Matrix α) :=
  matrix_operator parallel_gte

/-- Operator `<=` on two matrices. -/
def operator_lte {α : Type} [LinearOrderedRing α] :
    (Nat → Int) → (Nat → α) → Matrix α → Matrix α → Run (Matrix α) :=
  matrix_operator parallel_lte

/-- The function `matmul` (numcpp.cpp, lines 465-511). It has no `catch`: a
`MatrixStatus` leaves the function. -/
def matmul {α : Type} [LinearOrderedRing α] (cl : Nat → Int) (junk : Nat → α)
    (a b : Matrix α) : Run (Matrix α) := do
  let _output ← new_float junk (a.rows * b.columns)
  -- `Matrix result(a.get_rows(), b.get_columns())`: the constructor allocates
  -- a buffer and fills it with random values, which `set_matrix` replaces
  -- before the matrix is returned
  let buffer ← new_float junk (a.rows * b.columns)
  let result : Matrix α := { rows := a.rows, columns := b.columns, matrix := buffer }
  let memory_input_a ← get_memory_buffer cl (a.rows * a.columns * sizeof_float)
  let memory_input_b ← get_memory_buffer cl (b.rows * b.columns * sizeof_float)
  let memory_output_a ← get_memory_buffer cl (a.rows * b.columns * sizeof_float)
  let device_a ← enqueue_write cl a.matrix
  let device_b ← enqueue_write cl b.matrix
  let rows := a.rows
  let cols := b.columns
  let inter := b.rows
  set_argument cl
  set_argument cl
  set_argument cl
  set_argument cl
  set_argument cl
  set_argument cl
  let device_out ← launch cl
    (run_2d a.rows b.columns (parallel_matrix_multiply rows cols inter device_a device_b)
      (uninitialised junk (a.rows * b.columns)))
  synchronize cl
  let output ← read_buffer cl device_out
  release cl memory_input_a
  release cl memory_input_b
  release cl memory_output_a
  pure (result.set_matrix output)

/-- The entry `(i, j)` of the matrix product in the words of the
specification: the sum over `t < A.columns` of `A(i, t) * B(t, j)`, each factor
read with `get_element`. -/
def product_entry {α : Type} [LinearOrderedRing α] (A B : Matrix α) (i j : Nat) :
    Except Fault α :=
  for_range A.columns (fun t sum => do
    let x ← A.get_element i t
    let y ← B.get_element t j
    pure (sum + x * y)) (0 : α)

/-! ## The methods and constructors of `Matrix` -/

/-- The method `Matrix::set_element`: `matrix[row * columns + column] = value`. -/
def Matrix.set_element {α : Type} (m : Matrix α) (row column : Nat) (value : α) :
    Except Fault (Matrix α) := do
  let buffer ← write m.matrix ((row * m.columns + column : Nat) : Int) value
  pure { m with matrix := buffer }

/-- The status every method returns from its `try` block. -/
def success : MatrixStatus := ⟨"Success", 0⟩

/-- The method `Matrix::ones` (numcpp.cpp, lines 151-170): a new buffer, every
cell set to `1 * multiple`. -/
def Matrix.ones {α : Type} [LinearOrderedRing α] (junk : Nat → α) (m : Matrix α)
    (multiple : α) : Except Fault (MatrixStatus × Matrix α) := do
  let m := m.set_matrix (uninitialised junk (m.get_rows * m.get_columns))
  let m ← for_range m.rows (fun i m =>
    for_range m.columns (fun j m => m.set_element i j (1 * multiple)) m) m
  pure (success, m)

/-- The method `Matrix::zeroes` (numcpp.cpp, lines 172-191). -/
def Matrix.zeroes {α : Type} [LinearOrderedRing α] (junk : Nat → α) (m : Matrix α) :
    Except Fault (MatrixStatus × Matrix α) := do
  let m := m.set_matrix (uninitialised junk (m.get_rows * m.get_columns))
  let m ← for_range m.rows (fun i m =>
    for_range m.columns (fun j m => m.set_element i j 0) m) m
  pure (success, m)

/-- The method `Matrix::identity` (numcpp.cpp, lines 193-215). -/
def Matrix.identity {α : Type} [LinearOrderedRing α] (junk : Nat → α) (m : Matrix α)
    (multiple : α) : Except Fault (MatrixStatus × Matrix α) := do
  let m := m.set_matrix (uninitialised junk (m.get_rows * m.get_columns))
  let m ← for_range m.rows (fun i m =>
    for_range m.columns (fun j m =>
      if i ≠ j then m.set_element i j 0 else m.set_element i j (1 * multiple)) m) m
  pure (success, m)

/-- The loop nest shared by the two overloads of `initialize_matrix`: each
element, in row-major order, is set to the next value of a source; `next k` is
what the `k`-th request to the source gives. The state is the matrix and the
number of requests made. -/
def fill_from {α : Type} (next : Nat → Except Fault α) (m : Matrix α) :
    Except Fault (Matrix α × Nat) :=
  for_range m.rows (fun i st =>
    for_range m.columns (fun j (st : Matrix α × Nat) => do
      let element ← next st.2
      let filled ← st.1.set_element i j element
      pure (filled, st.2 + 1)) st) (m, 0)

/-- The class `Reader`: `read k` is the value returned by the `k`-th call of
`read()`, counting from 0. -/
structure Reader (α : Type) where
  read : Nat → α

/-- The method `initialize_matrix(Reader*)` (numcpp.cpp, lines 99-118). The
second component of the result is the number of calls of `read()`. -/
def Matrix.initialize_matrix_reader {α : Type} (m : Matrix α) (reader : Reader α) :
    Except Fault (MatrixStatus × Matrix α × Nat) := do
  let st ← fill_from (fun k => pure (reader.read k)) m
  pure (success, st.1, st.2)

/-- The number of low binary digits of `n` that a `float` drops: the number of
halvings that bring `n` below `2^24`, the range of the 24-bit significand. The
first argument bounds the halvings; 64 suffice for a `size_t`. -/
def float_excess : Nat → Nat → Nat
  | 0, _ => 0
  | fuel + 1, n => if n < 2 ^ 24 then 0 else float_excess fuel (n / 2) + 1

/-- The conversion of a `size_t` to `float` (IEEE 754 binary32, round to
nearest, ties to even), given as the integer the `float` holds: every value
below `2^24` is kept, a larger one is rounded to 24 significant binary digits. -/
def float_of_size (n : Nat) : Nat :=
  let e := float_excess 64 n
  let q := n / 2 ^ e
  let r := n % 2 ^ e
  if 2 * r < 2 ^ e then q * 2 ^ e
  else if 2 ^ e < 2 * r then (q + 1) * 2 ^ e
  else (q + q % 2) * 2 ^ e

/-- The conversion of an `int` to `float`, given as the integer the `float`
holds: the magnitude is rounded as in `float_of_size`. -/
def float_of_int (z : Int) : Int :=
  if 0 ≤ z then ((float_of_size z.toNat : Nat) : Int)
  else -((float_of_size (-z).toNat : Nat) : Int)

/-- The conversion of a `size_t` to `int`: the value modulo `2^32`, read as a
signed 32-bit integer. -/
def int_of_size (n : Nat) : Int :=
  if n % 2 ^ 32 < 2 ^ 31 then ((n % 2 ^ 32 : Nat) : Int)
  else ((n % 2 ^ 32 : Nat) : Int) - 2 ^ 32

/-- The `int` expression `a % b` (the remainder of the truncated division);
undefined for `b = 0`. -/
def int_rem (a b : Int) : Except Fault Int :=
  if b = 0 then .error .division_by_zero else .ok (a.tmod b)

/-- The `int` expression `a / b` (truncated division); undefined for `b = 0`. -/
def int_div (a b : Int) : Except Fault Int :=
  if b = 0 then .error .division_by_zero else .ok (a.tdiv b)

/-- The method `initialize_matrix(int limit)` (numcpp.cpp, lines 79-97):
`rand k` is the value of the `k`-th call of `rand()`, and each element is
`rand() % limit` converted to `float`, the parameter type of `set_element`:
the conversion rounds a value that needs more than 24 binary digits. -/
def Matrix.initialize_matrix_limit {α : Type} [LinearOrderedRing α] (m : Matrix α)
    (limit : Int) (rand : Nat → Int) : Except Fault (MatrixStatus × Matrix α) := do
  let st ← fill_from (fun k => do
    let value ← int_rem (rand k) limit
    pure ((float_of_int value : Int) : α)) m
  pure (success, st.1)

/-- The constructor `Matrix(size_t rows, size_t columns, int limit)`
(numcpp.cpp, lines 61-68). -/
def Matrix.random {α : Type} [LinearOrderedRing α] (junk : Nat → α) (rows columns : Nat)
    (limit : Int) (rand : Nat → Int) : Except Fault (Matrix α) := do
  let m : Matrix α := { rows := rows, columns := columns, matrix := [] }
  let m := m.set_matrix (uninitialised junk (m.get_rows * m.get_columns))
  let st ← m.initialize_matrix_limit limit rand
  pure st.2

/-- The default value of `limit` in `matrix.h`. -/
def default_limit : Int := 10000

/-- The constructor `Matrix(size_t rows, size_t columns, int limit = 10000)`
called without a `limit`: the default argument is passed. -/
def Matrix.random_default {α : Type} [LinearOrderedRing α] (junk : Nat → α)
    (rows columns : Nat) (rand : Nat → Int) : Except Fault (Matrix α) :=
  Matrix.random junk rows columns default_limit rand

/-- The constructor `Matrix(size_t rows, size_t columns, Reader* reader)`
(numcpp.cpp, lines 70-77). The second component is the number of calls of
`read()`. -/
def Matrix.from_reader {α : Type} (junk : Nat → α) (rows columns : Nat) (reader : Reader α) :
    Except Fault (Matrix α × Nat) := do
  let m : Matrix α := { rows := rows, columns := columns, matrix := [] }
  let m := m.set_matrix (uninitialised junk (m.get_rows * m.get_columns))
  let st ← m.initialize_matrix_reader reader
  pure st.2

/-! ## Transpose and the diagonal scalar operators -/

/-- Kernel `parallel_transpose` for the work-item
`(row, col) = (get_global_id(0), get_global_id(1))`: `B[col*N + row] = A[row*N + col]`. -/
def parallel_transpose {α : Type} (N : Nat) (A B : List α) (row col : Nat) :
    Except Fault (List α) := do
  let x ← read A ((row * N + col : Nat) : Int)
  write B ((col * N + row : Nat) : Int) x

/-- The function `transpose` (numcpp.cpp, lines 513-557). It has no `catch`: a
`MatrixStatus` leaves the function. -/
def transpose {α : Type} (cl : Nat → Int) (junk : Nat → α) (a : Matrix α) :
    Run (Matrix α) := do
  let _output ← new_float junk (a.rows * a.columns)
  -- `Matrix result(a.get_columns(), a.get_rows())`: the constructor allocates
  -- a buffer and fills it with random values, which `set_matrix` replaces
  -- before the matrix is returned
  let buffer ← new_float junk (a.columns * a.rows)
  let result : Matrix α := { rows := a.columns, columns := a.rows, matrix := buffer }
  let memory_input_a ← get_memory_buffer cl (a.rows * a.columns * sizeof_float)
  let memory_output_a ← get_memory_buffer cl (a.rows * a.columns * sizeof_float)
  let device_a ← enqueue_write cl a.matrix
  let cols := a.columns
  set_argument cl
  set_argument cl
  set_argument cl
  let device_out ← launch cl
    (run_2d a.rows a.columns (parallel_transpose cols device_a)
      (uninitialised junk (a.rows * a.columns)))
  synchronize cl
  let output ← read_buffer cl device_out
  release cl memory_input_a
  release cl memory_output_a
  pure (result.set_matrix output)

/-- What the host reads back from an output buffer after a launch: the buffer
the kernel computed, or, after a work-item accessed memory outside a buffer
(undefined behaviour on the device), contents `garbage` of which nothing is
assumed. -/
def device_output {β : Type} (kernel : Except Fault β) (garbage : β) : β :=
  match kernel with
  | .ok out => out
  | .error _ => garbage

/-- The call of `clEnqueueNDRangeKernel` with its check, as the host goes
through it: the call puts the kernel in the queue, and the host continues on
the return code alone, whatever the work-items do on the device. -/
def enqueue_kernel {β : Type} (cl : Nat → Int) (kernel : Except Fault β) (garbage : β) :
    Run β := do
  let ret ← cl_call cl
  if ret ≠ 0 then
    throw (Failure.thrown ⟨"Error launching kernel.", 95⟩)
  pure (device_output kernel garbage)

/-- The function `transpose` (numcpp.cpp, lines 513-557) with the undefined
behaviour of a work-item confined to the device: the statements are those of
`transpose`, and the launch is `enqueue_kernel`, after which the output buffer
holds `garbage` if a work-item left its buffers. -/
def transpose_on_host {α : Type} (cl : Nat → Int) (junk : Nat → α) (garbage : List α)
    (a : Matrix α) : Run (Matrix α) := do
  let _output ← new_float junk (a.rows * a.columns)
  -- `Matrix result(a.get_columns(), a.get_rows())`
  let buffer ← new_float junk (a.columns * a.rows)
  let result : Matrix α := { rows := a.columns, columns := a.rows, matrix := buffer }
  let memory_input_a ← get_memory_buffer cl (a.rows * a.columns * sizeof_float)
  let memory_output_a ← get_memory_buffer cl (a.rows * a.columns * sizeof_float)
  let device_a ← enqueue_write cl a.matrix
  let cols := a.columns
  set_argument cl
  set_argument cl
  set_argument cl
  let device_out ← enqueue_kernel cl
    (run_2d a.rows a.columns (parallel_transpose cols device_a)
      (uninitialised junk (a.rows * a.columns))) garbage
  synchronize cl
  let output ← read_buffer cl device_out
  release cl memory_input_a
  release cl memory_output_a
  pure (result.set_matrix output)

/-- The conversion `(int)x` of a `float`: truncation towards zero. -/
def float_to_int {α : Type} [LinearOrderedRing α] [FloorRing α] (x : α) : Int :=
  if 0 ≤ x then ⌊x⌋ else ⌈x⌉

/-- The two diagonal kernels for the work-item `id = get_global_id(0)`:
`int i = id`, `r = i / (int)col_size[0]`, `c = i % (int)col_size[0]`,
`results[i] = a[i]`, and `results[i] = f(results[i], b[0])` when `r == c`. -/
def diagonal_kernel {α : Type} [LinearOrderedRing α] [FloorRing α] (f : α → α → α)
    (a b col_size results : List α) (id : Nat) : Except Fault (List α) := do
  let i := int_of_size id
  let width ← read col_size 0
  let r ← int_div i (float_to_int width)
  let width ← read col_size 0
  let c ← int_rem i (float_to_int width)
  let x ← read a i
  let results ← write results i x
  if r = c then do
    let y ← read results i
    let s ← read b 0
    write results i (f y s)
  else pure results

/-- Kernel `scalar_parallel_adder`. -/
def scalar_parallel_adder {α : Type} [LinearOrderedRing α] [FloorRing α] :
    List α → List α → List α → List α → Nat → Except Fault (List α) :=
  diagonal_kernel (fun y s => y + s)

/-- Kernel `scalar_parallel_subtracter`. -/
def scalar_parallel_subtracter {α : Type} [LinearOrderedRing α] [FloorRing α] :
    List α → List α → List α → List α → Nat → Except Fault (List α) :=
  diagonal_kernel (fun y s => y - s)

/-- The body shared by `operator+(Matrix&, float const&)` and
`operator-(Matrix&, float const&)` (numcpp.cpp, lines 1656-1776); they differ in
the kernel they launch. The column count reaches the kernel through a `float`
(`float num_columns = first.get_columns()`), which holds it rounded to 24
binary digits. The buffer `memory_input_c` is not released. -/
def diagonal_operator {α : Type} [LinearOrderedRing α]
    (kernel : List α → List α → List α → List α → Nat → Except Fault (List α))
    (cl : Nat → Int) (junk : Nat → α) (first : Matrix α) (second : α) : Run (Matrix α) :=
  abort_on_status (do
    -- `Matrix result(first.get_rows(), first.get_columns())`
    let buffer ← new_float junk (first.rows * first.columns)
    let result : Matrix α :=
      { rows := first.rows, columns := first.columns, matrix := buffer }
    let memory_input_a ← get_memory_buffer cl (first.rows * first.columns * sizeof_float)
    let memory_input_b ← get_memory_buffer cl sizeof_float
    let _memory_input_c ← get_memory_buffer cl sizeof_float
    let memory_output_a ← get_memory_buffer cl (first.rows * first.columns * sizeof_float)
    let num_columns : α := ((float_of_size first.get_columns : Nat) : α)
    let device_a ← enqueue_write cl first.matrix
    let device_b ← enqueue_write cl [second]
    let device_c ← enqueue_write cl [num_columns]
    set_argument cl
    set_argument cl
    set_argument cl
    set_argument cl
    let device_out ← launch cl
      (run_1d (first.columns * first.rows) (kernel device_a device_b device_c)
        (uninitialised junk (first.rows * first.columns)))
    synchronize cl
    let _output_final ← new_float junk (first.columns * first.rows)
    let output_final ← read_buffer cl device_out
    release cl memory_input_a
    release cl memory_input_b
    release cl memory_output_a
    pure (result.set_matrix output_final))

/-- Operator `+` of a matrix and a scalar. -/
def operator_add_scalar {α : Type} [LinearOrderedRing α] [FloorRing α] :
    (Nat → Int) → (Nat → α) → Matrix α → α → Run (Matrix α) :=
  diagonal_operator scalar_parallel_adder

/-- Operator `-` of a matrix and a scalar. -/
def operator_subtract_scalar {α : Type} [LinearOrderedRing α] [FloorRing α] :
    (Nat → Int) → (Nat → α) → Matrix α → α → Run (Matrix α) :=
  diagonal_operator scalar_parallel_subtracter

/-! ## The eigen solver -/

/-- The `float` expression `x / y` on numbers: a division by zero, whose result
is an infinity or NaN, ends the run. `IEEE.div` is the division with these
values. -/
def float_div {α : Type} [LinearOrderedField α] (x y : α) : Except Fault α :=
  if y = 0 then .error .division_by_zero else .ok (x / y)

/-- The first loop nest of an iteration of `dominant_eigen`: for each `i`,
`temp` is the sum over `j` of `matrix(i, j) * initialGuess(j, 0)`, stored with
`newPossibleSolution.set_element(i, 0, temp)`. -/
def multiply_step {α : Type} [LinearOrderedField α]
    (matrix initialGuess newPossibleSolution : Matrix α) : Except Fault (Matrix α) :=
  for_range matrix.get_rows (fun i solution => do
    let temp ← for_range matrix.get_rows (fun j temp => do
      let x ← matrix.get_element i j
      let y ← initialGuess.get_element j 0
      pure (temp + x * y)) (0 : α)
    solution.set_element i 0 temp) newPossibleSolution

/-- The second loop: `initialGuess.set_element(i, 0, newPossibleSolution.get_element(i, 0))`. -/
def copy_step {α : Type} (matrix initialGuess newPossibleSolution : Matrix α) :
    Except Fault (Matrix α) :=
  for_range matrix.get_rows (fun i guess => do
    let v ← newPossibleSolution.get_element i 0
    guess.set_element i 0 v) initialGuess

/-- The loop under `Finding Largest`: `lambda_new` starts as
`fabs(initialGuess(0, 0))` and each `i` from 1 replaces it when
`fabs(initialGuess(i, 0))` is greater. -/
def largest_step {α : Type} [LinearOrderedField α] (matrix initialGuess : Matrix α) :
    Except Fault α := do
  let first ← initialGuess.get_element 0 0
  for_range (matrix.get_rows - 1) (fun k lambda_new => do
    let v ← initialGuess.get_element (k + 1) 0
    if |v| > lambda_new then pure |v| else pure lambda_new) |first|

/-- The loop under `Normalization`:
`initialGuess.set_element(i, 0, initialGuess.get_element(i, 0) / lambda_new)`. -/
def normalize_step {α : Type} [LinearOrderedField α] (matrix initialGuess : Matrix α)
    (lambda_new : α) : Except Fault (Matrix α) :=
  for_range matrix.get_rows (fun i guess => do
    let v ← guess.get_element i 0
    let q ← float_div v lambda_new
    guess.set_element i 0 q) initialGuess

/-- One pass from the label `up` to the accuracy check: the new estimate, the
normalized `initialGuess` and `newPossibleSolution`. -/
def power_iteration {α : Type} [LinearOrderedField α]
    (matrix initialGuess newPossibleSolution : Matrix α) :
    Except Fault (α × Matrix α × Matrix α) := do
  let solution ← multiply_step matrix initialGuess newPossibleSolution
  let guess ← copy_step matrix initialGuess solution
  let lambda_new ← largest_step matrix guess
  let guess ← normalize_step matrix guess lambda_new
  pure (lambda_new, guess, solution)

/-- The backward jump `goto up` of `dominant_eigen`, with a budget of passes.
The arguments after the budget are `initialGuess`, `newPossibleSolution`,
`lambda_old` and the number of passes done; the result is `possible_eigen`,
`eigen_vector` and the number of passes. -/
def eigen_loop {α : Type} [LinearOrderedField α] (matrix : Matrix α) (tolerable_error : α) :
    Nat → Matrix α → Matrix α → α → Nat → Except Fault (α × Matrix α × Nat)
  | 0, _, _, _, _ => .error .out_of_fuel
  | fuel + 1, initialGuess, newPossibleSolution, lambda_old, done => do
    let st ← power_iteration matrix initialGuess newPossibleSolution
    -- `eigen_vector = Matrix(initialGuess); possible_eigen = lambda_new;`
    if |st.1 - lambda_old| > tolerable_error then
      eigen_loop matrix tolerable_error fuel st.2.1 st.2.2 st.1 (done + 1)
    else
      pure (st.1, st.2.1, done + 1)

/-- What a call of `dominant_eigen` leaves: the returned value, the output
parameter `eigen_vector`, the number of passes through the label `up`, and the
lines written to `std::cerr`. -/
structure EigenResult (α : Type) where
  value : α
  eigen_vector : Matrix α
  iterations : Nat
  errors : List String

/-- The function `dominant_eigen` (numcpp.cpp, lines 1778-1836); `fuel` bounds
the number of passes, which the source does not. -/
def dominant_eigen {α : Type} [LinearOrderedField α] (fuel : Nat) (junk : Nat → α)
    (matrix eigen_vector : Matrix α) (tolerable_error : α) : Except Fault (EigenResult α) :=
  if matrix.get_rows ≠ matrix.get_columns then
    pure { value := 0, eigen_vector := eigen_vector, iterations := 0,
           errors := ["108: ERROR: Eigen values supported only for square matrices.\n"] }
  else do
    -- `Matrix(matrix.get_rows(), 1)`: the random contents are replaced by
    -- `ones()` and `zeroes()`
    let initialGuess : Matrix α :=
      { rows := matrix.get_rows, columns := 1, matrix := uninitialised junk (matrix.get_rows * 1) }
    let newPossibleSolution : Matrix α :=
      { rows := matrix.get_rows, columns := 1, matrix := uninitialised junk (matrix.get_rows * 1) }
    let ones ← initialGuess.ones junk 1
    let zeroes ← newPossibleSolution.zeroes junk
    let st ← eigen_loop matrix tolerable_error fuel ones.2 zeroes.2 1 0
    pure { value := st.1, eigen_vector := st.2.1, iterations := st.2.2, errors := [] }

/-- The default value `0.0001` of `tolerable_error`. -/
def default_tolerable_error {α : Type} [LinearOrderedField α] : α := 1 / 10000

/-! ## The power iteration in closed form

The functions of this section are not part of the program: they describe, in
exact arithmetic, the values the loops of `dominant_eigen` compute. -/

/-- An `n x 1` matrix with `g i` in row `i`: the form in which `dominant_eigen`
holds `initialGuess` and `newPossibleSolution`. -/
def column_vector {α : Type} (n : Nat) (g : Nat → α) : Matrix α :=
  { rows := n, columns := 1, matrix := (List.range n).map g }

/-- Component `i` of the product of `matrix` with the vector `g`: the sum over
`j < rows` of `matrix(i, j) * g j`. -/
def product_vector {α : Type} [LinearOrderedField α] (matrix : Matrix α) (g : Nat → α)
    (i : Nat) : α :=
  Finset.sum (Finset.range matrix.rows)
    (fun j => matrix.matrix.getD (i * matrix.columns + j) 0 * g j)

/-- The largest of `|v 0|, ..., |v k|`, taken the way the loop under
`Finding Largest` takes it. -/
def running_max {α : Type} [LinearOrderedField α] (v : Nat → α) : Nat → α
  | 0 => |v 0|
  | k + 1 => if |v (k + 1)| > running_max v k then |v (k + 1)| else running_max v k

/-- The estimate and the normalized vector after `k` passes: before the first
pass the estimate is `lambda_old = 1` and the vector is all ones; a pass
multiplies the vector by the matrix, takes the largest absolute component of
the product as the new estimate and divides the product by it. -/
def power_state {α : Type} [LinearOrderedField α] (matrix : Matrix α) : Nat → α × (Nat → α)
  | 0 => (1, fun _ => 1)
  | k + 1 =>
    (running_max (product_vector matrix (power_state matrix k).2) (matrix.rows - 1),
     fun i => product_vector matrix (power_state matrix k).2 i /
       running_max (product_vector matrix (power_state matrix k).2) (matrix.rows - 1))

/-- The estimate `lambda_k`: the largest absolute component of the `k`-th
product vector, and `lambda_0 = 1`. -/
def estimate {α : Type} [LinearOrderedField α] (matrix : Matrix α) (k : Nat) : α :=
  (power_state matrix k).1

/-- The normalized vector after `k` passes. -/
def normalized {α : Type} [LinearOrderedField α] (matrix : Matrix α) (k : Nat) : Nat → α :=
  (power_state matrix k).2

/-- The matrix is diagonal: every entry off the diagonal of the square of
order `rows` is 0. -/
def is_diagonal {α : Type} [LinearOrderedField α] (matrix : Matrix α) : Prop :=
  ∀ i j, i < matrix.rows → j < matrix.rows → i ≠ j →
    matrix.matrix.getD (i * matrix.columns + j) 0 = 0

/-- The diagonal entry `matrix(i, i)`. -/
def diagonal_entry {α : Type} [LinearOrderedField α] (matrix : Matrix α) (i : Nat) : α :=
  matrix.matrix.getD (i * matrix.columns + i) 0

/-- The method `MatrixStatus::get_error_message`. -/
def MatrixStatus.get_error_message (status : MatrixStatus) : String := status.error_message

/-- The method `MatrixStatus::get_error_code`. -/
def MatrixStatus.get_error_code (status : MatrixStatus) : Int := status.error_code

/-- The sum of row `i` of the matrix: the sum over `j < rows` of `matrix(i, j)`. -/
def row_sum {α : Type} [LinearOrderedField α] (matrix : Matrix α) (i : Nat) : α :=
  Finset.sum (Finset.range matrix.rows) (fun j => matrix.matrix.getD (i * matrix.columns + j) 0)

/-- The common shape of the seven scalar kernels that touch every element, for
the work-item `i = get_global_id(0)`: `results[i] = f(a[i], b[0])`. -/
def scalar_kernel {α : Type} (f : α → α → α) (a b results : List α) (i : Nat) :
    Except Fault (List α) := do
  let x ← read a (i : Int)
  let s ← read b 0
  write results (i : Int) (f x s)

/-- Kernel `scalar_parallel_multiplier`: `results[i] = a[i] * b[0]`. -/
def scalar_parallel_multiplier {α : Type} [LinearOrderedRing α] :
    List α → List α → List α → Nat → Except Fault (List α) :=
  scalar_kernel (fun x s => x * s)

/-- Kernel `scalar_parallel_gt`: `results[i] = a[i] > b[0]`. -/
def scalar_parallel_gt {α : Type} [LinearOrderedRing α] :
    List α → List α → List α → Nat → Except Fault (List α) :=
  scalar_kernel (fun x s => truth (x > s))

/-- Kernel `scalar_parallel_lt`: `results[i] = a[i] < b[0]`. -/
def scalar_parallel_lt {α : Type} [LinearOrderedRing α] :
    List α → List α → List α → Nat → Except Fault (List α) :=
  scalar_kernel (fun x s => truth (x < s))

/-- Kernel `scalar_parallel_equals`: `results[i] = a[i] == b[0]`. -/
def scalar_parallel_equals {α : Type} [LinearOrderedRing α] :
    List α → List α → List α → Nat → Except Fault (List α) :=
  scalar_kernel (fun x s => truth (x = s))

/-- Kernel `scalar_parallel_gte`: `results[i] = a[i] >= b[0]`. -/
def scalar_parallel_gte {α : Type} [LinearOrderedRing α] :
    List α → List α → List α → Nat → Except Fault (List α) :=
  scalar_kernel (fun x s => truth (x ≥ s))

/-- Kernel `scalar_parallel_lte`: `results[i] = a[i] <= b[0]`. -/
def scalar_parallel_lte {α : Type} [LinearOrderedRing α] :
    List α → List α → List α → Nat → Except Fault (List α) :=
  scalar_kernel (fun x s => truth (x ≤ s))

/-- Kernel `scalar_parallel_power`: `results[i] = pow(a[i], b[0])`; `pow` is the
built-in function of OpenCL C, taken as a parameter. -/
def scalar_parallel_power {α : Type} (pow : α → α → α) :
    List α → List α → List α → Nat → Except Fault (List α) :=
  scalar_kernel pow

/-- The body shared by the seven matrix-on-scalar operators `*`, `>`, `<`,
`==`, `>=`, `<=` and `^` (numcpp.cpp, lines 1215-1654); they differ in the
kernel they launch. The first buffer is created by a direct call of
`clCreateBuffer` with the check and the status of `get_memory_buffer`. -/
def scalar_operator {α : Type}
    (kernel : List α → List α → List α → Nat → Except Fault (List α))
    (cl : Nat → Int) (junk : Nat → α) (first : Matrix α) (second : α) : Run (Matrix α) :=
  abort_on_status (do
    -- `Matrix result(first.get_rows(), first.get_columns())`
    let buffer ← new_float junk (first.rows * first.columns)
    let result : Matrix α :=
      { rows := first.rows, columns := first.columns, matrix := buffer }
    let memory_input_a ← get_memory_buffer cl (first.rows * first.columns * sizeof_float)
    let memory_input_b ← get_memory_buffer cl sizeof_float
    let memory_output_a ← get_memory_buffer cl (first.rows * first.columns * sizeof_float)
    let device_a ← enqueue_write cl first.matrix
    let device_b ← enqueue_write cl [second]
    set_argument cl
    set_argument cl
    set_argument cl
    let device_out ← launch cl
      (run_1d (first.columns * first.rows) (kernel device_a device_b)
        (uninitialised junk (first.rows * first.columns)))
    synchronize cl
    let _output_final ← new_float junk (first.columns * first.rows)
    let output_final ← read_buffer cl device_out
    release cl memory_input_a
    release cl memory_input_b
    release cl memory_output_a
    pure (result.set_matrix output_final))

/-- Operator `*` of a matrix and a scalar. -/
def operator_multiply_scalar {α : Type} [LinearOrderedRing α] :
    (Nat → Int) → (Nat → α) → Matrix α → α → Run (Matrix α) :=
  scalar_operator scalar_parallel_multiplier

/-- Operator `>` of a matrix and a scalar. -/
def operator_gt_scalar {α : Type} [LinearOrderedRing α] :
    (Nat → Int) → (Nat → α) → Matrix α → α → Run (Matrix α) :=
  scalar_operator scalar_parallel_gt

/-- Operator `<` of a matrix and a scalar. -/
def operator_lt_scalar {α : Type} [LinearOrderedRing α] :
    (Nat → Int) → (Nat → α) → Matrix α → α → Run (Matrix α) :=
  scalar_operator scalar_parallel_lt

/-- Operator `==` of a matrix and a scalar. -/
def operator_equals_scalar {α : Type} [LinearOrderedRing α] :
    (Nat → Int) → (Nat → α) → Matrix α → α → Run (Matrix α) :=
  scalar_operator scalar_parallel_equals

/-- Operator `>=` of a matrix and a scalar. -/
def operator_gte_scalar {α : Type} [LinearOrderedRing α] :
    (Nat → Int) → (Nat → α) → Matrix α → α → Run (Matrix α) :=
  scalar_operator scalar_parallel_gte

/-- Operator `<=` of a matrix and a scalar. -/
def operator_lte_scalar {α : Type} [LinearOrderedRing α] :
    (Nat → Int) → (Nat → α) → Matrix α → α → Run (Matrix α) :=
  scalar_operator scalar_parallel_lte

/-- Operator `^` of a matrix and a scalar. -/
def operator_power_scalar {α : Type} (pow : α → α → α) :
    (Nat → Int) → (Nat → α) → Matrix α → α → Run (Matrix α) :=
  scalar_operator (scalar_parallel_power pow)

/-! ## Device buffers over a run

The functions of this section are not part of the program: they read the
events of a session. -/

/-- The device buffers that are alive after the events: those created and not
released since. -/
def live_buffers (events : List Event) : List Nat :=
  events.foldl (fun live e =>
    match e with
    | Event.created buffer _ => live ++ [buffer]
    | Event.released buffer => live.filter (fun b => b ≠ buffer)
    | _ => live) []

/-- The device buffers on which `release` was called, in the order of the calls. -/
def released_buffers (events : List Event) : List Nat :=
  events.filterMap (fun e =>
    match e with
    | Event.released buffer => some buffer
    | _ => none)

/-- The operation creates and releases no device buffer, whatever its outcome. -/
def quiet {β : Type} (x : Run β) : Prop :=
  ∀ s, live_buffers (x.exec s).2.events = live_buffers s.events ∧
    released_buffers (x.exec s).2.events = released_buffers s.events

/-- When the operation fails, from a session in which nothing was released, no
device buffer has been released. -/
def releases_nothing_on_failure {β : Type} (x : Run β) : Prop :=
  ∀ s, released_buffers s.events = [] → ∀ e s', x.exec s = (Except.error e, s') →
    released_buffers s'.events = []

/-- When the operation returns, from a session in which the buffers `alive` are
alive, the buffers in `left` at most are alive. -/
def settles {β : Type} (x : Run β) (alive left : List Nat) : Prop :=
  ∀ s, live_buffers s.events = alive → ∀ v s', x.exec s = (Except.ok v, s') →
    ∀ b, b ∈ live_buffers s'.events → b ∈ left

/-! ## The eigen solver with the special values of `float`

In `dominant_eigen` above a division by zero ends the run. The `float` division
of the program does not stop: it gives an infinity or NaN, and the solver
carries on with it. This section gives the solver again over numbers extended
by these values. -/

/-- A `float` with the special values of IEEE 754: a number, taken in exact
arithmetic, an infinity, or NaN. The number 0 stands for `+0`. -/
inductive IEEE (α : Type) where
  /-- a finite value -/
  | number (x : α)
  /-- `-inf` when `negative`, `+inf` otherwise -/
  | infinity (negative : Bool)
  /-- not a number -/
  | nan

/-- The `float` expression `x + y`. -/
def IEEE.add {α : Type} [LinearOrderedField α] : IEEE α → IEEE α → IEEE α
  | .number x, .number y => .number (x + y)
  | .number _, .infinity t => .infinity t
  | .infinity s, .number _ => .infinity s
  | .infinity s, .infinity t => if s = t then .infinity s else .nan
  | _, _ => .nan

/-- The `float` expression `x - y`. -/
def IEEE.sub {α : Type} [LinearOrderedField α] : IEEE α → IEEE α → IEEE α
  | .number x, .number y => .number (x - y)
  | .number _, .infinity t => .infinity (!t)
  | .infinity s, .number _ => .infinity s
  | .infinity s, .infinity t => if s = t then .nan else .infinity s
  | _, _ => .nan

/-- The `float` expression `x * y`. -/
def IEEE.mul {α : Type} [LinearOrderedField α] : IEEE α → IEEE α → IEEE α
  | .number x, .number y => .number (x * y)
  | .number x, .infinity t => if x = 0 then .nan else .infinity (xor (decide (x < 0)) t)
  | .infinity s, .number y => if y = 0 then .nan else .infinity (xor s (decide (y < 0)))
  | .infinity s, .infinity t => .infinity (xor s t)
  | _, _ => .nan

/-- The `float` expression `x / y`: a number divided by zero is an infinity,
and `0 / 0` is NaN. -/
def IEEE.div {α : Type} [LinearOrderedField α] : IEEE α → IEEE α → IEEE α
  | .number x, .number y =>
    if y = 0 then (if x = 0 then .nan else .infinity (decide (x < 0))) else .number (x / y)
  | .number _, .infinity _ => .number 0
  | .infinity s, .number y => .infinity (xor s (decide (y < 0)))
  | _, _ => .nan

/-- The function `fabs`. -/
def IEEE.abs {α : Type} [LinearOrderedField α] : IEEE α → IEEE α
  | .number x => .number |x|
  | .infinity _ => .infinity false
  | .nan => .nan

/-- The `float` comparison `x > y`: false when an operand is NaN. -/
def IEEE.gt {α : Type} [LinearOrderedField α] : IEEE α → IEEE α → Bool
  | .number x, .number y => decide (x > y)
  | .number _, .infinity t => t
  | .infinity s, .number _ => !s
  | .infinity s, .infinity t => !s && t
  | _, _ => false

/-- The `float` comparison `x <= y`: false when an operand is NaN. -/
def IEEE.le {α : Type} [LinearOrderedField α] : IEEE α → IEEE α → Bool
  | .number x, .number y => decide (x ≤ y)
  | .number _, .infinity t => !t
  | .infinity s, .number _ => s
  | .infinity s, .infinity t => s || !t
  | _, _ => false

/-- A matrix of numbers as a matrix of `float` values. -/
def Matrix.to_ieee {α : Type} (m : Matrix α) : Matrix (IEEE α) :=
  { rows := m.rows, columns := m.columns, matrix := m.matrix.map IEEE.number }

/-- The method `Matrix::ones` (numcpp.cpp, lines 151-170) on `float` values. -/
def Matrix.ones_ieee {α : Type} [LinearOrderedField α] (junk : Nat → IEEE α)
    (m : Matrix (IEEE α)) (multiple : IEEE α) :
    Except Fault (MatrixStatus × Matrix (IEEE α)) := do
  let m := m.set_matrix (uninitialised junk (m.get_rows * m.get_columns))
  let m ← for_range m.rows (fun i m =>
    for_range m.columns (fun j m => m.set_element i j ((IEEE.number 1).mul multiple)) m) m
  pure (success, m)

/-- The method `Matrix::zeroes` (numcpp.cpp, lines 172-191) on `float` values. -/
def Matrix.zeroes_ieee {α : Type} [LinearOrderedField α] (junk : Nat → IEEE α)
    (m : Matrix (IEEE α)) : Except Fault (MatrixStatus × Matrix (IEEE α)) := do
  let m := m.set_matrix (uninitialised junk (m.get_rows * m.get_columns))
  let m ← for_range m.rows (fun i m =>
    for_range m.columns (fun j m => m.set_element i j (IEEE.number 0)) m) m
  pure (success, m)

/-- The first loop nest of an iteration of `dominant_eigen`, on `float` values. -/
def multiply_step_ieee {α : Type} [LinearOrderedField α]
    (matrix initialGuess newPossibleSolution : Matrix (IEEE α)) :
    Except Fault (Matrix (IEEE α)) :=
  for_range matrix.get_rows (fun i solution => do
    let temp ← for_range matrix.get_rows (fun j temp => do
      let x ← matrix.get_element i j
      let y ← initialGuess.get_element j 0
      pure (temp.add (x.mul y))) (IEEE.number 0)
    solution.set_element i 0 temp) newPossibleSolution

/-- The loop under `Finding Largest`, on `float` values: a comparison with NaN
is false, so a NaN in row 0 stays and a NaN in a later row is passed over. -/
def largest_step_ieee {α : Type} [LinearOrderedField α]
    (matrix initialGuess : Matrix (IEEE α)) : Except Fault (IEEE α) := do
  let first ← initialGuess.get_element 0 0
  for_range (matrix.get_rows - 1) (fun k lambda_new => do
    let v ← initialGuess.get_element (k + 1) 0
    if v.abs.gt lambda_new then pure v.abs else pure lambda_new) first.abs

/-- The loop under `Normalization`, on `float` values: the division does not
stop at a zero `lambda_new`. -/
def normalize_step_ieee {α : Type} [LinearOrderedField α]
    (matrix initialGuess : Matrix (IEEE α)) (lambda_new : IEEE α) :
    Except Fault (Matrix (IEEE α)) :=
  for_range matrix.get_rows (fun i guess => do
    let v ← guess.get_element i 0
    guess.set_element i 0 (v.div lambda_new)) initialGuess

/-- One pass from the label `up` to the accuracy check, on `float` values: the
new estimate, the normalized `initialGuess` and `newPossibleSolution`. -/
def power_iteration_ieee {α : Type} [LinearOrderedField α]
    (matrix initialGuess newPossibleSolution : Matrix (IEEE α)) :
    Except Fault (IEEE α × Matrix (IEEE α) × Matrix (IEEE α)) := do
  let solution ← multiply_step_ieee matrix initialGuess newPossibleSolution
  let guess ← copy_step matrix initialGuess solution
  let lambda_new ← largest_step_ieee matrix guess
  let guess ← normalize_step_ieee matrix guess lambda_new
  pure (lambda_new, guess, solution)

/-- The backward jump `goto up` of `dominant_eigen` on `float` values, with a
budget of passes. The arguments after the budget are `initialGuess`,
`newPossibleSolution`, `lambda_old` and the number of passes done; the result
is `possible_eigen`, `eigen_vector` and the number of passes. -/
def eigen_loop_ieee {α : Type} [LinearOrderedField α] (matrix : Matrix (IEEE α))
    (tolerable_error : IEEE α) :
    Nat → Matrix (IEEE α) → Matrix (IEEE α) → IEEE α → Nat →
      Except Fault (IEEE α × Matrix (IEEE α) × Nat)
  | 0, _, _, _, _ => .error .out_of_fuel
  | fuel + 1, initialGuess, newPossibleSolution, lambda_old, done => do
    let st ← power_iteration_ieee matrix initialGuess newPossibleSolution
    -- `eigen_vector = Matrix(initialGuess); possible_eigen = lambda_new;`
    if (st.1.sub lambda_old).abs.gt tolerable_error then
      eigen_loop_ieee matrix tolerable_error fuel st.2.1 st.2.2 st.1 (done + 1)
    else
      pure (st.1, st.2.1, done + 1)

/-- The statements of `dominant_eigen` before the label `up`, on `float`
values: `initialGuess` after `ones()` and `newPossibleSolution` after
`zeroes()`. -/
def eigen_start_ieee {α : Type} [LinearOrderedField α] (junk : Nat → IEEE α)
    (matrix : Matrix (IEEE α)) : Except Fault (Matrix (IEEE α) × Matrix (IEEE α)) := do
  -- `Matrix(matrix.get_rows(), 1)`: the random contents are replaced by
  -- `ones()` and `zeroes()`
  let initialGuess : Matrix (IEEE α) :=
    { rows := matrix.get_rows, columns := 1, matrix := uninitialised junk (matrix.get_rows * 1) }
  let newPossibleSolution : Matrix (IEEE α) :=
    { rows := matrix.get_rows, columns := 1, matrix := uninitialised junk (matrix.get_rows * 1) }
  let ones ← initialGuess.ones_ieee junk (IEEE.number 1)
  let zeroes ← newPossibleSolution.zeroes_ieee junk
  pure (ones.2, zeroes.2)

/-- The function `dominant_eigen` (numcpp.cpp, lines 1778-1836) on `float`
values; `fuel` bounds the number of passes, which the source does not. -/
def dominant_eigen_ieee {α : Type} [LinearOrderedField α] (fuel : Nat) (junk : Nat → IEEE α)
    (matrix eigen_vector : Matrix (IEEE α)) (tolerable_error : IEEE α) :
    Except Fault (EigenResult (IEEE α)) :=
  if matrix.get_rows ≠ matrix.get_columns then
    pure { value := IEEE.number 0, eigen_vector := eigen_vector, iterations := 0,
           errors := ["108: ERROR: Eigen values supported only for square matrices.\n"] }
  else do
    let start ← eigen_start_ieee junk matrix
    let st ← eigen_loop_ieee matrix tolerable_error fuel start.1 start.2 (IEEE.number 1) 0
    pure { value := st.1, eigen_vector := st.2.1, iterations := st.2.2, errors := [] }

/-- The call of `dominant_eigen` without a tolerance: the default argument
`0.0001` is passed. -/
def dominant_eigen_default {α : Type} [LinearOrderedField α] (fuel : Nat)
    (junk : Nat → IEEE α) (matrix eigen_vector : Matrix (IEEE α)) :
    Except Fault (EigenResult (IEEE α)) :=
  dominant_eigen_ieee fuel junk matrix eigen_vector (IEEE.number default_tolerable_error)

/-! ## The passes of the solver on `float` values

The functions of this section are not part of the program: they name the
passes that `eigen_loop_ieee` makes one after the other, the estimates of these
passes and the accuracy checks after them. -/

/-- The state of the loop of `dominant_eigen` after `k` passes, on `float`
values: `lambda_new` (before the first pass, the initial `lambda_old = 1`),
`initialGuess` and `newPossibleSolution`. Pass `k + 1` is the source's pass,
`power_iteration_ieee`, made from the state after pass `k`. -/
def pass_ieee {α : Type} [LinearOrderedField α] (junk : Nat → IEEE α)
    (matrix : Matrix (IEEE α)) :
    Nat → Except Fault (IEEE α × Matrix (IEEE α) × Matrix (IEEE α))
  | 0 => do
    let start ← eigen_start_ieee junk matrix
    pure (IEEE.number 1, start.1, start.2)
  | k + 1 => do
    let st ← pass_ieee junk matrix k
    power_iteration_ieee matrix st.2.1 st.2.2

/-- The estimate `lambda_k` on `float` values: `lambda_new` after `k` passes,
and `lambda_0 = 1`. -/
def estimate_ieee {α : Type} [LinearOrderedField α] (junk : Nat → IEEE α)
    (matrix : Matrix (IEEE α)) (k : Nat) : Except Fault (IEEE α) := do
  let st ← pass_ieee junk matrix k
  pure st.1

/-- The accuracy check after pass `i` on `float` values:
`fabs(lambda_i - lambda_(i - 1)) > tolerable_error`. -/
def accuracy_check {α : Type} [LinearOrderedField α] (junk : Nat → IEEE α)
    (matrix : Matrix (IEEE α)) (tolerable_error : IEEE α) (i : Nat) : Except Fault Bool := do
  let lambda_new ← estimate_ieee junk matrix i
  let lambda_old ← estimate_ieee junk matrix (i - 1)
  pure ((lambda_new.sub lambda_old).abs.gt tolerable_error)

/-- A `float` value that is not negative: a number that is at least 0, `+inf`,
or NaN. -/
def IEEE.not_negative {α : Type} [LinearOrderedField α] : IEEE α → Prop
  | .number x => 0 ≤ x
  | .infinity negative => negative = false
  | .nan => True

/-- The computation returns a value, and the value satisfies `P`. -/
def returns_with {σ : Type} (r : Except Fault σ) (P : σ → Prop) : Prop :=
  ∃ st, r = Except.ok st ∧ P st

/-! ## Lemmas on buffers, loops and the pipeline -/

/-- A read at an index inside the buffer succeeds. -/
theorem read_natCast {α : Type} (buf : List α) (i : Nat) (h : i < buf.length) :
    read buf (i : Int) = Except.ok (buf.get ⟨i, h⟩) := by
  unfold read
  simp [List.getElem?_eq_getElem h]

/-- A write at an index inside the buffer succeeds. -/
theorem write_natCast {α : Type} (buf : List α) (i : Nat) (v : α) (h : i < buf.length) :
    write buf (i : Int) v = Except.ok (buf.set i v) := by
  unfold write
  simp [h]

/-- Row-major offsets stay inside the buffer. -/
theorem offset_lt {i n j m : Nat} (hi : i < n) (hj : j < m) : i * m + j < n * m := by
  calc i * m + j < i * m + m := by omega
    _ = (i + 1) * m := by ring
    _ ≤ n * m := Nat.mul_le_mul_right m hi

/-- One more iteration of a counted loop. -/
theorem for_range_succ {σ : Type} (n : Nat) (body : Nat → σ → Except Fault σ) (s : σ) :
    for_range (n + 1) body s = (for_range n body s) >>= (fun st => body n st) := by
  unfold for_range
  rw [List.range_succ, List.foldlM_append]
  simp

/-- A counted loop with no iteration. -/
theorem for_range_zero {σ : Type} (body : Nat → σ → Except Fault σ) (s : σ) :
    for_range 0 body s = Except.ok s := rfl

/-- Loop invariant rule: if `P 0` holds at entry and every iteration `i < n`
succeeds from a state satisfying `P i` into one satisfying `P (i + 1)`, the loop
succeeds in a state satisfying `P n`. -/
theorem for_range_invariant {σ : Type} (P : Nat → σ → Prop) (n : Nat)
    (body : Nat → σ → Except Fault σ) (s : σ) (h0 : P 0 s)
    (hstep : ∀ i, i < n → ∀ st, P i st → ∃ st', body i st = Except.ok st' ∧ P (i + 1) st') :
    ∃ st', for_range n body s = Except.ok st' ∧ P n st' := by
  induction n with
  | zero => exact ⟨s, rfl, h0⟩
  | succ n ih =>
    obtain ⟨st, hst, hP⟩ := ih (fun i hi => hstep i (Nat.lt_succ_of_lt hi))
    obtain ⟨st', hst', hP'⟩ := hstep n (Nat.lt_succ_self n) st hP
    refine ⟨st', ?_, hP'⟩
    rw [for_range_succ, hst]
    exact hst'

/-- Sequencing in `Run`: the second step runs from the session the first one left. -/
theorem exec_bind {β γ : Type} (x : Run β) (f : β → Run γ) (s : Session) :
    (x >>= f).exec s =
      match x.exec s with
      | (Except.ok v, s') => (f v).exec s'
      | (Except.error e, s') => (Except.error e, s') := by
  unfold Run.exec
  show (ExceptT.run (x >>= f)).run s = _
  rw [ExceptT.run_bind]
  show ((ExceptT.run x) >>= _ : StateM Session _).run s = _
  rw [StateT.run_bind]
  simp only [Id.bind_eq]
  rcases h : (ExceptT.run x).run s with ⟨r, s'⟩
  cases r <;> rfl

theorem exec_pure {β : Type} (v : β) (s : Session) :
    (pure v : Run β).exec s = (Except.ok v, s) := rfl

theorem exec_throw {β : Type} (e : Failure) (s : Session) :
    (throw e : Run β).exec s = (Except.error e, s) := rfl

theorem exec_host {β : Type} (x : Except Fault β) (s : Session) :
    (host x).exec s =
      match x with
      | Except.ok v => (Except.ok v, s)
      | Except.error f => (Except.error (Failure.undefined f), s) := by
  cases x <;> rfl

theorem exec_log (e : Event) (s : Session) :
    (log e).exec s = (Except.ok (), { s with events := s.events ++ [e] }) := rfl

theorem exec_new_float {α : Type} (junk : Nat → α) (n : Nat) (s : Session) :
    (new_float junk n).exec s =
      (Except.ok (uninitialised junk n), { s with events := s.events ++ [Event.new_float n] }) :=
  rfl

theorem exec_cl_call (cl : Nat → Int) (s : Session) :
    (cl_call cl).exec s = (Except.ok (cl s.calls), { s with calls := s.calls + 1 }) := rfl

theorem exec_get_memory_buffer (cl : Nat → Int) (size : Nat) (s : Session)
    (h : cl s.calls = 0) :
    (get_memory_buffer cl size).exec s =
      (Except.ok s.calls,
        { calls := s.calls + 1, events := s.events ++ [Event.created s.calls size] }) := by
  unfold get_memory_buffer Run.exec
  simp [cl_call, h, log, ExceptT.run, bind, ExceptT.bind, ExceptT.mk, ExceptT.bindCont,
    StateT.bind, StateT.run, get, getThe, MonadStateOf.get, liftM, monadLift, MonadLift.monadLift,
    ExceptT.lift, StateT.get, Functor.map, StateT.map, set, StateT.set, pure, ExceptT.pure,
    StateT.pure, modify, modifyGet, MonadStateOf.modifyGet, StateT.modifyGet]

theorem exec_enqueue_write {α : Type} (cl : Nat → Int) (data : List α) (s : Session)
    (h : cl s.calls = 0) :
    (enqueue_write cl data).exec s = (Except.ok data, { s with calls := s.calls + 1 }) := by
  unfold enqueue_write
  rw [exec_bind, exec_cl_call]
  simp [h, exec_pure]

theorem exec_set_argument (cl : Nat → Int) (s : Session) (h : cl s.calls = 0) :
    (set_argument cl).exec s = (Except.ok (), { s with calls := s.calls + 1 }) := by
  unfold set_argument
  rw [exec_bind, exec_cl_call]
  simp [h, exec_pure]

theorem exec_launch {β : Type} (cl : Nat → Int) (kernel : Except Fault β) (s : Session)
    (h : cl s.calls = 0) :
    (launch cl kernel).exec s =
      match kernel with
      | Except.ok v => (Except.ok v, { s with calls := s.calls + 1 })
      | Except.error f => (Except.error (Failure.undefined f), { s with calls := s.calls + 1 }) := by
  unfold launch
  rw [exec_bind, exec_cl_call]
  simp [h, exec_host]

theorem exec_synchronize (cl : Nat → Int) (s : Session) (h : cl s.calls = 0) :
    (synchronize cl).exec s = (Except.ok (), { s with calls := s.calls + 1 }) := by
  unfold synchronize
  rw [exec_bind, exec_cl_call]
  simp [h, exec_pure]

theorem exec_read_buffer {α : Type} (cl : Nat → Int) (device : List α) (s : Session)
    (h : cl s.calls = 0) :
    (read_buffer cl device).exec s = (Except.ok device, { s with calls := s.calls + 1 }) := by
  unfold read_buffer
  rw [exec_bind, exec_cl_call]
  simp [h, exec_pure]

/-- A call of `release` always returns to its caller; a non-zero code only adds
the warning. -/
theorem exec_release (cl : Nat → Int) (buffer : Nat) (s : Session) :
    (release cl buffer).exec s =
      (Except.ok (),
        { calls := s.calls + 1,
          events := (s.events ++ [Event.released buffer]) ++
            (if cl s.calls ≠ 0 then [Event.warning] else []) }) := by
  unfold release
  rw [exec_bind, exec_cl_call]
  simp only
  rw [exec_bind, exec_log]
  simp only
  by_cases h : cl s.calls ≠ 0
  · rw [if_pos h, if_pos h, exec_log]
  · rw [if_neg h, if_neg h, exec_pure, List.append_nil]

theorem exec_map {β γ : Type} (f : β → γ) (x : Run β) (s : Session) :
    (f <$> x).exec s =
      match x.exec s with
      | (Except.ok v, s') => (Except.ok (f v), s')
      | (Except.error e, s') => (Except.error e, s') := by
  have h : f <$> x = x >>= (fun v => pure (f v)) := by
    rw [map_eq_pure_bind]
  rw [h, exec_bind]
  rcases x.exec s with ⟨r, s'⟩
  cases r <;> rfl

theorem length_uninitialised {α : Type} (junk : Nat → α) (n : Nat) :
    (uninitialised junk n).length = n := by
  simp [uninitialised]

/-! ## The resolver: lemmas and theorems -/

/-- With positive extents of the divisor matrix no `%` is undefined, and
`absorbs` is the plain conjunction. -/
theorem absorbs_eq {α : Type} (big small : Matrix α)
    (hr : 1 ≤ small.rows) (hc : 1 ≤ small.columns) :
    absorbs big small = Except.ok (decide (big.rows ≥ small.rows ∧ big.rows % small.rows = 0 ∧
      big.columns ≥ small.columns ∧ big.columns % small.columns = 0)) := by
  have hr0 : small.rows ≠ 0 := by omega
  have hc0 : small.columns ≠ 0 := by omega
  unfold absorbs size_mod
  by_cases h1 : big.rows ≥ small.rows
  · by_cases h2 : big.rows % small.rows = 0
    · by_cases h3 : big.columns ≥ small.columns
      · by_cases h4 : big.columns % small.columns = 0
        · simp [h1, h2, h3, h4, hr0, hc0, bind, Except.bind, pure, Except.pure]
        · simp [h1, h2, h3, h4, hr0, hc0, bind, Except.bind, pure, Except.pure]
      · simp [h1, h2, h3, hr0, bind, Except.bind, pure, Except.pure]
    · simp [h1, h2, hr0, bind, Except.bind, pure, Except.pure]
  · simp [h1, pure, Except.pure]

/-- The resolver on matrices with positive extents, as one conditional. -/
theorem is_broadcast_possible_eq {α : Type} (A B : Matrix α)
    (hA : 1 ≤ A.rows ∧ 1 ≤ A.columns) (hB : 1 ≤ B.rows ∧ 1 ≤ B.columns) :
    is_broadcast_possible A B =
      if A.rows ≥ B.rows ∧ A.rows % B.rows = 0 ∧
          A.columns ≥ B.columns ∧ A.columns % B.columns = 0 then
        Except.ok { flag := 2, highest_rows := A.rows, highest_cols := A.columns }
      else if B.rows ≥ A.rows ∧ B.rows % A.rows = 0 ∧
          B.columns ≥ A.columns ∧ B.columns % A.columns = 0 then
        Except.ok { flag := 1, highest_rows := B.rows, highest_cols := B.columns }
      else
        Except.ok { flag := 0, highest_rows := -1, highest_cols := -1 } := by
  unfold is_broadcast_possible
  rw [absorbs_eq A B hB.1 hB.2, absorbs_eq B A hA.1 hA.2]
  by_cases h1 : A.rows ≥ B.rows ∧ A.rows % B.rows = 0 ∧
      A.columns ≥ B.columns ∧ A.columns % B.columns = 0
  · simp [h1, bind, Except.bind, pure, Except.pure]
  · by_cases h2 : B.rows ≥ A.rows ∧ B.rows % A.rows = 0 ∧
        B.columns ≥ A.columns ∧ B.columns % A.columns = 0
    · simp [h1, h2, bind, Except.bind, pure, Except.pure]
    · simp [h1, h2, bind, Except.bind, pure, Except.pure]

/-- C3: for matrices with every dimension at least 1, `is_broadcast_possible`
is the ordered three-way rule: flag 2 with A's shape when A absorbs B,
otherwise flag 1 with B's shape when B absorbs A, otherwise flag 0. -/
theorem is_broadcast_possible_three_way {α : Type} (A B : Matrix α)
    (hA : 1 ≤ A.rows ∧ 1 ≤ A.columns) (hB : 1 ≤ B.rows ∧ 1 ≤ B.columns) :
    ((A.rows ≥ B.rows ∧ A.rows % B.rows = 0 ∧
        A.columns ≥ B.columns ∧ A.columns % B.columns = 0) →
      is_broadcast_possible A B =
        Except.ok { flag := 2, highest_rows := A.rows, highest_cols := A.columns }) ∧
    (¬ (A.rows ≥ B.rows ∧ A.rows % B.rows = 0 ∧
        A.columns ≥ B.columns ∧ A.columns % B.columns = 0) →
      (B.rows ≥ A.rows ∧ B.rows % A.rows = 0 ∧
        B.columns ≥ A.columns ∧ B.columns % A.columns = 0) →
      is_broadcast_possible A B =
        Except.ok { flag := 1, highest_rows := B.rows, highest_cols := B.columns }) ∧
    (¬ (A.rows ≥ B.rows ∧ A.rows % B.rows = 0 ∧
        A.columns ≥ B.columns ∧ A.columns % B.columns = 0) →
      ¬ (B.rows ≥ A.rows ∧ B.rows % A.rows = 0 ∧
        B.columns ≥ A.columns ∧ B.columns % A.columns = 0) →
      is_broadcast_possible A B =
        Except.ok { flag := 0, highest_rows := -1, highest_cols := -1 }) := by
  rw [is_broadcast_possible_eq A B hA hB]
  refine ⟨fun h1 => ?_, fun h1 h2 => ?_, fun h1 h2 => ?_⟩
  · rw [if_pos h1]
  · rw [if_neg h1, if_pos h2]
  · rw [if_neg h1, if_neg h2]

/-- C3 at a 4x6 matrix and a 2x3 matrix: the first rule applies. -/
theorem is_broadcast_possible_three_way_witness :
    ((1 ≤ 4 ∧ 1 ≤ 6) ∧ (1 ≤ 2 ∧ 1 ≤ 3)) ∧
    is_broadcast_possible
        ({ rows := 4, columns := 6, matrix := List.replicate 24 (0 : Int) } : Matrix Int)
        { rows := 2, columns := 3, matrix := List.replicate 6 (1 : Int) } =
      Except.ok { flag := 2, highest_rows := 4, highest_cols := 6 } :=
  ⟨by decide,
   (is_broadcast_possible_three_way
      ({ rows := 4, columns := 6, matrix := List.replicate 24 (0 : Int) } : Matrix Int)
      { rows := 2, columns := 3, matrix := List.replicate 6 (1 : Int) }
      (by decide) (by decide)).1 (by decide)⟩

/-- C4: for matrices with every dimension at least 1, `is_broadcast_possible`
returns flag 0, and then writes -1 to both `highest_rows` and `highest_cols`,
exactly when neither shape tiles the other on both axes at once. -/
theorem is_broadcast_possible_incompatible_iff {α : Type} (A B : Matrix α)
    (hA : 1 ≤ A.rows ∧ 1 ≤ A.columns) (hB : 1 ≤ B.rows ∧ 1 ≤ B.columns) :
    ∃ plan : BroadcastPlan, is_broadcast_possible A B = Except.ok plan ∧
      (plan.flag = 0 ↔
        ¬ (B.rows ∣ A.rows ∧ B.columns ∣ A.columns) ∧
        ¬ (A.rows ∣ B.rows ∧ A.columns ∣ B.columns)) ∧
      (plan.flag = 0 → plan.highest_rows = -1 ∧ plan.highest_cols = -1) := by
  have tiles : ∀ x y : Nat, 1 ≤ x → 1 ≤ y → ((x ≥ y ∧ x % y = 0) ↔ y ∣ x) := by
    intro x y hx _
    constructor
    · rintro ⟨_, h⟩
      exact Nat.dvd_of_mod_eq_zero h
    · intro h
      exact ⟨Nat.le_of_dvd hx h, Nat.mod_eq_zero_of_dvd h⟩
  have c1 : (A.rows ≥ B.rows ∧ A.rows % B.rows = 0 ∧
      A.columns ≥ B.columns ∧ A.columns % B.columns = 0) ↔
      (B.rows ∣ A.rows ∧ B.columns ∣ A.columns) := by
    rw [← tiles A.rows B.rows hA.1 hB.1, ← tiles A.columns B.columns hA.2 hB.2]
    tauto
  have c2 : (B.rows ≥ A.rows ∧ B.rows % A.rows = 0 ∧
      B.columns ≥ A.columns ∧ B.columns % A.columns = 0) ↔
      (A.rows ∣ B.rows ∧ A.columns ∣ B.columns) := by
    rw [← tiles B.rows A.rows hB.1 hA.1, ← tiles B.columns A.columns hB.2 hA.2]
    tauto
  rw [is_broadcast_possible_eq A B hA hB, ← c1, ← c2]
  by_cases h1 : A.rows ≥ B.rows ∧ A.rows % B.rows = 0 ∧
      A.columns ≥ B.columns ∧ A.columns % B.columns = 0
  · exact ⟨_, if_pos h1, by simp [h1], by simp⟩
  · by_cases h2 : B.rows ≥ A.rows ∧ B.rows % A.rows = 0 ∧
        B.columns ≥ A.columns ∧ B.columns % A.columns = 0
    · refine ⟨{ flag := 1, highest_rows := B.rows, highest_cols := B.columns }, ?_, ?_, ?_⟩
      · rw [if_neg h1, if_pos h2]
      · simp [h2]
      · simp
    · refine ⟨{ flag := 0, highest_rows := -1, highest_cols := -1 }, ?_, ?_, ?_⟩
      · rw [if_neg h1, if_neg h2]
      · simp only [true_iff]
        exact ⟨h1, h2⟩
      · simp

/-- C4 at the shapes 3x2 against 2x3 and 4x1 against 1x4: both pairs are
incompatible, with -1 written to both outputs. -/
theorem is_broadcast_possible_incompatible_iff_witness :
    (∃ plan : BroadcastPlan,
      is_broadcast_possible
          ({ rows := 3, columns := 2, matrix := [1, 2, 3, 4, 5, 6] } : Matrix Int)
          { rows := 2, columns := 3, matrix := [1, 2, 3, 4, 5, 6] } = Except.ok plan ∧
        plan.flag = 0 ∧ plan.highest_rows = -1 ∧ plan.highest_cols = -1) ∧
    (∃ plan : BroadcastPlan,
      is_broadcast_possible
          ({ rows := 4, columns := 1, matrix := [1, 2, 3, 4] } : Matrix Int)
          { rows := 1, columns := 4, matrix := [1, 2, 3, 4] } = Except.ok plan ∧
        plan.flag = 0 ∧ plan.highest_rows = -1 ∧ plan.highest_cols = -1) := by
  constructor
  · obtain ⟨plan, h, hiff, hminus⟩ := is_broadcast_possible_incompatible_iff
      ({ rows := 3, columns := 2, matrix := [1, 2, 3, 4, 5, 6] } : Matrix Int)
      { rows := 2, columns := 3, matrix := [1, 2, 3, 4, 5, 6] } (by decide) (by decide)
    have h0 : plan.flag = 0 := hiff.mpr (by decide)
    exact ⟨plan, h, h0, hminus h0⟩
  · obtain ⟨plan, h, hiff, hminus⟩ := is_broadcast_possible_incompatible_iff
      ({ rows := 4, columns := 1, matrix := [1, 2, 3, 4] } : Matrix Int)
      { rows := 1, columns := 4, matrix := [1, 2, 3, 4] } (by decide) (by decide)
    have h0 : plan.flag = 0 := hiff.mpr (by decide)
    exact ⟨plan, h, h0, hminus h0⟩

/-- C5: two matrices of equal shape (dimensions at least 1) get flag 2 with the
common shape as target; and both absorb conditions hold at once exactly when
the shapes are equal. -/
theorem is_broadcast_possible_equal_shapes {α : Type} (A B : Matrix α)
    (hA : 1 ≤ A.rows ∧ 1 ≤ A.columns) (hB : 1 ≤ B.rows ∧ 1 ≤ B.columns) :
    ((absorbs A B = Except.ok true ∧ absorbs B A = Except.ok true) ↔
      (A.rows = B.rows ∧ A.columns = B.columns)) ∧
    ((A.rows = B.rows ∧ A.columns = B.columns) →
      is_broadcast_possible A B =
        Except.ok { flag := 2, highest_rows := B.rows, highest_cols := B.columns }) := by
  constructor
  · rw [absorbs_eq A B hB.1 hB.2, absorbs_eq B A hA.1 hA.2]
    simp only [Except.ok.injEq, decide_eq_true_eq]
    constructor
    · rintro ⟨⟨h1, _, h2, _⟩, ⟨h3, _, h4, _⟩⟩
      exact ⟨Nat.le_antisymm h3 h1, Nat.le_antisymm h4 h2⟩
    · rintro ⟨h1, h2⟩
      rw [h1, h2]
      simp
  · rintro ⟨h1, h2⟩
    rw [is_broadcast_possible_eq A B hA hB, h1, h2]
    simp

/-- C5 at two 2x3 matrices. -/
theorem is_broadcast_possible_equal_shapes_witness :
    ((1 ≤ 2 ∧ 1 ≤ 3) ∧ (1 ≤ 2 ∧ 1 ≤ 3)) ∧
    is_broadcast_possible
        ({ rows := 2, columns := 3, matrix := [1, 2, 3, 4, 5, 6] } : Matrix Int)
        { rows := 2, columns := 3, matrix := [6, 5, 4, 3, 2, 1] } =
      Except.ok { flag := 2, highest_rows := 2, highest_cols := 3 } :=
  ⟨by decide,
   (is_broadcast_possible_equal_shapes
      ({ rows := 2, columns := 3, matrix := [1, 2, 3, 4, 5, 6] } : Matrix Int)
      { rows := 2, columns := 3, matrix := [6, 5, 4, 3, 2, 1] }
      (by decide) (by decide)).2 (by decide)⟩

/-- When `absorbs` returns `true`, its first and third tests passed. -/
theorem absorbs_true_ge {α : Type} (big small : Matrix α)
    (h : absorbs big small = Except.ok true) :
    small.rows ≤ big.rows ∧ small.columns ≤ big.columns := by
  unfold absorbs at h
  by_cases h1 : big.rows ≥ small.rows
  · by_cases h3 : big.columns ≥ small.columns
    · exact ⟨h1, h3⟩
    · exfalso
      rw [if_pos h1, if_neg h3] at h
      cases hm : size_mod big.rows small.rows with
      | error e => rw [hm] at h; cases h
      | ok r =>
        rw [hm] at h
        by_cases hr : r = 0
        · simp [hr, bind, Except.bind, pure, Except.pure] at h
        · simp [hr, bind, Except.bind, pure, Except.pure] at h
  · exfalso
    rw [if_neg h1] at h
    cases h

/-- C6: whenever `is_broadcast_possible` returns a non-zero flag, the target
shape it writes is the component-wise maximum of the two shapes. -/
theorem is_broadcast_possible_target_is_max {α : Type} (A B : Matrix α) (plan : BroadcastPlan)
    (h : is_broadcast_possible A B = Except.ok plan) (hflag : plan.flag ≠ 0) :
    plan.highest_rows = ((max A.rows B.rows : Nat) : Int) ∧
    plan.highest_cols = ((max A.columns B.columns : Nat) : Int) := by
  unfold is_broadcast_possible at h
  cases h1 : absorbs A B with
  | error e => rw [h1] at h; cases h
  | ok b1 =>
    cases b1 with
    | true =>
      rw [h1] at h
      have hp : plan = { flag := 2, highest_cols := A.columns, highest_rows := A.rows } := by
        simpa [bind, Except.bind, pure, Except.pure] using h.symm
      obtain ⟨hr, hc⟩ := absorbs_true_ge A B h1
      subst hp
      simp only [Nat.cast_inj]
      exact ⟨(Nat.max_eq_left hr).symm, (Nat.max_eq_left hc).symm⟩
    | false =>
      rw [h1] at h
      cases h2 : absorbs B A with
      | error e => rw [h2] at h; cases h
      | ok b2 =>
        cases b2 with
        | true =>
          rw [h2] at h
          have hp : plan = { flag := 1, highest_cols := B.columns, highest_rows := B.rows } := by
            simpa [bind, Except.bind, pure, Except.pure] using h.symm
          obtain ⟨hr, hc⟩ := absorbs_true_ge B A h2
          subst hp
          simp only [Nat.cast_inj]
          exact ⟨(Nat.max_eq_right hr).symm, (Nat.max_eq_right hc).symm⟩
        | false =>
          rw [h2] at h
          have hp : plan = { flag := 0, highest_cols := -1, highest_rows := -1 } := by
            simpa [bind, Except.bind, pure, Except.pure] using h.symm
          subst hp
          exact absurd rfl hflag

/-- C6 at a 2x3 matrix and a 4x6 matrix: flag 1 and the target 4x6. -/
theorem is_broadcast_possible_target_is_max_witness :
    (is_broadcast_possible
        ({ rows := 2, columns := 3, matrix := [1, 2, 3, 4, 5, 6] } : Matrix Int)
        { rows := 4, columns := 6, matrix := List.replicate 24 (0 : Int) } =
      Except.ok { flag := 1, highest_rows := 4, highest_cols := 6 } ∧
      ({ flag := 1, highest_rows := 4, highest_cols := 6 } : BroadcastPlan).flag ≠ 0) ∧
    (({ flag := 1, highest_rows := 4, highest_cols := 6 } : BroadcastPlan).highest_rows =
        ((max 2 4 : Nat) : Int) ∧
      ({ flag := 1, highest_rows := 4, highest_cols := 6 } : BroadcastPlan).highest_cols =
        ((max 3 6 : Nat) : Int)) :=
  ⟨⟨rfl, by decide⟩,
   is_broadcast_possible_target_is_max
      ({ rows := 2, columns := 3, matrix := [1, 2, 3, 4, 5, 6] } : Matrix Int)
      { rows := 4, columns := 6, matrix := List.replicate 24 (0 : Int) }
      { flag := 1, highest_rows := 4, highest_cols := 6 } (by rfl) (by decide)⟩

/-- Shapes of which neither tiles the other are rejected by the resolver. -/
theorem is_broadcast_possible_of_not_dvd {α : Type} (A B : Matrix α)
    (hA : 1 ≤ A.rows ∧ 1 ≤ A.columns) (hB : 1 ≤ B.rows ∧ 1 ≤ B.columns)
    (h1 : ¬ (B.rows ∣ A.rows ∧ B.columns ∣ A.columns))
    (h2 : ¬ (A.rows ∣ B.rows ∧ A.columns ∣ B.columns)) :
    is_broadcast_possible A B =
      Except.ok { flag := 0, highest_rows := -1, highest_cols := -1 } := by
  rw [is_broadcast_possible_eq A B hA hB, if_neg, if_neg]
  · rintro ⟨_, h3, _, h4⟩
    exact h2 ⟨Nat.dvd_of_mod_eq_zero h3, Nat.dvd_of_mod_eq_zero h4⟩
  · rintro ⟨_, h3, _, h4⟩
    exact h1 ⟨Nat.dvd_of_mod_eq_zero h3, Nat.dvd_of_mod_eq_zero h4⟩

/-! ## The operators on incompatible shapes -/

/-- When the resolver returns flag 0, an operator ends in its `catch` block with
status 10, having made no OpenCL call and logged no event. -/
theorem matrix_operator_incompatible {α : Type}
    (kernel : List α → List α → List α → Nat → Except Fault (List α))
    (cl : Nat → Int) (junk : Nat → α) (A B : Matrix α)
    (h : is_broadcast_possible A B =
      Except.ok { flag := 0, highest_rows := -1, highest_cols := -1 }) :
    (matrix_operator kernel cl junk A B).start =
      (Except.error (Failure.exited
        ⟨"Matrix Dimensions are unmatchable and could not be broad-casted.", 10⟩),
       { calls := 0, events := [] }) := by
  unfold matrix_operator
  rw [h]
  rfl

/-- C8: on incompatible shapes each of the eight matrix-on-matrix operators
fails with the status (message, 10) before any host buffer is allocated,
before `broadcast2` is called and before any OpenCL call is made; and
`broadcast2` with flag 0 returns 0 and leaves both output buffers as they were. -/
theorem incompatible_shapes_status_10 {α : Type} [LinearOrderedRing α]
    (cl : Nat → Int) (junk : Nat → α) (A B : Matrix α)
    (hA : 1 ≤ A.rows ∧ 1 ≤ A.columns) (hB : 1 ≤ B.rows ∧ 1 ≤ B.columns)
    (h1 : ¬ (B.rows ∣ A.rows ∧ B.columns ∣ A.columns))
    (h2 : ¬ (A.rows ∣ B.rows ∧ A.columns ∣ B.columns)) :
    (∀ op ∈ ([operator_add, operator_subtract, operator_multiply, operator_gt, operator_lt,
        operator_equals, operator_gte, operator_lte] :
        List ((Nat → Int) → (Nat → α) → Matrix α → Matrix α → Run (Matrix α))),
      (op cl junk A B).start =
        (Except.error (Failure.exited
          ⟨"Matrix Dimensions are unmatchable and could not be broad-casted.", 10⟩),
         { calls := 0, events := [] })) ∧
    (∀ output_a output_b : List α,
      broadcast2 A B output_a output_b 0 = Except.ok (0, output_a, output_b)) := by
  have h := is_broadcast_possible_of_not_dvd A B hA hB h1 h2
  constructor
  · intro op hop
    simp only [List.mem_cons, List.mem_singleton, List.not_mem_nil, or_false] at hop
    rcases hop with rfl | rfl | rfl | rfl | rfl | rfl | rfl | rfl
    · exact matrix_operator_incompatible _ cl junk A B h
    · exact matrix_operator_incompatible _ cl junk A B h
    · exact matrix_operator_incompatible _ cl junk A B h
    · exact matrix_operator_incompatible _ cl junk A B h
    · exact matrix_operator_incompatible _ cl junk A B h
    · exact matrix_operator_incompatible _ cl junk A B h
    · exact matrix_operator_incompatible _ cl junk A B h
    · exact matrix_operator_incompatible _ cl junk A B h
  · intro output_a output_b
    rfl

/-- C8 at a 3x2 and a 2x3 matrix, for the operator `+`. -/
theorem incompatible_shapes_status_10_witness :
    ((1 ≤ 3 ∧ 1 ≤ 2) ∧ (1 ≤ 2 ∧ 1 ≤ 3) ∧ ¬ (2 ∣ 3 ∧ 3 ∣ 2) ∧ ¬ (3 ∣ 2 ∧ 2 ∣ 3)) ∧
    (operator_add (fun _ => 0) (fun _ => 0)
        ({ rows := 3, columns := 2, matrix := [1, 2, 3, 4, 5, 6] } : Matrix Int)
        { rows := 2, columns := 3, matrix := [1, 2, 3, 4, 5, 6] }).start =
      (Except.error (Failure.exited
        ⟨"Matrix Dimensions are unmatchable and could not be broad-casted.", 10⟩),
       { calls := 0, events := [] }) :=
  ⟨by decide,
   (incompatible_shapes_status_10 (fun _ => 0) (fun _ => 0)
      ({ rows := 3, columns := 2, matrix := [1, 2, 3, 4, 5, 6] } : Matrix Int)
      { rows := 2, columns := 3, matrix := [1, 2, 3, 4, 5, 6] }
      (by decide) (by decide) (by decide) (by decide)).1 operator_add
      (List.mem_cons_self _ _)⟩

/-! ## Matrix multiply -/

/-- A work-item of the multiply kernel inside the global range succeeds and
writes one cell of `C`. -/
theorem parallel_matrix_multiply_ok {α : Type} [LinearOrderedRing α] (M N K : Nat)
    (A B C : List α) (row col : Nat) (hA : A.length = M * K) (hB : B.length = K * N)
    (hC : C.length = M * N) (hr : row < M) (hc : col < N) :
    ∃ sum : α, parallel_matrix_multiply M N K A B C row col =
      Except.ok (C.set (col * M + row) sum) := by
  unfold parallel_matrix_multiply
  obtain ⟨sum, hsum, -⟩ := for_range_invariant (fun _ (_ : α) => True) K
    (fun k sum => do
      let x ← read A ((k * M + row : Nat) : Int)
      let y ← read B ((col * K + k : Nat) : Int)
      pure (sum + x * y)) (0 : α) trivial
    (by
      intro k hk st _
      have h1 : k * M + row < A.length := by
        rw [hA, Nat.mul_comm M K]; exact offset_lt hk hr
      have h2 : col * K + k < B.length := by
        rw [hB, Nat.mul_comm K N]; exact offset_lt hc hk
      beta_reduce
      rw [read_natCast A _ h1, read_natCast B _ h2]
      exact ⟨_, rfl, trivial⟩)
  rw [hsum]
  have h3 : col * M + row < C.length := by
    rw [hC, Nat.mul_comm M N]; exact offset_lt hc hr
  exact ⟨sum, write_natCast C _ sum h3⟩

/-- The launch of the multiply kernel over the range `(M, N)` succeeds and
keeps the length of the output buffer. -/
theorem run_2d_multiply_ok {α : Type} [LinearOrderedRing α] (M N K : Nat)
    (A B C : List α) (hA : A.length = M * K) (hB : B.length = K * N) (hC : C.length = M * N) :
    ∃ out : List α, run_2d M N (parallel_matrix_multiply M N K A B) C = Except.ok out ∧
      out.length = M * N := by
  unfold run_2d
  refine for_range_invariant (fun _ (res : List α) => res.length = M * N) M _ C hC ?_
  intro row hrow res hres
  refine for_range_invariant (fun _ (res : List α) => res.length = M * N) N _ res hres ?_
  intro col hcol res' hres'
  obtain ⟨sum, hsum⟩ := parallel_matrix_multiply_ok M N K A B res' row col hA hB hres' hrow hcol
  refine ⟨_, hsum, ?_⟩
  beta_reduce
  rw [List.length_set]
  exact hres'

/-- When the OpenCL calls up to the read-back succeed and the kernel does not
fault, `matmul` returns the buffer the kernel computed under the shape
`(a.rows, b.columns)`. -/
theorem matmul_returns {α : Type} [LinearOrderedRing α] (cl : Nat → Int) (junk : Nat → α)
    (a b : Matrix α) (hcl : ∀ k, k < 14 → cl k = 0) (out : List α)
    (hk : run_2d a.rows b.columns
      (parallel_matrix_multiply a.rows b.columns b.rows a.matrix b.matrix)
      (uninitialised junk (a.rows * b.columns)) = Except.ok out) :
    (matmul cl junk a b).start.1 =
      Except.ok { rows := a.rows, columns := b.columns, matrix := out } := by
  unfold matmul Run.start
  simp [exec_bind, exec_new_float, exec_get_memory_buffer, exec_enqueue_write, exec_set_argument,
    exec_launch, exec_synchronize, exec_release, exec_map, exec_read_buffer, hcl, hk, exec_pure,
    Matrix.set_matrix]

/-- C10: for A of shape (m, k) and B of shape (k, n), when the OpenCL calls up
to the read-back succeed, `matmul` returns a matrix with `rows = m` and
`columns = n`. -/
theorem matmul_result_shape {α : Type} [LinearOrderedRing α] (cl : Nat → Int) (junk : Nat → α)
    (A B : Matrix α) (m k n : Nat)
    (hA : A.rows = m ∧ A.columns = k ∧ A.matrix.length = m * k)
    (hB : B.rows = k ∧ B.columns = n ∧ B.matrix.length = k * n)
    (hcl : ∀ i, i < 14 → cl i = 0) :
    ∃ result : Matrix α, (matmul cl junk A B).start.1 = Except.ok result ∧
      result.get_rows = m ∧ result.get_columns = n := by
  obtain ⟨hAr, hAc, hAl⟩ := hA
  obtain ⟨hBr, hBc, hBl⟩ := hB
  obtain ⟨out, hout, -⟩ := run_2d_multiply_ok A.rows B.columns B.rows A.matrix B.matrix
    (uninitialised junk (A.rows * B.columns))
    (by rw [hAl, hAr, hBr]) (by rw [hBl, hBr, hBc]) (length_uninitialised _ _)
  exact ⟨_, matmul_returns cl junk A B hcl out hout, hAr, hBc⟩

/-- C10 at the shapes of the test `matmul_dim_check`: 1x2 times 2x2 is 1x2. -/
theorem matmul_result_shape_witness :
    (((1 : Nat) = 1 ∧ (2 : Nat) = 2 ∧ [(1 : Int), 2].length = 1 * 2) ∧
      ((2 : Nat) = 2 ∧ (2 : Nat) = 2 ∧ [(1 : Int), 2, 3, 4].length = 2 * 2) ∧
      (∀ i, i < 14 → (fun _ : Nat => (0 : Int)) i = 0)) ∧
    ∃ result : Matrix Int,
      (matmul (fun _ => 0) (fun _ => 0)
          ({ rows := 1, columns := 2, matrix := [1, 2] } : Matrix Int)
          { rows := 2, columns := 2, matrix := [1, 2, 3, 4] }).start.1 = Except.ok result ∧
        result.get_rows = 1 ∧ result.get_columns = 2 :=
  ⟨⟨⟨rfl, rfl, rfl⟩, ⟨rfl, rfl, rfl⟩, fun _ _ => rfl⟩,
   matmul_result_shape (fun _ => 0) (fun _ => 0)
      ({ rows := 1, columns := 2, matrix := [1, 2] } : Matrix Int)
      { rows := 2, columns := 2, matrix := [1, 2, 3, 4] } 1 2 2
      ⟨rfl, rfl, rfl⟩ ⟨rfl, rfl, rfl⟩ (fun _ _ => rfl)⟩

/-! ## Equal column counts: the column-replication loop leaves the buffer

In `j <= curr_position + (big.columns - 1 - small.columns)` the parenthesis is
`size_t` arithmetic. With equal column counts it is `2^64 - 1`, so for the first
row (`curr_position = 0`) the test holds for every `j` and the loop copies
`output[j + columns] = output[j]` until it leaves the buffer. -/

/-- A write at an index at or beyond the end of the buffer faults. -/
theorem write_natCast_outside {α : Type} (buf : List α) (i : Nat) (v : α)
    (h : ¬ i < buf.length) : write buf (i : Int) v = Except.error Fault.out_of_bounds := by
  unfold write
  simp [h]

/-- The unsigned value of a `long long` is below `2^64`. -/
theorem to_unsigned_lt (z : Int) : to_unsigned z < SIZE_RANGE := by
  unfold to_unsigned SIZE_RANGE
  have h : (0 : Int) < ((2 ^ 64 : Nat) : Int) := by norm_num
  have h1 := Int.emod_lt_of_pos z h
  have h2 := Int.emod_nonneg z (ne_of_gt h)
  omega

/-- With equal column counts the bound of the column loop in the first row is
`2^64 - 1`, whatever the column count. -/
theorem column_bound_self (c : Nat) : column_bound c c 0 = SIZE_RANGE - 1 := by
  unfold column_bound size_sub to_unsigned SIZE_RANGE
  norm_num
  omega

/-- A column loop whose bound is `2^64 - 1` never stops by its test: started
inside or outside the buffer with enough steps to reach its end, it leaves the
buffer. -/
theorem column_loop_wrapped_bound {α : Type} (small_cols : Nat) :
    ∀ (fuel j : Nat) (out : List α), 1 ≤ fuel → out.length < j + fuel →
      column_loop small_cols (SIZE_RANGE - 1) fuel (j : Int) out =
        Except.error Fault.out_of_bounds := by
  intro fuel
  induction fuel with
  | zero => intro j out h; omega
  | succ f ih =>
    intro j out _ hlen
    have htest : to_unsigned (j : Int) ≤ SIZE_RANGE - 1 := by
      have := to_unsigned_lt (j : Int)
      omega
    unfold column_loop
    rw [if_pos htest]
    by_cases hj : j < out.length
    · rw [read_natCast out j hj]
      by_cases hw : j + small_cols < out.length
      · have hcast : ((j : Int) + (small_cols : Int)) = ((j + small_cols : Nat) : Int) := by
          push_cast; rfl
        simp only [bind, Except.bind]
        rw [hcast, write_natCast out _ _ hw]
        simp only
        have hnext : ((j : Int) + 1) = ((j + 1 : Nat) : Int) := by push_cast; rfl
        rw [hnext]
        apply ih
        · omega
        · rw [List.length_set]; omega
      · have hcast : ((j : Int) + (small_cols : Int)) = ((j + small_cols : Nat) : Int) := by
          push_cast; rfl
        simp only [bind, Except.bind]
        rw [hcast, write_natCast_outside out _ _ hw]
    · unfold read
      simp [List.getElem?_eq_none (Nat.le_of_not_lt hj), bind, Except.bind]

/-- The step budget of the column loop suffices: a loop that starts with more
steps than cells from `j` to the end of the buffer never runs out of steps. -/
theorem column_loop_fuel_suffices {α : Type} (small_cols bound : Nat) :
    ∀ (fuel j : Nat) (out : List α), 1 ≤ fuel → out.length < j + fuel →
      column_loop small_cols bound fuel (j : Int) out ≠ Except.error Fault.out_of_fuel := by
  intro fuel
  induction fuel with
  | zero => intro j out h; omega
  | succ f ih =>
    intro j out _ hlen
    unfold column_loop
    by_cases htest : to_unsigned (j : Int) ≤ bound
    · rw [if_pos htest]
      by_cases hj : j < out.length
      · rw [read_natCast out j hj]
        have hcast : ((j : Int) + (small_cols : Int)) = ((j + small_cols : Nat) : Int) := by
          push_cast; rfl
        simp only [bind, Except.bind]
        rw [hcast]
        by_cases hw : j + small_cols < out.length
        · rw [write_natCast out _ _ hw]
          simp only
          have hnext : ((j : Int) + 1) = ((j + 1 : Nat) : Int) := by push_cast; rfl
          rw [hnext]
          apply ih
          · omega
          · rw [List.length_set]; omega
        · rw [write_natCast_outside out _ _ hw]
          simp
      · unfold read
        simp [List.getElem?_eq_none (Nat.le_of_not_lt hj), bind, Except.bind]
    · rw [if_neg htest]
      simp

/-- The first iteration of a counted loop, split off. -/
theorem for_range_succ_left {σ : Type} (n : Nat) (body : Nat → σ → Except Fault σ) (s : σ) :
    for_range (n + 1) body s =
      (body 0 s) >>= (fun st => for_range n (fun i => body (i + 1)) st) := by
  unfold for_range
  rw [List.range_succ_eq_map, List.foldlM_cons]
  congr
  funext st
  rw [List.foldlM_map]


theorem returns_with_pure {σ : Type} (v : σ) (P : σ → Prop) (h : P v) :
    returns_with (pure v : Except Fault σ) P := ⟨v, rfl, h⟩

theorem returns_with_bind {σ τ : Type} (x : Except Fault σ) (f : σ → Except Fault τ)
    (Q : σ → Prop) (P : τ → Prop) (hx : returns_with x Q)
    (hf : ∀ v, Q v → returns_with (f v) P) : returns_with (x >>= f) P := by
  obtain ⟨v, hv, hQ⟩ := hx
  obtain ⟨w, hw, hP⟩ := hf v hQ
  exact ⟨w, by rw [hv]; exact hw, hP⟩

theorem returns_with_for_range {σ : Type} (P : Nat → σ → Prop) (n : Nat)
    (body : Nat → σ → Except Fault σ) (s : σ) (h0 : P 0 s)
    (hstep : ∀ i, i < n → ∀ st, P i st → returns_with (body i st) (P (i + 1))) :
    returns_with (for_range n body s) (P n) :=
  for_range_invariant P n body s h0 hstep

theorem returns_with_read {α : Type} (buf : List α) (i : Nat) (P : α → Prop)
    (h : i < buf.length) (hP : P (buf.get ⟨i, h⟩)) : returns_with (read buf (i : Int)) P :=
  ⟨_, read_natCast buf i h, hP⟩

theorem returns_with_write {α : Type} (buf : List α) (i : Nat) (v : α) (P : List α → Prop)
    (h : i < buf.length) (hP : P (buf.set i v)) : returns_with (write buf (i : Int) v) P :=
  ⟨_, write_natCast buf i v h, hP⟩

/-- The verbatim copy stays inside a buffer of `rows * columns` cells. -/
theorem copy_verbatim_returns {α : Type} (big : Matrix α) (output : List α)
    (hbig : big.matrix.length = big.rows * big.columns)
    (hout : output.length = big.rows * big.columns) :
    returns_with (copy_verbatim big output) (fun out => out.length = output.length) := by
  unfold copy_verbatim
  apply returns_with_for_range (fun _ (out : List α) => out.length = output.length)
  · rfl
  intro i hi st hst
  apply returns_with_for_range (fun _ (out : List α) => out.length = output.length)
  · exact hst
  intro j hj st' hst'
  have hidx : i * big.columns + j < big.rows * big.columns := offset_lt hi hj
  unfold Matrix.get_element
  apply returns_with_bind _ _ (fun _ => True)
  · exact returns_with_read _ _ _ (by omega) trivial
  intro v _
  apply returns_with_write
  · omega
  · rw [List.length_set]; exact hst'

/-- The strided copy of a matrix that is no larger than the target stays
inside the buffer. -/
theorem strided_copy_returns {α : Type} (big small : Matrix α) (output : List α)
    (hsmall : small.matrix.length = small.rows * small.columns)
    (hout : output.length = big.rows * big.columns)
    (hrows : small.rows ≤ big.rows) (hcols : small.columns ≤ big.columns) :
    returns_with (strided_copy big small output)
      (fun st => st.1.length = output.length ∧
        st.2 = ((small.rows * big.columns : Nat) : Int)) := by
  unfold strided_copy
  apply returns_with_for_range
    (fun i (st : List α × Int) =>
      st.1.length = output.length ∧ st.2 = ((i * big.columns : Nat) : Int))
  · exact ⟨rfl, by simp⟩
  intro i hi st hst
  apply returns_with_bind _ _
    (fun st : List α × Int => st.1.length = output.length ∧
      st.2 = ((i * big.columns + small.columns : Nat) : Int))
  · apply returns_with_for_range
      (fun j (st : List α × Int) => st.1.length = output.length ∧
        st.2 = ((i * big.columns + j : Nat) : Int))
    · exact ⟨hst.1, by rw [hst.2]; simp⟩
    intro j hj st' hst'
    have h1 : i * small.columns + j < small.rows * small.columns := offset_lt hi hj
    have h2 : i * big.columns + j < big.rows * big.columns :=
      offset_lt (Nat.lt_of_lt_of_le hi hrows) (Nat.lt_of_lt_of_le hj hcols)
    apply returns_with_bind _ _ (fun _ => True)
    · exact returns_with_read _ _ _ (by omega) trivial
    intro v _
    rw [hst'.2]
    apply returns_with_bind _ _ (fun out : List α => out.length = output.length)
    · apply returns_with_write
      · omega
      · rw [List.length_set]; exact hst'.1
    intro out hout'
    apply returns_with_pure
    exact ⟨hout', by push_cast; ring⟩
  intro st' hst'
  apply returns_with_pure
  refine ⟨hst'.1, ?_⟩
  show st'.2 - (small.columns : Int) + (big.columns : Int) = _
  rw [hst'.2]
  push_cast
  ring


/-- With equal column counts the band loop is a plain forward copy: it returns
when the band below the one it reads lies inside the buffer. -/
theorem band_loop_equal_columns_returns {α : Type} (c jump limit : Nat) :
    ∀ (fuel j : Nat) (k : Int) (out : List α), limit ≤ j + fuel →
      limit + jump ≤ out.length →
      returns_with (band_loop c c (jump : Int) (limit : Int) fuel (j : Int) k out)
        (fun o => o.length = out.length) := by
  intro fuel
  induction fuel with
  | zero =>
    intro j k out hfuel _
    unfold band_loop
    have h : ¬ ((j : Int) < (limit : Int)) := by omega
    rw [if_neg h]
    exact ⟨out, rfl, rfl⟩
  | succ f ih =>
    intro j k out hfuel hlen
    unfold band_loop
    by_cases h : (j : Int) < (limit : Int)
    · rw [if_pos h]
      have hj : j < limit := by omega
      apply returns_with_bind _ _ (fun _ => True)
      · exact returns_with_read _ _ _ (by omega) trivial
      intro v _
      have hcast : ((j : Int) + (jump : Int)) = ((j + jump : Nat) : Int) := by push_cast; rfl
      rw [hcast]
      apply returns_with_bind _ _ (fun o : List α => o.length = out.length)
      · apply returns_with_write
        · omega
        · rw [List.length_set]
      intro o ho
      have hnext : ((j : Int) - (c : Int) + (c : Int) + 1) = ((j + 1 : Nat) : Int) := by
        push_cast; ring
      have hnext' : ((j : Int) + 1) = ((j + 1 : Nat) : Int) := by push_cast; rfl
      simp only [hnext, hnext']
      by_cases hk : k + 1 ≥ (c : Int)
      · rw [if_pos hk]
        obtain ⟨o', ho', hl'⟩ := ih (j + 1) 0 o (by omega) (by omega)
        exact ⟨o', ho', hl'.trans ho⟩
      · rw [if_neg hk]
        obtain ⟨o', ho', hl'⟩ := ih (j + 1) (k + 1) o (by omega) (by omega)
        exact ⟨o', ho', hl'.trans ho⟩
    · rw [if_neg h]
      exact ⟨out, rfl, rfl⟩

/-- The defect of the column-replication loop: when the smaller matrix has as
many columns as the target and its row count divides the target's, the three
steps of `tile` run up to the column loop of the first row, which leaves the
buffer. -/
theorem tile_equal_columns_faults {α : Type} (big small : Matrix α) (output : List α)
    (hcols : small.columns = big.columns) (hdvd : small.rows ∣ big.rows)
    (hsr : 1 ≤ small.rows) (hbr : 1 ≤ big.rows)
    (hsmall : small.matrix.length = small.rows * small.columns)
    (hout : output.length = big.rows * big.columns) :
    tile big small output = Except.error Fault.out_of_bounds := by
  have hrows : small.rows ≤ big.rows := Nat.le_of_dvd hbr hdvd
  obtain ⟨st, hst, hlen, -⟩ :=
    strided_copy_returns big small output hsmall hout hrows (le_of_eq hcols)
  have hdiv : size_div big.rows small.rows = Except.ok (big.rows / small.rows) := by
    unfold size_div
    rw [if_neg (by omega)]
  have hrep : big.rows / small.rows * small.rows = big.rows := Nat.div_mul_cancel hdvd
  obtain ⟨out, hband, hlen'⟩ := returns_with_for_range
    (fun _ (o : List α) => o.length = output.length) (big.rows / small.rows - 1)
    (fun i out =>
      band_loop small.columns big.columns (((small.rows * big.columns : Nat) : Int))
        ((i : Int) * ((small.rows * big.columns : Nat) : Int) +
          ((small.rows * big.columns : Nat) : Int))
        (((((small.rows * big.columns : Nat) : Int)).toNat + 1) * (small.columns + 1))
        ((i : Int) * ((small.rows * big.columns : Nat) : Int)) 0 out) st.1 hlen (by
      intro i hi o ho
      have hlim : (i : Int) * ((small.rows * big.columns : Nat) : Int) +
          ((small.rows * big.columns : Nat) : Int) =
          ((i * (small.rows * big.columns) + small.rows * big.columns : Nat) : Int) := by
        push_cast; ring
      have hstart : (i : Int) * ((small.rows * big.columns : Nat) : Int) =
          ((i * (small.rows * big.columns) : Nat) : Int) := by
        push_cast; ring
      beta_reduce
      rw [hlim, hstart, hcols, Int.toNat_ofNat]
      have hfit : i * (small.rows * big.columns) + small.rows * big.columns +
          small.rows * big.columns ≤ o.length := by
        rw [ho, hout]
        calc i * (small.rows * big.columns) + small.rows * big.columns +
              small.rows * big.columns
            = (i + 2) * small.rows * big.columns := by ring
          _ ≤ big.rows / small.rows * small.rows * big.columns := by
              apply Nat.mul_le_mul_right
              apply Nat.mul_le_mul_right
              omega
          _ = big.rows * big.columns := by rw [hrep]
      obtain ⟨o', ho', hl'⟩ := band_loop_equal_columns_returns big.columns
        (small.rows * big.columns)
        (i * (small.rows * big.columns) + small.rows * big.columns)
        ((small.rows * big.columns + 1) * (big.columns + 1))
        (i * (small.rows * big.columns)) 0 o
        (by
          have hfuel : small.rows * big.columns ≤
              (small.rows * big.columns + 1) * (big.columns + 1) :=
            Nat.le_trans (Nat.le_succ _) (Nat.le_mul_of_pos_right _ (Nat.succ_pos _))
          omega) hfit
      exact ⟨o', ho', hl'.trans ho⟩)
  unfold tile
  rw [hst]
  simp only [bind, Except.bind]
  rw [hdiv]
  simp only
  rw [hband]
  simp only
  obtain ⟨n, hn⟩ : ∃ n, big.rows = n + 1 := ⟨big.rows - 1, by omega⟩
  rw [hn, for_range_succ_left]
  have hzero : (((0 * (n + 1 + 0) : Nat) : Int)) = ((0 : Nat) : Int) := by simp
  have hfirst : column_loop small.columns
      (column_bound big.columns small.columns (((0 * big.columns : Nat) : Int)))
      (out.length + 1) (((0 * big.columns : Nat) : Int)) out =
        Except.error Fault.out_of_bounds := by
    have h0 : (((0 * big.columns : Nat) : Int)) = ((0 : Nat) : Int) := by simp
    rw [h0, hcols]
    have hb : column_bound big.columns big.columns ((0 : Nat) : Int) = SIZE_RANGE - 1 := by
      simpa using column_bound_self big.columns
    rw [hb]
    exact column_loop_wrapped_bound big.columns (out.length + 1) 0 out (by omega) (by omega)
  rw [hfirst]
  rfl

/-- Sequencing in `Run` after a `catch` block: a thrown status becomes the exit
of the process, everything else passes. -/
theorem exec_abort_on_status {β : Type} (body : Run β) (s : Session) :
    (abort_on_status body).exec s =
      match body.exec s with
      | (Except.ok v, s') => (Except.ok v, s')
      | (Except.error (Failure.thrown status), s') => (Except.error (Failure.exited status), s')
      | (Except.error (Failure.exited status), s') => (Except.error (Failure.exited status), s')
      | (Except.error (Failure.undefined f), s') => (Except.error (Failure.undefined f), s') := by
  unfold abort_on_status Run.exec
  show (ExceptT.run (tryCatch body _)).run s = _
  simp only [tryCatch, tryCatchThe, MonadExceptOf.tryCatch, ExceptT.tryCatch, ExceptT.run,
    ExceptT.mk, bind, StateT.bind, StateT.run]
  rcases body s with ⟨r, s'⟩
  cases r with
  | ok v => rfl
  | error e => cases e <;> rfl

/-- The call of `broadcast2` with flag 2 when B has as many columns as A and B's row count
divides A's: the tiling of B leaves `output_b`. -/
theorem broadcast2_flag_two_faults {α : Type} (A B : Matrix α) (output_a output_b : List α)
    (hA : A.wf) (hB : B.wf) (hcols : B.columns = A.columns) (hdvd : B.rows ∣ A.rows)
    (ha : output_a.length = A.rows * A.columns) (hb : output_b.length = A.rows * A.columns) :
    broadcast2 A B output_a output_b 2 = Except.error Fault.out_of_bounds := by
  obtain ⟨out, hout, -⟩ := copy_verbatim_returns A output_a hA.2.2 ha
  have htile := tile_equal_columns_faults A B output_b hcols hdvd hB.1 hA.1 hB.2.2 hb
  unfold broadcast2
  rw [if_neg (by decide), if_pos rfl, hout, htile]
  rfl

/-- The call of `broadcast2` with flag 1 when A has as many columns as B and A's row count
divides B's: the tiling of A leaves `output_a`. -/
theorem broadcast2_flag_one_faults {α : Type} (A B : Matrix α) (output_a output_b : List α)
    (hA : A.wf) (hB : B.wf) (hcols : A.columns = B.columns) (hdvd : A.rows ∣ B.rows)
    (ha : output_a.length = B.rows * B.columns) (hb : output_b.length = B.rows * B.columns) :
    broadcast2 A B output_a output_b 1 = Except.error Fault.out_of_bounds := by
  obtain ⟨out, hout, -⟩ := copy_verbatim_returns B output_b hB.2.2 hb
  have htile := tile_equal_columns_faults B A output_a hcols hdvd hA.1 hB.1 hA.2.2 ha
  unfold broadcast2
  rw [if_neg (by decide), if_neg (by decide), if_pos rfl, hout, htile]
  rfl

/-- The two ways in which the resolver accepts a pair. -/
theorem is_broadcast_possible_accepts {α : Type} (A B : Matrix α) (plan : BroadcastPlan)
    (hA : 1 ≤ A.rows ∧ 1 ≤ A.columns) (hB : 1 ≤ B.rows ∧ 1 ≤ B.columns)
    (hplan : is_broadcast_possible A B = Except.ok plan) (hflag : plan.flag ≠ 0) :
    (plan = { flag := 2, highest_rows := A.rows, highest_cols := A.columns } ∧
      B.rows ∣ A.rows ∧ B.columns ∣ A.columns) ∨
    (plan = { flag := 1, highest_rows := B.rows, highest_cols := B.columns } ∧
      A.rows ∣ B.rows ∧ A.columns ∣ B.columns) := by
  rw [is_broadcast_possible_eq A B hA hB] at hplan
  by_cases h1 : A.rows ≥ B.rows ∧ A.rows % B.rows = 0 ∧
      A.columns ≥ B.columns ∧ A.columns % B.columns = 0
  · rw [if_pos h1] at hplan
    left
    exact ⟨(Except.ok.inj hplan).symm, Nat.dvd_of_mod_eq_zero h1.2.1,
      Nat.dvd_of_mod_eq_zero h1.2.2.2⟩
  · rw [if_neg h1] at hplan
    by_cases h2 : B.rows ≥ A.rows ∧ B.rows % A.rows = 0 ∧
        B.columns ≥ A.columns ∧ B.columns % A.columns = 0
    · rw [if_pos h2] at hplan
      right
      exact ⟨(Except.ok.inj hplan).symm, Nat.dvd_of_mod_eq_zero h2.2.1,
        Nat.dvd_of_mod_eq_zero h2.2.2.2⟩
    · rw [if_neg h2] at hplan
      exact absurd (congrArg BroadcastPlan.flag (Except.ok.inj hplan)).symm hflag

/-- An operator whose call of `broadcast2` faults ends there: two host
buffers allocated, `broadcast2` called, no OpenCL call made. -/
theorem matrix_operator_of_broadcast2_fault {α : Type}
    (kernel : List α → List α → List α → Nat → Except Fault (List α))
    (cl : Nat → Int) (junk : Nat → α) (A B : Matrix α) (plan : BroadcastPlan) (f : Fault)
    (hplan : is_broadcast_possible A B = Except.ok plan) (hflag : plan.flag ≠ 0)
    (hfault : broadcast2 A B
      (uninitialised junk (plan.highest_rows * plan.highest_cols).toNat)
      (uninitialised junk (plan.highest_rows * plan.highest_cols).toNat) plan.flag =
        Except.error f) :
    (matrix_operator kernel cl junk A B).start =
      (Except.error (Failure.undefined f),
       { calls := 0,
         events := [Event.new_float (plan.highest_rows * plan.highest_cols).toNat,
           Event.new_float (plan.highest_rows * plan.highest_cols).toNat,
           Event.called_broadcast2 plan.flag] }) := by
  unfold matrix_operator Run.start
  rw [exec_abort_on_status]
  simp [exec_bind, exec_host, hplan, hflag, exec_pure, exec_new_float, exec_log, hfault]

/-- C1, the defect on its whole domain: for every pair of matrices with equal
column counts that the resolver accepts, `broadcast2`, called with the
resolver's flag on two buffers of the target size, writes outside the buffer of
the smaller matrix instead of filling both buffers with the broadcast. -/
theorem broadcast2_faults_on_equal_columns {α : Type} (A B : Matrix α)
    (output_a output_b : List α) (plan : BroadcastPlan)
    (hA : A.wf) (hB : B.wf) (hcols : A.columns = B.columns)
    (hplan : is_broadcast_possible A B = Except.ok plan) (hflag : plan.flag ≠ 0)
    (ha : output_a.length = (plan.highest_rows * plan.highest_cols).toNat)
    (hb : output_b.length = (plan.highest_rows * plan.highest_cols).toNat) :
    broadcast2 A B output_a output_b plan.flag = Except.error Fault.out_of_bounds := by
  rcases is_broadcast_possible_accepts A B plan ⟨hA.1, hA.2.1⟩ ⟨hB.1, hB.2.1⟩ hplan hflag with
    ⟨rfl, hdvd, -⟩ | ⟨rfl, hdvd, -⟩
  · have hcount : ((A.rows : Int) * (A.columns : Int)).toNat = A.rows * A.columns := by
      rw [← Nat.cast_mul, Int.toNat_ofNat]
    rw [hcount] at ha hb
    exact broadcast2_flag_two_faults A B output_a output_b hA hB hcols.symm hdvd ha hb
  · have hcount : ((B.rows : Int) * (B.columns : Int)).toNat = B.rows * B.columns := by
      rw [← Nat.cast_mul, Int.toNat_ofNat]
    rw [hcount] at ha hb
    exact broadcast2_flag_one_faults A B output_a output_b hA hB hcols hdvd ha hb

/-- C1 at the failing input A = [[1], [2]] (2x1), B = [[7]] (1x1): the resolver
gives flag 2 and `broadcast2` faults instead of returning `[1, 2]` and `[7, 7]`. -/
theorem broadcast2_faults_on_equal_columns_witness :
    (is_broadcast_possible
        ({ rows := 2, columns := 1, matrix := [1, 2] } : Matrix Int)
        { rows := 1, columns := 1, matrix := [7] } =
      Except.ok { flag := 2, highest_rows := 2, highest_cols := 1 }) ∧
    broadcast2
        ({ rows := 2, columns := 1, matrix := [1, 2] } : Matrix Int)
        { rows := 1, columns := 1, matrix := [7] } [0, 0] [0, 0] 2 =
      Except.error Fault.out_of_bounds :=
  ⟨rfl,
   broadcast2_faults_on_equal_columns
      ({ rows := 2, columns := 1, matrix := [1, 2] } : Matrix Int)
      { rows := 1, columns := 1, matrix := [7] } [0, 0] [0, 0]
      { flag := 2, highest_rows := 2, highest_cols := 1 }
      ⟨by decide, by decide, rfl⟩ ⟨by decide, by decide, rfl⟩ rfl rfl (by decide) rfl rfl⟩

/-- C2, the defect on its whole domain: for every pair of matrices with equal
column counts that the resolver accepts, each of the eight operators runs into
the out-of-bounds write of `broadcast2`, before any OpenCL call, instead of
returning the matrix of the element-wise results. -/
theorem operators_fault_on_equal_columns {α : Type} [LinearOrderedRing α]
    (cl : Nat → Int) (junk : Nat → α) (A B : Matrix α) (plan : BroadcastPlan)
    (hA : A.wf) (hB : B.wf) (hcols : A.columns = B.columns)
    (hplan : is_broadcast_possible A B = Except.ok plan) (hflag : plan.flag ≠ 0) :
    ∀ op ∈ ([operator_add, operator_subtract, operator_multiply, operator_gt, operator_lt,
        operator_equals, operator_gte, operator_lte] :
        List ((Nat → Int) → (Nat → α) → Matrix α → Matrix α → Run (Matrix α))),
      (op cl junk A B).start.1 = Except.error (Failure.undefined Fault.out_of_bounds) ∧
      (op cl junk A B).start.2.calls = 0 := by
  have hfault : broadcast2 A B
      (uninitialised junk (plan.highest_rows * plan.highest_cols).toNat)
      (uninitialised junk (plan.highest_rows * plan.highest_cols).toNat) plan.flag =
        Except.error Fault.out_of_bounds := by
    rcases is_broadcast_possible_accepts A B plan ⟨hA.1, hA.2.1⟩ ⟨hB.1, hB.2.1⟩ hplan hflag with
      ⟨rfl, hdvd, -⟩ | ⟨rfl, hdvd, -⟩
    · have hcount : ((A.rows : Int) * (A.columns : Int)).toNat = A.rows * A.columns := by
        rw [← Nat.cast_mul, Int.toNat_ofNat]
      refine broadcast2_flag_two_faults A B _ _ hA hB hcols.symm hdvd ?_ ?_ <;>
        simp only [length_uninitialised, hcount]
    · have hcount : ((B.rows : Int) * (B.columns : Int)).toNat = B.rows * B.columns := by
        rw [← Nat.cast_mul, Int.toNat_ofNat]
      refine broadcast2_flag_one_faults A B _ _ hA hB hcols hdvd ?_ ?_ <;>
        simp only [length_uninitialised, hcount]
  intro op hop
  simp only [List.mem_cons, List.mem_singleton, List.not_mem_nil, or_false] at hop
  rcases hop with rfl | rfl | rfl | rfl | rfl | rfl | rfl | rfl
  · unfold operator_add
    rw [matrix_operator_of_broadcast2_fault _ cl junk A B plan _ hplan hflag hfault]
    exact ⟨rfl, rfl⟩
  · unfold operator_subtract
    rw [matrix_operator_of_broadcast2_fault _ cl junk A B plan _ hplan hflag hfault]
    exact ⟨rfl, rfl⟩
  · unfold operator_multiply
    rw [matrix_operator_of_broadcast2_fault _ cl junk A B plan _ hplan hflag hfault]
    exact ⟨rfl, rfl⟩
  · unfold operator_gt
    rw [matrix_operator_of_broadcast2_fault _ cl junk A B plan _ hplan hflag hfault]
    exact ⟨rfl, rfl⟩
  · unfold operator_lt
    rw [matrix_operator_of_broadcast2_fault _ cl junk A B plan _ hplan hflag hfault]
    exact ⟨rfl, rfl⟩
  · unfold operator_equals
    rw [matrix_operator_of_broadcast2_fault _ cl junk A B plan _ hplan hflag hfault]
    exact ⟨rfl, rfl⟩
  · unfold operator_gte
    rw [matrix_operator_of_broadcast2_fault _ cl junk A B plan _ hplan hflag hfault]
    exact ⟨rfl, rfl⟩
  · unfold operator_lte
    rw [matrix_operator_of_broadcast2_fault _ cl junk A B plan _ hplan hflag hfault]
    exact ⟨rfl, rfl⟩

/-- C2 at the failing input A = [[3]], B = [[4]] with every OpenCL call
succeeding: `A + B` ends in the out-of-bounds write instead of returning [[7]]. -/
theorem operators_fault_on_equal_columns_witness :
    (is_broadcast_possible
        ({ rows := 1, columns := 1, matrix := [3] } : Matrix Int)
        { rows := 1, columns := 1, matrix := [4] } =
      Except.ok { flag := 2, highest_rows := 1, highest_cols := 1 }) ∧
    (operator_add (fun _ => 0) (fun _ => 0)
        ({ rows := 1, columns := 1, matrix := [3] } : Matrix Int)
        { rows := 1, columns := 1, matrix := [4] }).start.1 =
      Except.error (Failure.undefined Fault.out_of_bounds) :=
  ⟨rfl,
   ((operators_fault_on_equal_columns (fun _ => 0) (fun _ => 0)
      ({ rows := 1, columns := 1, matrix := [3] } : Matrix Int)
      { rows := 1, columns := 1, matrix := [4] }
      { flag := 2, highest_rows := 1, highest_cols := 1 }
      ⟨by decide, by decide, rfl⟩ ⟨by decide, by decide, rfl⟩ rfl rfl (by decide))
      operator_add (List.mem_cons_self _ _)).1⟩

/-- C7, the defect on its whole domain: for every two matrices of equal shape
the resolver returns flag 2, and `broadcast2` with that flag on two buffers of
the target size does not return: the column loop of the first row, whose bound
is `2^64 - 1` and not `-1`, copies and then writes outside `output_b`. -/
theorem broadcast2_faults_on_equal_shapes {α : Type} (A B : Matrix α)
    (output_a output_b : List α) (hA : A.wf) (hB : B.wf)
    (hrows : A.rows = B.rows) (hcols : A.columns = B.columns)
    (ha : output_a.length = A.rows * A.columns) (hb : output_b.length = A.rows * A.columns) :
    is_broadcast_possible A B =
      Except.ok { flag := 2, highest_rows := A.rows, highest_cols := A.columns } ∧
    broadcast2 A B output_a output_b 2 = Except.error Fault.out_of_bounds := by
  constructor
  · rw [is_broadcast_possible_eq A B ⟨hA.1, hA.2.1⟩ ⟨hB.1, hB.2.1⟩, if_pos]
    rw [hrows, hcols]
    simp
  · exact broadcast2_flag_two_faults A B output_a output_b hA hB hcols.symm
      (by rw [hrows]) ha hb

/-- C7 at the failing input A = [[1, 2], [3, 4]], B = [[5, 6], [7, 8]]. -/
theorem broadcast2_faults_on_equal_shapes_witness :
    broadcast2
        ({ rows := 2, columns := 2, matrix := [1, 2, 3, 4] } : Matrix Int)
        { rows := 2, columns := 2, matrix := [5, 6, 7, 8] }
        [0, 0, 0, 0] [0, 0, 0, 0] 2 =
      Except.error Fault.out_of_bounds :=
  (broadcast2_faults_on_equal_shapes
      ({ rows := 2, columns := 2, matrix := [1, 2, 3, 4] } : Matrix Int)
      { rows := 2, columns := 2, matrix := [5, 6, 7, 8] }
      [0, 0, 0, 0] [0, 0, 0, 0]
      ⟨by decide, by decide, rfl⟩ ⟨by decide, by decide, rfl⟩ rfl rfl rfl rfl).2

/-- C9, evaluation at a failing input: A = [[1, 2]] and B = [[1, 2], [3, 4]].
`matmul` returns the 1x2 matrix [5, 11], whose entry (0, 0) is 5, while the
product entry (0, 0) is 1*1 + 2*3 = 7 (and the entry (0, 1) is 10, not 11). -/
theorem matmul_is_not_the_product :
    (matmul (fun _ => 0) (fun _ => 0)
        ({ rows := 1, columns := 2, matrix := [1, 2] } : Matrix Int)
        { rows := 2, columns := 2, matrix := [1, 2, 3, 4] }).start.1 =
      Except.ok { rows := 1, columns := 2, matrix := [5, 11] } ∧
    ({ rows := 1, columns := 2, matrix := [5, 11] } : Matrix Int).get_element 0 0 =
      Except.ok 5 ∧
    product_entry ({ rows := 1, columns := 2, matrix := [1, 2] } : Matrix Int)
        { rows := 2, columns := 2, matrix := [1, 2, 3, 4] } 0 0 = Except.ok 7 ∧
    product_entry ({ rows := 1, columns := 2, matrix := [1, 2] } : Matrix Int)
        { rows := 2, columns := 2, matrix := [1, 2, 3, 4] } 0 1 = Except.ok 10 := by
  refine ⟨?_, ?_, ?_, ?_⟩ <;> rfl

/-! ## Filling a matrix -/

/-- The method `set_element` at a position inside the buffer. -/
theorem set_element_eq {α : Type} (m : Matrix α) (row column : Nat) (value : α)
    (h : row * m.columns + column < m.matrix.length) :
    m.set_element row column value =
      Except.ok { m with matrix := m.matrix.set (row * m.columns + column) value } := by
  unfold Matrix.set_element
  rw [write_natCast _ _ _ h]
  rfl

/-- A read of a cell that holds `v`. -/
theorem read_of_getElem? {α : Type} (buf : List α) (i : Nat) (v : α)
    (h : buf[i]? = some v) : read buf (i : Int) = Except.ok v := by
  unfold read
  rw [if_pos (Int.ofNat_nonneg i), Int.toNat_ofNat, h]

/-- The method `get_element` at a position inside the buffer. -/
theorem get_element_eq {α : Type} (m : Matrix α) (row column : Nat) (v : α)
    (h : m.matrix[row * m.columns + column]? = some v) :
    m.get_element row column = Except.ok v := by
  unfold Matrix.get_element
  exact read_of_getElem? _ _ _ h

/-- Row and column of a row-major offset. -/
theorem offset_div_mod {i j c : Nat} (hj : j < c) :
    (i * c + j) / c = i ∧ (i * c + j) % c = j := by
  have hc : 0 < c := by omega
  constructor
  · rw [Nat.add_comm, Nat.add_mul_div_right _ _ hc, Nat.div_eq_of_lt hj, Nat.zero_add]
  · rw [Nat.add_comm, Nat.add_mul_mod_self_right, Nat.mod_eq_of_lt hj]

/-- The loop nest `for i < rows, for j < columns: set_element(i, j, g i j)` on
a matrix whose buffer has `rows * columns` cells: it returns, keeps the shape,
and leaves `g i j` at every position. -/
theorem fill_row_major {α : Type} (g : Nat → Nat → α) (m0 : Matrix α)
    (hlen : m0.matrix.length = m0.rows * m0.columns) :
    returns_with
      (for_range m0.rows (fun i m =>
        for_range m.columns (fun j m => m.set_element i j (g i j)) m) m0)
      (fun m => m.rows = m0.rows ∧ m.columns = m0.columns ∧
        m.matrix.length = m0.rows * m0.columns ∧
        ∀ i j, i < m0.rows → j < m0.columns →
          m.matrix[i * m0.columns + j]? = some (g i j)) := by
  have key : returns_with
      (for_range m0.rows (fun i m =>
        for_range m.columns (fun j m => m.set_element i j (g i j)) m) m0)
      (fun m => m.rows = m0.rows ∧ m.columns = m0.columns ∧
        m.matrix.length = m0.rows * m0.columns ∧
        ∀ p, p < m0.rows * m0.columns →
          m.matrix[p]? = some (g (p / m0.columns) (p % m0.columns))) := by
    apply returns_with_for_range (fun i (m : Matrix α) =>
      m.rows = m0.rows ∧ m.columns = m0.columns ∧ m.matrix.length = m0.rows * m0.columns ∧
        ∀ p, p < i * m0.columns →
          m.matrix[p]? = some (g (p / m0.columns) (p % m0.columns)))
    · exact ⟨rfl, rfl, hlen, fun p hp => by omega⟩
    intro i hi m hm
    obtain ⟨hr, hc, hl, hv⟩ := hm
    rw [hc]
    have inner := returns_with_for_range (fun j (m : Matrix α) =>
      m.rows = m0.rows ∧ m.columns = m0.columns ∧ m.matrix.length = m0.rows * m0.columns ∧
        ∀ p, p < i * m0.columns + j →
          m.matrix[p]? = some (g (p / m0.columns) (p % m0.columns))) m0.columns
      (fun j m => m.set_element i j (g i j)) m ⟨hr, hc, hl, hv⟩ (by
        intro j hj m' hm'
        obtain ⟨hr', hc', hl', hv'⟩ := hm'
        have hidx : i * m0.columns + j < m0.rows * m0.columns := offset_lt hi hj
        have hset := set_element_eq m' i j (g i j) (by rw [hc', hl']; exact hidx)
        beta_reduce
        rw [hset]
        refine ⟨_, rfl, hr', hc', ?_, ?_⟩
        · simp only [List.length_set]; exact hl'
        · intro p hp
          simp only [hc', List.getElem?_set]
          by_cases hpe : i * m0.columns + j = p
          · rw [if_pos hpe, if_pos (by rw [hl']; exact hidx), ← hpe,
              (offset_div_mod hj).1, (offset_div_mod hj).2]
          · rw [if_neg hpe]
            exact hv' p (by omega))
    obtain ⟨m', hm', hr', hc', hl', hv'⟩ := inner
    refine ⟨m', hm', hr', hc', hl', ?_⟩
    intro p hp
    exact hv' p (by rw [Nat.add_mul, Nat.one_mul] at hp; exact hp)
  obtain ⟨m, hm, hr, hc, hl, hv⟩ := key
  refine ⟨m, hm, hr, hc, hl, ?_⟩
  intro i j hi hj
  have := hv (i * m0.columns + j) (offset_lt hi hj)
  rw [(offset_div_mod hj).1, (offset_div_mod hj).2] at this
  exact this

/-- What `ones`, `zeroes` and `identity` have in common: after replacing the
buffer by a fresh one, the loop nest that stores `g i j` at `(i, j)` returns a
matrix of the same shape with `g i j` at every position. -/
theorem fill_fresh {α : Type} (junk : Nat → α) (g : Nat → Nat → α) (m : Matrix α) :
    returns_with
      (for_range (m.set_matrix (uninitialised junk (m.get_rows * m.get_columns))).rows
        (fun i m => for_range m.columns (fun j m => m.set_element i j (g i j)) m)
        (m.set_matrix (uninitialised junk (m.get_rows * m.get_columns))))
      (fun m' => m'.rows = m.rows ∧ m'.columns = m.columns ∧
        m'.matrix.length = m.rows * m.columns ∧
        ∀ i j, i < m.rows → j < m.columns → m'.matrix[i * m.columns + j]? = some (g i j)) :=
  fill_row_major g (m.set_matrix (uninitialised junk (m.get_rows * m.get_columns)))
    (length_uninitialised _ _)

/-- The method `ones` returns `Success` and a matrix of the same shape whose
cells all hold `multiple`. -/
theorem ones_returns {α : Type} [LinearOrderedRing α] (junk : Nat → α) (m : Matrix α)
    (multiple : α) :
    ∃ m' : Matrix α, m.ones junk multiple = Except.ok (success, m') ∧
      m'.rows = m.rows ∧ m'.columns = m.columns ∧ m'.matrix.length = m.rows * m.columns ∧
      ∀ i j, i < m.rows → j < m.columns → m'.matrix[i * m.columns + j]? = some multiple := by
  obtain ⟨m', h, hr, hc, hl, hv⟩ := fill_fresh junk (fun _ _ => 1 * multiple) m
  refine ⟨m', ?_, hr, hc, hl, ?_⟩
  · unfold Matrix.ones
    simp only [bind, Except.bind, pure, Except.pure]
    rw [h]
  · intro i j hi hj
    rw [hv i j hi hj, one_mul]

/-- The method `zeroes` returns `Success` and a matrix of the same shape whose
cells all hold 0. -/
theorem zeroes_returns {α : Type} [LinearOrderedRing α] (junk : Nat → α) (m : Matrix α) :
    ∃ m' : Matrix α, m.zeroes junk = Except.ok (success, m') ∧
      m'.rows = m.rows ∧ m'.columns = m.columns ∧ m'.matrix.length = m.rows * m.columns ∧
      ∀ i j, i < m.rows → j < m.columns → m'.matrix[i * m.columns + j]? = some 0 := by
  obtain ⟨m', h, hr, hc, hl, hv⟩ := fill_fresh junk (fun _ _ => (0 : α)) m
  refine ⟨m', ?_, hr, hc, hl, hv⟩
  unfold Matrix.zeroes
  simp only [bind, Except.bind, pure, Except.pure]
  rw [h]

/-- The method `identity` returns `Success` and a matrix of the same shape with
`multiple` at `(i, i)` and 0 elsewhere. -/
theorem identity_returns {α : Type} [LinearOrderedRing α] (junk : Nat → α) (m : Matrix α)
    (multiple : α) :
    ∃ m' : Matrix α, m.identity junk multiple = Except.ok (success, m') ∧
      m'.rows = m.rows ∧ m'.columns = m.columns ∧ m'.matrix.length = m.rows * m.columns ∧
      ∀ i j, i < m.rows → j < m.columns →
        m'.matrix[i * m.columns + j]? = some (if i ≠ j then 0 else multiple) := by
  obtain ⟨m', h, hr, hc, hl, hv⟩ :=
    fill_fresh junk (fun i j => if i ≠ j then (0 : α) else 1 * multiple) m
  have hbody : (fun (i : Nat) (m : Matrix α) =>
      for_range m.columns (fun j m =>
        if i ≠ j then m.set_element i j 0 else m.set_element i j (1 * multiple)) m) =
      (fun (i : Nat) (m : Matrix α) =>
        for_range m.columns (fun j m =>
          m.set_element i j (if i ≠ j then (0 : α) else 1 * multiple)) m) := by
    funext i m
    congr
    funext j m
    split <;> rfl
  refine ⟨m', ?_, hr, hc, hl, ?_⟩
  · unfold Matrix.identity
    simp only [bind, Except.bind, pure, Except.pure]
    rw [hbody, h]
  · intro i j hi hj
    rw [hv i j hi hj, one_mul]

/-- C18: for a matrix of any shape and any multiple `k`, `identity(k)` returns
the status ("Success", 0) and leaves a matrix with the same rows and columns,
`k` at every diagonal position and 0 at every other position. -/
theorem identity_sets_diagonal {α : Type} [LinearOrderedRing α] (junk : Nat → α)
    (m : Matrix α) (k : α) :
    ∃ m' : Matrix α,
      m.identity junk k = Except.ok ({ error_message := "Success", error_code := 0 }, m') ∧
      m'.get_rows = m.get_rows ∧ m'.get_columns = m.get_columns ∧
      (∀ i, i < min m.get_rows m.get_columns → m'.get_element i i = Except.ok k) ∧
      (∀ i j, i < m.get_rows → j < m.get_columns → i ≠ j →
        m'.get_element i j = Except.ok 0) := by
  obtain ⟨m', h, hr, hc, -, hv⟩ := identity_returns junk m k
  refine ⟨m', h, hr, hc, ?_, ?_⟩
  · intro i hi
    have hi' : i < m.rows ∧ i < m.columns := by
      unfold Matrix.get_rows Matrix.get_columns at hi
      omega
    apply get_element_eq
    rw [hc, hv i i hi'.1 hi'.2]
    simp
  · intro i j hi hj hne
    apply get_element_eq
    rw [hc, hv i j hi hj, if_pos hne]

/-- The loop nest of `initialize_matrix` on a matrix whose buffer has
`rows * columns` cells, when the `k`-th request to the source gives `v k`: it
returns after exactly `rows * columns` requests, keeps the shape, and leaves
`v p` at offset `p`. -/
theorem fill_from_returns {α : Type} (next : Nat → Except Fault α) (v : Nat → α)
    (m0 : Matrix α) (hnext : ∀ k, k < m0.rows * m0.columns → next k = Except.ok (v k))
    (hlen : m0.matrix.length = m0.rows * m0.columns) :
    returns_with (fill_from next m0)
      (fun st => st.2 = m0.rows * m0.columns ∧ st.1.rows = m0.rows ∧
        st.1.columns = m0.columns ∧ st.1.matrix.length = m0.rows * m0.columns ∧
        ∀ p, p < m0.rows * m0.columns → st.1.matrix[p]? = some (v p)) := by
  unfold fill_from
  apply returns_with_for_range (fun i (st : Matrix α × Nat) =>
    st.2 = i * m0.columns ∧ st.1.rows = m0.rows ∧ st.1.columns = m0.columns ∧
      st.1.matrix.length = m0.rows * m0.columns ∧
      ∀ p, p < i * m0.columns → st.1.matrix[p]? = some (v p))
  · exact ⟨by simp, rfl, rfl, hlen, fun p hp => by omega⟩
  intro i hi st hst
  have inner := returns_with_for_range (fun j (st : Matrix α × Nat) =>
    st.2 = i * m0.columns + j ∧ st.1.rows = m0.rows ∧ st.1.columns = m0.columns ∧
      st.1.matrix.length = m0.rows * m0.columns ∧
      ∀ p, p < i * m0.columns + j → st.1.matrix[p]? = some (v p)) m0.columns
    (fun j (st : Matrix α × Nat) => do
      let element ← next st.2
      let filled ← st.1.set_element i j element
      pure (filled, st.2 + 1)) st hst (by
      intro j hj st' hst'
      obtain ⟨hn', hr', hc', hl', hv'⟩ := hst'
      have hidx : i * m0.columns + j < m0.rows * m0.columns := offset_lt hi hj
      have hset := set_element_eq st'.1 i j (v (i * m0.columns + j))
        (by rw [hc', hl']; exact hidx)
      beta_reduce
      rw [hn', hnext _ hidx]
      simp only [bind, Except.bind]
      rw [hset]
      refine ⟨_, rfl, rfl, hr', hc', ?_, ?_⟩
      · simp only [List.length_set]; exact hl'
      · intro p hp
        simp only [hc', List.getElem?_set]
        by_cases hpe : i * m0.columns + j = p
        · rw [if_pos hpe, if_pos (by rw [hl']; exact hidx), hpe]
        · rw [if_neg hpe]
          exact hv' p (by omega))
  obtain ⟨st', hst', hn', hr', hc', hl', hv'⟩ := inner
  refine ⟨st', hst', ?_, hr', hc', hl', ?_⟩
  · rw [hn', Nat.add_mul, Nat.one_mul]
  · intro p hp
    exact hv' p (by rw [Nat.add_mul, Nat.one_mul] at hp; exact hp)

/-- The constructor from a `Reader` returns a matrix of the requested shape
after `rows * columns` calls of `read()`, with the value of call `p` at offset `p`. -/
theorem from_reader_returns {α : Type} (junk : Nat → α) (rows columns : Nat)
    (reader : Reader α) :
    ∃ m : Matrix α, Matrix.from_reader junk rows columns reader =
        Except.ok (m, rows * columns) ∧
      m.rows = rows ∧ m.columns = columns ∧ m.matrix.length = rows * columns ∧
      ∀ p, p < rows * columns → m.matrix[p]? = some (reader.read p) := by
  obtain ⟨st, h, hn, hr, hc, hl, hv⟩ := fill_from_returns
    (fun k => (pure (reader.read k) : Except Fault α)) reader.read
    (({ rows := rows, columns := columns, matrix := [] } : Matrix α).set_matrix
      (uninitialised junk (rows * columns)))
    (fun _ _ => rfl) (length_uninitialised _ _)
  refine ⟨st.1, ?_, hr, hc, hl, hv⟩
  unfold Matrix.from_reader Matrix.initialize_matrix_reader
  simp only [bind, Except.bind, pure, Except.pure, Matrix.get_rows, Matrix.get_columns]
  simp only [pure, Except.pure] at h
  rw [h]
  simp only
  rw [hn]
  rfl

/-- Halving `n` as often as `float_excess` counts leaves at least 1 of a
positive `n`. -/
theorem float_excess_pow (fuel n : Nat) :
    float_excess fuel n = 0 ∨ 2 ^ float_excess fuel n ≤ n := by
  induction fuel generalizing n with
  | zero => left; rfl
  | succ fuel ih =>
    unfold float_excess
    by_cases h : n < 2 ^ 24
    · left; rw [if_pos h]
    · right
      rw [if_neg h]
      rcases ih (n / 2) with h0 | hp
      · rw [h0]; norm_num at h ⊢; omega
      · rw [pow_succ]
        have := Nat.div_mul_le_self n 2
        calc 2 ^ float_excess fuel (n / 2) * 2 ≤ n / 2 * 2 := Nat.mul_le_mul_right 2 hp
          _ ≤ n := this

/-- A `float` holds every `size_t` below `2^24` exactly. -/
theorem float_of_size_exact (n : Nat) (h : n < 2 ^ 24) : float_of_size n = n := by
  have he : float_excess 64 n = 0 := by
    unfold float_excess
    rw [if_pos h]
  unfold float_of_size
  simp only [he, pow_zero, Nat.div_one, Nat.mod_one, Nat.mul_one]
  simp

/-- A `float` holds every `size_t` up to `2^24` exactly. -/
theorem float_of_size_exact_le (n : Nat) (h : n ≤ 2 ^ 24) : float_of_size n = n := by
  rcases Nat.lt_or_eq_of_le h with hlt | heq
  · exact float_of_size_exact n hlt
  · rw [heq]; decide

/-- A positive `size_t` converts to a `float` that is at least 1. -/
theorem float_of_size_pos (n : Nat) (h : 1 ≤ n) : 1 ≤ float_of_size n := by
  have hq : 1 ≤ n / 2 ^ float_excess 64 n := by
    rcases float_excess_pow 64 n with h0 | hp
    · rw [h0]; simpa using h
    · exact (Nat.one_le_div_iff (by positivity)).mpr hp
  have hp : 1 ≤ 2 ^ float_excess 64 n := Nat.one_le_two_pow
  unfold float_of_size
  simp only
  split_ifs
  · exact Nat.mul_pos hq hp
  · exact Nat.mul_pos (by omega) hp
  · exact Nat.mul_pos (by omega) hp

/-- A `float` holds every `int` between 0 and `2^24` exactly. -/
theorem float_of_int_exact (z : Int) (h0 : 0 ≤ z) (h : z ≤ 2 ^ 24) : float_of_int z = z := by
  unfold float_of_int
  rw [if_pos h0, float_of_size_exact_le _ (by omega)]
  exact Int.toNat_of_nonneg h0

/-- A `size_t` below `2^31` converts to the same `int`. -/
theorem int_of_size_small (n : Nat) (h : n < 2 ^ 31) : int_of_size n = (n : Int) := by
  have hm : n % 2 ^ 32 = n := Nat.mod_eq_of_lt (by omega)
  unfold int_of_size
  rw [hm, if_pos h]

/-- The randomized constructor with a non-zero `limit` returns a matrix of the
requested shape, with `rand() % limit` of call `p`, converted to `float`, at
offset `p`. -/
theorem random_returns {α : Type} [LinearOrderedRing α] (junk : Nat → α) (rows columns : Nat)
    (limit : Int) (rand : Nat → Int) (hlimit : limit ≠ 0) :
    ∃ m : Matrix α, Matrix.random junk rows columns limit rand = Except.ok m ∧
      m.rows = rows ∧ m.columns = columns ∧ m.matrix.length = rows * columns ∧
      ∀ p, p < rows * columns →
        m.matrix[p]? = some ((float_of_int ((rand p).tmod limit) : Int) : α) := by
  obtain ⟨st, h, -, hr, hc, hl, hv⟩ := fill_from_returns
    (fun k => do
      let value ← int_rem (rand k) limit
      (pure ((float_of_int value : Int) : α) : Except Fault α))
    (fun p => ((float_of_int ((rand p).tmod limit) : Int) : α))
    (({ rows := rows, columns := columns, matrix := [] } : Matrix α).set_matrix
      (uninitialised junk (rows * columns)))
    (fun k _ => by simp only [int_rem, if_neg hlimit]; rfl) (length_uninitialised _ _)
  refine ⟨st.1, ?_, hr, hc, hl, hv⟩
  unfold Matrix.random Matrix.initialize_matrix_limit
  simp only [bind, Except.bind, pure, Except.pure, Matrix.get_rows, Matrix.get_columns]
  simp only [bind, Except.bind, pure, Except.pure] at h
  rw [h]

/-- C19: constructing a matrix of shape (rows, columns) from a `Reader` calls
`read()` exactly `rows * columns` times and stores the values in row-major
order: `get_element(r, c)` is the value of call number `r * columns + c`. -/
theorem reader_constructor_is_row_major {α : Type} (junk : Nat → α) (rows columns : Nat)
    (reader : Reader α) :
    ∃ m : Matrix α,
      Matrix.from_reader junk rows columns reader = Except.ok (m, rows * columns) ∧
      m.get_rows = rows ∧ m.get_columns = columns ∧
      ∀ r c, r < rows → c < columns →
        m.get_element r c = Except.ok (reader.read (r * columns + c)) := by
  obtain ⟨m, h, hr, hc, -, hv⟩ := from_reader_returns junk rows columns reader
  refine ⟨m, h, hr, hc, ?_⟩
  intro r c hr' hc'
  apply get_element_eq
  rw [hc]
  exact hv _ (offset_lt hr' hc')

/-- C20: a matrix constructed with rows and columns at least 1, by the
randomized constructor (with a non-zero limit) or from a `Reader`, satisfies
the invariant `rows >= 1`, `columns >= 1`, `matrix.length = rows * columns`;
and `ones`, `zeroes`, `identity` and `set_element` at an in-range position
keep the invariant and change neither `rows` nor `columns`. -/
theorem matrix_invariant {α : Type} [LinearOrderedRing α] (junk : Nat → α)
    (rows columns : Nat) (hrows : 1 ≤ rows) (hcolumns : 1 ≤ columns) :
    (∀ (limit : Int) (rand : Nat → Int), limit ≠ 0 →
      ∃ m : Matrix α, Matrix.random junk rows columns limit rand = Except.ok m ∧
        m.wf ∧ m.rows = rows ∧ m.columns = columns) ∧
    (∀ reader : Reader α,
      ∃ (m : Matrix α) (calls : Nat),
        Matrix.from_reader junk rows columns reader = Except.ok (m, calls) ∧
        m.wf ∧ m.rows = rows ∧ m.columns = columns) ∧
    (∀ m : Matrix α, m.wf →
      (∀ k : α, ∃ (status : MatrixStatus) (m' : Matrix α),
        m.ones junk k = Except.ok (status, m') ∧
        m'.wf ∧ m'.rows = m.rows ∧ m'.columns = m.columns) ∧
      (∃ (status : MatrixStatus) (m' : Matrix α),
        m.zeroes junk = Except.ok (status, m') ∧
        m'.wf ∧ m'.rows = m.rows ∧ m'.columns = m.columns) ∧
      (∀ k : α, ∃ (status : MatrixStatus) (m' : Matrix α),
        m.identity junk k = Except.ok (status, m') ∧
        m'.wf ∧ m'.rows = m.rows ∧ m'.columns = m.columns) ∧
      (∀ (r c : Nat) (v : α), r < m.rows → c < m.columns →
        ∃ m' : Matrix α, m.set_element r c v = Except.ok m' ∧
          m'.wf ∧ m'.rows = m.rows ∧ m'.columns = m.columns)) := by
  refine ⟨?_, ?_, ?_⟩
  · intro limit rand hlimit
    obtain ⟨m, h, hr, hc, hl, -⟩ := random_returns junk rows columns limit rand hlimit
    exact ⟨m, h, ⟨by omega, by omega, by rw [hl, hr, hc]⟩, hr, hc⟩
  · intro reader
    obtain ⟨m, h, hr, hc, hl, -⟩ := from_reader_returns junk rows columns reader
    exact ⟨m, _, h, ⟨by omega, by omega, by rw [hl, hr, hc]⟩, hr, hc⟩
  · intro m hm
    obtain ⟨h1, h2, h3⟩ := hm
    refine ⟨?_, ?_, ?_, ?_⟩
    · intro k
      obtain ⟨m', h, hr, hc, hl, -⟩ := ones_returns junk m k
      exact ⟨_, m', h, ⟨by omega, by omega, by rw [hl, hr, hc]⟩, hr, hc⟩
    · obtain ⟨m', h, hr, hc, hl, -⟩ := zeroes_returns junk m
      exact ⟨_, m', h, ⟨by omega, by omega, by rw [hl, hr, hc]⟩, hr, hc⟩
    · intro k
      obtain ⟨m', h, hr, hc, hl, -⟩ := identity_returns junk m k
      exact ⟨_, m', h, ⟨by omega, by omega, by rw [hl, hr, hc]⟩, hr, hc⟩
    · intro r c v hr hc
      have hidx : r * m.columns + c < m.matrix.length := by
        rw [h3]; exact offset_lt hr hc
      refine ⟨_, set_element_eq m r c v hidx, ⟨h1, h2, ?_⟩, rfl, rfl⟩
      simp only [List.length_set]
      exact h3

/-- C20 at the shape 2x3 over the integers: the randomized constructor with
limit 10 and the constructor from a reader both give a matrix that satisfies
the invariant. -/
theorem matrix_invariant_witness :
    (1 ≤ 2 ∧ 1 ≤ 3) ∧
    (∃ m : Matrix Int,
      Matrix.random (fun _ => 0) 2 3 10 (fun k => 7 * (k : Int)) = Except.ok m ∧
        m.wf ∧ m.rows = 2 ∧ m.columns = 3) ∧
    (∃ (m : Matrix Int) (calls : Nat),
      Matrix.from_reader (fun _ => 0) 2 3 ⟨fun k => (k : Int)⟩ = Except.ok (m, calls) ∧
        m.wf ∧ m.rows = 2 ∧ m.columns = 3) :=
  ⟨by decide,
   (matrix_invariant (fun _ => (0 : Int)) 2 3 (by decide) (by decide)).1 10
      (fun k => 7 * (k : Int)) (by decide),
   (matrix_invariant (fun _ => (0 : Int)) 2 3 (by decide) (by decide)).2.1
      ⟨fun k => (k : Int)⟩⟩

/-! ## Transpose -/

/-- A counted loop in which the iterations before `k` succeed and keep an
invariant, and iteration `k` fails from every state that satisfies the
invariant, fails with that fault. -/
theorem for_range_fails_at {σ : Type} (P : Nat → σ → Prop) (n k : Nat) (e : Fault)
    (body : Nat → σ → Except Fault σ) (s : σ) (hk : k < n) (h0 : P 0 s)
    (hstep : ∀ i, i < k → ∀ st, P i st → returns_with (body i st) (P (i + 1)))
    (hfail : ∀ st, P k st → body k st = Except.error e) :
    for_range n body s = Except.error e := by
  obtain ⟨st, hst, hP⟩ := returns_with_for_range P k body s h0 hstep
  obtain ⟨d, rfl⟩ : ∃ d, n = k + 1 + d := ⟨n - (k + 1), by omega⟩
  induction d with
  | zero =>
    rw [Nat.add_zero, for_range_succ, hst]
    exact hfail st hP
  | succ d ih =>
    rw [← Nat.add_assoc, for_range_succ, ih (by omega)]
    rfl

/-- When the OpenCL calls up to the read-back succeed, `transpose` returns the
buffer the kernel computed under the shape `(a.columns, a.rows)`, or ends in
the fault of the kernel. -/
theorem transpose_exec {α : Type} (cl : Nat → Int) (junk : Nat → α) (a : Matrix α)
    (hcl : ∀ k, k < 9 → cl k = 0) :
    (transpose cl junk a).start.1 =
      match run_2d a.rows a.columns (parallel_transpose a.columns a.matrix)
          (uninitialised junk (a.rows * a.columns)) with
      | Except.ok out => Except.ok { rows := a.columns, columns := a.rows, matrix := out }
      | Except.error f => Except.error (Failure.undefined f) := by
  unfold transpose Run.start
  cases hk : run_2d a.rows a.columns (parallel_transpose a.columns a.matrix)
      (uninitialised junk (a.rows * a.columns)) with
  | ok out =>
    simp [exec_bind, exec_new_float, exec_get_memory_buffer, exec_enqueue_write,
      exec_set_argument, exec_launch, exec_synchronize, exec_release, exec_map,
      exec_read_buffer, hcl, hk, exec_pure, Matrix.set_matrix]
  | error f =>
    simp [exec_bind, exec_new_float, exec_get_memory_buffer, exec_enqueue_write,
      exec_set_argument, exec_launch, hcl, hk]

/-- The transpose kernel on a matrix with fewer rows than columns: the
work-item `(0, rows)` writes `B[rows * columns]`, the first offset after the
output buffer. -/
theorem run_2d_transpose_faults {α : Type} (a : Matrix α) (out : List α)
    (ha : a.matrix.length = a.rows * a.columns) (hout : out.length = a.rows * a.columns)
    (hrows : 1 ≤ a.rows) (hlt : a.rows < a.columns) :
    run_2d a.rows a.columns (parallel_transpose a.columns a.matrix) out =
      Except.error Fault.out_of_bounds := by
  unfold run_2d
  apply for_range_fails_at (fun _ (res : List α) => res.length = a.rows * a.columns)
    a.rows 0 _ _ out hrows hout
  · intro i hi
    omega
  · intro res hres
    apply for_range_fails_at (fun _ (res : List α) => res.length = a.rows * a.columns)
      a.columns a.rows _ _ res hlt hres
    · intro col hcol res' hres'
      unfold parallel_transpose
      have h1 : 0 * a.columns + col < a.matrix.length := by
        rw [ha]; exact offset_lt hrows (by omega)
      have h2 : col * a.columns + 0 < res'.length := by
        rw [hres']; exact offset_lt hcol (by omega)
      rw [read_natCast _ _ h1]
      exact ⟨_, write_natCast _ _ _ h2, by simp only [List.length_set]; exact hres'⟩
    · intro res' hres'
      unfold parallel_transpose
      have h1 : 0 * a.columns + a.rows < a.matrix.length := by
        rw [ha]; exact offset_lt hrows hlt
      rw [read_natCast _ _ h1]
      exact write_natCast_outside _ _ _ (by rw [hres']; omega)

/-- The kernel of `transpose` on a matrix with fewer rows than columns (the 1x2
matrix of the test among them) writes outside the output buffer, whatever the
release calls return: in the model that stops at undefined behaviour no matrix
is returned. -/
theorem transpose_faults_on_wide_matrices {α : Type} (cl : Nat → Int) (junk : Nat → α)
    (a : Matrix α) (ha : a.wf) (hlt : a.rows < a.columns) (hcl : ∀ k, k < 9 → cl k = 0) :
    (transpose cl junk a).start.1 = Except.error (Failure.undefined Fault.out_of_bounds) := by
  rw [transpose_exec cl junk a hcl,
    run_2d_transpose_faults a _ ha.2.2 (length_uninitialised _ _) ha.1 hlt]

/-- The kernel of `transpose` at the shape of the test `transpose_dim_check`, a
1x2 matrix. -/
theorem transpose_faults_on_wide_matrices_witness :
    (({ rows := 1, columns := 2, matrix := [1, 2] } : Matrix Int).wf ∧ 1 < 2) ∧
    (transpose (fun _ => 0) (fun _ => 0)
        ({ rows := 1, columns := 2, matrix := [1, 2] } : Matrix Int)).start.1 =
      Except.error (Failure.undefined Fault.out_of_bounds) :=
  ⟨⟨⟨by decide, by decide, rfl⟩, by decide⟩,
   transpose_faults_on_wide_matrices (fun _ => 0) (fun _ => 0)
      ({ rows := 1, columns := 2, matrix := [1, 2] } : Matrix Int)
      ⟨by decide, by decide, rfl⟩ (by decide) (fun _ _ => rfl)⟩

theorem exec_enqueue_kernel {β : Type} (cl : Nat → Int) (kernel : Except Fault β)
    (garbage : β) (s : Session) (h : cl s.calls = 0) :
    (enqueue_kernel cl kernel garbage).exec s =
      (Except.ok (device_output kernel garbage), { s with calls := s.calls + 1 }) := by
  unfold enqueue_kernel
  rw [exec_bind, exec_cl_call]
  simp [h, exec_pure]

/-- When the OpenCL calls up to the read-back succeed, `transpose_on_host`
returns what the launch left in the output buffer under the shape
`(a.columns, a.rows)`. -/
theorem transpose_on_host_exec {α : Type} (cl : Nat → Int) (junk : Nat → α)
    (garbage : List α) (a : Matrix α) (hcl : ∀ k, k < 9 → cl k = 0) :
    (transpose_on_host cl junk garbage a).start.1 =
      Except.ok (Matrix.mk a.rows a.columns
        (device_output (run_2d a.rows a.columns (parallel_transpose a.columns a.matrix)
          (uninitialised junk (a.rows * a.columns))) garbage)) := by
  unfold transpose_on_host Run.start
  simp [exec_bind, exec_new_float, exec_get_memory_buffer, exec_enqueue_write,
    exec_set_argument, exec_enqueue_kernel, exec_synchronize, exec_release, exec_map,
    exec_read_buffer, hcl, exec_pure, Matrix.set_matrix]

/-- C12: for every matrix A of shape (rows, cols), when the OpenCL calls up to
the read-back succeed, `transpose(A)` returns a matrix with
`get_rows() = cols` and `get_columns() = rows`, whatever the work-items leave in
the output buffer; and a matrix that `transpose` returns in the model that
stops at undefined behaviour is this matrix. -/
theorem transpose_swaps_shape {α : Type} (cl : Nat → Int) (junk : Nat → α)
    (garbage : List α) (a : Matrix α) (hcl : ∀ k, k < 9 → cl k = 0) :
    (∃ result : Matrix α,
      (transpose_on_host cl junk garbage a).start.1 = Except.ok result ∧
      result.get_rows = a.get_columns ∧ result.get_columns = a.get_rows) ∧
    (∀ result : Matrix α, (transpose cl junk a).start.1 = Except.ok result →
      (transpose_on_host cl junk garbage a).start.1 = Except.ok result ∧
      result.get_rows = a.get_columns ∧ result.get_columns = a.get_rows) := by
  constructor
  · exact ⟨_, transpose_on_host_exec cl junk garbage a hcl, rfl, rfl⟩
  · intro result h
    rw [transpose_exec cl junk a hcl] at h
    rw [transpose_on_host_exec cl junk garbage a hcl]
    cases hk : run_2d a.rows a.columns (parallel_transpose a.columns a.matrix)
        (uninitialised junk (a.rows * a.columns)) with
    | ok out =>
      rw [hk] at h
      injection h with h
      subst h
      exact ⟨rfl, rfl, rfl⟩
    | error f =>
      rw [hk] at h
      cases h

/-- C12 at the shape of the test `transpose_dim_check`: the transpose of a 1x2
matrix is a 2x1 matrix. At a 3x2 matrix, where the kernel stays inside its
buffers, the matrix `transpose` returns is the 2x3 matrix of `transpose_on_host`. -/
theorem transpose_swaps_shape_witness :
    (∀ k, k < 9 → (fun _ : Nat => (0 : Int)) k = 0) ∧
    (transpose_on_host (fun _ => 0) (fun _ => 0) [8, 9]
        ({ rows := 1, columns := 2, matrix := [1, 2] } : Matrix Int)).start.1 =
      Except.ok { rows := 2, columns := 1, matrix := [8, 9] } ∧
    (∃ result : Matrix Int,
      (transpose_on_host (fun _ => 0) (fun _ => 0) [8, 9]
        ({ rows := 1, columns := 2, matrix := [1, 2] } : Matrix Int)).start.1 =
        Except.ok result ∧
      result.get_rows = 2 ∧ result.get_columns = 1) ∧
    (transpose (fun _ => 0) (fun _ => 77)
        ({ rows := 3, columns := 2, matrix := [1, 2, 3, 4, 5, 6] } : Matrix Int)).start.1 =
      Except.ok { rows := 2, columns := 3, matrix := [1, 3, 5, 4, 6, 77] } ∧
    (transpose_on_host (fun _ => 0) (fun _ => 77) [8, 9]
        ({ rows := 3, columns := 2, matrix := [1, 2, 3, 4, 5, 6] } : Matrix Int)).start.1 =
      Except.ok { rows := 2, columns := 3, matrix := [1, 3, 5, 4, 6, 77] } :=
  ⟨fun _ _ => rfl, rfl,
   (transpose_swaps_shape (fun _ => 0) (fun _ => 0) [8, 9]
      ({ rows := 1, columns := 2, matrix := [1, 2] } : Matrix Int) (fun _ _ => rfl)).1,
   rfl,
   ((transpose_swaps_shape (fun _ => 0) (fun _ => 77) [8, 9]
      ({ rows := 3, columns := 2, matrix := [1, 2, 3, 4, 5, 6] } : Matrix Int)
      (fun _ _ => rfl)).2 _ rfl).1⟩

/-- C11, evaluation at a failing input: A = [[1, 2], [3, 4], [5, 6]] (3x2) with
fresh memory holding 77. `transpose` returns the 2x3 matrix with the buffer
[1, 3, 5, 4, 6, 77]: the entry (1, 0) is 4 and not A(0, 1) = 2, the last cell
was never written, and offset 2 is written by the two work-items (0, 1) and
(2, 0). On the 2x3
matrix [[1, 2, 3], [4, 5, 6]] the kernel writes outside the output buffer. -/
theorem transpose_is_not_the_transpose :
    (transpose (fun _ => 0) (fun _ => 77)
        ({ rows := 3, columns := 2, matrix := [1, 2, 3, 4, 5, 6] } : Matrix Int)).start.1 =
      Except.ok { rows := 2, columns := 3, matrix := [1, 3, 5, 4, 6, 77] } ∧
    ({ rows := 2, columns := 3, matrix := [1, 3, 5, 4, 6, 77] } : Matrix Int).get_element 1 0 =
      Except.ok 4 ∧
    ({ rows := 3, columns := 2, matrix := [1, 2, 3, 4, 5, 6] } : Matrix Int).get_element 0 1 =
      Except.ok 2 ∧
    parallel_transpose 2 [(1 : Int), 2, 3, 4, 5, 6] [1, 77, 77, 77, 77, 77] 0 1 =
      Except.ok [1, 77, 2, 77, 77, 77] ∧
    parallel_transpose 2 [(1 : Int), 2, 3, 4, 5, 6] [1, 3, 2, 4, 77, 77] 2 0 =
      Except.ok [1, 3, 5, 4, 77, 77] ∧
    (transpose (fun _ => 0) (fun _ => 77)
        ({ rows := 2, columns := 3, matrix := [1, 2, 3, 4, 5, 6] } : Matrix Int)).start.1 =
      Except.error (Failure.undefined Fault.out_of_bounds) := by
  refine ⟨?_, ?_, ?_, ?_, ?_, ?_⟩ <;> rfl

/-! ## The diagonal scalar operators -/

/-- A launch whose work-item `i` stores `h i` in cell `i` fills the buffer with `h`. -/
theorem run_1d_pointwise {α : Type} (n : Nat) (h : Nat → α)
    (item : List α → Nat → Except Fault (List α)) (res0 : List α) (hlen : res0.length = n)
    (hitem : ∀ i, i < n → ∀ res : List α, res.length = n →
      item res i = Except.ok (res.set i (h i))) :
    returns_with (run_1d n item res0)
      (fun res => res.length = n ∧ ∀ p, p < n → res[p]? = some (h p)) := by
  unfold run_1d
  have key := returns_with_for_range
    (fun i (res : List α) => res.length = n ∧ ∀ p, p < i → res[p]? = some (h p)) n
    (fun i res => item res i) res0 ⟨hlen, fun p hp => by omega⟩ (by
      intro i hi res hres
      obtain ⟨hl, hv⟩ := hres
      beta_reduce
      rw [hitem i hi res hl]
      refine ⟨_, rfl, by simp only [List.length_set]; exact hl, ?_⟩
      intro p hp
      simp only [List.getElem?_set]
      by_cases hpe : i = p
      · rw [if_pos hpe, if_pos (by omega), hpe]
      · rw [if_neg hpe]
        exact hv p (by omega))
  obtain ⟨res, hres, hl, hv⟩ := key
  exact ⟨res, hres, hl, hv⟩

/-- The column count converted to `float` and back to `int`. -/
theorem float_to_int_natCast {α : Type} [LinearOrderedRing α] [FloorRing α] (n : Nat) :
    float_to_int ((n : Nat) : α) = (n : Int) := by
  unfold float_to_int
  rw [if_pos (Nat.cast_nonneg n), Int.floor_natCast]

/-- A work-item of a diagonal kernel inside the range, with `width` the number
the kernel finds in `col_size`: cell `i` receives `a[i]`, combined with the
scalar when `i / width = i % width`. -/
theorem diagonal_kernel_item {α : Type} [LinearOrderedRing α] [FloorRing α] (f : α → α → α)
    (a results : List α) (s : α) (width i : Nat) (hwidth : 1 ≤ width) (hi : i < 2 ^ 31)
    (ha : i < a.length) (hres : i < results.length) :
    diagonal_kernel f a [s] [((width : Nat) : α)] results i =
      Except.ok (results.set i
        (if i / width = i % width then f (a.getD i 0) s else a.getD i 0)) := by
  have hc0 : ((width : Nat) : Int) ≠ 0 := by
    have : (0 : Int) < (width : Int) := by exact_mod_cast hwidth
    omega
  have hread : read [((width : Nat) : α)] 0 = Except.ok ((width : Nat) : α) := rfl
  have hs : read [s] 0 = Except.ok s := rfl
  have hget : a.getD i 0 = a.get ⟨i, ha⟩ := by
    rw [List.getD_eq_getElem _ _ ha]; rfl
  unfold diagonal_kernel
  simp only [int_of_size_small i hi, hread, hs, bind, Except.bind, float_to_int_natCast,
    int_div, int_rem, if_neg hc0, read_natCast a i ha, write_natCast results i _ hres,
    ← Int.ofNat_tdiv, ← Int.ofNat_tmod, Nat.cast_inj]
  by_cases hd : i / width = i % width
  · have hres' : i < (results.set i (a.get ⟨i, ha⟩)).length := by
      simp only [List.length_set]; exact hres
    rw [if_pos hd, if_pos hd, read_natCast _ i hres']
    simp only
    rw [write_natCast _ i _ hres', hget]
    simp [List.set_set]
  · rw [if_neg hd, if_neg hd, hget]
    rfl

/-- When the OpenCL calls up to the read-back succeed, a diagonal operator
returns the buffer its kernel computed under the shape of `first`, or ends in
the fault of the kernel. The kernel receives the column count as the `float`
holds it. -/
theorem diagonal_operator_exec {α : Type} [LinearOrderedRing α]
    (kernel : List α → List α → List α → List α → Nat → Except Fault (List α))
    (cl : Nat → Int) (junk : Nat → α) (first : Matrix α) (second : α)
    (hcl : ∀ k, k < 14 → cl k = 0) :
    (diagonal_operator kernel cl junk first second).start.1 =
      match run_1d (first.columns * first.rows)
          (kernel first.matrix [second] [((float_of_size first.columns : Nat) : α)])
          (uninitialised junk (first.rows * first.columns)) with
      | Except.ok out =>
        Except.ok { rows := first.rows, columns := first.columns, matrix := out }
      | Except.error f => Except.error (Failure.undefined f) := by
  unfold diagonal_operator Run.start
  rw [exec_abort_on_status]
  cases hk : run_1d (first.columns * first.rows)
      (kernel first.matrix [second] [((float_of_size first.columns : Nat) : α)])
      (uninitialised junk (first.rows * first.columns)) with
  | ok out =>
    simp [exec_bind, exec_new_float, exec_get_memory_buffer, exec_enqueue_write,
      exec_set_argument, exec_launch, exec_synchronize, exec_release, exec_map,
      exec_read_buffer, hcl, hk, exec_pure, Matrix.set_matrix, Matrix.get_columns]
  | error f =>
    simp [exec_bind, exec_new_float, exec_get_memory_buffer, exec_enqueue_write,
      exec_set_argument, exec_launch, hcl, hk, Matrix.get_columns]

/-- A diagonal operator on a matrix that satisfies the invariant and has fewer
than `2^31` elements returns a matrix of the same shape. With `width` the
column count as a `float` holds it, the entry at the row-major offset `p` is
the entry of `first`, combined with the scalar by `f` exactly when
`p / width = p % width`. -/
theorem diagonal_operator_returns {α : Type} [LinearOrderedRing α] [FloorRing α]
    (f : α → α → α) (cl : Nat → Int) (junk : Nat → α) (first : Matrix α) (second : α)
    (hfirst : first.wf) (hsize : first.rows * first.columns < 2 ^ 31)
    (hcl : ∀ k, k < 14 → cl k = 0) :
    ∃ result : Matrix α,
      (diagonal_operator (diagonal_kernel f) cl junk first second).start.1 =
        Except.ok result ∧
      result.rows = first.rows ∧ result.columns = first.columns ∧
      ∀ r c, r < first.rows → c < first.columns →
        ∃ x : α, first.get_element r c = Except.ok x ∧
          result.get_element r c = Except.ok
            (if (r * first.columns + c) / float_of_size first.columns =
                (r * first.columns + c) % float_of_size first.columns
              then f x second else x) := by
  obtain ⟨h1, h2, h3⟩ := hfirst
  have hn : first.columns * first.rows = first.rows * first.columns := Nat.mul_comm _ _
  obtain ⟨out, hout, hl, hv⟩ := run_1d_pointwise (first.columns * first.rows)
    (fun i => if i / float_of_size first.columns = i % float_of_size first.columns
      then f (first.matrix.getD i 0) second else first.matrix.getD i 0)
    (diagonal_kernel f first.matrix [second] [((float_of_size first.columns : Nat) : α)])
    (uninitialised junk (first.rows * first.columns))
    (by rw [length_uninitialised, hn])
    (fun i hi res hres =>
      diagonal_kernel_item f first.matrix res second (float_of_size first.columns) i
        (float_of_size_pos _ h2) (by omega)
        (by rw [h3, ← hn]; exact hi) (by rw [hres]; exact hi))
  refine ⟨{ rows := first.rows, columns := first.columns, matrix := out }, ?_, rfl, rfl, ?_⟩
  · rw [diagonal_operator_exec _ cl junk first second hcl, hout]
  · intro r c hr hc
    have hidx : r * first.columns + c < first.rows * first.columns := offset_lt hr hc
    have hidx' : r * first.columns + c < first.matrix.length := by rw [h3]; exact hidx
    refine ⟨first.matrix.getD (r * first.columns + c) 0, ?_, ?_⟩
    · apply get_element_eq
      rw [List.getD_eq_getElem _ _ hidx', List.getElem?_eq_getElem hidx']
    · apply get_element_eq
      show out[r * first.columns + c]? = _
      rw [hv _ (by rw [hn]; exact hidx)]

/-- A diagonal operator on a matrix whose column count a `float` holds exactly
(at most `2^24` columns): the entry `(r, c)` of the result is the entry of
`first`, combined with the scalar by `f` exactly when `r = c`. -/
theorem diagonal_operator_exact {α : Type} [LinearOrderedRing α] [FloorRing α]
    (f : α → α → α) (cl : Nat → Int) (junk : Nat → α) (first : Matrix α) (second : α)
    (hfirst : first.wf) (hsize : first.rows * first.columns < 2 ^ 31)
    (hcolumns : first.columns ≤ 2 ^ 24) (hcl : ∀ k, k < 14 → cl k = 0) :
    ∃ result : Matrix α,
      (diagonal_operator (diagonal_kernel f) cl junk first second).start.1 =
        Except.ok result ∧
      result.rows = first.rows ∧ result.columns = first.columns ∧
      ∀ r c, r < first.rows → c < first.columns →
        ∃ x : α, first.get_element r c = Except.ok x ∧
          result.get_element r c = Except.ok (if r = c then f x second else x) := by
  obtain ⟨result, h, hr, hc, hv⟩ :=
    diagonal_operator_returns f cl junk first second hfirst hsize hcl
  refine ⟨result, h, hr, hc, ?_⟩
  intro r c hr' hc'
  obtain ⟨x, hx, hres⟩ := hv r c hr' hc'
  refine ⟨x, hx, ?_⟩
  rw [hres, float_of_size_exact_le _ hcolumns, (offset_div_mod hc').1, (offset_div_mod hc').2]

/-- A diagonal operator on a matrix of 16777217 columns and at least two rows:
the `float` holds the column count as 16777216, so the kernel combines the
scalar with the entry `(1, 0)` and leaves the diagonal entry `(1, 1)` as it is. -/
theorem diagonal_operator_rounded {α : Type} [LinearOrderedRing α] [FloorRing α]
    (f : α → α → α) (cl : Nat → Int) (junk : Nat → α) (first : Matrix α) (second : α)
    (hfirst : first.wf) (hsize : first.rows * first.columns < 2 ^ 31)
    (hcolumns : first.columns = 16777217) (hrows : 2 ≤ first.rows)
    (hcl : ∀ k, k < 14 → cl k = 0) :
    ∃ (result : Matrix α) (x y : α),
      (diagonal_operator (diagonal_kernel f) cl junk first second).start.1 =
        Except.ok result ∧
      first.get_element 1 0 = Except.ok x ∧ first.get_element 1 1 = Except.ok y ∧
      result.get_element 1 0 = Except.ok (f x second) ∧
      result.get_element 1 1 = Except.ok y := by
  obtain ⟨result, h, -, -, hv⟩ :=
    diagonal_operator_returns f cl junk first second hfirst hsize hcl
  obtain ⟨x, hx, hresx⟩ := hv 1 0 (by omega) (by omega)
  obtain ⟨y, hy, hresy⟩ := hv 1 1 (by omega) (by omega)
  have hw : float_of_size 16777217 = 16777216 := by decide
  refine ⟨result, x, y, h, hx, hy, ?_, ?_⟩
  · rw [hresx, hcolumns, hw, if_pos (by decide)]
  · rw [hresy, hcolumns, hw, if_neg (by decide)]

/-- C13: for a matrix A that satisfies the invariant and has fewer than `2^31`
elements, and every scalar s, when the OpenCL calls up to the read-back succeed:
if A has at most `2^24` columns (square or not), `operator+(A, s)` and
`operator-(A, s)` return a matrix of A's shape with `A(i, i) + s` (respectively
`- s`) on the diagonal and `A(r, c)` everywhere else; if A has 16777217 columns
and at least two rows, they return a matrix whose entry `(1, 0)` is
`A(1, 0) + s` (respectively `- s`) and whose diagonal entry `(1, 1)` is
`A(1, 1)`, unchanged. -/
theorem scalar_add_subtract_on_diagonal {α : Type} [LinearOrderedRing α] [FloorRing α]
    (cl : Nat → Int) (junk : Nat → α) (A : Matrix α) (s : α)
    (hA : A.wf) (hsize : A.get_rows * A.get_columns < 2 ^ 31)
    (hcl : ∀ k, k < 14 → cl k = 0) :
    (A.get_columns ≤ 2 ^ 24 →
      (∃ result : Matrix α, (operator_add_scalar cl junk A s).start.1 = Except.ok result ∧
        result.get_rows = A.get_rows ∧ result.get_columns = A.get_columns ∧
        (∀ i, i < min A.get_rows A.get_columns →
          ∃ x : α, A.get_element i i = Except.ok x ∧
            result.get_element i i = Except.ok (x + s)) ∧
        (∀ r c, r < A.get_rows → c < A.get_columns → r ≠ c →
          ∃ x : α, A.get_element r c = Except.ok x ∧
            result.get_element r c = Except.ok x)) ∧
      (∃ result : Matrix α,
        (operator_subtract_scalar cl junk A s).start.1 = Except.ok result ∧
        result.get_rows = A.get_rows ∧ result.get_columns = A.get_columns ∧
        (∀ i, i < min A.get_rows A.get_columns →
          ∃ x : α, A.get_element i i = Except.ok x ∧
            result.get_element i i = Except.ok (x - s)) ∧
        (∀ r c, r < A.get_rows → c < A.get_columns → r ≠ c →
          ∃ x : α, A.get_element r c = Except.ok x ∧
            result.get_element r c = Except.ok x))) ∧
    (A.get_columns = 16777217 → 2 ≤ A.get_rows →
      (∃ (result : Matrix α) (x y : α),
        (operator_add_scalar cl junk A s).start.1 = Except.ok result ∧
        A.get_element 1 0 = Except.ok x ∧ A.get_element 1 1 = Except.ok y ∧
        result.get_element 1 0 = Except.ok (x + s) ∧
        result.get_element 1 1 = Except.ok y) ∧
      (∃ (result : Matrix α) (x y : α),
        (operator_subtract_scalar cl junk A s).start.1 = Except.ok result ∧
        A.get_element 1 0 = Except.ok x ∧ A.get_element 1 1 = Except.ok y ∧
        result.get_element 1 0 = Except.ok (x - s) ∧
        result.get_element 1 1 = Except.ok y)) := by
  refine ⟨fun hcolumns => ⟨?_, ?_⟩, fun hcolumns hrows =>
    ⟨diagonal_operator_rounded (fun y s => y + s) cl junk A s hA hsize hcolumns hrows hcl,
     diagonal_operator_rounded (fun y s => y - s) cl junk A s hA hsize hcolumns hrows hcl⟩⟩
  · obtain ⟨result, h, hr, hc, hv⟩ :=
      diagonal_operator_exact (fun y s => y + s) cl junk A s hA hsize hcolumns hcl
    refine ⟨result, h, hr, hc, ?_, ?_⟩
    · intro i hi
      have hi' : i < A.rows ∧ i < A.columns := by
        unfold Matrix.get_rows Matrix.get_columns at hi
        omega
      obtain ⟨x, hx, hres⟩ := hv i i hi'.1 hi'.2
      exact ⟨x, hx, by rw [hres, if_pos rfl]⟩
    · intro r c hr' hc' hne
      obtain ⟨x, hx, hres⟩ := hv r c hr' hc'
      exact ⟨x, hx, by rw [hres, if_neg hne]⟩
  · obtain ⟨result, h, hr, hc, hv⟩ :=
      diagonal_operator_exact (fun y s => y - s) cl junk A s hA hsize hcolumns hcl
    refine ⟨result, h, hr, hc, ?_, ?_⟩
    · intro i hi
      have hi' : i < A.rows ∧ i < A.columns := by
        unfold Matrix.get_rows Matrix.get_columns at hi
        omega
      obtain ⟨x, hx, hres⟩ := hv i i hi'.1 hi'.2
      exact ⟨x, hx, by rw [hres, if_pos rfl]⟩
    · intro r c hr' hc' hne
      obtain ⟨x, hx, hres⟩ := hv r c hr' hc'
      exact ⟨x, hx, by rw [hres, if_neg hne]⟩

/-- C13 at two inputs. At the 2x3 matrix [[1, 2, 3], [4, 5, 6]] and the scalar
10 the sum is [[11, 2, 3], [4, 15, 6]]. At the 2x16777217 matrix of zeros and
the scalar 1 the sum has `0 + 1` at `(1, 0)` and keeps the diagonal entry
`(1, 1)`. -/
theorem scalar_add_subtract_on_diagonal_witness :
    (({ rows := 2, columns := 3, matrix := [1, 2, 3, 4, 5, 6] } : Matrix Int).wf ∧
      (∀ k, k < 14 → (fun _ : Nat => (0 : Int)) k = 0)) ∧
    (operator_add_scalar (fun _ => 0) (fun _ => 0)
        ({ rows := 2, columns := 3, matrix := [1, 2, 3, 4, 5, 6] } : Matrix Int) 10).start.1 =
      Except.ok { rows := 2, columns := 3, matrix := [11, 2, 3, 4, 15, 6] } ∧
    (∃ result : Matrix Int,
      (operator_add_scalar (fun _ => 0) (fun _ => 0)
        ({ rows := 2, columns := 3, matrix := [1, 2, 3, 4, 5, 6] } : Matrix Int) 10).start.1 =
        Except.ok result ∧
      result.get_rows = 2 ∧ result.get_columns = 3) ∧
    ({ rows := 2, columns := 16777217,
        matrix := List.replicate 33554434 0 } : Matrix Int).wf ∧
    ∃ (result : Matrix Int) (x y : Int),
      (operator_add_scalar (fun _ => 0) (fun _ => 0)
        ({ rows := 2, columns := 16777217,
            matrix := List.replicate 33554434 0 } : Matrix Int) 1).start.1 =
        Except.ok result ∧
      ({ rows := 2, columns := 16777217,
          matrix := List.replicate 33554434 0 } : Matrix Int).get_element 1 0 =
        Except.ok x ∧
      ({ rows := 2, columns := 16777217,
          matrix := List.replicate 33554434 0 } : Matrix Int).get_element 1 1 =
        Except.ok y ∧
      result.get_element 1 0 = Except.ok (x + 1) ∧
      result.get_element 1 1 = Except.ok y :=
  ⟨⟨⟨by decide, by decide, rfl⟩, fun _ _ => rfl⟩, rfl,
   by
    obtain ⟨result, h, hr, hc, -⟩ := ((scalar_add_subtract_on_diagonal (fun _ => 0)
      (fun _ => 0) ({ rows := 2, columns := 3, matrix := [1, 2, 3, 4, 5, 6] } : Matrix Int) 10
      ⟨by decide, by decide, rfl⟩ (by decide) (fun _ _ => rfl)).1 (by decide)).1
    exact ⟨result, h, hr, hc⟩,
   ⟨by decide, by decide, List.length_replicate _ _⟩,
   ((scalar_add_subtract_on_diagonal (fun _ => 0) (fun _ => 0)
      ({ rows := 2, columns := 16777217,
          matrix := List.replicate 33554434 0 } : Matrix Int) 1
      ⟨by decide, by decide, List.length_replicate _ _⟩ (by decide) (fun _ _ => rfl)).2
      rfl (by decide)).1⟩

/-! ## The eigen solver: the loops in closed form -/

/-- Two column vectors with the same components are the same matrix. -/
theorem column_vector_congr {α : Type} (n : Nat) (g h : Nat → α)
    (hgh : ∀ i, i < n → g i = h i) : column_vector n g = column_vector n h := by
  unfold column_vector
  congr 1
  apply List.map_congr_left
  intro i hi
  exact hgh i (List.mem_range.mp hi)

/-- Reading row `i` of a column vector. -/
theorem column_vector_get {α : Type} (n : Nat) (g : Nat → α) (i : Nat) (hi : i < n) :
    (column_vector n g).get_element i 0 = Except.ok (g i) := by
  apply get_element_eq
  show ((List.range n).map g)[i * 1 + 0]? = some (g i)
  simp [hi]

/-- A matrix with one column and `n` cells that hold `g` is the column vector of `g`. -/
theorem eq_column_vector {α : Type} (n : Nat) (g : Nat → α) (m : Matrix α)
    (hr : m.rows = n) (hc : m.columns = 1) (hl : m.matrix.length = n)
    (hv : ∀ p, p < n → m.matrix[p]? = some (g p)) : m = column_vector n g := by
  cases m with
  | mk columns rows matrix =>
    simp only at hr hc hl hv
    subst hr hc
    unfold column_vector
    congr 1
    apply List.ext_getElem?
    intro p
    by_cases hp : p < rows
    · rw [hv p hp]
      simp [hp]
    · rw [List.getElem?_eq_none (by omega), List.getElem?_eq_none (by simp; omega)]

/-- A loop over the rows of a column vector whose iteration `i` stores `h i` in
row `i`, as long as the rows from `i` on still hold what they held at entry,
returns the column vector of `h`. -/
theorem column_fill {α : Type} (n : Nat) (g h : Nat → α)
    (body : Nat → Matrix α → Except Fault (Matrix α))
    (hbody : ∀ i, i < n → ∀ m : Matrix α, m.rows = n → m.columns = 1 → m.matrix.length = n →
      (∀ p, i ≤ p → p < n → m.matrix[p]? = some (g p)) →
      body i m = m.set_element i 0 (h i)) :
    for_range n body (column_vector n g) = Except.ok (column_vector n h) := by
  obtain ⟨m, hm, hr, hc, hl, hdone, -⟩ := returns_with_for_range
    (fun i (m : Matrix α) => m.rows = n ∧ m.columns = 1 ∧ m.matrix.length = n ∧
      (∀ p, p < i → m.matrix[p]? = some (h p)) ∧
      (∀ p, i ≤ p → p < n → m.matrix[p]? = some (g p))) n body (column_vector n g)
    ⟨rfl, rfl, by simp [column_vector], fun p hp => by omega,
      fun p _ hp => by simp [column_vector, hp]⟩ (by
      intro i hi m hm
      obtain ⟨hr, hc, hl, hdone, hrest⟩ := hm
      have hidx : i * m.columns + 0 < m.matrix.length := by rw [hc, hl]; omega
      rw [hbody i hi m hr hc hl hrest, set_element_eq m i 0 (h i) hidx]
      refine ⟨_, rfl, hr, hc, by simp only [List.length_set]; exact hl, ?_, ?_⟩
      · intro p hp
        simp only [hc, List.getElem?_set, Nat.mul_one, Nat.add_zero]
        by_cases hpe : i = p
        · rw [if_pos hpe, if_pos (by omega), hpe]
        · rw [if_neg hpe]
          exact hdone p (by omega)
      · intro p hp hpn
        simp only [hc, List.getElem?_set, Nat.mul_one, Nat.add_zero]
        rw [if_neg (by omega)]
        exact hrest p (by omega) hpn)
  rw [hm, eq_column_vector n h m hr hc hl (fun p hp => hdone p hp)]

/-- Sequencing after a step that returned. -/
theorem ok_bind {σ τ : Type} (a : σ) (f : σ → Except Fault τ) :
    (Except.ok a >>= f) = f a := rfl

/-- Sequencing after a step that faulted. -/
theorem error_bind {σ τ : Type} (e : Fault) (f : σ → Except Fault τ) :
    ((Except.error e : Except Fault σ) >>= f) = Except.error e := rfl

/-- The inner loop of the multiplication: the sum over `j` of
`matrix(i, j) * initialGuess(j, 0)`. -/
theorem dot_row {α : Type} [LinearOrderedField α] (matrix : Matrix α) (g : Nat → α) (i : Nat)
    (hsquare : matrix.columns = matrix.rows)
    (hlen : matrix.matrix.length = matrix.rows * matrix.columns) (hi : i < matrix.rows) :
    for_range matrix.get_rows (fun j temp => do
      let x ← matrix.get_element i j
      let y ← (column_vector matrix.rows g).get_element j 0
      pure (temp + x * y)) (0 : α) = Except.ok (product_vector matrix g i) := by
  obtain ⟨t, ht, hsum⟩ := returns_with_for_range
    (fun k (temp : α) => temp = Finset.sum (Finset.range k)
      (fun j => matrix.matrix.getD (i * matrix.columns + j) 0 * g j)) matrix.get_rows
    (fun j temp => do
      let x ← matrix.get_element i j
      let y ← (column_vector matrix.rows g).get_element j 0
      pure (temp + x * y)) (0 : α) (by simp) (by
      intro j hj temp htemp
      have hj' : j < matrix.rows := hj
      have hidx : i * matrix.columns + j < matrix.matrix.length := by
        rw [hlen]; exact offset_lt hi (by omega)
      have hx : matrix.get_element i j =
          Except.ok (matrix.matrix.getD (i * matrix.columns + j) 0) := by
        apply get_element_eq
        rw [List.getD_eq_getElem _ _ hidx, List.getElem?_eq_getElem hidx]
      beta_reduce
      rw [hx, column_vector_get _ _ _ hj']
      refine ⟨_, rfl, ?_⟩
      rw [Finset.sum_range_succ, htemp])
  rw [ht, hsum]
  rfl

/-- The multiplication loop on column vectors. -/
theorem multiply_step_eq {α : Type} [LinearOrderedField α] (matrix : Matrix α)
    (g s : Nat → α) (hsquare : matrix.columns = matrix.rows)
    (hlen : matrix.matrix.length = matrix.rows * matrix.columns) :
    multiply_step matrix (column_vector matrix.rows g) (column_vector matrix.rows s) =
      Except.ok (column_vector matrix.rows (product_vector matrix g)) := by
  unfold multiply_step
  apply column_fill matrix.rows s (product_vector matrix g)
  intro i hi m _ _ _ _
  beta_reduce
  rw [dot_row matrix g i hsquare hlen hi]
  rfl

/-- The copy loop on column vectors. -/
theorem copy_step_eq {α : Type} (matrix : Matrix α) (g v : Nat → α) :
    copy_step matrix (column_vector matrix.rows g) (column_vector matrix.rows v) =
      Except.ok (column_vector matrix.rows v) := by
  unfold copy_step
  apply column_fill matrix.rows g v
  intro i hi m _ _ _ _
  beta_reduce
  rw [column_vector_get _ _ _ hi]
  rfl

/-- The loop that finds the largest absolute component. -/
theorem largest_step_eq {α : Type} [LinearOrderedField α] (matrix : Matrix α) (v : Nat → α)
    (hrows : 1 ≤ matrix.rows) :
    largest_step matrix (column_vector matrix.rows v) =
      Except.ok (running_max v (matrix.rows - 1)) := by
  unfold largest_step
  rw [column_vector_get _ _ _ hrows, ok_bind]
  obtain ⟨l, hl, hmax⟩ := returns_with_for_range
    (fun k (l : α) => l = running_max v k) (matrix.get_rows - 1)
    (fun k lambda_new => do
      let x ← (column_vector matrix.rows v).get_element (k + 1) 0
      if |x| > lambda_new then pure |x| else pure lambda_new) |v 0| rfl (by
      intro k hk l hl
      have hk' : k + 1 < matrix.rows := by
        have : k < matrix.rows - 1 := hk
        omega
      beta_reduce
      rw [column_vector_get _ _ _ hk', hl, ok_bind]
      by_cases hgt : |v (k + 1)| > running_max v k
      · rw [if_pos hgt]
        exact ⟨_, rfl, by rw [running_max, if_pos hgt]⟩
      · rw [if_neg hgt]
        exact ⟨_, rfl, by rw [running_max, if_neg hgt]⟩)
  rw [hl, hmax]
  rfl

/-- The normalization loop on a column vector, for a non-zero estimate. -/
theorem normalize_step_eq {α : Type} [LinearOrderedField α] (matrix : Matrix α) (v : Nat → α)
    (l : α) (hl : l ≠ 0) :
    normalize_step matrix (column_vector matrix.rows v) l =
      Except.ok (column_vector matrix.rows (fun i => v i / l)) := by
  unfold normalize_step
  apply column_fill matrix.rows v (fun i => v i / l)
  intro i hi m _ hc _ hrest
  have hget : m.get_element i 0 = Except.ok (v i) := by
    apply get_element_eq
    rw [hc, Nat.mul_one, Nat.add_zero]
    exact hrest i (Nat.le_refl i) hi
  rw [hget, ok_bind]
  simp only [float_div, if_neg hl]
  rfl

/-- The normalization loop with the estimate 0: the first division is by zero. -/
theorem normalize_step_zero {α : Type} [LinearOrderedField α] (matrix : Matrix α)
    (v : Nat → α) (hrows : 1 ≤ matrix.rows) :
    normalize_step matrix (column_vector matrix.rows v) 0 =
      Except.error Fault.division_by_zero := by
  unfold normalize_step
  obtain ⟨n, hn⟩ : ∃ n, matrix.get_rows = n + 1 := ⟨matrix.rows - 1, by
    unfold Matrix.get_rows; omega⟩
  rw [hn, for_range_succ_left]
  have hget : (column_vector matrix.rows v).get_element 0 0 = Except.ok (v 0) :=
    column_vector_get _ _ _ hrows
  rw [hget, ok_bind]
  simp only [float_div, if_pos]
  rfl

/-- One pass of the power iteration on column vectors: it divides by zero when
the largest absolute component of the product is 0, and otherwise returns that
component and the normalized product. -/
theorem power_iteration_eq {α : Type} [LinearOrderedField α] (matrix : Matrix α)
    (g s : Nat → α) (hsquare : matrix.columns = matrix.rows)
    (hlen : matrix.matrix.length = matrix.rows * matrix.columns) (hrows : 1 ≤ matrix.rows) :
    power_iteration matrix (column_vector matrix.rows g) (column_vector matrix.rows s) =
      if running_max (product_vector matrix g) (matrix.rows - 1) = 0 then
        Except.error Fault.division_by_zero
      else
        Except.ok (running_max (product_vector matrix g) (matrix.rows - 1),
          column_vector matrix.rows (fun i => product_vector matrix g i /
            running_max (product_vector matrix g) (matrix.rows - 1)),
          column_vector matrix.rows (product_vector matrix g)) := by
  unfold power_iteration
  rw [multiply_step_eq matrix g s hsquare hlen, ok_bind, copy_step_eq, ok_bind,
    largest_step_eq matrix _ hrows, ok_bind]
  by_cases h0 : running_max (product_vector matrix g) (matrix.rows - 1) = 0
  · rw [if_pos h0, h0, normalize_step_zero matrix _ hrows]
    rfl
  · rw [if_neg h0, normalize_step_eq matrix _ _ h0]
    rfl

/-! ## The eigen solver: the backward jump -/

/-- One unfolding of the loop of `dominant_eigen` from the state after `k`
passes. -/
theorem eigen_loop_succ {α : Type} [LinearOrderedField α] (matrix : Matrix α) (tol : α)
    (fuel k : Nat) (s : Nat → α) (hsquare : matrix.columns = matrix.rows)
    (hlen : matrix.matrix.length = matrix.rows * matrix.columns) (hrows : 1 ≤ matrix.rows) :
    eigen_loop matrix tol (fuel + 1) (column_vector matrix.rows (normalized matrix k))
        (column_vector matrix.rows s) (estimate matrix k) k =
      if estimate matrix (k + 1) = 0 then Except.error Fault.division_by_zero
      else if |estimate matrix (k + 1) - estimate matrix k| > tol then
        eigen_loop matrix tol fuel (column_vector matrix.rows (normalized matrix (k + 1)))
          (column_vector matrix.rows (product_vector matrix (normalized matrix k)))
          (estimate matrix (k + 1)) (k + 1)
      else
        Except.ok (estimate matrix (k + 1),
          column_vector matrix.rows (normalized matrix (k + 1)), k + 1) := by
  have he : estimate matrix (k + 1) =
      running_max (product_vector matrix (normalized matrix k)) (matrix.rows - 1) := rfl
  have hn : normalized matrix (k + 1) = fun i =>
      product_vector matrix (normalized matrix k) i / estimate matrix (k + 1) := rfl
  rw [eigen_loop, power_iteration_eq matrix _ s hsquare hlen hrows, ← he, ← hn]
  by_cases h0 : estimate matrix (k + 1) = 0
  · rw [if_pos h0, if_pos h0]
    rfl
  · rw [if_neg h0, if_neg h0, ok_bind]
    rfl

/-- What a return of the loop means: it returns at the first pass `N` whose
estimate is within the tolerance of the previous one, with the estimate and the
normalized vector of that pass; no estimate up to there is 0. -/
theorem eigen_loop_returned {α : Type} [LinearOrderedField α] (matrix : Matrix α) (tol : α)
    (hsquare : matrix.columns = matrix.rows)
    (hlen : matrix.matrix.length = matrix.rows * matrix.columns) (hrows : 1 ≤ matrix.rows) :
    ∀ (fuel k : Nat) (s : Nat → α) (l : α) (g : Matrix α) (N : Nat),
      eigen_loop matrix tol fuel (column_vector matrix.rows (normalized matrix k))
        (column_vector matrix.rows s) (estimate matrix k) k = Except.ok (l, g, N) →
      k < N ∧ N ≤ k + fuel ∧ l = estimate matrix N ∧
      g = column_vector matrix.rows (normalized matrix N) ∧
      (∀ i, k < i → i ≤ N → estimate matrix i ≠ 0) ∧
      |estimate matrix N - estimate matrix (N - 1)| ≤ tol ∧
      (∀ i, k < i → i < N → |estimate matrix i - estimate matrix (i - 1)| > tol) := by
  intro fuel
  induction fuel with
  | zero =>
    intro k s l g N h
    rw [eigen_loop] at h
    cases h
  | succ fuel ih =>
    intro k s l g N h
    rw [eigen_loop_succ matrix tol fuel k s hsquare hlen hrows] at h
    by_cases h0 : estimate matrix (k + 1) = 0
    · rw [if_pos h0] at h
      cases h
    · rw [if_neg h0] at h
      by_cases hgt : |estimate matrix (k + 1) - estimate matrix k| > tol
      · rw [if_pos hgt] at h
        obtain ⟨h1, h2, h3, h4, h5, h6, h7⟩ := ih (k + 1) _ l g N h
        refine ⟨by omega, by omega, h3, h4, ?_, h6, ?_⟩
        · intro i hi hiN
          by_cases hik : i = k + 1
          · rw [hik]; exact h0
          · exact h5 i (by omega) hiN
        · intro i hi hiN
          by_cases hik : i = k + 1
          · rw [hik]; exact hgt
          · exact h7 i (by omega) hiN
      · rw [if_neg hgt] at h
        have hl : l = estimate matrix (k + 1) := (congrArg Prod.fst (Except.ok.inj h)).symm
        have hg : g = column_vector matrix.rows (normalized matrix (k + 1)) :=
          (congrArg (fun x => x.2.1) (Except.ok.inj h)).symm
        have hN : N = k + 1 := (congrArg (fun x => x.2.2) (Except.ok.inj h)).symm
        subst hN
        refine ⟨by omega, by omega, hl, hg, ?_, ?_, ?_⟩
        · intro i hi hiN
          have : i = k + 1 := by omega
          rw [this]; exact h0
        · exact not_lt.mp hgt
        · intro i hi hiN
          omega

/-- When the loop returns: if pass `k + d + 1` is the first after `k` whose
estimate is within the tolerance of the previous one, no estimate up to there
is 0 and the budget covers `d + 1` passes, the loop returns at that pass. -/
theorem eigen_loop_returns {α : Type} [LinearOrderedField α] (matrix : Matrix α) (tol : α)
    (hsquare : matrix.columns = matrix.rows)
    (hlen : matrix.matrix.length = matrix.rows * matrix.columns) (hrows : 1 ≤ matrix.rows) :
    ∀ (d fuel k : Nat) (s : Nat → α), d + 1 ≤ fuel →
      (∀ i, k < i → i ≤ k + d + 1 → estimate matrix i ≠ 0) →
      (∀ i, k < i → i < k + d + 1 → |estimate matrix i - estimate matrix (i - 1)| > tol) →
      |estimate matrix (k + d + 1) - estimate matrix (k + d)| ≤ tol →
      eigen_loop matrix tol fuel (column_vector matrix.rows (normalized matrix k))
        (column_vector matrix.rows s) (estimate matrix k) k =
        Except.ok (estimate matrix (k + d + 1),
          column_vector matrix.rows (normalized matrix (k + d + 1)), k + d + 1) := by
  intro d
  induction d with
  | zero =>
    intro fuel k s hfuel hne _ hle
    obtain ⟨f, rfl⟩ : ∃ f, fuel = f + 1 := ⟨fuel - 1, by omega⟩
    simp only [Nat.add_zero] at hle ⊢
    rw [eigen_loop_succ matrix tol f k s hsquare hlen hrows,
      if_neg (hne (k + 1) (by omega) (by omega)), if_neg (not_lt.mpr hle)]
  | succ d ih =>
    intro fuel k s hfuel hne hgt hle
    obtain ⟨f, rfl⟩ : ∃ f, fuel = f + 1 := ⟨fuel - 1, by omega⟩
    have h1 := hgt (k + 1) (by omega) (by omega)
    rw [Nat.add_sub_cancel] at h1
    rw [eigen_loop_succ matrix tol f k s hsquare hlen hrows,
      if_neg (hne (k + 1) (by omega) (by omega)), if_pos h1]
    have key := ih f (k + 1) (product_vector matrix (normalized matrix k)) (by omega)
      (fun i hi hiN => hne i (by omega) (by omega))
      (fun i hi hiN => hgt i (by omega) (by omega))
      (by
        have e1 : k + 1 + d + 1 = k + (d + 1) + 1 := by omega
        have e2 : k + 1 + d = k + (d + 1) := by omega
        rw [e1, e2]; exact hle)
    have e1 : k + 1 + d + 1 = k + (d + 1) + 1 := by omega
    rw [e1] at key
    exact key

/-- On a square matrix `dominant_eigen` is its loop, started from the vector of
ones with `lambda_old = 1`. -/
theorem dominant_eigen_square {α : Type} [LinearOrderedField α] (fuel : Nat) (junk : Nat → α)
    (matrix eigen_vector : Matrix α) (tol : α) (hsquare : matrix.get_rows = matrix.get_columns) :
    dominant_eigen fuel junk matrix eigen_vector tol =
      (eigen_loop matrix tol fuel (column_vector matrix.rows (normalized matrix 0))
        (column_vector matrix.rows (fun _ => 0)) (estimate matrix 0) 0) >>= (fun st =>
          pure { value := st.1, eigen_vector := st.2.1, iterations := st.2.2, errors := [] }) := by
  obtain ⟨g, hg, hgr, hgc, hgl, hgv⟩ := ones_returns junk
    ({ rows := matrix.get_rows, columns := 1,
       matrix := uninitialised junk (matrix.get_rows * 1) } : Matrix α) 1
  obtain ⟨z, hz, hzr, hzc, hzl, hzv⟩ := zeroes_returns junk
    ({ rows := matrix.get_rows, columns := 1,
       matrix := uninitialised junk (matrix.get_rows * 1) } : Matrix α)
  have hg' : g = column_vector matrix.rows (normalized matrix 0) :=
    eq_column_vector matrix.rows _ g hgr hgc (by rw [hgl]; exact Nat.mul_one _) (by
      intro p hp
      have := hgv p 0 hp Nat.one_pos
      simpa using this)
  have hz' : z = column_vector matrix.rows (fun _ => 0) :=
    eq_column_vector matrix.rows _ z hzr hzc (by rw [hzl]; exact Nat.mul_one _) (by
      intro p hp
      have := hzv p 0 hp Nat.one_pos
      simpa using this)
  unfold dominant_eigen
  rw [if_neg (not_not.mpr hsquare)]
  dsimp only
  rw [hg, ok_bind, hz, ok_bind]
  simp only [hg', hz']
  rfl

/-- Every absolute component up to `k` is at most the running maximum. -/
theorem le_running_max {α : Type} [LinearOrderedField α] (v : Nat → α) :
    ∀ k i, i ≤ k → |v i| ≤ running_max v k := by
  intro k
  induction k with
  | zero =>
    intro i hi
    have : i = 0 := by omega
    rw [this, running_max]
  | succ k ih =>
    intro i hi
    rw [running_max]
    by_cases hgt : |v (k + 1)| > running_max v k
    · rw [if_pos hgt]
      by_cases hik : i = k + 1
      · rw [hik]
      · exact le_of_lt (lt_of_le_of_lt (ih i (by omega)) hgt)
    · rw [if_neg hgt]
      by_cases hik : i = k + 1
      · rw [hik]; exact not_lt.mp hgt
      · exact ih i (by omega)

/-- The running maximum is one of the absolute components. -/
theorem running_max_attained {α : Type} [LinearOrderedField α] (v : Nat → α) :
    ∀ k, ∃ i, i ≤ k ∧ |v i| = running_max v k := by
  intro k
  induction k with
  | zero => exact ⟨0, Nat.le_refl 0, rfl⟩
  | succ k ih =>
    rw [running_max]
    by_cases hgt : |v (k + 1)| > running_max v k
    · rw [if_pos hgt]
      exact ⟨k + 1, Nat.le_refl _, rfl⟩
    · rw [if_neg hgt]
      obtain ⟨i, hi, hv⟩ := ih
      exact ⟨i, by omega, hv⟩

/-- The running maximum depends on the components up to `k` only. -/
theorem running_max_congr {α : Type} [LinearOrderedField α] (v w : Nat → α) :
    ∀ k, (∀ i, i ≤ k → v i = w i) → running_max v k = running_max w k := by
  intro k
  induction k with
  | zero =>
    intro h
    rw [running_max, running_max, h 0 (Nat.le_refl 0)]
  | succ k ih =>
    intro h
    rw [running_max, running_max, h (k + 1) (Nat.le_refl _),
      ih (fun i hi => h i (by omega))]

/-- A bound of the absolute components that one of them attains is the running
maximum. -/
theorem running_max_eq {α : Type} [LinearOrderedField α] (v : Nat → α) (k : Nat) (L : α)
    (hle : ∀ i, i ≤ k → |v i| ≤ L) (hattained : ∃ i, i ≤ k ∧ |v i| = L) :
    running_max v k = L := by
  obtain ⟨i, hi, hv⟩ := hattained
  obtain ⟨j, hj, hw⟩ := running_max_attained v k
  apply le_antisymm
  · rw [← hw]; exact hle j hj
  · rw [← hv]; exact le_running_max v k i hi

/-- C15: on a matrix whose row count differs from its column count,
`dominant_eigen` returns the sentinel 0 without a pass through its loop
(whatever the budget), reports the error, and leaves `eigen_vector` as it was. -/
theorem dominant_eigen_non_square {α : Type} [LinearOrderedField α] (fuel : Nat)
    (junk : Nat → α) (matrix eigen_vector : Matrix α) (tol : α)
    (hshape : matrix.get_rows ≠ matrix.get_columns) :
    ∃ r : EigenResult α, dominant_eigen fuel junk matrix eigen_vector tol = Except.ok r ∧
      r.value = 0 ∧ r.iterations = 0 ∧ r.eigen_vector = eigen_vector ∧
      r.errors = ["108: ERROR: Eigen values supported only for square matrices.\n"] := by
  unfold dominant_eigen
  rw [if_pos hshape]
  exact ⟨_, rfl, rfl, rfl, rfl, rfl⟩

/-- C15 at a 2x3 matrix, with an empty budget. -/
theorem dominant_eigen_non_square_witness :
    (({ rows := 2, columns := 3, matrix := [1, 2, 3, 4, 5, 6] } : Matrix ℚ).get_rows ≠
      ({ rows := 2, columns := 3, matrix := [1, 2, 3, 4, 5, 6] } : Matrix ℚ).get_columns) ∧
    ∃ r : EigenResult ℚ,
      dominant_eigen 0 (fun _ => 0)
          ({ rows := 2, columns := 3, matrix := [1, 2, 3, 4, 5, 6] } : Matrix ℚ)
          { rows := 1, columns := 1, matrix := [7] } (1 / 10000) = Except.ok r ∧
        r.value = 0 ∧ r.iterations = 0 ∧
        r.eigen_vector = { rows := 1, columns := 1, matrix := [7] } ∧
        r.errors = ["108: ERROR: Eigen values supported only for square matrices.\n"] :=
  ⟨by decide,
   dominant_eigen_non_square 0 (fun _ => 0)
      ({ rows := 2, columns := 3, matrix := [1, 2, 3, 4, 5, 6] } : Matrix ℚ)
      { rows := 1, columns := 1, matrix := [7] } (1 / 10000) (by decide)⟩

/-- What a return of `dominant_eigen` on a square matrix means: it made `N >= 1`
passes, pass `N` is the first whose estimate is within the tolerance of the
previous one, and the result holds the estimate and the normalized vector of
that pass. -/
theorem dominant_eigen_returned {α : Type} [LinearOrderedField α] (fuel : Nat) (junk : Nat → α)
    (matrix eigen_vector : Matrix α) (tol : α) (r : EigenResult α) (hmatrix : matrix.wf)
    (hsquare : matrix.get_rows = matrix.get_columns)
    (h : dominant_eigen fuel junk matrix eigen_vector tol = Except.ok r) :
    1 ≤ r.iterations ∧ r.iterations ≤ fuel ∧ r.value = estimate matrix r.iterations ∧
    r.eigen_vector = column_vector matrix.rows (normalized matrix r.iterations) ∧
    (∀ i, 1 ≤ i → i ≤ r.iterations → estimate matrix i ≠ 0) ∧
    |estimate matrix r.iterations - estimate matrix (r.iterations - 1)| ≤ tol ∧
    (∀ i, 1 ≤ i → i < r.iterations → |estimate matrix i - estimate matrix (i - 1)| > tol) := by
  rw [dominant_eigen_square fuel junk matrix eigen_vector tol hsquare] at h
  cases hloop : eigen_loop matrix tol fuel (column_vector matrix.rows (normalized matrix 0))
      (column_vector matrix.rows (fun _ => 0)) (estimate matrix 0) 0 with
  | error e =>
    rw [hloop] at h
    cases h
  | ok st =>
    rw [hloop, ok_bind] at h
    have hr : r = { value := st.1, eigen_vector := st.2.1, iterations := st.2.2, errors := [] } :=
      (Except.ok.inj h).symm
    obtain ⟨h1, h2, h3, h4, h5, h6, h7⟩ := eigen_loop_returned matrix tol hsquare.symm
      hmatrix.2.2 hmatrix.1 fuel 0 _ st.1 st.2.1 st.2.2 hloop
    have h1' : 1 ≤ st.2.2 := by omega
    have h2' : st.2.2 ≤ fuel := by omega
    have h5' : ∀ i, 1 ≤ i → i ≤ st.2.2 → estimate matrix i ≠ 0 :=
      fun i hi hiN => h5 i (by omega) hiN
    have h7' : ∀ i, 1 ≤ i → i < st.2.2 →
        |estimate matrix i - estimate matrix (i - 1)| > tol :=
      fun i hi hiN => h7 i (by omega) hiN
    subst hr
    exact ⟨h1', h2', h3, h4, h5', h6, h7'⟩

/-- When `dominant_eigen` returns on a square matrix: if pass `N >= 1` is the
first whose estimate is within the tolerance of the previous one, no estimate
up to there is 0 and the budget covers `N` passes, it returns after `N` passes
with the estimate and the normalized vector of pass `N`. -/
theorem dominant_eigen_returns {α : Type} [LinearOrderedField α] (fuel : Nat) (junk : Nat → α)
    (matrix eigen_vector : Matrix α) (tol : α) (N : Nat) (hmatrix : matrix.wf)
    (hsquare : matrix.get_rows = matrix.get_columns) (hN : 1 ≤ N) (hfuel : N ≤ fuel)
    (hne : ∀ i, 1 ≤ i → i ≤ N → estimate matrix i ≠ 0)
    (hgt : ∀ i, 1 ≤ i → i < N → |estimate matrix i - estimate matrix (i - 1)| > tol)
    (hle : |estimate matrix N - estimate matrix (N - 1)| ≤ tol) :
    dominant_eigen fuel junk matrix eigen_vector tol =
      Except.ok { value := estimate matrix N,
                  eigen_vector := column_vector matrix.rows (normalized matrix N),
                  iterations := N, errors := [] } := by
  obtain ⟨d, rfl⟩ : ∃ d, N = 0 + d + 1 := ⟨N - 1, by omega⟩
  rw [dominant_eigen_square fuel junk matrix eigen_vector tol hsquare,
    eigen_loop_returns matrix tol hsquare.symm hmatrix.2.2 hmatrix.1 d fuel 0 _ (by omega)
      (fun i hi hiN => hne i (by omega) hiN) (fun i hi hiN => hgt i (by omega) hiN)
      (by simpa using hle)]
  rfl

/-- C16: when `dominant_eigen` returns on a square `n x n` matrix with a
non-zero estimate, the eigenvector it writes is an `n x 1` matrix whose
components all have absolute value at most 1, and one of them has absolute
value exactly 1. -/
theorem eigen_vector_is_unit_normalized {α : Type} [LinearOrderedField α] (fuel : Nat)
    (junk : Nat → α) (matrix eigen_vector : Matrix α) (tol : α) (r : EigenResult α)
    (hmatrix : matrix.wf) (hsquare : matrix.get_rows = matrix.get_columns)
    (h : dominant_eigen fuel junk matrix eigen_vector tol = Except.ok r)
    (hvalue : r.value ≠ 0) :
    r.eigen_vector.get_rows = matrix.get_rows ∧ r.eigen_vector.get_columns = 1 ∧
    (∀ i, i < matrix.get_rows →
      ∃ x : α, r.eigen_vector.get_element i 0 = Except.ok x ∧ |x| ≤ 1) ∧
    (∃ i, i < matrix.get_rows ∧
      ∃ x : α, r.eigen_vector.get_element i 0 = Except.ok x ∧ |x| = 1) := by
  obtain ⟨h1, -, h3, h4, -, -, -⟩ :=
    dominant_eigen_returned fuel junk matrix eigen_vector tol r hmatrix hsquare h
  obtain ⟨k, hk⟩ : ∃ k, r.iterations = k + 1 := ⟨r.iterations - 1, by omega⟩
  rw [hk] at h3 h4
  have hl : estimate matrix (k + 1) ≠ 0 := by rw [← h3]; exact hvalue
  have hpos : 0 < estimate matrix (k + 1) := by
    obtain ⟨i, -, hi⟩ := running_max_attained
      (product_vector matrix (normalized matrix k)) (matrix.rows - 1)
    have hnonneg : 0 ≤ estimate matrix (k + 1) := by
      show 0 ≤ running_max (product_vector matrix (normalized matrix k)) (matrix.rows - 1)
      rw [← hi]; exact abs_nonneg _
    exact lt_of_le_of_ne hnonneg (Ne.symm hl)
  have hcomp : ∀ i, normalized matrix (k + 1) i =
      product_vector matrix (normalized matrix k) i / estimate matrix (k + 1) := fun _ => rfl
  rw [h4]
  refine ⟨rfl, rfl, ?_, ?_⟩
  · intro i hi
    refine ⟨_, column_vector_get _ _ i hi, ?_⟩
    rw [hcomp, abs_div, abs_of_pos hpos, div_le_one hpos]
    exact le_running_max _ _ i (by
      have : i < matrix.rows := hi
      omega)
  · obtain ⟨i, hi, hv⟩ := running_max_attained
      (product_vector matrix (normalized matrix k)) (matrix.rows - 1)
    have hrows := hmatrix.1
    refine ⟨i, by show i < matrix.rows; omega, _,
      column_vector_get _ _ i (by omega), ?_⟩
    rw [hcomp, abs_div, abs_of_pos hpos, hv]
    exact div_self hl

/-! ## The eigen solver on diagonal matrices -/

/-- The product of a diagonal matrix with a vector. -/
theorem product_vector_diagonal {α : Type} [LinearOrderedField α] (matrix : Matrix α)
    (g : Nat → α) (i : Nat) (hdiag : is_diagonal matrix) (hi : i < matrix.rows) :
    product_vector matrix g i = diagonal_entry matrix i * g i := by
  unfold product_vector diagonal_entry
  rw [Finset.sum_eq_single i]
  · intro j hj hne
    rw [hdiag i j hi (Finset.mem_range.mp hj) (Ne.symm hne), zero_mul]
  · intro hni
    exact absurd (Finset.mem_range.mpr hi) hni

/-- On a diagonal matrix the first estimate is the largest absolute diagonal
entry. -/
theorem estimate_one_diagonal {α : Type} [LinearOrderedField α] (matrix : Matrix α)
    (hdiag : is_diagonal matrix) (hrows : 1 ≤ matrix.rows) :
    estimate matrix 1 = running_max (diagonal_entry matrix) (matrix.rows - 1) := by
  show running_max (product_vector matrix (normalized matrix 0)) (matrix.rows - 1) = _
  apply running_max_congr
  intro i hi
  rw [product_vector_diagonal matrix _ i hdiag (by omega)]
  show diagonal_entry matrix i * 1 = _
  rw [mul_one]

/-- On a diagonal matrix the vector after the first pass is the diagonal
divided by the first estimate. -/
theorem normalized_one_diagonal {α : Type} [LinearOrderedField α] (matrix : Matrix α)
    (hdiag : is_diagonal matrix) (i : Nat) (hi : i < matrix.rows) :
    normalized matrix 1 i = diagonal_entry matrix i / estimate matrix 1 := by
  show product_vector matrix (normalized matrix 0) i / estimate matrix 1 = _
  rw [product_vector_diagonal matrix _ i hdiag hi]
  show diagonal_entry matrix i * 1 / estimate matrix 1 = _
  rw [mul_one]

/-- On a diagonal matrix with a non-zero entry the second estimate equals the
first. -/
theorem estimate_two_diagonal {α : Type} [LinearOrderedField α] (matrix : Matrix α)
    (hdiag : is_diagonal matrix) (hrows : 1 ≤ matrix.rows)
    (hM : running_max (diagonal_entry matrix) (matrix.rows - 1) ≠ 0) :
    estimate matrix 2 = estimate matrix 1 := by
  have h1 := estimate_one_diagonal matrix hdiag hrows
  have hpos : 0 < estimate matrix 1 := by
    obtain ⟨i, -, hi⟩ := running_max_attained (diagonal_entry matrix) (matrix.rows - 1)
    rw [h1]
    exact lt_of_le_of_ne (by rw [← hi]; exact abs_nonneg _) (Ne.symm hM)
  have hcomp : ∀ i, i ≤ matrix.rows - 1 →
      |product_vector matrix (normalized matrix 1) i| =
        |diagonal_entry matrix i| * |diagonal_entry matrix i| / estimate matrix 1 := by
    intro i hi
    rw [product_vector_diagonal matrix _ i hdiag (by omega),
      normalized_one_diagonal matrix hdiag i (by omega), abs_mul, abs_div, abs_of_pos hpos,
      mul_div_assoc]
  show running_max (product_vector matrix (normalized matrix 1)) (matrix.rows - 1) = _
  apply running_max_eq
  · intro i hi
    rw [hcomp i hi, div_le_iff₀ hpos]
    have hle : |diagonal_entry matrix i| ≤ estimate matrix 1 := by
      rw [h1]; exact le_running_max _ _ i hi
    exact mul_le_mul hle hle (abs_nonneg _) (le_of_lt hpos)
  · obtain ⟨i, hi, hv⟩ := running_max_attained (diagonal_entry matrix) (matrix.rows - 1)
    refine ⟨i, hi, ?_⟩
    rw [hcomp i hi, hv, ← h1, mul_div_assoc, div_self (ne_of_gt hpos), mul_one]

/-- On a diagonal matrix the vector after the second pass is the square of the
vector after the first. -/
theorem normalized_two_diagonal {α : Type} [LinearOrderedField α] (matrix : Matrix α)
    (hdiag : is_diagonal matrix) (hrows : 1 ≤ matrix.rows)
    (hM : running_max (diagonal_entry matrix) (matrix.rows - 1) ≠ 0)
    (i : Nat) (hi : i < matrix.rows) :
    normalized matrix 2 i = (diagonal_entry matrix i / estimate matrix 1) ^ 2 := by
  show product_vector matrix (normalized matrix 1) i / estimate matrix 2 = _
  rw [product_vector_diagonal matrix _ i hdiag hi, normalized_one_diagonal matrix hdiag i hi,
    estimate_two_diagonal matrix hdiag hrows hM]
  ring

/-- The run of `dominant_eigen` on a diagonal matrix with a non-zero entry: it
returns the largest absolute diagonal entry `M`, after one pass when `M` is
within the tolerance of 1 and after two passes otherwise, with the vector of
the `(d_i / M)^k`, `k` being the number of passes. -/
theorem dominant_eigen_diagonal {α : Type} [LinearOrderedField α] (fuel : Nat) (junk : Nat → α)
    (matrix eigen_vector : Matrix α) (tol : α) (hmatrix : matrix.wf)
    (hsquare : matrix.get_rows = matrix.get_columns) (hdiag : is_diagonal matrix)
    (hM : running_max (diagonal_entry matrix) (matrix.rows - 1) ≠ 0)
    (htol : 0 ≤ tol) (hfuel : 2 ≤ fuel) :
    dominant_eigen fuel junk matrix eigen_vector tol =
      if |running_max (diagonal_entry matrix) (matrix.rows - 1) - 1| ≤ tol then
        Except.ok { value := running_max (diagonal_entry matrix) (matrix.rows - 1),
                    eigen_vector := column_vector matrix.rows (fun i =>
                      (diagonal_entry matrix i /
                        running_max (diagonal_entry matrix) (matrix.rows - 1)) ^ 1),
                    iterations := 1, errors := [] }
      else
        Except.ok { value := running_max (diagonal_entry matrix) (matrix.rows - 1),
                    eigen_vector := column_vector matrix.rows (fun i =>
                      (diagonal_entry matrix i /
                        running_max (diagonal_entry matrix) (matrix.rows - 1)) ^ 2),
                    iterations := 2, errors := [] } := by
  have h1 := estimate_one_diagonal matrix hdiag hmatrix.1
  have h2 := estimate_two_diagonal matrix hdiag hmatrix.1 hM
  have h0 : estimate matrix 0 = 1 := rfl
  by_cases hclose : |running_max (diagonal_entry matrix) (matrix.rows - 1) - 1| ≤ tol
  · rw [if_pos hclose, dominant_eigen_returns fuel junk matrix eigen_vector tol 1 hmatrix
      hsquare (Nat.le_refl 1) (by omega)
      (fun i hi hiN => by
        have : i = 1 := by omega
        rw [this, h1]; exact hM)
      (fun i hi hiN => by omega)
      (by rw [h1]; exact hclose), h1]
    rw [column_vector_congr matrix.rows (normalized matrix 1)
      (fun i => (diagonal_entry matrix i /
        running_max (diagonal_entry matrix) (matrix.rows - 1)) ^ 1)
      (fun i hi => by
        beta_reduce
        rw [normalized_one_diagonal matrix hdiag i hi, h1, pow_one])]
  · rw [if_neg hclose, dominant_eigen_returns fuel junk matrix eigen_vector tol 2 hmatrix
      hsquare (by omega) hfuel
      (fun i hi hiN => by
        have : i = 1 ∨ i = 2 := by omega
        rcases this with rfl | rfl
        · rw [h1]; exact hM
        · rw [h2, h1]; exact hM)
      (fun i hi hiN => by
        have : i = 1 := by omega
        rw [this, h1]
        exact not_le.mp hclose)
      (by
        show |estimate matrix 2 - estimate matrix 1| ≤ tol
        rw [h2, sub_self, abs_zero]; exact htol), h2, h1]
    rw [column_vector_congr matrix.rows (normalized matrix 2)
      (fun i => (diagonal_entry matrix i /
        running_max (diagonal_entry matrix) (matrix.rows - 1)) ^ 2)
      (fun i hi => by
        beta_reduce
        rw [normalized_two_diagonal matrix hdiag hmatrix.1 hM i hi, h1])]

/-- The run of `dominant_eigen` on `diag(2, 1)` with the default tolerance, in
exact rational arithmetic: two passes, the value 2 and the vector `(1, 1/4)`. -/
theorem dominant_eigen_two_one :
    dominant_eigen 2 (fun _ => (0 : ℚ)) { columns := 2, rows := 2, matrix := [2, 0, 0, 1] }
      { columns := 1, rows := 2, matrix := [1, 1] } (1 / 10000) =
    Except.ok { value := 2, eigen_vector := { columns := 1, rows := 2, matrix := [1, 1 / 4] },
                iterations := 2, errors := [] } := by
  have hrm : running_max
      (diagonal_entry ({ columns := 2, rows := 2, matrix := [2, 0, 0, 1] } : Matrix ℚ))
      (2 - 1) = 2 := by
    norm_num [running_max, diagonal_entry]
  have hdiag : is_diagonal ({ columns := 2, rows := 2, matrix := [2, 0, 0, 1] } : Matrix ℚ) := by
    intro i j hi hj hne
    change i < 2 at hi
    change j < 2 at hj
    interval_cases i <;> interval_cases j <;> simp at hne ⊢
  rw [dominant_eigen_diagonal 2 (fun _ => (0 : ℚ))
    { columns := 2, rows := 2, matrix := [2, 0, 0, 1] } _ (1 / 10000) ⟨by decide, by decide, rfl⟩
    rfl hdiag (by rw [hrm]; norm_num) (by norm_num) (Nat.le_refl 2)]
  rw [hrm, if_neg (by norm_num [abs_le])]
  norm_num [column_vector, diagonal_entry, List.range_succ]

/-- The run of `dominant_eigen` on `diag(-3, 1)` with the default tolerance, in
exact rational arithmetic: two passes, the value 3 and the vector `(1, 1/9)`. -/
theorem dominant_eigen_minus_three_one :
    dominant_eigen 2 (fun _ => (0 : ℚ)) { columns := 2, rows := 2, matrix := [-3, 0, 0, 1] }
      { columns := 1, rows := 2, matrix := [1, 1] } (1 / 10000) =
    Except.ok { value := 3, eigen_vector := { columns := 1, rows := 2, matrix := [1, 1 / 9] },
                iterations := 2, errors := [] } := by
  have hrm : running_max
      (diagonal_entry ({ columns := 2, rows := 2, matrix := [-3, 0, 0, 1] } : Matrix ℚ))
      (2 - 1) = 3 := by
    norm_num [running_max, diagonal_entry]
  have hdiag : is_diagonal ({ columns := 2, rows := 2, matrix := [-3, 0, 0, 1] } : Matrix ℚ) := by
    intro i j hi hj hne
    change i < 2 at hi
    change j < 2 at hj
    interval_cases i <;> interval_cases j <;> simp at hne ⊢
  rw [dominant_eigen_diagonal 2 (fun _ => (0 : ℚ))
    { columns := 2, rows := 2, matrix := [-3, 0, 0, 1] } _ (1 / 10000) ⟨by decide, by decide, rfl⟩
    rfl hdiag (by rw [hrm]; norm_num) (by norm_num) (Nat.le_refl 2)]
  rw [hrm, if_neg (by norm_num [abs_le])]
  norm_num [column_vector, diagonal_entry, List.range_succ]

/-- C14, as the code has it: for every diagonal matrix with a non-zero diagonal
entry and every tolerance > 0, `dominant_eigen` (with a budget of two passes or
more) returns after one or two passes, and the value it returns is exactly the
largest absolute value `M` of a diagonal entry: the magnitude of the entry of
largest magnitude, not the entry. Component `i` of the eigenvector it writes is
`(d_i / M)^k`, `k` being the number of passes made: it has absolute value 1
where `|d_i| = M`, and it is not 0 at any index whose diagonal entry is not 0. -/
theorem dominant_eigen_on_diagonal_matrix {α : Type} [LinearOrderedField α] (fuel : Nat)
    (junk : Nat → α) (matrix eigen_vector : Matrix α) (tol : α) (hmatrix : matrix.wf)
    (hsquare : matrix.get_rows = matrix.get_columns) (hdiag : is_diagonal matrix)
    (hentry : ∃ i, i < matrix.get_rows ∧ diagonal_entry matrix i ≠ 0)
    (htol : 0 < tol) (hfuel : 2 ≤ fuel) :
    ∃ r : EigenResult α, dominant_eigen fuel junk matrix eigen_vector tol = Except.ok r ∧
      (r.iterations = 1 ∨ r.iterations = 2) ∧
      (∀ i, i < matrix.get_rows → |diagonal_entry matrix i| ≤ r.value) ∧
      (∃ i, i < matrix.get_rows ∧ |diagonal_entry matrix i| = r.value) ∧
      (∀ i, i < matrix.get_rows → r.eigen_vector.get_element i 0 =
        Except.ok ((diagonal_entry matrix i / r.value) ^ r.iterations)) ∧
      (∀ i, i < matrix.get_rows → |diagonal_entry matrix i| = r.value →
        |(diagonal_entry matrix i / r.value) ^ r.iterations| = 1) ∧
      (∀ i, i < matrix.get_rows → diagonal_entry matrix i ≠ 0 →
        (diagonal_entry matrix i / r.value) ^ r.iterations ≠ 0) := by
  have hrows : 1 ≤ matrix.rows := hmatrix.1
  have hbound : ∀ i, i < matrix.get_rows → |diagonal_entry matrix i| ≤
      running_max (diagonal_entry matrix) (matrix.rows - 1) := by
    intro i hi
    change i < matrix.rows at hi
    exact le_running_max (diagonal_entry matrix) (matrix.rows - 1) i (by omega)
  have hpos : 0 < running_max (diagonal_entry matrix) (matrix.rows - 1) := by
    obtain ⟨k, hk, hdk⟩ := hentry
    exact lt_of_lt_of_le (abs_pos.mpr hdk) (hbound k hk)
  have hattained : ∃ i, i < matrix.get_rows ∧ |diagonal_entry matrix i| =
      running_max (diagonal_entry matrix) (matrix.rows - 1) := by
    obtain ⟨i, hi, hv⟩ := running_max_attained (diagonal_entry matrix) (matrix.rows - 1)
    exact ⟨i, by change i < matrix.rows; omega, hv⟩
  have hunit : ∀ (k i : Nat), |diagonal_entry matrix i| =
      running_max (diagonal_entry matrix) (matrix.rows - 1) →
      |(diagonal_entry matrix i / running_max (diagonal_entry matrix) (matrix.rows - 1)) ^ k|
        = 1 := by
    intro k i hv
    rw [abs_pow, abs_div, abs_of_pos hpos, hv, div_self (ne_of_gt hpos), one_pow]
  have hnonzero : ∀ (k i : Nat), diagonal_entry matrix i ≠ 0 →
      (diagonal_entry matrix i / running_max (diagonal_entry matrix) (matrix.rows - 1)) ^ k
        ≠ 0 :=
    fun k i hd => pow_ne_zero k (div_ne_zero hd (ne_of_gt hpos))
  have hrun := dominant_eigen_diagonal fuel junk matrix eigen_vector tol hmatrix hsquare hdiag
    (ne_of_gt hpos) (le_of_lt htol) hfuel
  by_cases hclose : |running_max (diagonal_entry matrix) (matrix.rows - 1) - 1| ≤ tol
  · rw [if_pos hclose] at hrun
    exact ⟨_, hrun, Or.inl rfl, hbound, hattained,
      fun i hi => column_vector_get matrix.rows _ i hi,
      fun i _ hv => hunit 1 i hv, fun i _ hd => hnonzero 1 i hd⟩
  · rw [if_neg hclose] at hrun
    exact ⟨_, hrun, Or.inr rfl, hbound, hattained,
      fun i hi => column_vector_get matrix.rows _ i hi,
      fun i _ hv => hunit 2 i hv, fun i _ hd => hnonzero 2 i hd⟩

/-- C14 as the code has it, at `diag(2, 1)` with the default tolerance. -/
theorem dominant_eigen_on_diagonal_matrix_witness :
    (({ columns := 2, rows := 2, matrix := [2, 0, 0, 1] } : Matrix ℚ).wf ∧
      is_diagonal ({ columns := 2, rows := 2, matrix := [2, 0, 0, 1] } : Matrix ℚ) ∧
      (0 : ℚ) < 1 / 10000) ∧
    ∃ r : EigenResult ℚ,
      dominant_eigen 2 (fun _ => 0)
          ({ columns := 2, rows := 2, matrix := [2, 0, 0, 1] } : Matrix ℚ)
          { columns := 1, rows := 2, matrix := [1, 1] } (1 / 10000) = Except.ok r ∧
      (r.iterations = 1 ∨ r.iterations = 2) ∧
      (∀ i, i < 2 → |diagonal_entry
        ({ columns := 2, rows := 2, matrix := [2, 0, 0, 1] } : Matrix ℚ) i| ≤ r.value) ∧
      (∃ i, i < 2 ∧ |diagonal_entry
        ({ columns := 2, rows := 2, matrix := [2, 0, 0, 1] } : Matrix ℚ) i| = r.value) ∧
      (∀ i, i < 2 → r.eigen_vector.get_element i 0 =
        Except.ok ((diagonal_entry
          ({ columns := 2, rows := 2, matrix := [2, 0, 0, 1] } : Matrix ℚ) i / r.value) ^
            r.iterations)) ∧
      (∀ i, i < 2 → |diagonal_entry
          ({ columns := 2, rows := 2, matrix := [2, 0, 0, 1] } : Matrix ℚ) i| = r.value →
        |(diagonal_entry
          ({ columns := 2, rows := 2, matrix := [2, 0, 0, 1] } : Matrix ℚ) i / r.value) ^
            r.iterations| = 1) ∧
      (∀ i, i < 2 → diagonal_entry
          ({ columns := 2, rows := 2, matrix := [2, 0, 0, 1] } : Matrix ℚ) i ≠ 0 →
        (diagonal_entry
          ({ columns := 2, rows := 2, matrix := [2, 0, 0, 1] } : Matrix ℚ) i / r.value) ^
            r.iterations ≠ 0) := by
  have hwf : ({ columns := 2, rows := 2, matrix := [2, 0, 0, 1] } : Matrix ℚ).wf :=
    ⟨by decide, by decide, rfl⟩
  have hdiag : is_diagonal ({ columns := 2, rows := 2, matrix := [2, 0, 0, 1] } : Matrix ℚ) := by
    intro i j hi hj hne
    change i < 2 at hi
    change j < 2 at hj
    interval_cases i <;> interval_cases j <;> simp at hne ⊢
  have htol : (0 : ℚ) < 1 / 10000 := by norm_num
  exact ⟨⟨hwf, hdiag, htol⟩,
    dominant_eigen_on_diagonal_matrix 2 (fun _ => 0)
      ({ columns := 2, rows := 2, matrix := [2, 0, 0, 1] } : Matrix ℚ)
      { columns := 1, rows := 2, matrix := [1, 1] } (1 / 10000) hwf rfl hdiag
      ⟨0, by decide, by norm_num [diagonal_entry]⟩ htol (Nat.le_refl 2)⟩

/-- C14 as the spec has it fails on `diag(2, 1)` and on `diag(-3, 1)`, with the
default tolerance and exact rational arithmetic. On `diag(2, 1)` the solver
returns 2 and writes the eigenvector `(1, 1/4)`: the component at the other
index is `1/4`, not 0. On `diag(-3, 1)` it returns 3, which is not within the
tolerance of the diagonal entry of largest magnitude, -3. -/
theorem dominant_eigen_diagonal_counterexample :
    (∃ r : EigenResult ℚ,
      dominant_eigen 2 (fun _ => 0)
          ({ columns := 2, rows := 2, matrix := [2, 0, 0, 1] } : Matrix ℚ)
          { columns := 1, rows := 2, matrix := [1, 1] } (1 / 10000) = Except.ok r ∧
      r.value = 2 ∧ r.eigen_vector.get_element 0 0 = Except.ok 1 ∧
      r.eigen_vector.get_element 1 0 = Except.ok (1 / 4) ∧
      r.eigen_vector.get_element 1 0 ≠ Except.ok 0) ∧
    (∃ r : EigenResult ℚ,
      dominant_eigen 2 (fun _ => 0)
          ({ columns := 2, rows := 2, matrix := [-3, 0, 0, 1] } : Matrix ℚ)
          { columns := 1, rows := 2, matrix := [1, 1] } (1 / 10000) = Except.ok r ∧
      r.value = 3 ∧ ¬ |r.value - (-3)| ≤ 1 / 10000) := by
  refine ⟨⟨_, dominant_eigen_two_one, rfl, rfl, rfl, ?_⟩,
    ⟨_, dominant_eigen_minus_three_one, rfl, ?_⟩⟩
  · intro h
    have h4 : ((1 : ℚ) / 4) = 0 := Except.ok.inj h
    norm_num at h4
  · show ¬ |(3 : ℚ) - (-3)| ≤ 1 / 10000
    norm_num [abs_le]

/-- C16 at `diag(2, 1)` with the default tolerance: the eigenvector written is
`(1, 1/4)`. -/
theorem eigen_vector_is_unit_normalized_witness :
    (({ columns := 2, rows := 2, matrix := [2, 0, 0, 1] } : Matrix ℚ).wf ∧
      dominant_eigen 2 (fun _ => 0)
          ({ columns := 2, rows := 2, matrix := [2, 0, 0, 1] } : Matrix ℚ)
          { columns := 1, rows := 2, matrix := [1, 1] } (1 / 10000) =
        Except.ok { value := 2,
                    eigen_vector := { columns := 1, rows := 2, matrix := [1, 1 / 4] },
                    iterations := 2, errors := [] } ∧
      (2 : ℚ) ≠ 0) ∧
    (({ columns := 1, rows := 2, matrix := [1, 1 / 4] } : Matrix ℚ).get_rows = 2 ∧
      ({ columns := 1, rows := 2, matrix := [1, 1 / 4] } : Matrix ℚ).get_columns = 1 ∧
      (∀ i, i < 2 → ∃ x : ℚ,
        ({ columns := 1, rows := 2, matrix := [1, 1 / 4] } : Matrix ℚ).get_element i 0 =
          Except.ok x ∧ |x| ≤ 1) ∧
      (∃ i, i < 2 ∧ ∃ x : ℚ,
        ({ columns := 1, rows := 2, matrix := [1, 1 / 4] } : Matrix ℚ).get_element i 0 =
          Except.ok x ∧ |x| = 1)) :=
  ⟨⟨⟨by decide, by decide, rfl⟩, dominant_eigen_two_one, by norm_num⟩,
   eigen_vector_is_unit_normalized 2 (fun _ => 0)
      ({ columns := 2, rows := 2, matrix := [2, 0, 0, 1] } : Matrix ℚ)
      { columns := 1, rows := 2, matrix := [1, 1] } (1 / 10000) _
      ⟨by decide, by decide, rfl⟩ rfl dominant_eigen_two_one (by norm_num)⟩

/-! ## The status class, the randomized constructor, the symmetry of the resolver -/

/-- C22: a `MatrixStatus` constructed from a message `m` and a code `c` returns
`c` from `get_error_code()` and `m` from `get_error_message()`. -/
theorem matrix_status_getters (m : String) (c : Int) :
    (MatrixStatus.mk m c).get_error_code = c ∧ (MatrixStatus.mk m c).get_error_message = m :=
  ⟨rfl, rfl⟩

/-- The randomized constructor for rows, columns and limit at least 1 and
non-negative values of `rand()`: the matrix has the requested shape and
satisfies the invariant, and its element at (r, c) is the integer
`rand() mod limit` of call number `r * columns + c`, which lies between 0 and
`limit - 1`, converted to `float`; the conversion keeps the integer when the
limit is at most `2^24 + 1`. -/
theorem random_elements {α : Type} [LinearOrderedRing α] (junk : Nat → α)
    (rows columns : Nat) (limit : Int) (rand : Nat → Int)
    (hrows : 1 ≤ rows) (hcolumns : 1 ≤ columns) (hlimit : 1 ≤ limit)
    (hrand : ∀ k, 0 ≤ rand k) :
    ∃ m : Matrix α, Matrix.random junk rows columns limit rand = Except.ok m ∧
      m.wf ∧ m.get_rows = rows ∧ m.get_columns = columns ∧
      ∀ r c, r < rows → c < columns →
        ∃ n : Int, n = rand (r * columns + c) % limit ∧ 0 ≤ n ∧ n ≤ limit - 1 ∧
          m.get_element r c = Except.ok ((float_of_int n : Int) : α) ∧
          (limit ≤ 2 ^ 24 + 1 → float_of_int n = n) := by
  obtain ⟨m, hm, hr, hc, hl, hv⟩ := random_returns junk rows columns limit rand
    (by omega : limit ≠ 0)
  refine ⟨m, hm, ⟨by omega, by omega, by rw [hl, hr, hc]⟩, hr, hc, ?_⟩
  intro r c hr' hc'
  have hidx : r * columns + c < rows * columns := offset_lt hr' hc'
  have h0 : 0 ≤ rand (r * columns + c) % limit := Int.emod_nonneg _ (by omega)
  have h1 : rand (r * columns + c) % limit ≤ limit - 1 := by
    have := Int.emod_lt_of_pos (rand (r * columns + c)) (by omega : 0 < limit)
    omega
  refine ⟨rand (r * columns + c) % limit, rfl, h0, h1, ?_, ?_⟩
  · apply get_element_eq
    rw [hc, hv _ hidx, Int.tmod_eq_emod (hrand _) (by omega)]
  · intro hsmall
    exact float_of_int_exact _ h0 (by omega)

/-- C23, as the code has it: for rows, columns and limit at least 1, and
`rand()` giving non-negative integers, the randomized constructor returns a
matrix of the requested shape that satisfies the invariant, and the element at
(r, c) is the `float` nearest to the integer `rand() mod limit` of call number
`r * columns + c`, an integer between 0 and `limit - 1`; for a limit of at most
`2^24 + 1` the element is that integer itself. Without a limit the constructor
uses 10000, and the element is the integer `rand() mod 10000`, between 0 and
9999. -/
theorem random_constructor_in_range {α : Type} [LinearOrderedRing α] (junk : Nat → α)
    (rows columns : Nat) (limit : Int) (rand : Nat → Int)
    (hrows : 1 ≤ rows) (hcolumns : 1 ≤ columns) (hlimit : 1 ≤ limit)
    (hrand : ∀ k, 0 ≤ rand k) :
    (∃ m : Matrix α, Matrix.random junk rows columns limit rand = Except.ok m ∧
      m.wf ∧ m.get_rows = rows ∧ m.get_columns = columns ∧
      ∀ r c, r < rows → c < columns →
        ∃ n : Int, n = rand (r * columns + c) % limit ∧ 0 ≤ n ∧ n ≤ limit - 1 ∧
          m.get_element r c = Except.ok ((float_of_int n : Int) : α) ∧
          (limit ≤ 2 ^ 24 + 1 → m.get_element r c = Except.ok (n : α))) ∧
    (∃ m : Matrix α, Matrix.random_default junk rows columns rand = Except.ok m ∧
      m.wf ∧ m.get_rows = rows ∧ m.get_columns = columns ∧
      ∀ r c, r < rows → c < columns →
        ∃ n : Int, n = rand (r * columns + c) % 10000 ∧ 0 ≤ n ∧ n ≤ 9999 ∧
          m.get_element r c = Except.ok (n : α)) := by
  constructor
  · obtain ⟨m, hm, hwf, hr, hc, hv⟩ :=
      random_elements junk rows columns limit rand hrows hcolumns hlimit hrand
    refine ⟨m, hm, hwf, hr, hc, ?_⟩
    intro r c hr' hc'
    obtain ⟨n, hn, h0, h1, hget, hexact⟩ := hv r c hr' hc'
    refine ⟨n, hn, h0, h1, hget, ?_⟩
    intro hsmall
    rw [hget, hexact hsmall]
  · obtain ⟨m, hm, hwf, hr, hc, hv⟩ :=
      random_elements junk rows columns 10000 rand hrows hcolumns (by decide) hrand
    refine ⟨m, hm, hwf, hr, hc, ?_⟩
    intro r c hr' hc'
    obtain ⟨n, hn, h0, h1, hget, hexact⟩ := hv r c hr' hc'
    refine ⟨n, hn, h0, by omega, ?_⟩
    rw [hget, hexact (by decide)]

/-- C23 at the shape and limit of the test `init_random`: 2x2, limit 10. -/
theorem random_constructor_in_range_witness :
    ((1 ≤ 2 ∧ (1 : Int) ≤ 10 ∧ ∀ k : Nat, (0 : Int) ≤ (7 * k + 25 : Nat)) ∧
      Matrix.random (fun _ => (0 : Int)) 2 2 10 (fun k => ((7 * k + 25 : Nat) : Int)) =
        Except.ok { rows := 2, columns := 2, matrix := [5, 2, 9, 6] }) ∧
    ∃ m : Matrix Int,
      Matrix.random (fun _ => (0 : Int)) 2 2 10 (fun k => ((7 * k + 25 : Nat) : Int)) =
        Except.ok m ∧
      m.wf ∧ m.get_rows = 2 ∧ m.get_columns = 2 ∧
      ∀ r c, r < 2 → c < 2 →
        ∃ n : Int, n = ((7 * (r * 2 + c) + 25 : Nat) : Int) % 10 ∧ 0 ≤ n ∧ n ≤ 10 - 1 ∧
          m.get_element r c = Except.ok ((float_of_int n : Int) : Int) ∧
          ((10 : Int) ≤ 2 ^ 24 + 1 → m.get_element r c = Except.ok (n : Int)) :=
  ⟨⟨⟨by decide, by decide, fun k => Int.ofNat_nonneg _⟩, rfl⟩,
   (random_constructor_in_range (fun _ => (0 : Int)) 2 2 10
    (fun k => ((7 * k + 25 : Nat) : Int))
    (by decide) (by decide) (by decide) (fun k => Int.ofNat_nonneg _)).1⟩

/-- C23 as the spec has it fails for a limit above `2^24`: with the limit
1804289384 and `rand()` giving 1804289383, the constructed 1x1 matrix holds
1804289408, the `float` nearest to `1804289383 mod 1804289384 = 1804289383`; it
is not that integer, and it is greater than `limit - 1`. -/
theorem random_element_exceeds_limit :
    Matrix.random (fun _ => (0 : Int)) 1 1 1804289384 (fun _ => 1804289383) =
      Except.ok { rows := 1, columns := 1, matrix := [1804289408] } ∧
    ({ rows := 1, columns := 1, matrix := [1804289408] } : Matrix Int).get_element 0 0 =
      Except.ok 1804289408 ∧
    (1804289383 : Int) % 1804289384 = 1804289383 ∧
    (1804289384 : Int) - 1 < 1804289408 ∧
    ¬ ∃ m : Matrix Int,
      Matrix.random (fun _ => (0 : Int)) 1 1 1804289384 (fun _ => 1804289383) =
        Except.ok m ∧
      ∃ n : Int, n = (1804289383 : Int) % 1804289384 ∧ 0 ≤ n ∧ n ≤ 1804289384 - 1 ∧
        m.get_element 0 0 = Except.ok n := by
  have hrun : Matrix.random (fun _ => (0 : Int)) 1 1 1804289384 (fun _ => 1804289383) =
      Except.ok { rows := 1, columns := 1, matrix := [1804289408] } := rfl
  refine ⟨hrun, rfl, by decide, by decide, ?_⟩
  rintro ⟨m, hm, n, hn, -, -, hget⟩
  rw [hrun] at hm
  injection hm with hm
  subst hm
  have hval : ({ rows := 1, columns := 1, matrix := [1804289408] } : Matrix Int).get_element
      0 0 = Except.ok 1804289408 := rfl
  rw [hval] at hget
  injection hget with hget
  rw [← hget] at hn
  revert hn
  decide

/-- C30: for matrices with every dimension at least 1 the resolver is symmetric
up to the tag. Both argument orders return; the flag is 0 in one order exactly
when it is 0 in the other; when the pair is compatible both orders give the same
target shape, and the flags are 2 and 2 for equal shapes, 2 and 1 (in one order
or the other) otherwise. -/
theorem is_broadcast_possible_symmetric {α : Type} (A B : Matrix α)
    (hA : 1 ≤ A.rows ∧ 1 ≤ A.columns) (hB : 1 ≤ B.rows ∧ 1 ≤ B.columns) :
    ∃ p q : BroadcastPlan,
      is_broadcast_possible A B = Except.ok p ∧ is_broadcast_possible B A = Except.ok q ∧
      (p.flag = 0 ↔ q.flag = 0) ∧
      (p.flag ≠ 0 → q.highest_rows = p.highest_rows ∧ q.highest_cols = p.highest_cols) ∧
      (p.flag ≠ 0 → A.rows = B.rows ∧ A.columns = B.columns → p.flag = 2 ∧ q.flag = 2) ∧
      (p.flag ≠ 0 → ¬ (A.rows = B.rows ∧ A.columns = B.columns) →
        (p.flag = 2 ∧ q.flag = 1) ∨ (p.flag = 1 ∧ q.flag = 2)) := by
  rw [is_broadcast_possible_eq A B hA hB, is_broadcast_possible_eq B A hB hA]
  by_cases h1 : A.rows ≥ B.rows ∧ A.rows % B.rows = 0 ∧
      A.columns ≥ B.columns ∧ A.columns % B.columns = 0
  · by_cases h2 : B.rows ≥ A.rows ∧ B.rows % A.rows = 0 ∧
        B.columns ≥ A.columns ∧ B.columns % A.columns = 0
    · have hr : A.rows = B.rows := by omega
      have hc : A.columns = B.columns := by omega
      rw [if_pos h1, if_pos h2]
      refine ⟨_, _, rfl, rfl, ?_, ?_, ?_, ?_⟩
      · simp
      · intro _
        simp [hr, hc]
      · intro _ _
        exact ⟨rfl, rfl⟩
      · intro _ hne
        exact absurd ⟨hr, hc⟩ hne
    · rw [if_pos h1, if_neg h2, if_pos h1]
      refine ⟨_, _, rfl, rfl, ?_, ?_, ?_, ?_⟩
      · simp
      · intro _
        exact ⟨rfl, rfl⟩
      · intro _ heq
        exfalso
        apply h2
        rw [heq.1, heq.2]
        exact ⟨Nat.le_refl _, Nat.mod_self _, Nat.le_refl _, Nat.mod_self _⟩
      · intro _ _
        exact Or.inl ⟨rfl, rfl⟩
  · by_cases h2 : B.rows ≥ A.rows ∧ B.rows % A.rows = 0 ∧
        B.columns ≥ A.columns ∧ B.columns % A.columns = 0
    · rw [if_neg h1, if_pos h2, if_pos h2]
      refine ⟨_, _, rfl, rfl, ?_, ?_, ?_, ?_⟩
      · simp
      · intro _
        exact ⟨rfl, rfl⟩
      · intro _ heq
        exfalso
        apply h1
        rw [heq.1, heq.2]
        exact ⟨Nat.le_refl _, Nat.mod_self _, Nat.le_refl _, Nat.mod_self _⟩
      · intro _ _
        exact Or.inr ⟨rfl, rfl⟩
    · rw [if_neg h1, if_neg h2, if_neg h2, if_neg h1]
      refine ⟨_, _, rfl, rfl, ?_, ?_, ?_, ?_⟩
      · simp
      · intro h
        exact absurd rfl h
      · intro h
        exact absurd rfl h
      · intro h
        exact absurd rfl h

/-- C30 at the pairs 4x6 with 2x3 (flags 2 and 1), 2x3 with 2x3 (flags 2 and 2)
and 3x2 with 2x3 (flags 0 and 0). -/
theorem is_broadcast_possible_symmetric_witness :
    (is_broadcast_possible
        ({ rows := 4, columns := 6, matrix := List.replicate 24 0 } : Matrix Int)
        { rows := 2, columns := 3, matrix := List.replicate 6 0 } =
      Except.ok { flag := 2, highest_rows := 4, highest_cols := 6 } ∧
     is_broadcast_possible
        ({ rows := 2, columns := 3, matrix := List.replicate 6 0 } : Matrix Int)
        { rows := 4, columns := 6, matrix := List.replicate 24 0 } =
      Except.ok { flag := 1, highest_rows := 4, highest_cols := 6 } ∧
     is_broadcast_possible
        ({ rows := 2, columns := 3, matrix := List.replicate 6 0 } : Matrix Int)
        { rows := 2, columns := 3, matrix := List.replicate 6 0 } =
      Except.ok { flag := 2, highest_rows := 2, highest_cols := 3 } ∧
     is_broadcast_possible
        ({ rows := 3, columns := 2, matrix := List.replicate 6 0 } : Matrix Int)
        { rows := 2, columns := 3, matrix := List.replicate 6 0 } =
      Except.ok { flag := 0, highest_rows := -1, highest_cols := -1 } ∧
     is_broadcast_possible
        ({ rows := 2, columns := 3, matrix := List.replicate 6 0 } : Matrix Int)
        { rows := 3, columns := 2, matrix := List.replicate 6 0 } =
      Except.ok { flag := 0, highest_rows := -1, highest_cols := -1 }) ∧
    ∃ p q : BroadcastPlan,
      is_broadcast_possible
        ({ rows := 4, columns := 6, matrix := List.replicate 24 0 } : Matrix Int)
        { rows := 2, columns := 3, matrix := List.replicate 6 0 } = Except.ok p ∧
      is_broadcast_possible
        ({ rows := 2, columns := 3, matrix := List.replicate 6 0 } : Matrix Int)
        { rows := 4, columns := 6, matrix := List.replicate 24 0 } = Except.ok q ∧
      (p.flag = 0 ↔ q.flag = 0) ∧
      (p.flag ≠ 0 → q.highest_rows = p.highest_rows ∧ q.highest_cols = p.highest_cols) ∧
      (p.flag ≠ 0 → (4 : Nat) = 2 ∧ (6 : Nat) = 3 → p.flag = 2 ∧ q.flag = 2) ∧
      (p.flag ≠ 0 → ¬ ((4 : Nat) = 2 ∧ (6 : Nat) = 3) →
        (p.flag = 2 ∧ q.flag = 1) ∨ (p.flag = 1 ∧ q.flag = 2)) :=
  ⟨⟨rfl, rfl, rfl, rfl, rfl⟩,
   is_broadcast_possible_symmetric
      ({ rows := 4, columns := 6, matrix := List.replicate 24 0 } : Matrix Int)
      { rows := 2, columns := 3, matrix := List.replicate 6 0 }
      ⟨by decide, by decide⟩ ⟨by decide, by decide⟩⟩

/-! ## The eigen solver: a matrix on which it does not return -/

/-- The product with a vector depends on the components below `rows` only. -/
theorem product_vector_congr {α : Type} [LinearOrderedField α] (matrix : Matrix α)
    (g h : Nat → α) (hgh : ∀ j, j < matrix.rows → g j = h j) (i : Nat) :
    product_vector matrix g i = product_vector matrix h i := by
  unfold product_vector
  apply Finset.sum_congr rfl
  intro j hj
  rw [hgh j (Finset.mem_range.mp hj)]

/-- When no estimate after pass `k` is 0 and every pass after `k` fails the
convergence test, the loop started after pass `k` uses up every budget. -/
theorem eigen_loop_out_of_fuel {α : Type} [LinearOrderedField α] (matrix : Matrix α) (tol : α)
    (hsquare : matrix.columns = matrix.rows)
    (hlen : matrix.matrix.length = matrix.rows * matrix.columns) (hrows : 1 ≤ matrix.rows)
    (hne : ∀ i, 1 ≤ i → estimate matrix i ≠ 0)
    (hgt : ∀ i, 1 ≤ i → |estimate matrix i - estimate matrix (i - 1)| > tol) :
    ∀ (fuel k : Nat) (s : Nat → α),
      eigen_loop matrix tol fuel (column_vector matrix.rows (normalized matrix k))
        (column_vector matrix.rows s) (estimate matrix k) k =
        Except.error Fault.out_of_fuel := by
  intro fuel
  induction fuel with
  | zero =>
    intro k s
    rw [eigen_loop]
  | succ fuel ih =>
    intro k s
    have h1 := hgt (k + 1) (by omega)
    rw [Nat.add_sub_cancel] at h1
    rw [eigen_loop_succ matrix tol fuel k s hsquare hlen hrows, if_neg (hne (k + 1) (by omega)),
      if_pos h1]
    exact ih (k + 1) _

/-- On a square matrix whose estimates are never 0 and never within the
tolerance of the previous one, `dominant_eigen` uses up every budget. -/
theorem dominant_eigen_out_of_fuel {α : Type} [LinearOrderedField α] (fuel : Nat)
    (junk : Nat → α) (matrix eigen_vector : Matrix α) (tol : α) (hmatrix : matrix.wf)
    (hsquare : matrix.get_rows = matrix.get_columns)
    (hne : ∀ i, 1 ≤ i → estimate matrix i ≠ 0)
    (hgt : ∀ i, 1 ≤ i → |estimate matrix i - estimate matrix (i - 1)| > tol) :
    dominant_eigen fuel junk matrix eigen_vector tol = Except.error Fault.out_of_fuel := by
  rw [dominant_eigen_square fuel junk matrix eigen_vector tol hsquare,
    eigen_loop_out_of_fuel matrix tol hsquare.symm hmatrix.2.2 hmatrix.1 hne hgt fuel 0 _,
    error_bind]

/-- A pass on `[[0, 2], [1, 0]]` from the vector `(1, 1)`: the estimate is 2 and
the vector becomes `(1, 1/2)`. -/
theorem swap_pass_from_ones (M : Matrix ℚ)
    (hM : M = { columns := 2, rows := 2, matrix := [0, 2, 1, 0] }) (n : Nat)
    (h : ∀ i, i < 2 → normalized M n i = 1) :
    estimate M (n + 1) = 2 ∧ normalized M (n + 1) 0 = 1 ∧ normalized M (n + 1) 1 = 1 / 2 := by
  have h0 := h 0 (by decide)
  have h1 := h 1 (by decide)
  have hp0 : product_vector M (normalized M n) 0 = 2 := by
    subst hM
    simp [product_vector, Finset.sum_range_succ, h0, h1]
  have hp1 : product_vector M (normalized M n) 1 = 1 := by
    subst hM
    simp [product_vector, Finset.sum_range_succ, h0, h1]
  have he : estimate M (n + 1) = 2 := by
    show running_max (product_vector M (normalized M n)) (M.rows - 1) = 2
    subst hM
    show running_max _ 1 = 2
    rw [running_max, running_max, hp0, hp1]
    norm_num
  refine ⟨he, ?_, ?_⟩
  · show product_vector M (normalized M n) 0 / estimate M (n + 1) = 1
    rw [hp0, he]
    norm_num
  · show product_vector M (normalized M n) 1 / estimate M (n + 1) = 1 / 2
    rw [hp1, he]

/-- A pass on `[[0, 2], [1, 0]]` from the vector `(1, 1/2)`: the estimate is 1
and the vector becomes `(1, 1)`. -/
theorem swap_pass_from_half (M : Matrix ℚ)
    (hM : M = { columns := 2, rows := 2, matrix := [0, 2, 1, 0] }) (n : Nat)
    (h0 : normalized M n 0 = 1) (h1 : normalized M n 1 = 1 / 2) :
    estimate M (n + 1) = 1 ∧ ∀ i, i < 2 → normalized M (n + 1) i = 1 := by
  have hp0 : product_vector M (normalized M n) 0 = 1 := by
    subst hM
    simp [product_vector, Finset.sum_range_succ, h0, h1]
  have hp1 : product_vector M (normalized M n) 1 = 1 := by
    subst hM
    simp [product_vector, Finset.sum_range_succ, h0, h1]
  have he : estimate M (n + 1) = 1 := by
    show running_max (product_vector M (normalized M n)) (M.rows - 1) = 1
    subst hM
    show running_max _ 1 = 1
    rw [running_max, running_max, hp0, hp1]
    norm_num
  refine ⟨he, ?_⟩
  intro i hi
  show product_vector M (normalized M n) i / estimate M (n + 1) = 1
  interval_cases i
  · rw [hp0, he]
    norm_num
  · rw [hp1, he]
    norm_num

/-- The estimates and vectors of the power iteration on `[[0, 2], [1, 0]]`: after
an even number of passes the estimate is 1 and the vector `(1, 1)`, after an
odd number the estimate is 2 and the vector `(1, 1/2)`. -/
theorem swap_states (M : Matrix ℚ)
    (hM : M = { columns := 2, rows := 2, matrix := [0, 2, 1, 0] }) :
    ∀ k, (estimate M (2 * k) = 1 ∧ ∀ i, i < 2 → normalized M (2 * k) i = 1) ∧
      (estimate M (2 * k + 1) = 2 ∧ normalized M (2 * k + 1) 0 = 1 ∧
        normalized M (2 * k + 1) 1 = 1 / 2) := by
  intro k
  induction k with
  | zero =>
    have heven : estimate M (2 * 0) = 1 ∧ ∀ i, i < 2 → normalized M (2 * 0) i = 1 :=
      ⟨rfl, fun _ _ => rfl⟩
    exact ⟨heven, swap_pass_from_ones M hM (2 * 0) heven.2⟩
  | succ k ih =>
    have heven := swap_pass_from_half M hM (2 * k + 1) ih.2.2.1 ih.2.2.2
    have e : 2 * k + 1 + 1 = 2 * (k + 1) := by ring
    rw [e] at heven
    exact ⟨heven, swap_pass_from_ones M hM (2 * (k + 1)) heven.2⟩

/-- Every pass on `[[0, 2], [1, 0]]` moves the estimate by 1 and gives a non-zero
estimate. -/
theorem swap_never_converges (M : Matrix ℚ)
    (hM : M = { columns := 2, rows := 2, matrix := [0, 2, 1, 0] }) (n : Nat) :
    estimate M (n + 1) ≠ 0 ∧ |estimate M (n + 1) - estimate M n| = 1 := by
  obtain ⟨k, hk | hk⟩ : ∃ k, n = 2 * k ∨ n = 2 * k + 1 := ⟨n / 2, by omega⟩
  · obtain ⟨⟨h0, -⟩, ⟨h1, -, -⟩⟩ := swap_states M hM k
    rw [hk, h0, h1]
    norm_num
  · obtain ⟨-, ⟨h1, -, -⟩⟩ := swap_states M hM k
    obtain ⟨⟨h2, -⟩, -⟩ := swap_states M hM (k + 1)
    have e : 2 * k + 1 + 1 = 2 * (k + 1) := by ring
    rw [hk, e, h1, h2]
    norm_num

/-- C26: on the 2x2 matrix [[0, 2], [1, 0]] with the default tolerance,
`dominant_eigen` does not return: whatever the budget of passes, the budget runs
out. The estimates alternate between 2 (odd passes) and 1 (even passes), the
state (normalized vector, previous estimate) after pass `n + 2` is the state
after pass `n`, starting from the initial state, and every pass fails the
convergence test. -/
theorem dominant_eigen_never_returns (fuel : Nat) (junk : Nat → ℚ) (eigen_vector : Matrix ℚ) :
    dominant_eigen fuel junk { columns := 2, rows := 2, matrix := [0, 2, 1, 0] } eigen_vector
      default_tolerable_error = Except.error Fault.out_of_fuel ∧
    (∀ k, estimate ({ columns := 2, rows := 2, matrix := [0, 2, 1, 0] } : Matrix ℚ)
        (2 * k + 1) = 2 ∧
      estimate ({ columns := 2, rows := 2, matrix := [0, 2, 1, 0] } : Matrix ℚ)
        (2 * k + 2) = 1) ∧
    (∀ n, estimate ({ columns := 2, rows := 2, matrix := [0, 2, 1, 0] } : Matrix ℚ) (n + 2) =
        estimate ({ columns := 2, rows := 2, matrix := [0, 2, 1, 0] } : Matrix ℚ) n ∧
      ∀ i, i < 2 →
        normalized ({ columns := 2, rows := 2, matrix := [0, 2, 1, 0] } : Matrix ℚ) (n + 2) i =
          normalized ({ columns := 2, rows := 2, matrix := [0, 2, 1, 0] } : Matrix ℚ) n i) ∧
    (∀ n, |estimate ({ columns := 2, rows := 2, matrix := [0, 2, 1, 0] } : Matrix ℚ) (n + 1) -
        estimate ({ columns := 2, rows := 2, matrix := [0, 2, 1, 0] } : Matrix ℚ) n| >
      default_tolerable_error) := by
  have hgt : ∀ n,
      |estimate ({ columns := 2, rows := 2, matrix := [0, 2, 1, 0] } : Matrix ℚ) (n + 1) -
        estimate ({ columns := 2, rows := 2, matrix := [0, 2, 1, 0] } : Matrix ℚ) n| >
      default_tolerable_error := by
    intro n
    rw [(swap_never_converges _ rfl n).2]
    norm_num [default_tolerable_error]
  refine ⟨?_, ?_, ?_, hgt⟩
  · apply dominant_eigen_out_of_fuel fuel junk
      ({ columns := 2, rows := 2, matrix := [0, 2, 1, 0] } : Matrix ℚ) eigen_vector _
      ⟨by decide, by decide, rfl⟩ rfl
    · intro i hi
      obtain ⟨j, rfl⟩ : ∃ j, i = j + 1 := ⟨i - 1, by omega⟩
      exact (swap_never_converges _ rfl j).1
    · intro i hi
      obtain ⟨j, rfl⟩ : ∃ j, i = j + 1 := ⟨i - 1, by omega⟩
      exact hgt j
  · intro k
    exact ⟨(swap_states _ rfl k).2.1, (swap_states _ rfl (k + 1)).1.1⟩
  · intro n
    obtain ⟨k, hk | hk⟩ : ∃ k, n = 2 * k ∨ n = 2 * k + 1 := ⟨n / 2, by omega⟩
    · have a := (swap_states _ rfl k).1
      have b := (swap_states _ rfl (k + 1)).1
      have e : 2 * k + 2 = 2 * (k + 1) := by ring
      rw [hk, e]
      refine ⟨by rw [a.1, b.1], fun i hi => by rw [a.2 i hi, b.2 i hi]⟩
    · have a := (swap_states _ rfl k).2
      have b := (swap_states _ rfl (k + 1)).2
      have e : 2 * k + 1 + 2 = 2 * (k + 1) + 1 := by ring
      rw [hk, e]
      refine ⟨by rw [a.1, b.1], fun i hi => ?_⟩
      interval_cases i
      · rw [a.2.1, b.2.1]
      · rw [a.2.2, b.2.2]

/-! ## The eigen solver: the first estimate and the sign of the result -/

/-- A property that holds at entry and that every successful iteration keeps
holds of what a counted loop returns. -/
theorem for_range_preserves {σ : Type} (P : σ → Prop) (body : Nat → σ → Except Fault σ) :
    ∀ (n : Nat) (s r : σ), for_range n body s = Except.ok r → P s →
      (∀ i st st', P st → body i st = Except.ok st' → P st') → P r := by
  intro n
  induction n with
  | zero =>
    intro s r h h0 _
    rw [for_range_zero] at h
    rw [← Except.ok.inj h]
    exact h0
  | succ n ih =>
    intro s r h h0 hstep
    rw [for_range_succ] at h
    cases hn : for_range n body s with
    | error e =>
      rw [hn, error_bind] at h
      cases h
    | ok st =>
      rw [hn, ok_bind] at h
      exact hstep n st r (ih s st hn h0 hstep) h

/-- The product of the matrix with the vector of ones is the vector of row sums. -/
theorem product_vector_ones {α : Type} [LinearOrderedField α] (matrix : Matrix α) (i : Nat) :
    product_vector matrix (fun _ => 1) i = row_sum matrix i := by
  unfold product_vector row_sum
  apply Finset.sum_congr rfl
  intro j _
  rw [mul_one]

/-- The first estimate is the largest absolute row sum. -/
theorem estimate_one_eq {α : Type} [LinearOrderedField α] (matrix : Matrix α) :
    estimate matrix 1 = running_max (row_sum matrix) (matrix.rows - 1) := by
  show running_max (product_vector matrix (fun _ => 1)) (matrix.rows - 1) = _
  apply running_max_congr
  intro i _
  exact product_vector_ones matrix i

/-- The normalized vector of a pass is the product vector divided by the
estimate of that pass. -/
theorem normalized_succ {α : Type} [LinearOrderedField α] (matrix : Matrix α) (k i : Nat) :
    normalized matrix (k + 1) i =
      product_vector matrix (normalized matrix k) i / estimate matrix (k + 1) := rfl

/-- The run of `dominant_eigen` on `[[2, -1], [0, 1]]` with the default
tolerance, in exact rational arithmetic: one pass, the value 1 and the vector
`(1, 1)`. -/
theorem dominant_eigen_upper_triangular :
    dominant_eigen 1 (fun _ => (0 : ℚ)) { columns := 2, rows := 2, matrix := [2, -1, 0, 1] }
      { columns := 1, rows := 2, matrix := [1, 1] } default_tolerable_error =
    Except.ok { value := 1, eigen_vector := { columns := 1, rows := 2, matrix := [1, 1] },
                iterations := 1, errors := [] } := by
  have hp0 : product_vector ({ columns := 2, rows := 2, matrix := [2, -1, 0, 1] } : Matrix ℚ)
      (normalized { columns := 2, rows := 2, matrix := [2, -1, 0, 1] } 0) 0 = 1 := by
    show product_vector _ (fun _ => 1) 0 = 1
    simp [product_vector, Finset.sum_range_succ]
    norm_num
  have hp1 : product_vector ({ columns := 2, rows := 2, matrix := [2, -1, 0, 1] } : Matrix ℚ)
      (normalized { columns := 2, rows := 2, matrix := [2, -1, 0, 1] } 0) 1 = 1 := by
    show product_vector _ (fun _ => 1) 1 = 1
    simp [product_vector, Finset.sum_range_succ]
  have he : estimate ({ columns := 2, rows := 2, matrix := [2, -1, 0, 1] } : Matrix ℚ) 1 = 1 := by
    show running_max (product_vector _ (normalized _ 0)) 1 = 1
    rw [running_max, running_max, hp0, hp1]
    norm_num
  rw [dominant_eigen_returns 1 (fun _ => (0 : ℚ))
    { columns := 2, rows := 2, matrix := [2, -1, 0, 1] } _ default_tolerable_error 1
    ⟨by decide, by decide, rfl⟩ rfl (Nat.le_refl 1) (Nat.le_refl 1)
    (fun i hi hiN => by
      have : i = 1 := by omega
      rw [this, he]
      norm_num)
    (fun i hi hiN => by omega)
    (by
      show |estimate _ 1 - estimate _ 0| ≤ _
      rw [he]
      show |(1 : ℚ) - 1| ≤ _
      norm_num [default_tolerable_error]), he]
  have hv : column_vector
      ({ columns := 2, rows := 2, matrix := [2, -1, 0, 1] } : Matrix ℚ).rows
      (normalized ({ columns := 2, rows := 2, matrix := [2, -1, 0, 1] } : Matrix ℚ) 1) =
      ({ columns := 1, rows := 2, matrix := [1, 1] } : Matrix ℚ) := by
    show ({ columns := 1, rows := 2, matrix := (List.range 2).map _ } : Matrix ℚ) = _
    have h0 : normalized ({ columns := 2, rows := 2, matrix := [2, -1, 0, 1] } : Matrix ℚ) 1 0
        = 1 := by
      rw [normalized_succ, hp0, he]
      norm_num
    have h1 : normalized ({ columns := 2, rows := 2, matrix := [2, -1, 0, 1] } : Matrix ℚ) 1 1
        = 1 := by
      rw [normalized_succ, hp1, he]
      norm_num
    simp [List.range_succ, h0, h1]
  rw [hv]

/-! ## Matrix multiply on square matrices -/

/-- Two row-major offsets with the column inside the row are equal only when
row and column are. -/
theorem offset_injective {i j i' j' c : Nat} (hj : j < c) (hj' : j' < c)
    (h : i * c + j = i' * c + j') : i = i' ∧ j = j' := by
  have h1 := offset_div_mod (i := i) hj
  have h2 := offset_div_mod (i := i') hj'
  rw [h] at h1
  exact ⟨h1.1.symm.trans h2.1, h1.2.symm.trans h2.2⟩

/-- The sum a work-item of the multiply kernel accumulates. -/
theorem multiply_kernel_sum {α : Type} [LinearOrderedRing α] (M N K : Nat)
    (A B : List α) (row col : Nat) (hA : A.length = M * K) (hB : B.length = K * N)
    (hr : row < M) (hc : col < N) :
    for_range K (fun k sum => do
      let x ← read A ((k * M + row : Nat) : Int)
      let y ← read B ((col * K + k : Nat) : Int)
      pure (sum + x * y)) (0 : α) =
    Except.ok (Finset.sum (Finset.range K)
      (fun k => A.getD (k * M + row) 0 * B.getD (col * K + k) 0)) := by
  obtain ⟨sum, hsum, hval⟩ := for_range_invariant
    (fun n (sum : α) => sum = Finset.sum (Finset.range n)
      (fun k => A.getD (k * M + row) 0 * B.getD (col * K + k) 0)) K
    (fun k sum => do
      let x ← read A ((k * M + row : Nat) : Int)
      let y ← read B ((col * K + k : Nat) : Int)
      pure (sum + x * y)) (0 : α) (by simp)
    (by
      intro k hk st hst
      have h1 : k * M + row < A.length := by
        rw [hA, Nat.mul_comm M K]; exact offset_lt hk hr
      have h2 : col * K + k < B.length := by
        rw [hB, Nat.mul_comm K N]; exact offset_lt hc hk
      beta_reduce
      rw [read_natCast A _ h1, read_natCast B _ h2]
      refine ⟨_, rfl, ?_⟩
      rw [Finset.sum_range_succ, hst, List.getD_eq_getElem _ _ h1, List.getD_eq_getElem _ _ h2]
      rfl)
  rw [hsum, hval]

/-- The launch of the multiply kernel over the range `(M, N)`: the work-item
`(row, col)` leaves its sum at offset `col * M + row`. -/
theorem run_2d_multiply_eq {α : Type} [LinearOrderedRing α] (M N K : Nat)
    (A B C : List α) (hA : A.length = M * K) (hB : B.length = K * N) (hC : C.length = M * N) :
    ∃ out : List α, run_2d M N (parallel_matrix_multiply M N K A B) C = Except.ok out ∧
      out.length = M * N ∧
      ∀ row col, row < M → col < N →
        out[col * M + row]? = some (Finset.sum (Finset.range K)
          (fun k => A.getD (k * M + row) 0 * B.getD (col * K + k) 0)) := by
  unfold run_2d
  refine for_range_invariant (fun r (res : List α) => res.length = M * N ∧
    ∀ row col, row < r → col < N →
      res[col * M + row]? = some (Finset.sum (Finset.range K)
        (fun k => A.getD (k * M + row) 0 * B.getD (col * K + k) 0))) M _ C
    ⟨hC, fun row col h _ => by omega⟩ ?_
  intro r hr res hres
  obtain ⟨out, hout, hlen, hold, hnew⟩ := for_range_invariant (fun c (res : List α) =>
    res.length = M * N ∧
    (∀ row col, row < r → col < N →
      res[col * M + row]? = some (Finset.sum (Finset.range K)
        (fun k => A.getD (k * M + row) 0 * B.getD (col * K + k) 0))) ∧
    (∀ col, col < c →
      res[col * M + r]? = some (Finset.sum (Finset.range K)
        (fun k => A.getD (k * M + r) 0 * B.getD (col * K + k) 0)))) N
    (fun col res => parallel_matrix_multiply M N K A B res r col) res
    ⟨hres.1, hres.2, fun col h => by omega⟩ (by
      intro c hc st hst
      obtain ⟨hl, hold, hnew⟩ := hst
      have hidx : c * M + r < st.length := by
        rw [hl, Nat.mul_comm M N]; exact offset_lt hc hr
      beta_reduce
      unfold parallel_matrix_multiply
      rw [multiply_kernel_sum M N K A B r c hA hB hr hc, ok_bind, write_natCast _ _ _ hidx]
      refine ⟨_, rfl, ?_, ?_, ?_⟩
      · rw [List.length_set]; exact hl
      · intro row col hrow hcol
        rw [List.getElem?_set_ne]
        · exact hold row col hrow hcol
        · intro heq
          have := (offset_injective hr (by omega : row < M) heq).2
          omega
      · intro col hcol
        by_cases hcc : col = c
        · subst hcc
          rw [List.getElem?_set_self hidx]
        · rw [List.getElem?_set_ne]
          · exact hnew col (by omega)
          · intro heq
            exact hcc (offset_injective hr hr heq).1.symm)
  refine ⟨out, hout, hlen, ?_⟩
  intro row col hrow hcol
  by_cases hrr : row = r
  · subst hrr
    exact hnew col hcol
  · exact hold row col (by omega) hcol

/-- The product entry of the specification as a sum. -/
theorem product_entry_eq {α : Type} [LinearOrderedRing α] (A B : Matrix α) (i j : Nat)
    (hA : A.matrix.length = A.rows * A.columns) (hB : B.matrix.length = B.rows * B.columns)
    (hinner : B.rows = A.columns) (hi : i < A.rows) (hj : j < B.columns) :
    product_entry A B i j = Except.ok (Finset.sum (Finset.range A.columns)
      (fun t => A.matrix.getD (i * A.columns + t) 0 * B.matrix.getD (t * B.columns + j) 0)) := by
  unfold product_entry
  obtain ⟨sum, hsum, hval⟩ := for_range_invariant
    (fun n (sum : α) => sum = Finset.sum (Finset.range n)
      (fun t => A.matrix.getD (i * A.columns + t) 0 * B.matrix.getD (t * B.columns + j) 0))
    A.columns
    (fun t sum => do
      let x ← A.get_element i t
      let y ← B.get_element t j
      pure (sum + x * y)) (0 : α) (by simp)
    (by
      intro t ht st hst
      have h1 : i * A.columns + t < A.matrix.length := by
        rw [hA]; exact offset_lt hi ht
      have h2 : t * B.columns + j < B.matrix.length := by
        rw [hB]; exact offset_lt (by omega) hj
      beta_reduce
      rw [get_element_eq A i t _ (List.getElem?_eq_getElem h1),
        get_element_eq B t j _ (List.getElem?_eq_getElem h2)]
      refine ⟨_, rfl, ?_⟩
      rw [Finset.sum_range_succ, hst, List.getD_eq_getElem _ _ h1, List.getD_eq_getElem _ _ h2])
  rw [hsum, hval]

/-- C27: for two square matrices A and B of the same order `n`, when the OpenCL
calls up to the read-back succeed, `matmul(A, B)` returns an `n x n` matrix whose
element (i, j) is the sum over `t < n` of `B(i, t) * A(t, j)`: the entry (i, j) of
the product taken in the order B * A. -/
theorem matmul_square_is_reversed_product {α : Type} [LinearOrderedCommRing α]
    (cl : Nat → Int) (junk : Nat → α) (A B : Matrix α) (n : Nat)
    (hA : A.rows = n ∧ A.columns = n ∧ A.matrix.length = n * n)
    (hB : B.rows = n ∧ B.columns = n ∧ B.matrix.length = n * n)
    (hcl : ∀ k, k < 14 → cl k = 0) :
    ∃ result : Matrix α, (matmul cl junk A B).start.1 = Except.ok result ∧
      result.get_rows = n ∧ result.get_columns = n ∧
      ∀ i j, i < n → j < n →
        ∃ v : α, product_entry B A i j = Except.ok v ∧ result.get_element i j = Except.ok v := by
  obtain ⟨hAr, hAc, hAl⟩ := hA
  obtain ⟨hBr, hBc, hBl⟩ := hB
  obtain ⟨out, hout, hlen, hval⟩ := run_2d_multiply_eq A.rows B.columns B.rows A.matrix B.matrix
    (uninitialised junk (A.rows * B.columns))
    (by rw [hAl, hAr, hBr]) (by rw [hBl, hBr, hBc]) (length_uninitialised _ _)
  refine ⟨_, matmul_returns cl junk A B hcl out hout, hAr, hBc, ?_⟩
  intro i j hi hj
  refine ⟨_, product_entry_eq B A i j (by rw [hBl, hBr, hBc]) (by rw [hAl, hAr, hAc])
    (by rw [hAr, hBc]) (by rw [hBr]; exact hi) (by rw [hAc]; exact hj), ?_⟩
  apply get_element_eq
  show out[i * B.columns + j]? = _
  have h := hval j i (by rw [hAr]; exact hj) (by rw [hBc]; exact hi)
  rw [hAr] at h
  rw [hBc, h, hBr, hAc]
  congr 1
  apply Finset.sum_congr rfl
  intro t _
  exact mul_comm _ _

/-- C27 at A = [[1, 2], [3, 4]] and B = [[5, 6], [7, 8]]: `matmul(A, B)` returns
[[23, 34], [31, 46]], which is B * A; A * B is [[19, 22], [43, 50]]. -/
theorem matmul_square_is_reversed_product_witness :
    ((2 = 2 ∧ 2 = 2 ∧ [(1 : Int), 2, 3, 4].length = 2 * 2) ∧
      (2 = 2 ∧ 2 = 2 ∧ [(5 : Int), 6, 7, 8].length = 2 * 2) ∧
      (∀ k, k < 14 → (fun _ : Nat => (0 : Int)) k = 0) ∧
      (matmul (fun _ => 0) (fun _ => 0)
          ({ rows := 2, columns := 2, matrix := [1, 2, 3, 4] } : Matrix Int)
          { rows := 2, columns := 2, matrix := [5, 6, 7, 8] }).start.1 =
        Except.ok { rows := 2, columns := 2, matrix := [23, 34, 31, 46] }) ∧
    ∃ result : Matrix Int,
      (matmul (fun _ => 0) (fun _ => 0)
          ({ rows := 2, columns := 2, matrix := [1, 2, 3, 4] } : Matrix Int)
          { rows := 2, columns := 2, matrix := [5, 6, 7, 8] }).start.1 = Except.ok result ∧
      result.get_rows = 2 ∧ result.get_columns = 2 ∧
      ∀ i j, i < 2 → j < 2 →
        ∃ v : Int,
          product_entry ({ rows := 2, columns := 2, matrix := [5, 6, 7, 8] } : Matrix Int)
            { rows := 2, columns := 2, matrix := [1, 2, 3, 4] } i j = Except.ok v ∧
          result.get_element i j = Except.ok v :=
  ⟨⟨⟨rfl, rfl, rfl⟩, ⟨rfl, rfl, rfl⟩, fun _ _ => rfl, rfl⟩,
   matmul_square_is_reversed_product (fun _ => 0) (fun _ => 0)
      ({ rows := 2, columns := 2, matrix := [1, 2, 3, 4] } : Matrix Int)
      { rows := 2, columns := 2, matrix := [5, 6, 7, 8] } 2
      ⟨rfl, rfl, rfl⟩ ⟨rfl, rfl, rfl⟩ (fun _ _ => rfl)⟩

/-! ## The tiling of the smaller matrix when it has fewer columns than the target -/

/-- The strided copy puts the smaller matrix in the top left corner of the
target: cell `(r, c)` of the buffer holds `small(r, c)`. -/
theorem strided_copy_values {α : Type} (big small : Matrix α) (output : List α)
    (hsmall : small.matrix.length = small.rows * small.columns)
    (hout : output.length = big.rows * big.columns)
    (hrows : small.rows ≤ big.rows) (hcols : small.columns ≤ big.columns) :
    returns_with (strided_copy big small output)
      (fun st => st.1.length = output.length ∧
        ∀ r c, r < small.rows → c < small.columns →
          st.1[r * big.columns + c]? = small.matrix[r * small.columns + c]?) := by
  unfold strided_copy
  obtain ⟨st, hst, hlen, -, hval⟩ := returns_with_for_range
    (fun i (st : List α × Int) =>
      st.1.length = output.length ∧ st.2 = ((i * big.columns : Nat) : Int) ∧
      ∀ r c, r < i → c < small.columns →
        st.1[r * big.columns + c]? = small.matrix[r * small.columns + c]?) small.rows
    (fun i st => do
      let st ← for_range small.columns (fun j (st : List α × Int) => do
        let v ← read small.matrix ((i * small.columns + j : Nat) : Int)
        let out ← write st.1 st.2 v
        pure (out, st.2 + 1)) st
      pure (st.1, st.2 - (small.columns : Int) + (big.columns : Int))) (output, 0)
    ⟨rfl, by simp, fun r c h _ => by omega⟩ (by
      intro i hi st hst
      obtain ⟨hl, hidx, hold⟩ := hst
      apply returns_with_bind _ _
        (fun st : List α × Int => st.1.length = output.length ∧
          st.2 = ((i * big.columns + small.columns : Nat) : Int) ∧
          (∀ r c, r < i → c < small.columns →
            st.1[r * big.columns + c]? = small.matrix[r * small.columns + c]?) ∧
          (∀ c, c < small.columns →
            st.1[i * big.columns + c]? = small.matrix[i * small.columns + c]?))
      · apply returns_with_for_range
          (fun j (st : List α × Int) => st.1.length = output.length ∧
            st.2 = ((i * big.columns + j : Nat) : Int) ∧
            (∀ r c, r < i → c < small.columns →
              st.1[r * big.columns + c]? = small.matrix[r * small.columns + c]?) ∧
            (∀ c, c < j →
              st.1[i * big.columns + c]? = small.matrix[i * small.columns + c]?))
        · exact ⟨hl, by rw [hidx]; simp, hold, fun c h => by omega⟩
        intro j hj st' hst'
        obtain ⟨hl', hidx', hold', hnew'⟩ := hst'
        have h1 : i * small.columns + j < small.rows * small.columns := offset_lt hi hj
        have h2 : i * big.columns + j < big.rows * big.columns :=
          offset_lt (Nat.lt_of_lt_of_le hi hrows) (Nat.lt_of_lt_of_le hj hcols)
        have h1' : i * small.columns + j < small.matrix.length := by omega
        have h2' : i * big.columns + j < st'.1.length := by omega
        rw [read_natCast _ _ h1', ok_bind, hidx', write_natCast _ _ _ h2', ok_bind]
        refine ⟨_, rfl, ?_, ?_, ?_, ?_⟩
        · simp only [List.length_set]; exact hl'
        · push_cast; ring
        · intro r c hr hc
          simp only
          rw [List.getElem?_set_ne]
          · exact hold' r c hr hc
          · intro heq
            have := (offset_injective (Nat.lt_of_lt_of_le hj hcols)
              (Nat.lt_of_lt_of_le hc hcols) heq).1
            omega
        · intro c hc
          simp only
          by_cases hcj : c = j
          · subst hcj
            rw [List.getElem?_set_self h2', List.getElem?_eq_getElem h1']
            rfl
          · rw [List.getElem?_set_ne]
            · exact hnew' c (by omega)
            · intro heq
              exact hcj (offset_injective (Nat.lt_of_lt_of_le hj hcols)
                (by omega : c < big.columns) heq).2.symm
      intro st' hst'
      obtain ⟨hl', hidx', hold', hnew'⟩ := hst'
      refine ⟨_, rfl, hl', ?_, ?_⟩
      · show st'.2 - (small.columns : Int) + (big.columns : Int) = _
        rw [hidx']
        push_cast
        ring
      · intro r c hr hc
        by_cases hri : r = i
        · subst hri
          exact hnew' c hc
        · exact hold' r c (by omega) hc)
  exact ⟨st, hst, hlen, hval⟩

/-- Quotient and remainder of `t + 1` inside a row. -/
theorem succ_div_mod_of_lt {t c : Nat} (h : t % c + 1 < c) :
    (t + 1) / c = t / c ∧ (t + 1) % c = t % c + 1 := by
  have ht : t + 1 = t / c * c + (t % c + 1) := by
    have := Nat.div_add_mod' t c
    omega
  rw [ht]
  exact offset_div_mod h

/-- Quotient and remainder of `t + 1` at the end of a row. -/
theorem succ_div_mod_of_eq {t c : Nat} (h : t % c + 1 = c) :
    (t + 1) / c = t / c + 1 ∧ (t + 1) % c = 0 := by
  have ht : t + 1 = (t / c + 1) * c + 0 := by
    have := Nat.div_add_mod' t c
    rw [Nat.add_mul, Nat.one_mul]
    omega
  rw [ht]
  exact offset_div_mod (by omega)

/-- The band loop from its `t`-th step on (row `t / sc` of the band, column
`t % sc`): it returns, and it has copied every cell `(r, c)` of the band that
starts at `base`, from step `t` on, to the band below, changing nothing else. -/
theorem band_loop_copies {α : Type} (sr sc bc base len : Nat) (hsc : 1 ≤ sc) (hcols : sc ≤ bc)
    (hfit : base + sr * bc + sr * bc ≤ len) :
    ∀ (fuel t : Nat) (out : List α), t ≤ sr * sc → sr * sc ≤ t + fuel → out.length = len →
      ∃ out' : List α,
        band_loop sc bc ((sr * bc : Nat) : Int) ((base + sr * bc : Nat) : Int) fuel
          ((base + (t / sc * bc + t % sc) : Nat) : Int) ((t % sc : Nat) : Int) out =
          Except.ok out' ∧
        out'.length = len ∧
        (∀ r c, r < sr → c < sc → t ≤ r * sc + c →
          out'[base + sr * bc + (r * bc + c)]? = out[base + (r * bc + c)]?) ∧
        (∀ p, (∀ r c, r < sr → c < sc → t ≤ r * sc + c → p ≠ base + sr * bc + (r * bc + c)) →
          out'[p]? = out[p]?) := by
  have hexit : ∀ (fuel : Nat) (out : List α),
      band_loop sc bc ((sr * bc : Nat) : Int) ((base + sr * bc : Nat) : Int) fuel
        ((base + (sr * sc / sc * bc + sr * sc % sc) : Nat) : Int)
        ((sr * sc % sc : Nat) : Int) out = Except.ok out := by
    intro fuel out
    rw [Nat.mul_div_cancel _ (by omega : 0 < sc), Nat.mul_mod_left, Nat.add_zero]
    cases fuel with
    | zero =>
      unfold band_loop
      rw [if_neg (by omega)]
    | succ f =>
      unfold band_loop
      rw [if_neg (by omega)]
  have hdone : ∀ (fuel : Nat) (out : List α), out.length = len →
      ∃ out' : List α,
        band_loop sc bc ((sr * bc : Nat) : Int) ((base + sr * bc : Nat) : Int) fuel
          ((base + (sr * sc / sc * bc + sr * sc % sc) : Nat) : Int)
          ((sr * sc % sc : Nat) : Int) out = Except.ok out' ∧
        out'.length = len ∧
        (∀ r c, r < sr → c < sc → sr * sc ≤ r * sc + c →
          out'[base + sr * bc + (r * bc + c)]? = out[base + (r * bc + c)]?) ∧
        (∀ p, (∀ r c, r < sr → c < sc → sr * sc ≤ r * sc + c →
          p ≠ base + sr * bc + (r * bc + c)) → out'[p]? = out[p]?) := by
    intro fuel out hlen
    refine ⟨out, hexit fuel out, hlen, ?_, fun _ _ => rfl⟩
    intro r c hr hc hle
    have := offset_lt hr hc
    omega
  intro fuel
  induction fuel with
  | zero =>
    intro t out ht hfuel hlen
    have hts : t = sr * sc := by omega
    subst hts
    exact hdone 0 out hlen
  | succ fuel ih =>
    intro t out ht hfuel hlen
    by_cases hts : t = sr * sc
    · subst hts
      exact hdone (fuel + 1) out hlen
    have htlt : t < sr * sc := by omega
    have hr0 : t / sc < sr := (Nat.div_lt_iff_lt_mul (by omega : 0 < sc)).mpr htlt
    have hc0 : t % sc < sc := Nat.mod_lt _ (by omega)
    have hpos : t / sc * bc + t % sc < sr * bc := offset_lt hr0 (by omega)
    have hj : base + (t / sc * bc + t % sc) < out.length := by omega
    have hw : base + (t / sc * bc + t % sc) + sr * bc < out.length := by omega
    have hcast : ((base + (t / sc * bc + t % sc) : Nat) : Int) + ((sr * bc : Nat) : Int) =
        ((base + (t / sc * bc + t % sc) + sr * bc : Nat) : Int) := by
      push_cast; ring
    have hdecomp : t / sc * sc + t % sc = t := Nat.div_add_mod' t sc
    obtain ⟨v, hv⟩ : ∃ v, out[base + (t / sc * bc + t % sc)]? = some v :=
      ⟨_, List.getElem?_eq_getElem hj⟩
    unfold band_loop
    rw [if_pos (by omega), read_of_getElem? out _ v hv, ok_bind, hcast, write_natCast _ _ _ hw,
      ok_bind]
    dsimp only
    have hlen1 : (out.set (base + (t / sc * bc + t % sc) + sr * bc) v).length = len := by
      rw [List.length_set]; exact hlen
    -- what the rest of the loop gives, from step `t + 1` on
    have hrest : ∀ out' : List α,
        out'.length = len →
        (∀ r c, r < sr → c < sc → t + 1 ≤ r * sc + c →
          out'[base + sr * bc + (r * bc + c)]? =
            (out.set (base + (t / sc * bc + t % sc) + sr * bc) v)[base + (r * bc + c)]?) →
        (∀ p, (∀ r c, r < sr → c < sc → t + 1 ≤ r * sc + c →
          p ≠ base + sr * bc + (r * bc + c)) →
          out'[p]? = (out.set (base + (t / sc * bc + t % sc) + sr * bc) v)[p]?) →
        out'.length = len ∧
        (∀ r c, r < sr → c < sc → t ≤ r * sc + c →
          out'[base + sr * bc + (r * bc + c)]? = out[base + (r * bc + c)]?) ∧
        (∀ p, (∀ r c, r < sr → c < sc → t ≤ r * sc + c →
          p ≠ base + sr * bc + (r * bc + c)) → out'[p]? = out[p]?) := by
      intro out' hl' hcopy hframe
      refine ⟨hl', ?_, ?_⟩
      · intro r c hr hc hle
        by_cases hrc : r * sc + c = t
        · have hdm := offset_div_mod (i := r) hc
          rw [hrc] at hdm
          obtain ⟨h1, h2⟩ := hdm
          subst h1 h2
          have e : base + sr * bc + (t / sc * bc + t % sc) =
              base + (t / sc * bc + t % sc) + sr * bc := by omega
          rw [hframe, e, List.getElem?_set_self hw, hv]
          intro r' c' hr' hc' hle' heq
          have hinj := offset_injective (by omega : t % sc < bc) (by omega : c' < bc)
            (by omega : t / sc * bc + t % sc = r' * bc + c')
          rw [← hinj.1, ← hinj.2] at hle'
          omega
        · rw [hcopy r c hr hc (by omega), List.getElem?_set_ne]
          have := offset_lt hr (by omega : c < bc)
          omega
      · intro p hp
        rw [hframe p (fun r c hr hc hle => hp r c hr hc (by omega)), List.getElem?_set_ne]
        have hdm := hp (t / sc) (t % sc) hr0 hc0 (by omega)
        omega
    by_cases hk : ((t % sc : Nat) : Int) + 1 ≥ (sc : Int)
    · rw [if_pos hk]
      have hend : t % sc + 1 = sc := by omega
      obtain ⟨hq, hm⟩ := succ_div_mod_of_eq hend
      have hnext : ((base + (t / sc * bc + t % sc) : Nat) : Int) - (sc : Int) + (bc : Int) + 1 =
          ((base + ((t + 1) / sc * bc + (t + 1) % sc) : Nat) : Int) := by
        rw [hq, hm, Nat.add_mul, Nat.one_mul]
        push_cast
        omega
      have hk0 : (0 : Int) = (((t + 1) % sc : Nat) : Int) := by rw [hm]; rfl
      rw [hnext, hk0]
      obtain ⟨out', hout', hl', hcopy, hframe⟩ := ih (t + 1) _ (by omega) (by omega) hlen1
      exact ⟨out', hout', hrest out' hl' hcopy hframe⟩
    · rw [if_neg hk]
      have hin : t % sc + 1 < sc := by omega
      obtain ⟨hq, hm⟩ := succ_div_mod_of_lt hin
      have hnext : ((base + (t / sc * bc + t % sc) : Nat) : Int) + 1 =
          ((base + ((t + 1) / sc * bc + (t + 1) % sc) : Nat) : Int) := by
        rw [hq, hm]
        push_cast
        omega
      have hk1 : ((t % sc : Nat) : Int) + 1 = (((t + 1) % sc : Nat) : Int) := by
        rw [hm]; push_cast; rfl
      rw [hnext, hk1]
      obtain ⟨out', hout', hl', hcopy, hframe⟩ := ih (t + 1) _ (by omega) (by omega) hlen1
      exact ⟨out', hout', hrest out' hl' hcopy hframe⟩

/-- The unsigned value of a non-negative `long long` below `2^64` is the value. -/
theorem to_unsigned_natCast (n : Nat) (h : n < SIZE_RANGE) : to_unsigned (n : Int) = n := by
  unfold to_unsigned
  unfold SIZE_RANGE at *
  have h1 : ((n : Int) % ((2 ^ 64 : Nat) : Int)) = (n : Int) :=
    Int.emod_eq_of_lt (Int.ofNat_nonneg n) (by exact_mod_cast h)
  rw [h1, Int.toNat_ofNat]

/-- With fewer columns in the smaller matrix than in the target, nothing wraps
in the bound of the column loop: it is `curr_position + (columns - 1 - small.columns)`. -/
theorem column_bound_eq (bc sc curr : Nat) (hlt : sc < bc) (hfit : curr + bc < SIZE_RANGE) :
    column_bound bc sc (curr : Int) = curr + (bc - 1 - sc) := by
  unfold column_bound
  rw [to_unsigned_natCast curr (by omega)]
  unfold size_sub
  unfold SIZE_RANGE at *
  norm_num at *
  omega

/-- The column loop of one row, from its `c`-th step on: when the first
`sc + c` cells of the row already repeat the first `sc` cells of `orig`
periodically, the loop returns with the whole row periodic, and the cells
outside the row are still those of `orig`. -/
theorem column_loop_tiles {α : Type} (sc bc curr len : Nat) (orig : List α) (hsc : 1 ≤ sc)
    (hlt : sc < bc) (hrow : curr + bc ≤ len) (hfit : len < SIZE_RANGE) :
    ∀ (fuel c : Nat) (out : List α), sc + c ≤ bc → bc ≤ sc + c + fuel → out.length = len →
      (∀ x, x < sc + c → out[curr + x]? = orig[curr + x % sc]?) →
      (∀ p, p < curr ∨ curr + bc ≤ p → out[p]? = orig[p]?) →
      ∃ out' : List α,
        column_loop sc (column_bound bc sc (curr : Int)) fuel ((curr + c : Nat) : Int) out =
          Except.ok out' ∧
        out'.length = len ∧
        (∀ x, x < bc → out'[curr + x]? = orig[curr + x % sc]?) ∧
        (∀ p, p < curr ∨ curr + bc ≤ p → out'[p]? = orig[p]?) := by
  have hbound := column_bound_eq bc sc curr hlt (by omega)
  have hexit : ∀ (fuel : Nat) (out : List α),
      column_loop sc (column_bound bc sc (curr : Int)) fuel ((curr + (bc - sc) : Nat) : Int) out =
        Except.ok out := by
    intro fuel out
    have htest : ¬ to_unsigned ((curr + (bc - sc) : Nat) : Int) ≤
        column_bound bc sc (curr : Int) := by
      rw [hbound, to_unsigned_natCast _ (by omega)]
      omega
    cases fuel with
    | zero =>
      unfold column_loop
      rw [if_neg htest]
    | succ f =>
      unfold column_loop
      rw [if_neg htest]
  intro fuel
  induction fuel with
  | zero =>
    intro c out hc hfuel hlen hper hframe
    have hcc : c = bc - sc := by omega
    subst hcc
    refine ⟨out, hexit 0 out, hlen, ?_, hframe⟩
    intro x hx
    exact hper x (by omega)
  | succ fuel ih =>
    intro c out hc hfuel hlen hper hframe
    by_cases hcc : c = bc - sc
    · subst hcc
      refine ⟨out, hexit (fuel + 1) out, hlen, ?_, hframe⟩
      intro x hx
      exact hper x (by omega)
    have htest : to_unsigned ((curr + c : Nat) : Int) ≤ column_bound bc sc (curr : Int) := by
      rw [hbound, to_unsigned_natCast _ (by omega)]
      omega
    have hj : curr + c < out.length := by omega
    have hw : curr + c + sc < out.length := by omega
    obtain ⟨v, hv⟩ : ∃ v, out[curr + c]? = some v := ⟨_, List.getElem?_eq_getElem hj⟩
    have hcast : ((curr + c : Nat) : Int) + (sc : Int) = ((curr + c + sc : Nat) : Int) := by
      push_cast; rfl
    have hnext : ((curr + c : Nat) : Int) + 1 = ((curr + (c + 1) : Nat) : Int) := by
      push_cast; ring
    unfold column_loop
    rw [if_pos htest, read_of_getElem? out _ v hv, ok_bind, hcast, write_natCast _ _ _ hw,
      ok_bind, hnext]
    apply ih (c + 1) _ (by omega) (by omega) (by rw [List.length_set]; exact hlen)
    · intro x hx
      by_cases hxe : x = sc + c
      · subst hxe
        have e : curr + (sc + c) = curr + c + sc := by omega
        rw [e, List.getElem?_set_self hw, Nat.add_mod_left, ← hper c (by omega), hv]
      · rw [List.getElem?_set_ne (by omega)]
        exact hper x (by omega)
    · intro p hp
      rw [List.getElem?_set_ne (by omega)]
      exact hframe p hp

/-- The tiling of the smaller matrix when it has fewer columns than the target
and its row count divides the target's (and the buffer fits the address space):
the three steps of `tile` return, and the cell `(r, c)` of the buffer holds
`small(r mod small.rows, c mod small.columns)`. -/
theorem tile_returns {α : Type} (big small : Matrix α) (output : List α)
    (hlt : small.columns < big.columns) (hdvd : small.rows ∣ big.rows)
    (hsr : 1 ≤ small.rows) (hsc : 1 ≤ small.columns) (hbr : 1 ≤ big.rows)
    (hsmall : small.matrix.length = small.rows * small.columns)
    (hout : output.length = big.rows * big.columns)
    (hfit : big.rows * big.columns < SIZE_RANGE) :
    ∃ out : List α, tile big small output = Except.ok out ∧
      out.length = big.rows * big.columns ∧
      ∀ r c, r < big.rows → c < big.columns →
        out[r * big.columns + c]? =
          small.matrix[r % small.rows * small.columns + c % small.columns]? := by
  have hrows : small.rows ≤ big.rows := Nat.le_of_dvd hbr hdvd
  have hrep : big.rows / small.rows * small.rows = big.rows := Nat.div_mul_cancel hdvd
  have hq : 1 ≤ big.rows / small.rows := by
    rcases Nat.eq_zero_or_pos (big.rows / small.rows) with h0 | h0
    · rw [h0, Nat.zero_mul] at hrep
      omega
    · exact h0
  -- step 1: the strided copy
  obtain ⟨st, hst, hlen1, hval1⟩ :=
    strided_copy_values big small output hsmall hout hrows (le_of_lt hlt)
  have hdiv : size_div big.rows small.rows = Except.ok (big.rows / small.rows) := by
    unfold size_div
    rw [if_neg (by omega)]
  -- step 2: the bands
  obtain ⟨out2, hband, hlen2, hval2⟩ := returns_with_for_range
    (fun i (o : List α) => o.length = output.length ∧
      ∀ r c, r < (i + 1) * small.rows → c < small.columns →
        o[r * big.columns + c]? = small.matrix[r % small.rows * small.columns + c]?)
    (big.rows / small.rows - 1)
    (fun i out =>
      band_loop small.columns big.columns (((small.rows * big.columns : Nat) : Int))
        ((i : Int) * ((small.rows * big.columns : Nat) : Int) +
          ((small.rows * big.columns : Nat) : Int))
        (((((small.rows * big.columns : Nat) : Int)).toNat + 1) * (small.columns + 1))
        ((i : Int) * ((small.rows * big.columns : Nat) : Int)) 0 out) st.1
    ⟨hlen1, fun r c hr hc => by
      rw [Nat.one_mul] at hr
      rw [Nat.mod_eq_of_lt hr]
      exact hval1 r c hr hc⟩ (by
      intro i hi o ho
      obtain ⟨hol, hov⟩ := ho
      have hlim : (i : Int) * ((small.rows * big.columns : Nat) : Int) +
          ((small.rows * big.columns : Nat) : Int) =
          ((i * (small.rows * big.columns) + small.rows * big.columns : Nat) : Int) := by
        push_cast; ring
      have hstart : (i : Int) * ((small.rows * big.columns : Nat) : Int) =
          ((i * (small.rows * big.columns) + (0 / small.columns * big.columns +
            0 % small.columns) : Nat) : Int) := by
        have h0 : 0 / small.columns * big.columns + 0 % small.columns = 0 := by simp
        rw [h0, Nat.add_zero]
        push_cast; ring
      have hk : (0 : Int) = ((0 % small.columns : Nat) : Int) := by
        rw [Nat.zero_mod]; rfl
      have hroom : i * (small.rows * big.columns) + small.rows * big.columns +
          small.rows * big.columns ≤ big.rows * big.columns := by
        calc i * (small.rows * big.columns) + small.rows * big.columns +
              small.rows * big.columns
            = (i + 2) * small.rows * big.columns := by ring
          _ ≤ big.rows / small.rows * small.rows * big.columns := by
              apply Nat.mul_le_mul_right
              apply Nat.mul_le_mul_right
              omega
          _ = big.rows * big.columns := by rw [hrep]
      have hfuel : small.rows * small.columns ≤
          0 + (small.rows * big.columns + 1) * (small.columns + 1) := by
        have h1 : small.rows * small.columns ≤ small.rows * big.columns :=
          Nat.mul_le_mul_left _ (le_of_lt hlt)
        have h2 : small.rows * big.columns + 1 ≤
            (small.rows * big.columns + 1) * (small.columns + 1) :=
          Nat.le_mul_of_pos_right _ (Nat.succ_pos _)
        omega
      obtain ⟨o', ho', hl', hcopy, hframe⟩ := band_loop_copies small.rows small.columns
        big.columns (i * (small.rows * big.columns)) (big.rows * big.columns) hsc (le_of_lt hlt)
        hroom ((small.rows * big.columns + 1) * (small.columns + 1)) 0 o (Nat.zero_le _) hfuel
        (by rw [hol, hout])
      beta_reduce
      rw [hlim, Int.toNat_ofNat, hstart, hk]
      refine ⟨o', ho', by rw [hl', hout], ?_⟩
      intro r c hr hc
      have hcb : c < big.columns := by omega
      by_cases hlow : r < (i + 1) * small.rows
      · rw [hframe, hov r c hlow hc]
        intro r' c' _ _ _
        have h1 : r * big.columns + c < (i + 1) * small.rows * big.columns :=
          offset_lt hlow hcb
        have h2 : (i + 1) * small.rows * big.columns =
            i * (small.rows * big.columns) + small.rows * big.columns := by ring
        omega
      · obtain ⟨r', hr'⟩ : ∃ r', r = (i + 1) * small.rows + r' :=
          ⟨r - (i + 1) * small.rows, by omega⟩
        have hr'lt : r' < small.rows := by
          have : (i + 1 + 1) * small.rows = (i + 1) * small.rows + small.rows := by ring
          omega
        have e1 : r * big.columns + c = i * (small.rows * big.columns) +
            small.rows * big.columns + (r' * big.columns + c) := by
          rw [hr']; ring
        have e2 : i * (small.rows * big.columns) + (r' * big.columns + c) =
            (i * small.rows + r') * big.columns + c := by ring
        have hrow : i * small.rows + r' < (i + 1) * small.rows := by
          have : (i + 1) * small.rows = i * small.rows + small.rows := by ring
          omega
        have m1 : r % small.rows = r' := by
          rw [hr', Nat.mul_add_mod', Nat.mod_eq_of_lt hr'lt]
        have m2 : (i * small.rows + r') % small.rows = r' := by
          rw [Nat.mul_add_mod', Nat.mod_eq_of_lt hr'lt]
        rw [e1, hcopy r' c hr'lt hc (Nat.zero_le _), e2, hov _ c hrow hc, m1, m2])
  -- step 3: the columns
  have hrows2 : ∀ r c, r < big.rows → c < small.columns →
      out2[r * big.columns + c]? = small.matrix[r % small.rows * small.columns + c]? := by
    intro r c hr hc
    apply hval2 r c _ hc
    rw [Nat.sub_add_cancel hq, hrep]
    exact hr
  obtain ⟨out3, hcolumn, hlen3, hval3, -⟩ := returns_with_for_range
    (fun i (o : List α) => o.length = output.length ∧
      (∀ r c, r < i → c < big.columns →
        o[r * big.columns + c]? =
          small.matrix[r % small.rows * small.columns + c % small.columns]?) ∧
      (∀ r c, i ≤ r → r < big.rows → c < small.columns →
        o[r * big.columns + c]? = small.matrix[r % small.rows * small.columns + c]?))
    big.rows
    (fun i out =>
      column_loop small.columns
        (column_bound big.columns small.columns (((i * big.columns : Nat) : Int)))
        (out.length + 1) (((i * big.columns : Nat) : Int)) out) out2
    ⟨hlen2, fun r c h _ => by omega, fun r c _ hr hc => hrows2 r c hr hc⟩ (by
      intro i hi o ho
      obtain ⟨hol, hdone, htodo⟩ := ho
      have hrowfit : i * big.columns + big.columns ≤ big.rows * big.columns := by
        calc i * big.columns + big.columns = (i + 1) * big.columns := by ring
          _ ≤ big.rows * big.columns := Nat.mul_le_mul_right _ hi
      have h := column_loop_tiles small.columns big.columns (i * big.columns)
        (big.rows * big.columns) o hsc hlt hrowfit hfit (o.length + 1) 0 o (by omega)
        (by omega) (by rw [hol, hout])
        (fun x hx => by rw [Nat.mod_eq_of_lt (by omega : x < small.columns)])
        (fun p _ => rfl)
      obtain ⟨o', ho', hl', hper, hframe⟩ := h
      refine ⟨o', ho', by rw [hl', hout], ?_, ?_⟩
      · intro r c hr hc
        by_cases hri : r = i
        · subst hri
          rw [hper c hc]
          exact htodo r (c % small.columns) (Nat.le_refl r) hi (Nat.mod_lt _ (by omega))
        · have hle : (r + 1) * big.columns ≤ i * big.columns :=
            Nat.mul_le_mul_right _ (by omega)
          have : (r + 1) * big.columns = r * big.columns + big.columns := by ring
          rw [hframe _ (Or.inl (by omega))]
          exact hdone r c (by omega) hc
      · intro r c hir hr hc
        have hle : (i + 1) * big.columns ≤ r * big.columns :=
          Nat.mul_le_mul_right _ hir
        have : (i + 1) * big.columns = i * big.columns + big.columns := by ring
        rw [hframe _ (Or.inr (by omega))]
        exact htodo r c (by omega) hr hc)
  refine ⟨out3, ?_, by rw [hlen3, hout], fun r c hr hc => hval3 r c hr hc⟩
  unfold tile
  rw [hst]
  simp only [bind, Except.bind]
  rw [hdiv]
  simp only
  rw [hband]
  simp only
  exact hcolumn

/-- The call of `broadcast2` with flag 2 when B has fewer columns than A and B's
row count divides A's: it returns, and `output_b` holds B tiled over A's shape. -/
theorem broadcast2_flag_two_returns {α : Type} (A B : Matrix α) (output_a output_b : List α)
    (hA : A.wf) (hB : B.wf) (hlt : B.columns < A.columns) (hdvd : B.rows ∣ A.rows)
    (ha : output_a.length = A.rows * A.columns) (hb : output_b.length = A.rows * A.columns)
    (hfit : A.rows * A.columns < SIZE_RANGE) :
    ∃ out_a out_b : List α, broadcast2 A B output_a output_b 2 = Except.ok (2, out_a, out_b) ∧
      out_a.length = A.rows * A.columns ∧ out_b.length = A.rows * A.columns ∧
      ∀ r c, r < A.rows → c < A.columns →
        out_b[r * A.columns + c]? = B.matrix[r % B.rows * B.columns + c % B.columns]? := by
  obtain ⟨out_a, hout, hlen⟩ := copy_verbatim_returns A output_a hA.2.2 ha
  obtain ⟨out_b, htile, hlenb, hval⟩ :=
    tile_returns A B output_b hlt hdvd hB.1 hB.2.1 hA.1 hB.2.2 hb hfit
  refine ⟨out_a, out_b, ?_, by rw [hlen, ha], hlenb, hval⟩
  unfold broadcast2
  rw [if_neg (by decide), if_pos rfl, hout, htile]
  rfl

/-- The call of `broadcast2` with flag 1 when A has fewer columns than B and A's
row count divides B's: it returns, and `output_a` holds A tiled over B's shape. -/
theorem broadcast2_flag_one_returns {α : Type} (A B : Matrix α) (output_a output_b : List α)
    (hA : A.wf) (hB : B.wf) (hlt : A.columns < B.columns) (hdvd : A.rows ∣ B.rows)
    (ha : output_a.length = B.rows * B.columns) (hb : output_b.length = B.rows * B.columns)
    (hfit : B.rows * B.columns < SIZE_RANGE) :
    ∃ out_a out_b : List α, broadcast2 A B output_a output_b 1 = Except.ok (1, out_a, out_b) ∧
      out_a.length = B.rows * B.columns ∧ out_b.length = B.rows * B.columns ∧
      ∀ r c, r < B.rows → c < B.columns →
        out_a[r * B.columns + c]? = A.matrix[r % A.rows * A.columns + c % A.columns]? := by
  obtain ⟨out_b, hout, hlen⟩ := copy_verbatim_returns B output_b hB.2.2 hb
  obtain ⟨out_a, htile, hlena, hval⟩ :=
    tile_returns B A output_a hlt hdvd hA.1 hA.2.1 hB.1 hA.2.2 ha hfit
  refine ⟨out_a, out_b, ?_, hlena, by rw [hlen, hb], hval⟩
  unfold broadcast2
  rw [if_neg (by decide), if_neg (by decide), if_pos rfl, hout, htile]
  rfl

/-- A cell of a tiled buffer, read through `read`, is the element of the smaller
matrix that `get_element` gives at the reduced position. -/
theorem tiled_cell {α : Type} (small : Matrix α) (out : List α) (bc r c : Nat)
    (hsmall : small.wf)
    (h : out[r * bc + c]? =
      small.matrix[r % small.rows * small.columns + c % small.columns]?) :
    ∃ v : α, small.get_element (r % small.rows) (c % small.columns) = Except.ok v ∧
      read out ((r * bc + c : Nat) : Int) = Except.ok v := by
  have hidx : r % small.rows * small.columns + c % small.columns < small.matrix.length := by
    rw [hsmall.2.2]
    exact offset_lt (Nat.mod_lt _ hsmall.1) (Nat.mod_lt _ hsmall.2.1)
  refine ⟨small.matrix.get ⟨_, hidx⟩, get_element_eq _ _ _ _ (List.getElem?_eq_getElem hidx),
    read_of_getElem? _ _ _ ?_⟩
  rw [h]
  exact List.getElem?_eq_getElem hidx

/-- C25: when the smaller matrix has strictly fewer columns than the target and
its row count divides the target's (and the target buffer fits the address
space of `size_t`), `broadcast2` returns and the three steps it runs on the
smaller matrix leave `out[r * targetCols + c] = small(r mod smallRows,
c mod smallCols)` for every `r < targetRows` and `c < targetCols`: in `output_b`
for flag 2 (the smaller matrix is the second argument), in `output_a` for flag 1
(the smaller matrix is the first argument). -/
theorem broadcast2_tiles_the_smaller_matrix {α : Type} (big small : Matrix α)
    (output_a output_b : List α) (hbig : big.wf) (hsmall : small.wf)
    (hlt : small.columns < big.columns) (hdvd : small.rows ∣ big.rows)
    (ha : output_a.length = big.rows * big.columns)
    (hb : output_b.length = big.rows * big.columns)
    (hfit : big.rows * big.columns < SIZE_RANGE) :
    (∃ out_a out_b : List α,
      broadcast2 big small output_a output_b 2 = Except.ok (2, out_a, out_b) ∧
      out_b.length = big.rows * big.columns ∧
      ∀ r c, r < big.rows → c < big.columns →
        ∃ v : α, small.get_element (r % small.rows) (c % small.columns) = Except.ok v ∧
          read out_b ((r * big.columns + c : Nat) : Int) = Except.ok v) ∧
    (∃ out_a out_b : List α,
      broadcast2 small big output_a output_b 1 = Except.ok (1, out_a, out_b) ∧
      out_a.length = big.rows * big.columns ∧
      ∀ r c, r < big.rows → c < big.columns →
        ∃ v : α, small.get_element (r % small.rows) (c % small.columns) = Except.ok v ∧
          read out_a ((r * big.columns + c : Nat) : Int) = Except.ok v) := by
  constructor
  · obtain ⟨out_a, out_b, hrun, -, hlen, hval⟩ :=
      broadcast2_flag_two_returns big small output_a output_b hbig hsmall hlt hdvd ha hb hfit
    exact ⟨out_a, out_b, hrun, hlen, fun r c hr hc =>
      tiled_cell small out_b big.columns r c hsmall (hval r c hr hc)⟩
  · obtain ⟨out_a, out_b, hrun, hlen, -, hval⟩ :=
      broadcast2_flag_one_returns small big output_a output_b hsmall hbig hlt hdvd ha hb hfit
    exact ⟨out_a, out_b, hrun, hlen, fun r c hr hc =>
      tiled_cell small out_a big.columns r c hsmall (hval r c hr hc)⟩

/-- C25 at the 2x4 matrix [[1, 2, 3, 4], [5, 6, 7, 8]] and the 1x2 matrix
[[10, 20]]: the buffer of the smaller matrix becomes
[10, 20, 10, 20, 10, 20, 10, 20], with flag 2 and with flag 1. -/
theorem broadcast2_tiles_the_smaller_matrix_witness :
    (({ rows := 2, columns := 4, matrix := [1, 2, 3, 4, 5, 6, 7, 8] } : Matrix Int).wf ∧
      ({ rows := 1, columns := 2, matrix := [10, 20] } : Matrix Int).wf ∧
      2 < 4 ∧ 1 ∣ 2 ∧ (List.replicate 8 (0 : Int)).length = 2 * 4 ∧ 2 * 4 < SIZE_RANGE ∧
      broadcast2 ({ rows := 2, columns := 4, matrix := [1, 2, 3, 4, 5, 6, 7, 8] } : Matrix Int)
          { rows := 1, columns := 2, matrix := [10, 20] }
          (List.replicate 8 0) (List.replicate 8 0) 2 =
        Except.ok (2, [1, 2, 3, 4, 5, 6, 7, 8], [10, 20, 10, 20, 10, 20, 10, 20]) ∧
      broadcast2 ({ rows := 1, columns := 2, matrix := [10, 20] } : Matrix Int)
          { rows := 2, columns := 4, matrix := [1, 2, 3, 4, 5, 6, 7, 8] }
          (List.replicate 8 0) (List.replicate 8 0) 1 =
        Except.ok (1, [10, 20, 10, 20, 10, 20, 10, 20], [1, 2, 3, 4, 5, 6, 7, 8])) ∧
    ((∃ out_a out_b : List Int,
      broadcast2 ({ rows := 2, columns := 4, matrix := [1, 2, 3, 4, 5, 6, 7, 8] } : Matrix Int)
        { rows := 1, columns := 2, matrix := [10, 20] }
        (List.replicate 8 0) (List.replicate 8 0) 2 = Except.ok (2, out_a, out_b) ∧
      out_b.length = 2 * 4 ∧
      ∀ r c, r < 2 → c < 4 →
        ∃ v : Int,
          ({ rows := 1, columns := 2, matrix := [10, 20] } : Matrix Int).get_element
            (r % 1) (c % 2) = Except.ok v ∧
          read out_b ((r * 4 + c : Nat) : Int) = Except.ok v) ∧
    (∃ out_a out_b : List Int,
      broadcast2 ({ rows := 1, columns := 2, matrix := [10, 20] } : Matrix Int)
        { rows := 2, columns := 4, matrix := [1, 2, 3, 4, 5, 6, 7, 8] }
        (List.replicate 8 0) (List.replicate 8 0) 1 = Except.ok (1, out_a, out_b) ∧
      out_a.length = 2 * 4 ∧
      ∀ r c, r < 2 → c < 4 →
        ∃ v : Int,
          ({ rows := 1, columns := 2, matrix := [10, 20] } : Matrix Int).get_element
            (r % 1) (c % 2) = Except.ok v ∧
          read out_a ((r * 4 + c : Nat) : Int) = Except.ok v)) :=
  ⟨⟨⟨by decide, by decide, rfl⟩, ⟨by decide, by decide, rfl⟩, by decide, by decide, rfl,
    by decide, rfl, rfl⟩,
   broadcast2_tiles_the_smaller_matrix
    ({ rows := 2, columns := 4, matrix := [1, 2, 3, 4, 5, 6, 7, 8] } : Matrix Int)
    { rows := 1, columns := 2, matrix := [10, 20] } (List.replicate 8 0) (List.replicate 8 0)
    ⟨by decide, by decide, rfl⟩ ⟨by decide, by decide, rfl⟩ (by decide) (by decide) rfl rfl
    (by decide)⟩

/-- C24, settled on the whole domain of accepted pairs: with the loop bounds
evaluated in the C++ types of the code, `broadcast2` (called with the resolver's
flag on two buffers of the target size, which fits the address space) stays
inside the buffers and returns exactly when the two column counts differ. When
they are equal the column-replication loop of the first row, whose bound has
wrapped to `2^64 - 1`, leaves the buffer of the smaller matrix. -/
theorem broadcast2_in_bounds_iff_columns_differ {α : Type} (A B : Matrix α)
    (output_a output_b : List α) (plan : BroadcastPlan)
    (hA : A.wf) (hB : B.wf)
    (hplan : is_broadcast_possible A B = Except.ok plan) (hflag : plan.flag ≠ 0)
    (ha : output_a.length = (plan.highest_rows * plan.highest_cols).toNat)
    (hb : output_b.length = (plan.highest_rows * plan.highest_cols).toNat)
    (hfit : (plan.highest_rows * plan.highest_cols).toNat < SIZE_RANGE) :
    ((∃ out_a out_b : List α,
        broadcast2 A B output_a output_b plan.flag = Except.ok (plan.flag, out_a, out_b)) ↔
      A.columns ≠ B.columns) ∧
    (A.columns = B.columns →
      broadcast2 A B output_a output_b plan.flag = Except.error Fault.out_of_bounds) := by
  rcases is_broadcast_possible_accepts A B plan ⟨hA.1, hA.2.1⟩ ⟨hB.1, hB.2.1⟩ hplan hflag with
    ⟨rfl, hdvd, hcdvd⟩ | ⟨rfl, hdvd, hcdvd⟩
  · have hcount : ((A.rows : Int) * (A.columns : Int)).toNat = A.rows * A.columns := by
      rw [← Nat.cast_mul, Int.toNat_ofNat]
    rw [hcount] at ha hb hfit
    have hle : B.columns ≤ A.columns := Nat.le_of_dvd hA.2.1 hcdvd
    by_cases heq : A.columns = B.columns
    · have hfault := broadcast2_flag_two_faults A B output_a output_b hA hB heq.symm hdvd ha hb
      refine ⟨⟨?_, fun hne => absurd heq hne⟩, fun _ => hfault⟩
      rintro ⟨out_a, out_b, hrun⟩
      rw [show ({ flag := 2, highest_rows := (A.rows : Int), highest_cols := (A.columns : Int) } :
        BroadcastPlan).flag = 2 from rfl, hfault] at hrun
      cases hrun
    · obtain ⟨out_a, out_b, hrun, -⟩ := broadcast2_flag_two_returns A B output_a output_b hA hB
        (by omega) hdvd ha hb hfit
      exact ⟨⟨fun _ => heq, fun _ => ⟨out_a, out_b, hrun⟩⟩, fun h => absurd h heq⟩
  · have hcount : ((B.rows : Int) * (B.columns : Int)).toNat = B.rows * B.columns := by
      rw [← Nat.cast_mul, Int.toNat_ofNat]
    rw [hcount] at ha hb hfit
    have hle : A.columns ≤ B.columns := Nat.le_of_dvd hB.2.1 hcdvd
    by_cases heq : A.columns = B.columns
    · have hfault := broadcast2_flag_one_faults A B output_a output_b hA hB heq hdvd ha hb
      refine ⟨⟨?_, fun hne => absurd heq hne⟩, fun _ => hfault⟩
      rintro ⟨out_a, out_b, hrun⟩
      rw [show ({ flag := 1, highest_rows := (B.rows : Int), highest_cols := (B.columns : Int) } :
        BroadcastPlan).flag = 1 from rfl, hfault] at hrun
      cases hrun
    · obtain ⟨out_a, out_b, hrun, -⟩ := broadcast2_flag_one_returns A B output_a output_b hA hB
        (by omega) hdvd ha hb hfit
      exact ⟨⟨fun _ => heq, fun _ => ⟨out_a, out_b, hrun⟩⟩, fun h => absurd h heq⟩

/-- C24 at the failing input A = [[1, 2], [3, 4]] (2x2), B = [[5, 6]] (1x2): the
resolver gives flag 2 with the target 2x2, the column counts are equal, and
`broadcast2` writes outside `output_b`. -/
theorem broadcast2_in_bounds_iff_columns_differ_witness :
    (({ rows := 2, columns := 2, matrix := [1, 2, 3, 4] } : Matrix Int).wf ∧
      ({ rows := 1, columns := 2, matrix := [5, 6] } : Matrix Int).wf ∧
      is_broadcast_possible ({ rows := 2, columns := 2, matrix := [1, 2, 3, 4] } : Matrix Int)
          { rows := 1, columns := 2, matrix := [5, 6] } =
        Except.ok { flag := 2, highest_rows := 2, highest_cols := 2 } ∧
      (2 : Int) ≠ 0 ∧ [(0 : Int), 0, 0, 0].length = ((2 : Int) * 2).toNat ∧
      ((2 : Int) * 2).toNat < SIZE_RANGE ∧
      broadcast2 ({ rows := 2, columns := 2, matrix := [1, 2, 3, 4] } : Matrix Int)
          { rows := 1, columns := 2, matrix := [5, 6] } [0, 0, 0, 0] [0, 0, 0, 0] 2 =
        Except.error Fault.out_of_bounds) ∧
    (((∃ out_a out_b : List Int,
        broadcast2 ({ rows := 2, columns := 2, matrix := [1, 2, 3, 4] } : Matrix Int)
          { rows := 1, columns := 2, matrix := [5, 6] } [0, 0, 0, 0] [0, 0, 0, 0] 2 =
          Except.ok (2, out_a, out_b)) ↔ (2 : Nat) ≠ 2) ∧
    ((2 : Nat) = 2 →
      broadcast2 ({ rows := 2, columns := 2, matrix := [1, 2, 3, 4] } : Matrix Int)
          { rows := 1, columns := 2, matrix := [5, 6] } [0, 0, 0, 0] [0, 0, 0, 0] 2 =
        Except.error Fault.out_of_bounds)) :=
  ⟨⟨⟨by decide, by decide, rfl⟩, ⟨by decide, by decide, rfl⟩, rfl, by decide, rfl, by decide,
    rfl⟩,
   broadcast2_in_bounds_iff_columns_differ
    ({ rows := 2, columns := 2, matrix := [1, 2, 3, 4] } : Matrix Int)
    { rows := 1, columns := 2, matrix := [5, 6] } [0, 0, 0, 0] [0, 0, 0, 0]
    { flag := 2, highest_rows := 2, highest_cols := 2 }
    ⟨by decide, by decide, rfl⟩ ⟨by decide, by decide, rfl⟩ rfl (by decide) rfl rfl
    (by decide)⟩

/-! ## Device buffers: what is released, and when -/

theorem live_buffers_append (events : List Event) (e : Event) :
    live_buffers (events ++ [e]) =
      match e with
      | Event.created buffer _ => live_buffers events ++ [buffer]
      | Event.released buffer => (live_buffers events).filter (fun b => b ≠ buffer)
      | _ => live_buffers events := by
  unfold live_buffers
  rw [List.foldl_append]
  cases e <;> rfl

theorem released_buffers_append (events : List Event) (e : Event) :
    released_buffers (events ++ [e]) =
      match e with
      | Event.released buffer => released_buffers events ++ [buffer]
      | _ => released_buffers events := by
  unfold released_buffers
  rw [List.filterMap_append]
  cases e <;> simp

/-- A failed creation of a device buffer: status 92, and no buffer to release. -/
theorem exec_get_memory_buffer_failed (cl : Nat → Int) (size : Nat) (s : Session)
    (h : cl s.calls ≠ 0) :
    (get_memory_buffer cl size).exec s =
      (Except.error (Failure.thrown ⟨"Memory buffer could not be created.", 92⟩),
        { calls := s.calls + 1, events := s.events }) := by
  unfold get_memory_buffer Run.exec
  simp [cl_call, h, log, ExceptT.run, bind, ExceptT.bind, ExceptT.mk, ExceptT.bindCont,
    StateT.bind, StateT.run, get, getThe, MonadStateOf.get, liftM, monadLift, MonadLift.monadLift,
    ExceptT.lift, StateT.get, Functor.map, StateT.map, set, StateT.set, pure, ExceptT.pure,
    StateT.pure, modify, modifyGet, MonadStateOf.modifyGet, StateT.modifyGet, throw, throwThe,
    MonadExceptOf.throw]

/-- The events of a checked OpenCL call that returns nothing to release: the
session gains no event. -/
theorem exec_checked_events {β : Type} (cl : Nat → Int) (status : MatrixStatus)
    (rest : Run β) (s : Session) (hrest : ∀ s', (rest.exec s').2.events = s'.events) :
    ((do
      let ret ← cl_call cl
      if ret ≠ 0 then
        throw (Failure.thrown status)
      rest : Run β).exec s).2.events = s.events := by
  rw [exec_bind, exec_cl_call]
  simp only
  by_cases h : cl s.calls ≠ 0
  · rw [if_pos h, exec_bind, exec_throw]
  · rw [if_neg h, exec_bind, exec_pure]
    exact hrest _

theorem quiet_of_events {β : Type} (x : Run β) (h : ∀ s, (x.exec s).2.events = s.events) :
    quiet x := by
  intro s
  rw [h s]
  exact ⟨rfl, rfl⟩

theorem quiet_pure {β : Type} (v : β) : quiet (pure v : Run β) :=
  quiet_of_events _ (fun _ => rfl)

theorem quiet_throw {β : Type} (e : Failure) : quiet (throw e : Run β) :=
  quiet_of_events _ (fun _ => rfl)

theorem quiet_host {β : Type} (x : Except Fault β) : quiet (host x) :=
  quiet_of_events _ (fun s => by cases x <;> rfl)

theorem quiet_ite {β : Type} (c : Prop) [Decidable c] (x y : Run β) (hx : quiet x)
    (hy : quiet y) : quiet (if c then x else y) := by
  by_cases h : c
  · rw [if_pos h]; exact hx
  · rw [if_neg h]; exact hy

theorem quiet_new_float {α : Type} (junk : Nat → α) (n : Nat) : quiet (new_float junk n) := by
  intro s
  rw [exec_new_float]
  exact ⟨live_buffers_append _ _, released_buffers_append _ _⟩

theorem quiet_log_broadcast2 (flag : Int) : quiet (log (Event.called_broadcast2 flag)) := by
  intro s
  rw [exec_log]
  exact ⟨live_buffers_append _ _, released_buffers_append _ _⟩

theorem quiet_enqueue_write {α : Type} (cl : Nat → Int) (data : List α) :
    quiet (enqueue_write cl data) :=
  quiet_of_events _ (fun s => exec_checked_events cl _ (pure data) s (fun _ => rfl))

theorem quiet_set_argument (cl : Nat → Int) : quiet (set_argument cl) := by
  apply quiet_of_events
  intro s
  unfold set_argument
  rw [exec_bind, exec_cl_call]
  simp only
  by_cases h : cl s.calls ≠ 0
  · rw [if_pos h, exec_throw]
  · rw [if_neg h, exec_pure]

theorem quiet_synchronize (cl : Nat → Int) : quiet (synchronize cl) := by
  apply quiet_of_events
  intro s
  unfold synchronize
  rw [exec_bind, exec_cl_call]
  simp only
  by_cases h : cl s.calls ≠ 0
  · rw [if_pos h, exec_throw]
  · rw [if_neg h, exec_pure]

theorem quiet_launch {β : Type} (cl : Nat → Int) (kernel : Except Fault β) :
    quiet (launch cl kernel) :=
  quiet_of_events _ (fun s => exec_checked_events cl _ (host kernel) s
    (fun s' => by cases kernel <;> rfl))

theorem quiet_read_buffer {α : Type} (cl : Nat → Int) (device : List α) :
    quiet (read_buffer cl device) :=
  quiet_of_events _ (fun s => exec_checked_events cl _ (pure device) s (fun _ => rfl))

/-- Sequencing after a step that creates and releases nothing. -/
theorem settles_bind_quiet {β γ : Type} {x : Run β} {f : β → Run γ} {alive left : List Nat}
    (hx : quiet x) (hf : ∀ v, settles (f v) alive left) : settles (x >>= f) alive left := by
  intro s hs v s' hexec
  rw [exec_bind] at hexec
  have hq := (hx s).1
  rcases hxs : x.exec s with ⟨r, s1⟩
  rw [hxs] at hexec hq
  cases r with
  | error e => cases hexec
  | ok w => exact hf w s1 (hq.trans hs) v s' hexec

/-- Sequencing after the creation of a device buffer: the buffer is alive. -/
theorem settles_bind_create {γ : Type} (cl : Nat → Int) (size : Nat) {f : Nat → Run γ}
    {alive left : List Nat} (hf : ∀ v, settles (f v) (alive ++ [v]) left) :
    settles (get_memory_buffer cl size >>= f) alive left := by
  intro s hs v s' hexec
  rw [exec_bind] at hexec
  by_cases h : cl s.calls = 0
  · rw [exec_get_memory_buffer cl size s h] at hexec
    refine hf s.calls _ ?_ v s' hexec
    show live_buffers (s.events ++ [Event.created s.calls size]) = _
    rw [live_buffers_append, hs]
  · rw [exec_get_memory_buffer_failed cl size s h] at hexec
    cases hexec

/-- Sequencing after a call of `release`: the buffer is no longer alive. -/
theorem settles_bind_release {γ : Type} (cl : Nat → Int) (buffer : Nat) {f : Unit → Run γ}
    {alive left : List Nat}
    (hf : settles (f ()) (alive.filter (fun b => b ≠ buffer)) left) :
    settles (release cl buffer >>= f) alive left := by
  intro s hs v s' hexec
  rw [exec_bind, exec_release] at hexec
  refine hf _ ?_ v s' hexec
  show live_buffers ((s.events ++ [Event.released buffer]) ++
    (if cl s.calls ≠ 0 then [Event.warning] else [])) = _
  by_cases h : cl s.calls ≠ 0
  · rw [if_pos h, live_buffers_append, live_buffers_append, hs]
  · rw [if_neg h, List.append_nil, live_buffers_append, hs]

/-- A return with the buffers `alive` alive. -/
theorem settles_pure {β : Type} (v : β) {alive left : List Nat} (h : ∀ b, b ∈ alive → b ∈ left) :
    settles (pure v : Run β) alive left := by
  intro s hs w s' hexec
  rw [exec_pure] at hexec
  have hs' : s' = s := (congrArg Prod.snd hexec).symm
  rw [hs', hs]
  exact h

/-- The `catch` block changes no session. -/
theorem settles_abort_on_status {β : Type} {body : Run β} {alive left : List Nat}
    (h : settles body alive left) : settles (abort_on_status body) alive left := by
  intro s hs v s' hexec
  rw [exec_abort_on_status] at hexec
  rcases hb : body.exec s with ⟨r, s1⟩
  rw [hb] at hexec
  cases r with
  | ok w =>
    have hs' : s' = s1 := (congrArg Prod.snd hexec).symm
    rw [hs']
    exact h s hs w s1 hb
  | error e => cases e <;> cases hexec

/-- Sequencing after a step that releases nothing. -/
theorem releases_nothing_bind {β γ : Type} {x : Run β} {f : β → Run γ}
    (hx : ∀ s, released_buffers (x.exec s).2.events = released_buffers s.events)
    (hf : ∀ v, releases_nothing_on_failure (f v)) :
    releases_nothing_on_failure (x >>= f) := by
  intro s hs e s' hexec
  rw [exec_bind] at hexec
  have hq := hx s
  rcases hxs : x.exec s with ⟨r, s1⟩
  rw [hxs] at hexec hq
  cases r with
  | error e1 =>
    have hs' : s' = s1 := (congrArg Prod.snd hexec).symm
    rw [hs']
    exact hq.trans hs
  | ok w => exact hf w s1 (hq.trans hs) e s' hexec

/-- The creation of a device buffer releases nothing. -/
theorem get_memory_buffer_releases_nothing (cl : Nat → Int) (size : Nat) (s : Session) :
    released_buffers ((get_memory_buffer cl size).exec s).2.events =
      released_buffers s.events := by
  by_cases h : cl s.calls = 0
  · rw [exec_get_memory_buffer cl size s h]
    exact released_buffers_append _ _
  · rw [exec_get_memory_buffer_failed cl size s h]

/-- An operation that cannot fail. -/
theorem releases_nothing_of_returns {β : Type} {x : Run β}
    (h : ∀ s, ∃ v s', x.exec s = (Except.ok v, s')) : releases_nothing_on_failure x := by
  intro s _ e s' hexec
  obtain ⟨v, s1, hv⟩ := h s
  rw [hv] at hexec
  cases hexec

/-- A call of `release` followed by steps that cannot fail cannot fail. -/
theorem release_bind_returns {γ : Type} (cl : Nat → Int) (buffer : Nat) {f : Unit → Run γ}
    (h : ∀ s, ∃ v s', (f ()).exec s = (Except.ok v, s')) :
    ∀ s, ∃ v s', (release cl buffer >>= f).exec s = (Except.ok v, s') := by
  intro s
  rw [exec_bind, exec_release]
  exact h _

/-- The `catch` block releases nothing. -/
theorem releases_nothing_abort_on_status {β : Type} {body : Run β}
    (h : releases_nothing_on_failure body) : releases_nothing_on_failure (abort_on_status body) := by
  intro s hs e s' hexec
  rw [exec_abort_on_status] at hexec
  rcases hb : body.exec s with ⟨r, s1⟩
  rw [hb] at hexec
  cases r with
  | ok w => cases hexec
  | error e1 =>
    have hs' : s' = s1 := by
      cases e1 <;> exact (congrArg Prod.snd hexec).symm
    rw [hs']
    exact h s hs e1 s1 hb

/-- A conditional settles what both branches settle. -/
theorem settles_ite {β : Type} {c : Prop} [Decidable c] {x y : Run β} {alive left : List Nat}
    (hx : settles x alive left) (hy : settles y alive left) :
    settles (if c then x else y) alive left := by
  by_cases h : c
  · rw [if_pos h]; exact hx
  · rw [if_neg h]; exact hy

/-- A raised status does not return. -/
theorem settles_throw_bind {β γ : Type} (e : Failure) (f : β → Run γ) {alive left : List Nat} :
    settles ((throw e : Run β) >>= f) alive left := by
  intro s _ v s' hexec
  rw [exec_bind, exec_throw] at hexec
  cases hexec

/-- A conditional releases nothing on failure when neither branch does. -/
theorem releases_nothing_ite {β : Type} {c : Prop} [Decidable c] {x y : Run β}
    (hx : releases_nothing_on_failure x) (hy : releases_nothing_on_failure y) :
    releases_nothing_on_failure (if c then x else y) := by
  by_cases h : c
  · rw [if_pos h]; exact hx
  · rw [if_neg h]; exact hy

/-- A raised status leaves the session as it is. -/
theorem releases_nothing_throw_bind {β γ : Type} (e : Failure) (f : β → Run γ) :
    releases_nothing_on_failure ((throw e : Run β) >>= f) := by
  intro s hs e' s' hexec
  rw [exec_bind, exec_throw] at hexec
  have hs' : s' = s := (congrArg Prod.snd hexec).symm
  rw [hs']
  exact hs

/-- The function `matmul` releases, before it returns, every device buffer it
created. -/
theorem matmul_settles {α : Type} [LinearOrderedRing α] (cl : Nat → Int) (junk : Nat → α)
    (a b : Matrix α) : settles (matmul cl junk a b) [] [] := by
  unfold matmul
  refine settles_bind_quiet (quiet_new_float _ _) (fun _ => ?_)
  refine settles_bind_quiet (quiet_new_float _ _) (fun _ => ?_)
  refine settles_bind_create _ _ (fun ma => ?_)
  refine settles_bind_create _ _ (fun mb => ?_)
  refine settles_bind_create _ _ (fun mo => ?_)
  refine settles_bind_quiet (quiet_enqueue_write _ _) (fun _ => ?_)
  refine settles_bind_quiet (quiet_enqueue_write _ _) (fun _ => ?_)
  refine settles_bind_quiet (quiet_set_argument _) (fun _ => ?_)
  refine settles_bind_quiet (quiet_set_argument _) (fun _ => ?_)
  refine settles_bind_quiet (quiet_set_argument _) (fun _ => ?_)
  refine settles_bind_quiet (quiet_set_argument _) (fun _ => ?_)
  refine settles_bind_quiet (quiet_set_argument _) (fun _ => ?_)
  refine settles_bind_quiet (quiet_set_argument _) (fun _ => ?_)
  refine settles_bind_quiet (quiet_launch _ _) (fun _ => ?_)
  refine settles_bind_quiet (quiet_synchronize _) (fun _ => ?_)
  refine settles_bind_quiet (quiet_read_buffer _ _) (fun _ => ?_)
  refine settles_bind_release _ _ ?_
  refine settles_bind_release _ _ ?_
  refine settles_bind_release _ _ ?_
  apply settles_pure
  intro x hx
  simp [List.mem_filter] at hx

/-- Sequencing after a step that creates and releases nothing. -/
theorem releases_nothing_bind_quiet {β γ : Type} {x : Run β} {f : β → Run γ}
    (hx : quiet x) (hf : ∀ v, releases_nothing_on_failure (f v)) :
    releases_nothing_on_failure (x >>= f) :=
  releases_nothing_bind (fun s => (hx s).2) hf

/-- Sequencing after the creation of a device buffer. -/
theorem releases_nothing_bind_create {γ : Type} (cl : Nat → Int) (size : Nat)
    {f : Nat → Run γ} (hf : ∀ v, releases_nothing_on_failure (f v)) :
    releases_nothing_on_failure (get_memory_buffer cl size >>= f) :=
  releases_nothing_bind (get_memory_buffer_releases_nothing cl size) hf

/-- A return cannot fail. -/
theorem pure_returns {β : Type} (v : β) :
    ∀ s, ∃ w s', (pure v : Run β).exec s = (Except.ok w, s') :=
  fun s => ⟨v, s, rfl⟩

/-- When `matmul` fails it has released no device buffer. -/
theorem matmul_releases_nothing {α : Type} [LinearOrderedRing α] (cl : Nat → Int)
    (junk : Nat → α) (a b : Matrix α) : releases_nothing_on_failure (matmul cl junk a b) := by
  unfold matmul
  refine releases_nothing_bind_quiet (quiet_new_float _ _) (fun _ => ?_)
  refine releases_nothing_bind_quiet (quiet_new_float _ _) (fun _ => ?_)
  refine releases_nothing_bind_create _ _ (fun ma => ?_)
  refine releases_nothing_bind_create _ _ (fun mb => ?_)
  refine releases_nothing_bind_create _ _ (fun mo => ?_)
  refine releases_nothing_bind_quiet (quiet_enqueue_write _ _) (fun _ => ?_)
  refine releases_nothing_bind_quiet (quiet_enqueue_write _ _) (fun _ => ?_)
  refine releases_nothing_bind_quiet (quiet_set_argument _) (fun _ => ?_)
  refine releases_nothing_bind_quiet (quiet_set_argument _) (fun _ => ?_)
  refine releases_nothing_bind_quiet (quiet_set_argument _) (fun _ => ?_)
  refine releases_nothing_bind_quiet (quiet_set_argument _) (fun _ => ?_)
  refine releases_nothing_bind_quiet (quiet_set_argument _) (fun _ => ?_)
  refine releases_nothing_bind_quiet (quiet_set_argument _) (fun _ => ?_)
  refine releases_nothing_bind_quiet (quiet_launch _ _) (fun _ => ?_)
  refine releases_nothing_bind_quiet (quiet_synchronize _) (fun _ => ?_)
  refine releases_nothing_bind_quiet (quiet_read_buffer _ _) (fun _ => ?_)
  exact releases_nothing_of_returns (release_bind_returns _ _ (release_bind_returns _ _
    (release_bind_returns _ _ (pure_returns _))))

/-- The function `transpose` releases, before it returns, every device buffer
it created. -/
theorem transpose_settles {α : Type} (cl : Nat → Int) (junk : Nat → α) (a : Matrix α) :
    settles (transpose cl junk a) [] [] := by
  unfold transpose
  refine settles_bind_quiet (quiet_new_float _ _) (fun _ => ?_)
  refine settles_bind_quiet (quiet_new_float _ _) (fun _ => ?_)
  refine settles_bind_create _ _ (fun ma => ?_)
  refine settles_bind_create _ _ (fun mo => ?_)
  refine settles_bind_quiet (quiet_enqueue_write _ _) (fun _ => ?_)
  refine settles_bind_quiet (quiet_set_argument _) (fun _ => ?_)
  refine settles_bind_quiet (quiet_set_argument _) (fun _ => ?_)
  refine settles_bind_quiet (quiet_set_argument _) (fun _ => ?_)
  refine settles_bind_quiet (quiet_launch _ _) (fun _ => ?_)
  refine settles_bind_quiet (quiet_synchronize _) (fun _ => ?_)
  refine settles_bind_quiet (quiet_read_buffer _ _) (fun _ => ?_)
  refine settles_bind_release _ _ ?_
  refine settles_bind_release _ _ ?_
  apply settles_pure
  intro x hx
  simp [List.mem_filter] at hx

/-- When `transpose` fails it has released no device buffer. -/
theorem transpose_releases_nothing {α : Type} (cl : Nat → Int) (junk : Nat → α)
    (a : Matrix α) : releases_nothing_on_failure (transpose cl junk a) := by
  unfold transpose
  refine releases_nothing_bind_quiet (quiet_new_float _ _) (fun _ => ?_)
  refine releases_nothing_bind_quiet (quiet_new_float _ _) (fun _ => ?_)
  refine releases_nothing_bind_create _ _ (fun ma => ?_)
  refine releases_nothing_bind_create _ _ (fun mo => ?_)
  refine releases_nothing_bind_quiet (quiet_enqueue_write _ _) (fun _ => ?_)
  refine releases_nothing_bind_quiet (quiet_set_argument _) (fun _ => ?_)
  refine releases_nothing_bind_quiet (quiet_set_argument _) (fun _ => ?_)
  refine releases_nothing_bind_quiet (quiet_set_argument _) (fun _ => ?_)
  refine releases_nothing_bind_quiet (quiet_launch _ _) (fun _ => ?_)
  refine releases_nothing_bind_quiet (quiet_synchronize _) (fun _ => ?_)
  refine releases_nothing_bind_quiet (quiet_read_buffer _ _) (fun _ => ?_)
  exact releases_nothing_of_returns (release_bind_returns _ _ (release_bind_returns _ _
    (pure_returns _)))

/-- A matrix-on-matrix operator releases, before it returns, every device
buffer it created. -/
theorem matrix_operator_settles {α : Type}
    (kernel : List α → List α → List α → Nat → Except Fault (List α))
    (cl : Nat → Int) (junk : Nat → α) (first second : Matrix α) :
    settles (matrix_operator kernel cl junk first second) [] [] := by
  unfold matrix_operator
  apply settles_abort_on_status
  refine settles_bind_quiet (quiet_host _) (fun plan => ?_)
  dsimp only
  refine settles_ite (settles_throw_bind _ _) ?_
  refine settles_bind_quiet (quiet_pure _) (fun _ => ?_)
  refine settles_bind_quiet (quiet_new_float _ _) (fun _ => ?_)
  refine settles_bind_quiet (quiet_new_float _ _) (fun _ => ?_)
  refine settles_bind_quiet (quiet_log_broadcast2 _) (fun _ => ?_)
  refine settles_bind_quiet (quiet_host _) (fun filled => ?_)
  dsimp only
  refine settles_ite (settles_throw_bind _ _) ?_
  refine settles_bind_quiet (quiet_pure _) (fun _ => ?_)
  refine settles_bind_quiet (quiet_new_float _ _) (fun _ => ?_)
  refine settles_bind_create _ _ (fun ma => ?_)
  refine settles_bind_create _ _ (fun mb => ?_)
  refine settles_bind_create _ _ (fun mo => ?_)
  refine settles_bind_quiet (quiet_enqueue_write _ _) (fun _ => ?_)
  refine settles_bind_quiet (quiet_enqueue_write _ _) (fun _ => ?_)
  refine settles_bind_quiet (quiet_set_argument _) (fun _ => ?_)
  refine settles_bind_quiet (quiet_set_argument _) (fun _ => ?_)
  refine settles_bind_quiet (quiet_set_argument _) (fun _ => ?_)
  refine settles_bind_quiet (quiet_launch _ _) (fun _ => ?_)
  refine settles_bind_quiet (quiet_synchronize _) (fun _ => ?_)
  refine settles_bind_quiet (quiet_new_float _ _) (fun _ => ?_)
  refine settles_bind_quiet (quiet_read_buffer _ _) (fun _ => ?_)
  refine settles_bind_release _ _ ?_
  refine settles_bind_release _ _ ?_
  refine settles_bind_release _ _ ?_
  apply settles_pure
  intro x hx
  simp [List.mem_filter] at hx

/-- When a matrix-on-matrix operator fails it has released no device buffer. -/
theorem matrix_operator_releases_nothing {α : Type}
    (kernel : List α → List α → List α → Nat → Except Fault (List α))
    (cl : Nat → Int) (junk : Nat → α) (first second : Matrix α) :
    releases_nothing_on_failure (matrix_operator kernel cl junk first second) := by
  unfold matrix_operator
  apply releases_nothing_abort_on_status
  refine releases_nothing_bind_quiet (quiet_host _) (fun plan => ?_)
  dsimp only
  refine releases_nothing_ite (releases_nothing_throw_bind _ _) ?_
  refine releases_nothing_bind_quiet (quiet_pure _) (fun _ => ?_)
  refine releases_nothing_bind_quiet (quiet_new_float _ _) (fun _ => ?_)
  refine releases_nothing_bind_quiet (quiet_new_float _ _) (fun _ => ?_)
  refine releases_nothing_bind_quiet (quiet_log_broadcast2 _) (fun _ => ?_)
  refine releases_nothing_bind_quiet (quiet_host _) (fun filled => ?_)
  dsimp only
  refine releases_nothing_ite (releases_nothing_throw_bind _ _) ?_
  refine releases_nothing_bind_quiet (quiet_pure _) (fun _ => ?_)
  refine releases_nothing_bind_quiet (quiet_new_float _ _) (fun _ => ?_)
  refine releases_nothing_bind_create _ _ (fun ma => ?_)
  refine releases_nothing_bind_create _ _ (fun mb => ?_)
  refine releases_nothing_bind_create _ _ (fun mo => ?_)
  refine releases_nothing_bind_quiet (quiet_enqueue_write _ _) (fun _ => ?_)
  refine releases_nothing_bind_quiet (quiet_enqueue_write _ _) (fun _ => ?_)
  refine releases_nothing_bind_quiet (quiet_set_argument _) (fun _ => ?_)
  refine releases_nothing_bind_quiet (quiet_set_argument _) (fun _ => ?_)
  refine releases_nothing_bind_quiet (quiet_set_argument _) (fun _ => ?_)
  refine releases_nothing_bind_quiet (quiet_launch _ _) (fun _ => ?_)
  refine releases_nothing_bind_quiet (quiet_synchronize _) (fun _ => ?_)
  refine releases_nothing_bind_quiet (quiet_new_float _ _) (fun _ => ?_)
  refine releases_nothing_bind_quiet (quiet_read_buffer _ _) (fun _ => ?_)
  exact releases_nothing_of_returns (release_bind_returns _ _ (release_bind_returns _ _
    (release_bind_returns _ _ (pure_returns _))))

/-- A matrix-on-scalar operator other than `+` and `-` releases, before it
returns, every device buffer it created. -/
theorem scalar_operator_settles {α : Type}
    (kernel : List α → List α → List α → Nat → Except Fault (List α))
    (cl : Nat → Int) (junk : Nat → α) (first : Matrix α) (second : α) :
    settles (scalar_operator kernel cl junk first second) [] [] := by
  unfold scalar_operator
  apply settles_abort_on_status
  refine settles_bind_quiet (quiet_new_float _ _) (fun _ => ?_)
  refine settles_bind_create _ _ (fun ma => ?_)
  refine settles_bind_create _ _ (fun mb => ?_)
  refine settles_bind_create _ _ (fun mo => ?_)
  refine settles_bind_quiet (quiet_enqueue_write _ _) (fun _ => ?_)
  refine settles_bind_quiet (quiet_enqueue_write _ _) (fun _ => ?_)
  refine settles_bind_quiet (quiet_set_argument _) (fun _ => ?_)
  refine settles_bind_quiet (quiet_set_argument _) (fun _ => ?_)
  refine settles_bind_quiet (quiet_set_argument _) (fun _ => ?_)
  refine settles_bind_quiet (quiet_launch _ _) (fun _ => ?_)
  refine settles_bind_quiet (quiet_synchronize _) (fun _ => ?_)
  refine settles_bind_quiet (quiet_new_float _ _) (fun _ => ?_)
  refine settles_bind_quiet (quiet_read_buffer _ _) (fun _ => ?_)
  refine settles_bind_release _ _ ?_
  refine settles_bind_release _ _ ?_
  refine settles_bind_release _ _ ?_
  apply settles_pure
  intro x hx
  simp [List.mem_filter] at hx

/-- When a matrix-on-scalar operator other than `+` and `-` fails it has
released no device buffer. -/
theorem scalar_operator_releases_nothing {α : Type}
    (kernel : List α → List α → List α → Nat → Except Fault (List α))
    (cl : Nat → Int) (junk : Nat → α) (first : Matrix α) (second : α) :
    releases_nothing_on_failure (scalar_operator kernel cl junk first second) := by
  unfold scalar_operator
  apply releases_nothing_abort_on_status
  refine releases_nothing_bind_quiet (quiet_new_float _ _) (fun _ => ?_)
  refine releases_nothing_bind_create _ _ (fun ma => ?_)
  refine releases_nothing_bind_create _ _ (fun mb => ?_)
  refine releases_nothing_bind_create _ _ (fun mo => ?_)
  refine releases_nothing_bind_quiet (quiet_enqueue_write _ _) (fun _ => ?_)
  refine releases_nothing_bind_quiet (quiet_enqueue_write _ _) (fun _ => ?_)
  refine releases_nothing_bind_quiet (quiet_set_argument _) (fun _ => ?_)
  refine releases_nothing_bind_quiet (quiet_set_argument _) (fun _ => ?_)
  refine releases_nothing_bind_quiet (quiet_set_argument _) (fun _ => ?_)
  refine releases_nothing_bind_quiet (quiet_launch _ _) (fun _ => ?_)
  refine releases_nothing_bind_quiet (quiet_synchronize _) (fun _ => ?_)
  refine releases_nothing_bind_quiet (quiet_new_float _ _) (fun _ => ?_)
  refine releases_nothing_bind_quiet (quiet_read_buffer _ _) (fun _ => ?_)
  exact releases_nothing_of_returns (release_bind_returns _ _ (release_bind_returns _ _
    (release_bind_returns _ _ (pure_returns _))))

/-- The operators `+` and `-` of a matrix and a scalar, started from a fresh
session: when they return, no device buffer other than the third one they
created, `memory_input_c`, is alive. -/
theorem diagonal_operator_settles {α : Type} [LinearOrderedRing α]
    (kernel : List α → List α → List α → List α → Nat → Except Fault (List α))
    (cl : Nat → Int) (junk : Nat → α) (first : Matrix α) (second : α) (v : Matrix α)
    (s' : Session)
    (hexec : (diagonal_operator kernel cl junk first second).start = (Except.ok v, s')) :
    ∀ b, b ∈ live_buffers s'.events → b ∈ [2] := by
  have hbody : ∀ w s1,
      (do
        let buffer ← new_float junk (first.rows * first.columns)
        let result : Matrix α :=
          { rows := first.rows, columns := first.columns, matrix := buffer }
        let memory_input_a ← get_memory_buffer cl (first.rows * first.columns * sizeof_float)
        let memory_input_b ← get_memory_buffer cl sizeof_float
        let _memory_input_c ← get_memory_buffer cl sizeof_float
        let memory_output_a ← get_memory_buffer cl (first.rows * first.columns * sizeof_float)
        let num_columns : α := ((float_of_size first.get_columns : Nat) : α)
        let device_a ← enqueue_write cl first.matrix
        let device_b ← enqueue_write cl [second]
        let device_c ← enqueue_write cl [num_columns]
        set_argument cl
        set_argument cl
        set_argument cl
        set_argument cl
        let device_out ← launch cl
          (run_1d (first.columns * first.rows) (kernel device_a device_b device_c)
            (uninitialised junk (first.rows * first.columns)))
        synchronize cl
        let _output_final ← new_float junk (first.columns * first.rows)
        let output_final ← read_buffer cl device_out
        release cl memory_input_a
        release cl memory_input_b
        release cl memory_output_a
        pure (result.set_matrix output_final) : Run (Matrix α)).exec
          { calls := 0, events := [] } = (Except.ok w, s1) →
      ∀ b, b ∈ live_buffers s1.events → b ∈ [2] := by
    intro w s1 h
    rw [exec_bind, exec_new_float] at h
    simp only at h
    rw [exec_bind] at h
    by_cases h0 : cl 0 = 0
    swap
    · rw [exec_get_memory_buffer_failed cl _ _ h0] at h
      cases h
    rw [exec_get_memory_buffer cl _ _ h0] at h
    simp only at h
    rw [exec_bind] at h
    by_cases h1 : cl 1 = 0
    swap
    · rw [exec_get_memory_buffer_failed cl _ _ h1] at h
      cases h
    rw [exec_get_memory_buffer cl _ _ h1] at h
    simp only at h
    rw [exec_bind] at h
    by_cases h2 : cl 2 = 0
    swap
    · rw [exec_get_memory_buffer_failed cl _ _ h2] at h
      cases h
    rw [exec_get_memory_buffer cl _ _ h2] at h
    simp only at h
    refine (?_ : settles _ [0, 1, 2] [2]) _ ?_ w s1 h
    · refine settles_bind_create _ _ (fun mo => ?_)
      refine settles_bind_quiet (quiet_enqueue_write _ _) (fun _ => ?_)
      refine settles_bind_quiet (quiet_enqueue_write _ _) (fun _ => ?_)
      refine settles_bind_quiet (quiet_enqueue_write _ _) (fun _ => ?_)
      refine settles_bind_quiet (quiet_set_argument _) (fun _ => ?_)
      refine settles_bind_quiet (quiet_set_argument _) (fun _ => ?_)
      refine settles_bind_quiet (quiet_set_argument _) (fun _ => ?_)
      refine settles_bind_quiet (quiet_set_argument _) (fun _ => ?_)
      refine settles_bind_quiet (quiet_launch _ _) (fun _ => ?_)
      refine settles_bind_quiet (quiet_synchronize _) (fun _ => ?_)
      refine settles_bind_quiet (quiet_new_float _ _) (fun _ => ?_)
      refine settles_bind_quiet (quiet_read_buffer _ _) (fun _ => ?_)
      refine settles_bind_release _ _ ?_
      refine settles_bind_release _ _ ?_
      refine settles_bind_release _ _ ?_
      apply settles_pure
      intro x hx
      simp [List.mem_filter] at hx
      rw [List.mem_singleton]
      omega
    · rfl
  unfold diagonal_operator Run.start at hexec
  rw [exec_abort_on_status] at hexec
  generalize hb : Run.exec _ { calls := 0, events := [] } = r at hexec
  rcases r with ⟨r, s1⟩
  cases r with
  | ok w =>
    have hs' : s' = s1 := (congrArg Prod.snd hexec).symm
    rw [hs']
    exact hbody w s1 hb
  | error e => cases e <;> cases hexec

/-- When the operator `+` or `-` of a matrix and a scalar fails it has released
no device buffer. -/
theorem diagonal_operator_releases_nothing {α : Type} [LinearOrderedRing α]
    (kernel : List α → List α → List α → List α → Nat → Except Fault (List α))
    (cl : Nat → Int) (junk : Nat → α) (first : Matrix α) (second : α) :
    releases_nothing_on_failure (diagonal_operator kernel cl junk first second) := by
  unfold diagonal_operator
  apply releases_nothing_abort_on_status
  refine releases_nothing_bind_quiet (quiet_new_float _ _) (fun _ => ?_)
  refine releases_nothing_bind_create _ _ (fun ma => ?_)
  refine releases_nothing_bind_create _ _ (fun mb => ?_)
  refine releases_nothing_bind_create _ _ (fun mc => ?_)
  refine releases_nothing_bind_create _ _ (fun mo => ?_)
  refine releases_nothing_bind_quiet (quiet_enqueue_write _ _) (fun _ => ?_)
  refine releases_nothing_bind_quiet (quiet_enqueue_write _ _) (fun _ => ?_)
  refine releases_nothing_bind_quiet (quiet_enqueue_write _ _) (fun _ => ?_)
  refine releases_nothing_bind_quiet (quiet_set_argument _) (fun _ => ?_)
  refine releases_nothing_bind_quiet (quiet_set_argument _) (fun _ => ?_)
  refine releases_nothing_bind_quiet (quiet_set_argument _) (fun _ => ?_)
  refine releases_nothing_bind_quiet (quiet_set_argument _) (fun _ => ?_)
  refine releases_nothing_bind_quiet (quiet_launch _ _) (fun _ => ?_)
  refine releases_nothing_bind_quiet (quiet_synchronize _) (fun _ => ?_)
  refine releases_nothing_bind_quiet (quiet_new_float _ _) (fun _ => ?_)
  refine releases_nothing_bind_quiet (quiet_read_buffer _ _) (fun _ => ?_)
  exact releases_nothing_of_returns (release_bind_returns _ _ (release_bind_returns _ _
    (release_bind_returns _ _ (pure_returns _))))

/-- An operation that settles every buffer leaves none alive from a fresh session. -/
theorem settles_from_start {β : Type} {x : Run β} (h : settles x [] []) (v : β) (s' : Session)
    (hexec : x.start = (Except.ok v, s')) : live_buffers s'.events = [] := by
  apply List.eq_nil_iff_forall_not_mem.mpr
  intro b hb
  have := h { calls := 0, events := [] } rfl v s' hexec b hb
  simp at this

/-- C21, as the code has it: an operation releases device buffers on its success
path only. When it returns (from a fresh session), no device buffer it created
is alive: this holds of the eight matrix-on-matrix operators, of the seven
matrix-on-scalar operators `*`, `>`, `<`, `==`, `>=`, `<=`, `^`, of `matmul` and
of `transpose`; of the scalar operators `+` and `-` it holds of every buffer but
the third one they create. When an operation does not return, because a
creation, transfer, argument-binding, launch, synchronization or read-back step
failed, it has called `release` on no buffer. -/
theorem buffers_are_released_on_success_only {α : Type} [LinearOrderedRing α] [FloorRing α]
    (cl : Nat → Int) (junk : Nat → α) (A B : Matrix α) (x : α) (pow : α → α → α) :
    (∀ op ∈ ([operator_add, operator_subtract, operator_multiply, operator_gt, operator_lt,
        operator_equals, operator_gte, operator_lte] :
        List ((Nat → Int) → (Nat → α) → Matrix α → Matrix α → Run (Matrix α))),
      (∀ v s', (op cl junk A B).start = (Except.ok v, s') → live_buffers s'.events = []) ∧
      (∀ e s', (op cl junk A B).start = (Except.error e, s') →
        released_buffers s'.events = [])) ∧
    (∀ op ∈ ([operator_multiply_scalar, operator_gt_scalar, operator_lt_scalar,
        operator_equals_scalar, operator_gte_scalar, operator_lte_scalar,
        operator_power_scalar pow] :
        List ((Nat → Int) → (Nat → α) → Matrix α → α → Run (Matrix α))),
      (∀ v s', (op cl junk A x).start = (Except.ok v, s') → live_buffers s'.events = []) ∧
      (∀ e s', (op cl junk A x).start = (Except.error e, s') →
        released_buffers s'.events = [])) ∧
    ((∀ v s', (matmul cl junk A B).start = (Except.ok v, s') → live_buffers s'.events = []) ∧
      (∀ e s', (matmul cl junk A B).start = (Except.error e, s') →
        released_buffers s'.events = [])) ∧
    ((∀ v s', (transpose cl junk A).start = (Except.ok v, s') → live_buffers s'.events = []) ∧
      (∀ e s', (transpose cl junk A).start = (Except.error e, s') →
        released_buffers s'.events = [])) ∧
    (∀ op ∈ ([operator_add_scalar, operator_subtract_scalar] :
        List ((Nat → Int) → (Nat → α) → Matrix α → α → Run (Matrix α))),
      (∀ v s', (op cl junk A x).start = (Except.ok v, s') →
        ∀ b, b ∈ live_buffers s'.events → b ∈ [2]) ∧
      (∀ e s', (op cl junk A x).start = (Except.error e, s') →
        released_buffers s'.events = [])) := by
  have hmatrix : ∀ kernel : List α → List α → List α → Nat → Except Fault (List α),
      (∀ v s', (matrix_operator kernel cl junk A B).start = (Except.ok v, s') →
        live_buffers s'.events = []) ∧
      (∀ e s', (matrix_operator kernel cl junk A B).start = (Except.error e, s') →
        released_buffers s'.events = []) :=
    fun kernel => ⟨settles_from_start (matrix_operator_settles kernel cl junk A B),
      matrix_operator_releases_nothing kernel cl junk A B _ rfl⟩
  have hscalar : ∀ kernel : List α → List α → List α → Nat → Except Fault (List α),
      (∀ v s', (scalar_operator kernel cl junk A x).start = (Except.ok v, s') →
        live_buffers s'.events = []) ∧
      (∀ e s', (scalar_operator kernel cl junk A x).start = (Except.error e, s') →
        released_buffers s'.events = []) :=
    fun kernel => ⟨settles_from_start (scalar_operator_settles kernel cl junk A x),
      scalar_operator_releases_nothing kernel cl junk A x _ rfl⟩
  have hdiagonal : ∀ kernel : List α → List α → List α → List α → Nat → Except Fault (List α),
      (∀ v s', (diagonal_operator kernel cl junk A x).start = (Except.ok v, s') →
        ∀ b, b ∈ live_buffers s'.events → b ∈ [2]) ∧
      (∀ e s', (diagonal_operator kernel cl junk A x).start = (Except.error e, s') →
        released_buffers s'.events = []) :=
    fun kernel => ⟨diagonal_operator_settles kernel cl junk A x,
      diagonal_operator_releases_nothing kernel cl junk A x _ rfl⟩
  refine ⟨?_, ?_, ⟨settles_from_start (matmul_settles cl junk A B),
    matmul_releases_nothing cl junk A B _ rfl⟩,
    ⟨settles_from_start (transpose_settles cl junk A),
    transpose_releases_nothing cl junk A _ rfl⟩, ?_⟩
  · intro op hop
    simp only [List.mem_cons, List.mem_singleton, List.not_mem_nil, or_false] at hop
    rcases hop with rfl | rfl | rfl | rfl | rfl | rfl | rfl | rfl <;> exact hmatrix _
  · intro op hop
    simp only [List.mem_cons, List.mem_singleton, List.not_mem_nil, or_false] at hop
    rcases hop with rfl | rfl | rfl | rfl | rfl | rfl | rfl <;> exact hscalar _
  · intro op hop
    simp only [List.mem_cons, List.mem_singleton, List.not_mem_nil, or_false] at hop
    rcases hop with rfl | rfl <;> exact hdiagonal _

/-- C21 as the spec has it fails when a step fails. In `matmul` on the 1x1
matrices [[2]] and [[3]], with the first transfer to the device (the fourth
OpenCL call) failing, the status 93 leaves the function while the three device
buffers it created are alive: `release` was called on none of them. -/
theorem buffers_outlive_a_failed_call :
    (matmul (fun k => if k = 3 then -5 else 0) (fun _ => 0)
        ({ rows := 1, columns := 1, matrix := [2] } : Matrix Int)
        { rows := 1, columns := 1, matrix := [3] }).start =
      (Except.error (Failure.thrown ⟨"Memory buffer value could not be set.", 93⟩),
       { calls := 4,
         events := [Event.new_float 1, Event.new_float 1, Event.created 0 4,
           Event.created 1 4, Event.created 2 4] }) ∧
    live_buffers [Event.new_float 1, Event.new_float 1, Event.created 0 4,
      Event.created 1 4, Event.created 2 4] = [0, 1, 2] ∧
    released_buffers [Event.new_float 1, Event.new_float 1, Event.created 0 4,
      Event.created 1 4, Event.created 2 4] = [] :=
  ⟨rfl, rfl, rfl⟩

/-! ## The eigen solver with the special values of `float`: what it returns -/

/-- The result of `fabs` is not negative. -/
theorem abs_not_negative {α : Type} [LinearOrderedField α] (x : IEEE α) :
    x.abs.not_negative := by
  cases x with
  | number x => exact abs_nonneg x
  | infinity s => rfl
  | nan => trivial

/-- What the loop under `Finding Largest` returns is a result of `fabs`. -/
theorem largest_step_ieee_not_negative {α : Type} [LinearOrderedField α]
    (matrix initialGuess : Matrix (IEEE α)) (l : IEEE α)
    (h : largest_step_ieee matrix initialGuess = Except.ok l) : l.not_negative := by
  unfold largest_step_ieee at h
  cases hfirst : initialGuess.get_element 0 0 with
  | error e =>
    rw [hfirst, error_bind] at h
    cases h
  | ok first =>
    rw [hfirst, ok_bind] at h
    apply for_range_preserves (fun x : IEEE α => x.not_negative) _ _ _ _ h
      (abs_not_negative first)
    intro i st st' hst hbody
    cases hv : initialGuess.get_element (i + 1) 0 with
    | error e =>
      rw [hv, error_bind] at hbody
      cases hbody
    | ok v =>
      rw [hv, ok_bind] at hbody
      cases hgt : v.abs.gt st with
      | true =>
        rw [hgt, if_pos rfl] at hbody
        rw [← Except.ok.inj hbody]
        exact abs_not_negative v
      | false =>
        rw [hgt, if_neg (by decide)] at hbody
        rw [← Except.ok.inj hbody]
        exact hst

/-- The parts of a pass that returned. -/
theorem power_iteration_ieee_parts {α : Type} [LinearOrderedField α]
    (matrix initialGuess newPossibleSolution : Matrix (IEEE α))
    (st : IEEE α × Matrix (IEEE α) × Matrix (IEEE α))
    (h : power_iteration_ieee matrix initialGuess newPossibleSolution = Except.ok st) :
    ∃ solution guess : Matrix (IEEE α),
      multiply_step_ieee matrix initialGuess newPossibleSolution = Except.ok solution ∧
      copy_step matrix initialGuess solution = Except.ok guess ∧
      largest_step_ieee matrix guess = Except.ok st.1 ∧
      normalize_step_ieee matrix guess st.1 = Except.ok st.2.1 ∧
      st.2.2 = solution := by
  unfold power_iteration_ieee at h
  cases h1 : multiply_step_ieee matrix initialGuess newPossibleSolution with
  | error e =>
    rw [h1, error_bind] at h
    cases h
  | ok solution =>
    rw [h1, ok_bind] at h
    cases h2 : copy_step matrix initialGuess solution with
    | error e =>
      rw [h2, error_bind] at h
      cases h
    | ok guess =>
      rw [h2, ok_bind] at h
      cases h3 : largest_step_ieee matrix guess with
      | error e =>
        rw [h3, error_bind] at h
        cases h
      | ok l =>
        rw [h3, ok_bind] at h
        cases h4 : normalize_step_ieee matrix guess l with
        | error e =>
          rw [h4, error_bind] at h
          cases h
        | ok normal =>
          rw [h4, ok_bind] at h
          rw [← Except.ok.inj h]
          exact ⟨solution, guess, rfl, h2, h3, h4, rfl⟩

/-- The value the loop of `dominant_eigen` returns is not negative. -/
theorem eigen_loop_ieee_not_negative {α : Type} [LinearOrderedField α]
    (matrix : Matrix (IEEE α)) (tol : IEEE α) :
    ∀ (fuel : Nat) (g s : Matrix (IEEE α)) (lambda_old : IEEE α) (done : Nat)
      (r : IEEE α × Matrix (IEEE α) × Nat),
      eigen_loop_ieee matrix tol fuel g s lambda_old done = Except.ok r →
      r.1.not_negative := by
  intro fuel
  induction fuel with
  | zero =>
    intro g s lambda_old done r h
    rw [eigen_loop_ieee] at h
    cases h
  | succ fuel ih =>
    intro g s lambda_old done r h
    rw [eigen_loop_ieee] at h
    cases hp : power_iteration_ieee matrix g s with
    | error e =>
      rw [hp, error_bind] at h
      cases h
    | ok st =>
      rw [hp, ok_bind] at h
      cases hgt : (st.1.sub lambda_old).abs.gt tol with
      | true =>
        rw [hgt, if_pos rfl] at h
        exact ih _ _ _ _ r h
      | false =>
        rw [hgt, if_neg (by decide)] at h
        rw [← Except.ok.inj h]
        obtain ⟨solution, guess, -, -, h3, -, -⟩ := power_iteration_ieee_parts matrix g s st hp
        exact largest_step_ieee_not_negative matrix guess st.1 h3

/-- A return of `dominant_eigen` on a square matrix is a return of its loop,
started after `ones()` and `zeroes()` with `lambda_old = 1`. -/
theorem dominant_eigen_ieee_square {α : Type} [LinearOrderedField α] (fuel : Nat)
    (junk : Nat → IEEE α) (matrix eigen_vector : Matrix (IEEE α)) (tol : IEEE α)
    (r : EigenResult (IEEE α)) (hsquare : matrix.get_rows = matrix.get_columns)
    (h : dominant_eigen_ieee fuel junk matrix eigen_vector tol = Except.ok r) :
    ∃ (start : Matrix (IEEE α) × Matrix (IEEE α)) (st : IEEE α × Matrix (IEEE α) × Nat),
      eigen_start_ieee junk matrix = Except.ok start ∧
      eigen_loop_ieee matrix tol fuel start.1 start.2 (IEEE.number 1) 0 = Except.ok st ∧
      r = { value := st.1, eigen_vector := st.2.1, iterations := st.2.2, errors := [] } := by
  unfold dominant_eigen_ieee at h
  rw [if_neg (not_not.mpr hsquare)] at h
  cases h1 : eigen_start_ieee junk matrix with
  | error e =>
    rw [h1, error_bind] at h
    cases h
  | ok start =>
    rw [h1, ok_bind] at h
    cases h2 : eigen_loop_ieee matrix tol fuel start.1 start.2 (IEEE.number 1) 0 with
    | error e =>
      rw [h2, error_bind] at h
      cases h
    | ok st =>
      rw [h2, ok_bind] at h
      exact ⟨start, st, rfl, h2, (Except.ok.inj h).symm⟩

/-- C29, as the code has it: whenever `dominant_eigen` returns, the value it
returns is not negative: it is a number that is at least 0 (the sentinel 0 of a
non-square input, or a largest absolute component), or one of the special values
`+inf` and NaN. In particular on `diag(-3, 1)`, whose dominant eigenvalue is -3,
it returns 3 (default tolerance, exact rational arithmetic). -/
theorem dominant_eigen_value_never_negative {α : Type} [LinearOrderedField α] (fuel : Nat)
    (junk : Nat → IEEE α) (matrix eigen_vector : Matrix (IEEE α)) (tol : IEEE α)
    (r : EigenResult (IEEE α))
    (h : dominant_eigen_ieee fuel junk matrix eigen_vector tol = Except.ok r) :
    ((∃ x : α, r.value = IEEE.number x ∧ 0 ≤ x) ∨ r.value = IEEE.infinity false ∨
      r.value = IEEE.nan) ∧
    dominant_eigen_default 2 (fun _ => IEEE.number (0 : ℚ))
        ({ columns := 2, rows := 2, matrix := [-3, 0, 0, 1] } : Matrix ℚ).to_ieee
        ({ columns := 1, rows := 2, matrix := [1, 1] } : Matrix ℚ).to_ieee =
      Except.ok { value := IEEE.number 3,
                  eigen_vector :=
                    ({ columns := 1, rows := 2, matrix := [1, 1 / 9] } : Matrix ℚ).to_ieee,
                  iterations := 2, errors := [] } := by
  refine ⟨?_, by with_unfolding_all rfl⟩
  have key : r.value.not_negative := by
    by_cases hsq : matrix.get_rows = matrix.get_columns
    · obtain ⟨start, st, -, h2, hr⟩ :=
        dominant_eigen_ieee_square fuel junk matrix eigen_vector tol r hsq h
      rw [hr]
      exact eigen_loop_ieee_not_negative matrix tol fuel _ _ _ _ st h2
    · unfold dominant_eigen_ieee at h
      rw [if_pos hsq] at h
      rw [← Except.ok.inj h]
      exact le_refl (0 : α)
  cases hv : r.value with
  | number x =>
    rw [hv] at key
    exact Or.inl ⟨x, rfl, key⟩
  | infinity s =>
    rw [hv] at key
    right; left
    rw [show s = false from key]
  | nan => exact Or.inr (Or.inr rfl)

/-- The run of `dominant_eigen` on the zero matrix of order 2 with the default
tolerance: the first pass gives the estimate 0 and the vector `0 / 0`, the
second pass gives NaN, and the check `fabs(NaN - 0) > 0.0001` is false. -/
theorem dominant_eigen_ieee_zero_matrix :
    dominant_eigen_ieee 2 (fun _ => IEEE.number (0 : ℚ))
        ({ columns := 2, rows := 2, matrix := [0, 0, 0, 0] } : Matrix ℚ).to_ieee
        ({ columns := 1, rows := 2, matrix := [1, 1] } : Matrix ℚ).to_ieee
        (IEEE.number (1 / 10000)) =
      Except.ok { value := IEEE.nan,
                  eigen_vector := { columns := 1, rows := 2, matrix := [IEEE.nan, IEEE.nan] },
                  iterations := 2, errors := [] } := by
  with_unfolding_all rfl

/-- C29 at the zero matrix of order 2: the value returned is NaN. -/
theorem dominant_eigen_value_never_negative_witness :
    dominant_eigen_ieee 2 (fun _ => IEEE.number (0 : ℚ))
        ({ columns := 2, rows := 2, matrix := [0, 0, 0, 0] } : Matrix ℚ).to_ieee
        ({ columns := 1, rows := 2, matrix := [1, 1] } : Matrix ℚ).to_ieee
        (IEEE.number (1 / 10000)) =
      Except.ok { value := IEEE.nan,
                  eigen_vector := { columns := 1, rows := 2, matrix := [IEEE.nan, IEEE.nan] },
                  iterations := 2, errors := [] } ∧
    ((∃ x : ℚ, (IEEE.nan : IEEE ℚ) = IEEE.number x ∧ 0 ≤ x) ∨
      (IEEE.nan : IEEE ℚ) = IEEE.infinity false ∨ (IEEE.nan : IEEE ℚ) = IEEE.nan) :=
  ⟨dominant_eigen_ieee_zero_matrix,
   (dominant_eigen_value_never_negative 2 (fun _ => IEEE.number (0 : ℚ))
      ({ columns := 2, rows := 2, matrix := [0, 0, 0, 0] } : Matrix ℚ).to_ieee
      ({ columns := 1, rows := 2, matrix := [1, 1] } : Matrix ℚ).to_ieee
      (IEEE.number (1 / 10000))
      { value := IEEE.nan,
        eigen_vector := { columns := 1, rows := 2, matrix := [IEEE.nan, IEEE.nan] },
        iterations := 2, errors := [] } dominant_eigen_ieee_zero_matrix).1⟩

/-- C29 as the spec has it fails on the zero matrix: `dominant_eigen` returns
there, after two passes, and the value it returns is NaN, which is not a
non-negative number: the comparison `0 <= value` is false. -/
theorem dominant_eigen_returns_nan :
    ∃ r : EigenResult (IEEE ℚ),
      dominant_eigen_ieee 2 (fun _ => IEEE.number (0 : ℚ))
        ({ columns := 2, rows := 2, matrix := [0, 0, 0, 0] } : Matrix ℚ).to_ieee
        ({ columns := 1, rows := 2, matrix := [1, 1] } : Matrix ℚ).to_ieee
        (IEEE.number (1 / 10000)) = Except.ok r ∧
      r.value = IEEE.nan ∧ (IEEE.number 0).le r.value = false ∧
      ¬ ∃ x : ℚ, r.value = IEEE.number x ∧ 0 ≤ x :=
  ⟨{ value := IEEE.nan,
     eigen_vector := { columns := 1, rows := 2, matrix := [IEEE.nan, IEEE.nan] },
     iterations := 2, errors := [] },
   dominant_eigen_ieee_zero_matrix, rfl, rfl, by
    rintro ⟨x, hx, -⟩
    cases hx⟩

/-! ## The eigen solver with the special values of `float`: when it stops -/

/-- The accuracy check after pass `k + 1`, from the states after the passes
`k` and `k + 1`. -/
theorem accuracy_check_succ {α : Type} [LinearOrderedField α] (junk : Nat → IEEE α)
    (matrix : Matrix (IEEE α)) (tol : IEEE α) (k : Nat)
    (old new : IEEE α × Matrix (IEEE α) × Matrix (IEEE α))
    (hold : pass_ieee junk matrix k = Except.ok old)
    (hnew : pass_ieee junk matrix (k + 1) = Except.ok new) :
    accuracy_check junk matrix tol (k + 1) =
      Except.ok ((new.1.sub old.1).abs.gt tol) := by
  unfold accuracy_check estimate_ieee
  rw [hnew, Nat.add_sub_cancel, hold]
  rfl

/-- A pass that returned was made from a pass that returned. -/
theorem pass_ieee_before {α : Type} [LinearOrderedField α] (junk : Nat → IEEE α)
    (matrix : Matrix (IEEE α)) (k : Nat) (new : IEEE α × Matrix (IEEE α) × Matrix (IEEE α))
    (hnew : pass_ieee junk matrix (k + 1) = Except.ok new) :
    ∃ old, pass_ieee junk matrix k = Except.ok old ∧
      power_iteration_ieee matrix old.2.1 old.2.2 = Except.ok new := by
  rw [pass_ieee] at hnew
  cases hold : pass_ieee junk matrix k with
  | error e =>
    rw [hold, error_bind] at hnew
    cases hnew
  | ok old =>
    rw [hold, ok_bind] at hnew
    exact ⟨old, rfl, hnew⟩

/-- What a return of the loop means: it returns at the first pass `N` after
which the accuracy check is false, with the estimate and the vector of that
pass. -/
theorem eigen_loop_ieee_returned {α : Type} [LinearOrderedField α] (junk : Nat → IEEE α)
    (matrix : Matrix (IEEE α)) (tol : IEEE α) :
    ∀ (fuel k : Nat) (g s : Matrix (IEEE α)) (l : IEEE α)
      (res : IEEE α × Matrix (IEEE α) × Nat),
      pass_ieee junk matrix k = Except.ok (l, g, s) →
      eigen_loop_ieee matrix tol fuel g s l k = Except.ok res →
      k < res.2.2 ∧ res.2.2 ≤ k + fuel ∧
      (∃ s', pass_ieee junk matrix res.2.2 = Except.ok (res.1, res.2.1, s')) ∧
      accuracy_check junk matrix tol res.2.2 = Except.ok false ∧
      (∀ i, k < i → i < res.2.2 → accuracy_check junk matrix tol i = Except.ok true) := by
  intro fuel
  induction fuel with
  | zero =>
    intro k g s l res _ h
    rw [eigen_loop_ieee] at h
    cases h
  | succ fuel ih =>
    intro k g s l res hpass h
    rw [eigen_loop_ieee] at h
    cases hp : power_iteration_ieee matrix g s with
    | error e =>
      rw [hp, error_bind] at h
      cases h
    | ok st =>
      rw [hp, ok_bind] at h
      obtain ⟨l', g', s'⟩ := st
      have hnew : pass_ieee junk matrix (k + 1) = Except.ok (l', g', s') := by
        rw [pass_ieee, hpass, ok_bind]
        exact hp
      have hacc := accuracy_check_succ junk matrix tol k _ _ hpass hnew
      simp only at h hacc
      cases hgt : (l'.sub l).abs.gt tol with
      | true =>
        rw [hgt, if_pos rfl] at h
        rw [hgt] at hacc
        obtain ⟨h1, h2, h3, h4, h5⟩ := ih (k + 1) g' s' l' res hnew h
        refine ⟨by omega, by omega, h3, h4, ?_⟩
        intro i hi hiN
        by_cases hik : i = k + 1
        · rw [hik]; exact hacc
        · exact h5 i (by omega) hiN
      | false =>
        rw [hgt, if_neg (by decide)] at h
        rw [hgt] at hacc
        rw [← Except.ok.inj h]
        refine ⟨by simp, by simp, ⟨s', hnew⟩, hacc, ?_⟩
        intro i hi hiN
        simp only at hiN
        omega

/-- The passes before a pass that returned have returned. -/
theorem pass_ieee_returned {α : Type} [LinearOrderedField α] (junk : Nat → IEEE α)
    (matrix : Matrix (IEEE α)) :
    ∀ (d k : Nat) (st : IEEE α × Matrix (IEEE α) × Matrix (IEEE α)),
      pass_ieee junk matrix (k + d) = Except.ok st →
      ∃ old, pass_ieee junk matrix k = Except.ok old := by
  intro d
  induction d with
  | zero =>
    intro k st h
    exact ⟨st, h⟩
  | succ d ih =>
    intro k st h
    obtain ⟨old, hold, -⟩ := pass_ieee_before junk matrix (k + d) st h
    exact ih k old hold

/-- The check `x > t` on numbers. -/
theorem gt_number {α : Type} [LinearOrderedField α] (x y t : α) :
    (((IEEE.number x).sub (IEEE.number y)).abs.gt (IEEE.number t)) = decide (|x - y| > t) :=
  rfl

/-- C17, as the code has it: `dominant_eigen` stops at the first pass after
which the accuracy check `fabs(lambda_n - lambda_(n-1)) > tolerance` is false.
When it returns on a square matrix, after `n` passes, the value is the estimate
`lambda_n`, the check is false after pass `n` and was true after every earlier
pass `1 <= i < n`; `lambda_0 = 1`, and `lambda_(i+1)` is what the loop under
`Finding Largest` takes from the product vector of pass `i + 1`. When
`lambda_n`, `lambda_(n-1)` and the tolerance are numbers, the false check means
`|lambda_n - lambda_(n-1)| <= tolerance`; the check is also false when the
difference is NaN. Without a tolerance, `0.0001` is used. -/
theorem dominant_eigen_stops_when_check_fails {α : Type} [LinearOrderedField α]
    (fuel : Nat) (junk : Nat → IEEE α) (matrix eigen_vector : Matrix (IEEE α))
    (tol : IEEE α) (r : EigenResult (IEEE α))
    (hsquare : matrix.get_rows = matrix.get_columns)
    (h : dominant_eigen_ieee fuel junk matrix eigen_vector tol = Except.ok r) :
    1 ≤ r.iterations ∧
    estimate_ieee junk matrix r.iterations = Except.ok r.value ∧
    estimate_ieee junk matrix 0 = Except.ok (IEEE.number 1) ∧
    accuracy_check junk matrix tol r.iterations = Except.ok false ∧
    (∀ i, 1 ≤ i → i < r.iterations → accuracy_check junk matrix tol i = Except.ok true) ∧
    (∀ i, i < r.iterations →
      ∃ (st : IEEE α × Matrix (IEEE α) × Matrix (IEEE α)) (solution guess : Matrix (IEEE α))
        (lambda_new : IEEE α),
        pass_ieee junk matrix i = Except.ok st ∧
        multiply_step_ieee matrix st.2.1 st.2.2 = Except.ok solution ∧
        copy_step matrix st.2.1 solution = Except.ok guess ∧
        largest_step_ieee matrix guess = Except.ok lambda_new ∧
        estimate_ieee junk matrix (i + 1) = Except.ok lambda_new) ∧
    (∀ x y t : α, r.value = IEEE.number x →
      estimate_ieee junk matrix (r.iterations - 1) = Except.ok (IEEE.number y) →
      tol = IEEE.number t → |x - y| ≤ t) ∧
    dominant_eigen_default fuel junk matrix eigen_vector =
      dominant_eigen_ieee fuel junk matrix eigen_vector (IEEE.number (1 / 10000)) := by
  obtain ⟨start, st, hstart, hloop, hr⟩ :=
    dominant_eigen_ieee_square fuel junk matrix eigen_vector tol r hsquare h
  have hpass0 : pass_ieee junk matrix 0 = Except.ok (IEEE.number 1, start.1, start.2) := by
    rw [pass_ieee, hstart, ok_bind]
    rfl
  obtain ⟨h1, -, ⟨s', h3⟩, h4, h5⟩ :=
    eigen_loop_ieee_returned junk matrix tol fuel 0 start.1 start.2 (IEEE.number 1) st
      hpass0 hloop
  have hit : r.iterations = st.2.2 := by rw [hr]
  have hval : r.value = st.1 := by rw [hr]
  have hest : estimate_ieee junk matrix r.iterations = Except.ok r.value := by
    unfold estimate_ieee
    rw [hit, hval, h3]
    rfl
  refine ⟨by omega, hest, ?_, ?_, ?_, ?_, ?_, rfl⟩
  · unfold estimate_ieee
    rw [hpass0]
    rfl
  · rw [hit]; exact h4
  · intro i hi hiN
    exact h5 i (by omega) (by omega)
  · intro i hi
    obtain ⟨new, hnew⟩ := pass_ieee_returned junk matrix (st.2.2 - (i + 1)) (i + 1)
      (st.1, st.2.1, s') (by
        have : i + 1 + (st.2.2 - (i + 1)) = st.2.2 := by omega
        rw [this]; exact h3)
    obtain ⟨old, hold, hstep⟩ := pass_ieee_before junk matrix i new hnew
    obtain ⟨solution, guess, hm, hc, hl, -, -⟩ :=
      power_iteration_ieee_parts matrix old.2.1 old.2.2 new hstep
    refine ⟨old, solution, guess, new.1, hold, hm, hc, hl, ?_⟩
    unfold estimate_ieee
    rw [hnew]
    rfl
  · intro x y t hx hy ht
    obtain ⟨n, hn⟩ : ∃ n, st.2.2 = n + 1 := ⟨st.2.2 - 1, by omega⟩
    rw [hit, hn, Nat.add_sub_cancel] at hy
    rw [hit, hn] at hest
    have hcheck : accuracy_check junk matrix tol (n + 1) =
        Except.ok (((IEEE.number x).sub (IEEE.number y)).abs.gt (IEEE.number t)) := by
      unfold accuracy_check
      rw [hest, Nat.add_sub_cancel, hy, hx, ht]
      rfl
    rw [hn, hcheck, gt_number] at h4
    have hfalse : decide (|x - y| > t) = false := Except.ok.inj h4
    exact not_lt.mp (of_decide_eq_false hfalse)

/-- The run of `dominant_eigen` on `diag(2, 1)` with the default tolerance: the
first pass moves the estimate from 1 to 2, the second leaves it at 2. -/
theorem dominant_eigen_ieee_two_one :
    dominant_eigen_ieee 2 (fun _ => IEEE.number (0 : ℚ))
        ({ columns := 2, rows := 2, matrix := [2, 0, 0, 1] } : Matrix ℚ).to_ieee
        ({ columns := 1, rows := 2, matrix := [1, 1] } : Matrix ℚ).to_ieee
        (IEEE.number (1 / 10000)) =
      Except.ok { value := IEEE.number 2,
                  eigen_vector :=
                    ({ columns := 1, rows := 2, matrix := [1, 1 / 4] } : Matrix ℚ).to_ieee,
                  iterations := 2, errors := [] } := by
  with_unfolding_all rfl

/-- C17 at `diag(2, 1)` with the default tolerance: the solver returns after
the second pass, the check was true after the first pass and is false after the
second. -/
theorem dominant_eigen_stops_when_check_fails_witness :
    (({ columns := 2, rows := 2, matrix := [2, 0, 0, 1] } : Matrix ℚ).to_ieee.get_rows =
        ({ columns := 2, rows := 2, matrix := [2, 0, 0, 1] } : Matrix ℚ).to_ieee.get_columns ∧
      dominant_eigen_ieee 2 (fun _ => IEEE.number (0 : ℚ))
          ({ columns := 2, rows := 2, matrix := [2, 0, 0, 1] } : Matrix ℚ).to_ieee
          ({ columns := 1, rows := 2, matrix := [1, 1] } : Matrix ℚ).to_ieee
          (IEEE.number (1 / 10000)) =
        Except.ok { value := IEEE.number 2,
                    eigen_vector :=
                      ({ columns := 1, rows := 2, matrix := [1, 1 / 4] } : Matrix ℚ).to_ieee,
                    iterations := 2, errors := [] }) ∧
    accuracy_check (fun _ => IEEE.number (0 : ℚ))
        ({ columns := 2, rows := 2, matrix := [2, 0, 0, 1] } : Matrix ℚ).to_ieee
        (IEEE.number (1 / 10000)) 2 = Except.ok false ∧
    (∀ i, 1 ≤ i → i < 2 →
      accuracy_check (fun _ => IEEE.number (0 : ℚ))
        ({ columns := 2, rows := 2, matrix := [2, 0, 0, 1] } : Matrix ℚ).to_ieee
        (IEEE.number (1 / 10000)) i = Except.ok true) :=
  ⟨⟨rfl, dominant_eigen_ieee_two_one⟩,
   (dominant_eigen_stops_when_check_fails 2 (fun _ => IEEE.number (0 : ℚ))
      ({ columns := 2, rows := 2, matrix := [2, 0, 0, 1] } : Matrix ℚ).to_ieee
      ({ columns := 1, rows := 2, matrix := [1, 1] } : Matrix ℚ).to_ieee
      (IEEE.number (1 / 10000))
      { value := IEEE.number 2,
        eigen_vector := ({ columns := 1, rows := 2, matrix := [1, 1 / 4] } : Matrix ℚ).to_ieee,
        iterations := 2, errors := [] } rfl dominant_eigen_ieee_two_one).2.2.2.1,
   (dominant_eigen_stops_when_check_fails 2 (fun _ => IEEE.number (0 : ℚ))
      ({ columns := 2, rows := 2, matrix := [2, 0, 0, 1] } : Matrix ℚ).to_ieee
      ({ columns := 1, rows := 2, matrix := [1, 1] } : Matrix ℚ).to_ieee
      (IEEE.number (1 / 10000))
      { value := IEEE.number 2,
        eigen_vector := ({ columns := 1, rows := 2, matrix := [1, 1 / 4] } : Matrix ℚ).to_ieee,
        iterations := 2, errors := [] } rfl dominant_eigen_ieee_two_one).2.2.2.2.1⟩

/-- C17 as the spec has it fails on the zero matrix: `dominant_eigen` returns
there after the second pass with the estimate `lambda_2 = NaN`, after `lambda_1
= 0`, and `|lambda_2 - lambda_1| <= tolerance` does not hold: the comparison
`fabs(NaN - 0) <= 0.0001` is false, as is the check `fabs(NaN - 0) > 0.0001`
that ends the loop. -/
theorem dominant_eigen_stops_on_nan :
    ∃ r : EigenResult (IEEE ℚ),
      dominant_eigen_ieee 2 (fun _ => IEEE.number (0 : ℚ))
        ({ columns := 2, rows := 2, matrix := [0, 0, 0, 0] } : Matrix ℚ).to_ieee
        ({ columns := 1, rows := 2, matrix := [1, 1] } : Matrix ℚ).to_ieee
        (IEEE.number (1 / 10000)) = Except.ok r ∧
      r.iterations = 2 ∧ r.value = IEEE.nan ∧
      estimate_ieee (fun _ => IEEE.number (0 : ℚ))
        ({ columns := 2, rows := 2, matrix := [0, 0, 0, 0] } : Matrix ℚ).to_ieee 2 =
        Except.ok IEEE.nan ∧
      estimate_ieee (fun _ => IEEE.number (0 : ℚ))
        ({ columns := 2, rows := 2, matrix := [0, 0, 0, 0] } : Matrix ℚ).to_ieee 1 =
        Except.ok (IEEE.number 0) ∧
      (((IEEE.nan : IEEE ℚ).sub (IEEE.number 0)).abs.le (IEEE.number (1 / 10000))) = false ∧
      (((IEEE.nan : IEEE ℚ).sub (IEEE.number 0)).abs.gt (IEEE.number (1 / 10000))) = false :=
  ⟨{ value := IEEE.nan,
     eigen_vector := { columns := 1, rows := 2, matrix := [IEEE.nan, IEEE.nan] },
     iterations := 2, errors := [] },
   dominant_eigen_ieee_zero_matrix, rfl, rfl, by with_unfolding_all rfl,
   by with_unfolding_all rfl, rfl, rfl⟩

/-! ## The eigen solver with the special values of `float`: passes on numbers -/

/-- An entry of a matrix of numbers, read as a `float`. -/
theorem to_ieee_get {α : Type} [LinearOrderedField α] (m : Matrix α) (i j : Nat)
    (hidx : i * m.columns + j < m.matrix.length) :
    m.to_ieee.get_element i j =
      Except.ok (IEEE.number (m.matrix.getD (i * m.columns + j) 0)) := by
  apply get_element_eq
  show (m.matrix.map IEEE.number)[i * m.columns + j]? = _
  rw [List.getElem?_map, List.getElem?_eq_getElem hidx, List.getD_eq_getElem _ _ hidx]
  rfl

/-- The inner loop of the multiplication on numbers: the sum over `j` of
`matrix(i, j) * initialGuess(j, 0)`. -/
theorem dot_row_ieee {α : Type} [LinearOrderedField α] (matrix : Matrix α) (g : Nat → α)
    (i : Nat) (hsquare : matrix.columns = matrix.rows)
    (hlen : matrix.matrix.length = matrix.rows * matrix.columns) (hi : i < matrix.rows) :
    for_range matrix.to_ieee.get_rows (fun j temp => do
      let x ← matrix.to_ieee.get_element i j
      let y ← (column_vector matrix.rows (fun k => IEEE.number (g k))).get_element j 0
      pure (temp.add (x.mul y))) (IEEE.number (0 : α)) =
      Except.ok (IEEE.number (product_vector matrix g i)) := by
  obtain ⟨t, ht, hsum⟩ := returns_with_for_range
    (fun k (temp : IEEE α) => temp = IEEE.number (Finset.sum (Finset.range k)
      (fun j => matrix.matrix.getD (i * matrix.columns + j) 0 * g j))) matrix.to_ieee.get_rows
    (fun j temp => do
      let x ← matrix.to_ieee.get_element i j
      let y ← (column_vector matrix.rows (fun k => IEEE.number (g k))).get_element j 0
      pure (temp.add (x.mul y))) (IEEE.number (0 : α)) (by simp) (by
      intro j hj temp htemp
      have hj' : j < matrix.rows := hj
      have hidx : i * matrix.columns + j < matrix.matrix.length := by
        rw [hlen]; exact offset_lt hi (by omega)
      beta_reduce
      rw [to_ieee_get matrix i j hidx, column_vector_get _ _ _ hj']
      refine ⟨_, rfl, ?_⟩
      rw [Finset.sum_range_succ, htemp]
      rfl)
  rw [ht, hsum]
  rfl

/-- The multiplication loop on a vector of numbers. -/
theorem multiply_step_ieee_eq {α : Type} [LinearOrderedField α] (matrix : Matrix α)
    (g : Nat → α) (s : Nat → IEEE α) (hsquare : matrix.columns = matrix.rows)
    (hlen : matrix.matrix.length = matrix.rows * matrix.columns) :
    multiply_step_ieee matrix.to_ieee (column_vector matrix.rows (fun k => IEEE.number (g k)))
        (column_vector matrix.rows s) =
      Except.ok (column_vector matrix.rows (fun k => IEEE.number (product_vector matrix g k))) := by
  unfold multiply_step_ieee
  apply column_fill matrix.rows s (fun k => IEEE.number (product_vector matrix g k))
  intro i hi m _ _ _ _
  beta_reduce
  rw [dot_row_ieee matrix g i hsquare hlen hi]
  rfl

/-- The loop that finds the largest absolute component, on a vector of numbers. -/
theorem largest_step_ieee_eq {α : Type} [LinearOrderedField α] (matrix : Matrix (IEEE α))
    (v : Nat → α) (hrows : 1 ≤ matrix.rows) :
    largest_step_ieee matrix (column_vector matrix.rows (fun k => IEEE.number (v k))) =
      Except.ok (IEEE.number (running_max v (matrix.rows - 1))) := by
  unfold largest_step_ieee
  rw [column_vector_get _ _ _ hrows, ok_bind]
  obtain ⟨l, hl, hmax⟩ := returns_with_for_range
    (fun k (l : IEEE α) => l = IEEE.number (running_max v k)) (matrix.get_rows - 1)
    (fun k lambda_new => do
      let x ← (column_vector matrix.rows (fun k => IEEE.number (v k))).get_element (k + 1) 0
      if x.abs.gt lambda_new then pure x.abs else pure lambda_new)
    (IEEE.number (v 0)).abs rfl (by
      intro k hk l hl
      have hk' : k + 1 < matrix.rows := by
        have : k < matrix.rows - 1 := hk
        omega
      beta_reduce
      rw [column_vector_get _ _ _ hk', hl, ok_bind]
      have hcheck : ((IEEE.number (v (k + 1))).abs.gt (IEEE.number (running_max v k))) =
          decide (|v (k + 1)| > running_max v k) := rfl
      rw [hcheck]
      by_cases hgt : |v (k + 1)| > running_max v k
      · rw [decide_eq_true hgt, if_pos rfl]
        exact ⟨_, rfl, by rw [running_max, if_pos hgt]; rfl⟩
      · rw [decide_eq_false hgt, if_neg (by decide)]
        exact ⟨_, rfl, by rw [running_max, if_neg hgt]⟩)
  rw [hl, hmax]
  rfl

/-- The normalization loop on a column vector: every component is divided,
whatever the estimate is. -/
theorem normalize_step_ieee_eq {α : Type} [LinearOrderedField α] (matrix : Matrix (IEEE α))
    (v : Nat → IEEE α) (l : IEEE α) :
    normalize_step_ieee matrix (column_vector matrix.rows v) l =
      Except.ok (column_vector matrix.rows (fun i => (v i).div l)) := by
  unfold normalize_step_ieee
  apply column_fill matrix.rows v (fun i => (v i).div l)
  intro i hi m _ hc _ hrest
  have hget : m.get_element i 0 = Except.ok (v i) := by
    apply get_element_eq
    rw [hc, Nat.mul_one, Nat.add_zero]
    exact hrest i (Nat.le_refl i) hi
  rw [hget, ok_bind]

/-- One pass of the power iteration on a vector of numbers: the estimate is
the largest absolute component of the product, and every component of the
product is divided by it. -/
theorem power_iteration_ieee_eq {α : Type} [LinearOrderedField α] (matrix : Matrix α)
    (g : Nat → α) (s : Nat → IEEE α) (hsquare : matrix.columns = matrix.rows)
    (hlen : matrix.matrix.length = matrix.rows * matrix.columns) (hrows : 1 ≤ matrix.rows) :
    power_iteration_ieee matrix.to_ieee (column_vector matrix.rows (fun k => IEEE.number (g k)))
        (column_vector matrix.rows s) =
      Except.ok (IEEE.number (running_max (product_vector matrix g) (matrix.rows - 1)),
        column_vector matrix.rows (fun i => (IEEE.number (product_vector matrix g i)).div
          (IEEE.number (running_max (product_vector matrix g) (matrix.rows - 1)))),
        column_vector matrix.rows (fun k => IEEE.number (product_vector matrix g k))) := by
  unfold power_iteration_ieee
  rw [multiply_step_ieee_eq matrix g s hsquare hlen, ok_bind]
  have hcopy : copy_step matrix.to_ieee
      (column_vector matrix.rows (fun k => IEEE.number (g k)))
      (column_vector matrix.rows (fun k => IEEE.number (product_vector matrix g k))) =
      Except.ok (column_vector matrix.rows (fun k => IEEE.number (product_vector matrix g k))) :=
    copy_step_eq matrix.to_ieee _ _
  have hlargest : largest_step_ieee matrix.to_ieee
      (column_vector matrix.rows (fun k => IEEE.number (product_vector matrix g k))) =
      Except.ok (IEEE.number (running_max (product_vector matrix g) (matrix.rows - 1))) :=
    largest_step_ieee_eq matrix.to_ieee (product_vector matrix g) hrows
  have hnormal : normalize_step_ieee matrix.to_ieee
      (column_vector matrix.rows (fun k => IEEE.number (product_vector matrix g k)))
      (IEEE.number (running_max (product_vector matrix g) (matrix.rows - 1))) =
      Except.ok (column_vector matrix.rows (fun i =>
        (IEEE.number (product_vector matrix g i)).div
          (IEEE.number (running_max (product_vector matrix g) (matrix.rows - 1))))) :=
    normalize_step_ieee_eq matrix.to_ieee _ _
  rw [hcopy, ok_bind, hlargest, ok_bind, hnormal, ok_bind]
  rfl

/-- The vectors before the first pass: `initialGuess` is all ones and
`newPossibleSolution` is all zeros. -/
theorem eigen_start_ieee_eq {α : Type} [LinearOrderedField α] (junk : Nat → IEEE α)
    (matrix : Matrix (IEEE α)) :
    eigen_start_ieee junk matrix =
      Except.ok (column_vector matrix.rows (fun _ => IEEE.number 1),
        column_vector matrix.rows (fun _ => IEEE.number 0)) := by
  obtain ⟨g, hg, hgr, hgc, hgl, hgv⟩ := fill_fresh junk
    (fun _ _ => (IEEE.number (1 : α)).mul (IEEE.number 1))
    ({ rows := matrix.get_rows, columns := 1,
       matrix := uninitialised junk (matrix.get_rows * 1) } : Matrix (IEEE α))
  obtain ⟨z, hz, hzr, hzc, hzl, hzv⟩ := fill_fresh junk
    (fun _ _ => IEEE.number (0 : α))
    ({ rows := matrix.get_rows, columns := 1,
       matrix := uninitialised junk (matrix.get_rows * 1) } : Matrix (IEEE α))
  have hone : (IEEE.number (1 : α)).mul (IEEE.number 1) = IEEE.number 1 := by
    show IEEE.number ((1 : α) * 1) = IEEE.number 1
    rw [mul_one]
  have hg' : g = column_vector matrix.rows (fun _ => IEEE.number 1) :=
    eq_column_vector matrix.rows _ g hgr hgc (by rw [hgl]; exact Nat.mul_one _) (by
      intro p hp
      have := hgv p 0 hp Nat.one_pos
      rw [hone] at this
      simpa using this)
  have hz' : z = column_vector matrix.rows (fun _ => IEEE.number 0) :=
    eq_column_vector matrix.rows _ z hzr hzc (by rw [hzl]; exact Nat.mul_one _) (by
      intro p hp
      have := hzv p 0 hp Nat.one_pos
      simpa using this)
  unfold eigen_start_ieee Matrix.ones_ieee Matrix.zeroes_ieee
  simp only [bind, Except.bind, pure, Except.pure]
  rw [hg, hz]
  simp only [hg', hz']

/-- The row count of a matrix of numbers read as `float` values. -/
theorem to_ieee_rows {α : Type} (m : Matrix α) : m.to_ieee.rows = m.rows := rfl

/-- A column vector of numbers read as `float` values. -/
theorem column_vector_to_ieee {α : Type} (n : Nat) (g : Nat → α) :
    (column_vector n g).to_ieee = column_vector n (fun i => IEEE.number (g i)) := by
  unfold column_vector Matrix.to_ieee
  simp only [List.map_map]
  rfl

/-- The quotient of two numbers with a non-zero divisor is a number. -/
theorem div_number {α : Type} [LinearOrderedField α] (x y : α) (hy : y ≠ 0) :
    (IEEE.number x).div (IEEE.number y) = IEEE.number (x / y) := by
  show (if y = 0 then (if x = 0 then IEEE.nan else IEEE.infinity (decide (x < 0)))
    else IEEE.number (x / y)) = _
  rw [if_neg hy]

/-- The first pass on a square matrix of numbers: the product vector holds the
row sums, the estimate is the largest absolute row sum, and the vector is the
row sums divided by the estimate. -/
theorem pass_ieee_one {α : Type} [LinearOrderedField α] (junk : Nat → IEEE α)
    (matrix : Matrix α) (hmatrix : matrix.wf) (hsquare : matrix.get_rows = matrix.get_columns) :
    power_iteration_ieee matrix.to_ieee (column_vector matrix.rows (fun _ => IEEE.number 1))
        (column_vector matrix.rows (fun _ => IEEE.number 0)) =
      Except.ok (IEEE.number (running_max (row_sum matrix) (matrix.rows - 1)),
        column_vector matrix.rows (fun i => (IEEE.number (row_sum matrix i)).div
          (IEEE.number (running_max (row_sum matrix) (matrix.rows - 1)))),
        column_vector matrix.rows (fun i => IEEE.number (row_sum matrix i))) ∧
    pass_ieee junk matrix.to_ieee 1 =
      Except.ok (IEEE.number (running_max (row_sum matrix) (matrix.rows - 1)),
        column_vector matrix.rows (fun i => (IEEE.number (row_sum matrix i)).div
          (IEEE.number (running_max (row_sum matrix) (matrix.rows - 1)))),
        column_vector matrix.rows (fun i => IEEE.number (row_sum matrix i))) := by
  have hmax : running_max (product_vector matrix (fun _ => 1)) (matrix.rows - 1) =
      running_max (row_sum matrix) (matrix.rows - 1) :=
    running_max_congr _ _ _ (fun i _ => product_vector_ones matrix i)
  have hfun : (fun i => product_vector matrix (fun _ => (1 : α)) i) = row_sum matrix := by
    funext i
    exact product_vector_ones matrix i
  have hstep := power_iteration_ieee_eq matrix (fun _ => 1) (fun _ => IEEE.number 0)
    hsquare.symm hmatrix.2.2 hmatrix.1
  simp only [hmax, product_vector_ones] at hstep
  refine ⟨hstep, ?_⟩
  rw [pass_ieee, pass_ieee, eigen_start_ieee_eq]
  exact hstep

/-- C28: on a square matrix of numbers the first product vector of
`dominant_eigen`, computed from the vector of ones, holds the row sums, and the
first estimate, the value of `lambda_new` after the first pass, is the largest
absolute row sum of the matrix; when it lies within the tolerance of 1, the
initial value of `lambda_old`, `dominant_eigen` returns it after exactly one
pass. On [[2, -1], [0, 1]] with the default tolerance the solver returns 1
after one pass. -/
theorem first_pass_returns_largest_row_sum {α : Type} [LinearOrderedField α] (fuel : Nat)
    (junk : Nat → IEEE α) (matrix : Matrix α) (eigen_vector : Matrix (IEEE α)) (tol : α)
    (hmatrix : matrix.wf) (hsquare : matrix.get_rows = matrix.get_columns) :
    (∃ (solution guess : Matrix (IEEE α)) (first : α),
      multiply_step_ieee matrix.to_ieee (column_vector matrix.rows (fun _ => IEEE.number 1))
        (column_vector matrix.rows (fun _ => IEEE.number 0)) = Except.ok solution ∧
      (∀ i, i < matrix.get_rows →
        solution.get_element i 0 = Except.ok (IEEE.number (row_sum matrix i))) ∧
      copy_step matrix.to_ieee (column_vector matrix.rows (fun _ => IEEE.number 1)) solution =
        Except.ok guess ∧
      largest_step_ieee matrix.to_ieee guess = Except.ok (IEEE.number first) ∧
      estimate_ieee junk matrix.to_ieee 1 = Except.ok (IEEE.number first) ∧
      (∀ i, i < matrix.get_rows → |row_sum matrix i| ≤ first) ∧
      (∃ i, i < matrix.get_rows ∧ |row_sum matrix i| = first) ∧
      (1 ≤ fuel → |first - 1| ≤ tol →
        ∃ r : EigenResult (IEEE α),
          dominant_eigen_ieee fuel junk matrix.to_ieee eigen_vector (IEEE.number tol) =
            Except.ok r ∧
          r.value = IEEE.number first ∧ r.iterations = 1)) ∧
    ∃ r : EigenResult (IEEE ℚ),
      dominant_eigen_default 1 (fun _ => IEEE.number (0 : ℚ))
        ({ columns := 2, rows := 2, matrix := [2, -1, 0, 1] } : Matrix ℚ).to_ieee
        ({ columns := 1, rows := 2, matrix := [1, 1] } : Matrix ℚ).to_ieee = Except.ok r ∧
      r.value = IEEE.number 1 ∧ r.iterations = 1 := by
  refine ⟨?_, ⟨EigenResult.mk (IEEE.number 1)
      ({ columns := 1, rows := 2, matrix := [1, 1] } : Matrix ℚ).to_ieee 1 [],
      by with_unfolding_all rfl, rfl, rfl⟩⟩
  have hrows : 1 ≤ matrix.rows := hmatrix.1
  obtain ⟨hstep, hpass⟩ := pass_ieee_one junk matrix hmatrix hsquare
  have hmul := multiply_step_ieee_eq matrix (fun _ => 1) (fun _ => IEEE.number 0)
    hsquare.symm hmatrix.2.2
  simp only [product_vector_ones] at hmul
  have hcopy : copy_step matrix.to_ieee (column_vector matrix.rows (fun _ => IEEE.number 1))
      (column_vector matrix.rows (fun i => IEEE.number (row_sum matrix i))) =
      Except.ok (column_vector matrix.rows (fun i => IEEE.number (row_sum matrix i))) :=
    copy_step_eq matrix.to_ieee _ _
  have hlargest : largest_step_ieee matrix.to_ieee
      (column_vector matrix.rows (fun i => IEEE.number (row_sum matrix i))) =
      Except.ok (IEEE.number (running_max (row_sum matrix) (matrix.rows - 1))) :=
    largest_step_ieee_eq matrix.to_ieee (row_sum matrix) hrows
  refine ⟨_, _, running_max (row_sum matrix) (matrix.rows - 1), hmul, ?_, hcopy, hlargest,
    ?_, ?_, ?_, ?_⟩
  · intro i hi
    exact column_vector_get _ _ _ hi
  · unfold estimate_ieee
    rw [hpass]
    rfl
  · intro i hi
    change i < matrix.rows at hi
    exact le_running_max _ _ i (by omega)
  · obtain ⟨i, hi, hv⟩ := running_max_attained (row_sum matrix) (matrix.rows - 1)
    refine ⟨i, ?_, hv⟩
    change i < matrix.rows
    omega
  · intro hfuel hclose
    obtain ⟨f, rfl⟩ : ∃ f, fuel = f + 1 := ⟨fuel - 1, by omega⟩
    have hrun : dominant_eigen_ieee (f + 1) junk matrix.to_ieee eigen_vector
        (IEEE.number tol) =
        Except.ok (EigenResult.mk (IEEE.number (running_max (row_sum matrix) (matrix.rows - 1)))
          (column_vector matrix.rows (fun i => (IEEE.number (row_sum matrix i)).div
            (IEEE.number (running_max (row_sum matrix) (matrix.rows - 1))))) 1 []) := by
      have hsquare' : matrix.to_ieee.get_rows = matrix.to_ieee.get_columns := hsquare
      unfold dominant_eigen_ieee
      rw [if_neg (not_not.mpr hsquare'), eigen_start_ieee_eq, ok_bind, eigen_loop_ieee]
      simp only [to_ieee_rows]
      rw [hstep, ok_bind]
      simp only
      rw [gt_number, decide_eq_false (not_lt.mpr hclose), if_neg (by decide)]
      rfl
    exact ⟨_, hrun, rfl, rfl⟩

/-- C28 at the matrix [[2, -1], [0, 1]], whose row sums are 1 and 1. -/
theorem first_pass_returns_largest_row_sum_witness :
    (({ columns := 2, rows := 2, matrix := [2, -1, 0, 1] } : Matrix ℚ).wf ∧
      ({ columns := 2, rows := 2, matrix := [2, -1, 0, 1] } : Matrix ℚ).get_rows =
      ({ columns := 2, rows := 2, matrix := [2, -1, 0, 1] } : Matrix ℚ).get_columns) ∧
    dominant_eigen_ieee 1 (fun _ => IEEE.number (0 : ℚ))
        ({ columns := 2, rows := 2, matrix := [2, -1, 0, 1] } : Matrix ℚ).to_ieee
        ({ columns := 1, rows := 2, matrix := [1, 1] } : Matrix ℚ).to_ieee
        (IEEE.number (1 / 10000)) =
      Except.ok { value := IEEE.number 1,
                  eigen_vector :=
                    ({ columns := 1, rows := 2, matrix := [1, 1] } : Matrix ℚ).to_ieee,
                  iterations := 1, errors := [] } ∧
    ∃ (solution guess : Matrix (IEEE ℚ)) (first : ℚ),
      multiply_step_ieee ({ columns := 2, rows := 2, matrix := [2, -1, 0, 1] } : Matrix ℚ).to_ieee
        (column_vector 2 (fun _ => IEEE.number 1))
        (column_vector 2 (fun _ => IEEE.number 0)) = Except.ok solution ∧
      (∀ i, i < 2 → solution.get_element i 0 = Except.ok (IEEE.number
        (row_sum ({ columns := 2, rows := 2, matrix := [2, -1, 0, 1] } : Matrix ℚ) i))) ∧
      copy_step ({ columns := 2, rows := 2, matrix := [2, -1, 0, 1] } : Matrix ℚ).to_ieee
        (column_vector 2 (fun _ => IEEE.number 1)) solution = Except.ok guess ∧
      largest_step_ieee ({ columns := 2, rows := 2, matrix := [2, -1, 0, 1] } : Matrix ℚ).to_ieee
        guess = Except.ok (IEEE.number first) ∧
      estimate_ieee (fun _ => IEEE.number (0 : ℚ))
        ({ columns := 2, rows := 2, matrix := [2, -1, 0, 1] } : Matrix ℚ).to_ieee 1 =
        Except.ok (IEEE.number first) ∧
      (∀ i, i < 2 →
        |row_sum ({ columns := 2, rows := 2, matrix := [2, -1, 0, 1] } : Matrix ℚ) i| ≤ first) ∧
      (∃ i, i < 2 ∧
        |row_sum ({ columns := 2, rows := 2, matrix := [2, -1, 0, 1] } : Matrix ℚ) i| = first) ∧
      (1 ≤ 1 → |first - 1| ≤ 1 / 10000 →
        ∃ r : EigenResult (IEEE ℚ),
          dominant_eigen_ieee 1 (fun _ => IEEE.number (0 : ℚ))
            ({ columns := 2, rows := 2, matrix := [2, -1, 0, 1] } : Matrix ℚ).to_ieee
            ({ columns := 1, rows := 2, matrix := [1, 1] } : Matrix ℚ).to_ieee
            (IEEE.number (1 / 10000)) = Except.ok r ∧
          r.value = IEEE.number first ∧ r.iterations = 1) :=
  ⟨⟨⟨by decide, by decide, rfl⟩, rfl⟩, by with_unfolding_all rfl,
   (first_pass_returns_largest_row_sum 1 (fun _ => IEEE.number (0 : ℚ))
    ({ columns := 2, rows := 2, matrix := [2, -1, 0, 1] } : Matrix ℚ)
    ({ columns := 1, rows := 2, matrix := [1, 1] } : Matrix ℚ).to_ieee (1 / 10000)
    ⟨by decide, by decide, rfl⟩ rfl).1⟩

/-! ## The two models of the eigen solver agree -/

/-- A run of the loop in exact arithmetic, where a division by zero ends the
run, is a run of the loop on `float` values: from the same state the loop on
`float` values returns the same estimate, vector and number of passes. -/
theorem eigen_loop_ieee_extends {α : Type} [LinearOrderedField α] (matrix : Matrix α) (tol : α)
    (hsquare : matrix.columns = matrix.rows)
    (hlen : matrix.matrix.length = matrix.rows * matrix.columns) (hrows : 1 ≤ matrix.rows) :
    ∀ (fuel k : Nat) (s : Nat → α) (s' : Nat → IEEE α) (res : α × Matrix α × Nat),
      eigen_loop matrix tol fuel (column_vector matrix.rows (normalized matrix k))
        (column_vector matrix.rows s) (estimate matrix k) k = Except.ok res →
      eigen_loop_ieee matrix.to_ieee (IEEE.number tol) fuel
        (column_vector matrix.rows (fun i => IEEE.number (normalized matrix k i)))
        (column_vector matrix.rows s') (IEEE.number (estimate matrix k)) k =
        Except.ok (IEEE.number res.1, res.2.1.to_ieee, res.2.2) := by
  intro fuel
  induction fuel with
  | zero =>
    intro k s s' res h
    rw [eigen_loop] at h
    cases h
  | succ fuel ih =>
    intro k s s' res h
    rw [eigen_loop_succ matrix tol fuel k s hsquare hlen hrows] at h
    by_cases h0 : estimate matrix (k + 1) = 0
    · rw [if_pos h0] at h
      cases h
    · rw [if_neg h0] at h
      have he : running_max (product_vector matrix (normalized matrix k)) (matrix.rows - 1) =
          estimate matrix (k + 1) := rfl
      have hvec : column_vector matrix.rows (fun i =>
          (IEEE.number (product_vector matrix (normalized matrix k) i)).div
            (IEEE.number (estimate matrix (k + 1)))) =
          column_vector matrix.rows (fun i => IEEE.number (normalized matrix (k + 1) i)) :=
        column_vector_congr _ _ _ (fun i _ => by
          rw [div_number _ _ h0, normalized_succ])
      rw [eigen_loop_ieee, power_iteration_ieee_eq matrix _ s' hsquare hlen hrows, he, hvec,
        ok_bind]
      simp only
      rw [gt_number]
      by_cases hgt : |estimate matrix (k + 1) - estimate matrix k| > tol
      · rw [if_pos hgt] at h
        rw [decide_eq_true hgt, if_pos rfl]
        exact ih (k + 1) _ _ res h
      · rw [if_neg hgt] at h
        rw [decide_eq_false hgt, if_neg (by decide), ← Except.ok.inj h,
          column_vector_to_ieee]
        rfl

/-- A run of `dominant_eigen` in exact arithmetic, where a division by zero
ends the run, is a run of `dominant_eigen` on `float` values: on a matrix of
numbers that satisfies the invariant, whenever the first returns, the second
returns the same value, vector, number of passes and messages. -/
theorem dominant_eigen_ieee_extends {α : Type} [LinearOrderedField α] (fuel : Nat)
    (junk : Nat → α) (junk' : Nat → IEEE α) (matrix eigen_vector : Matrix α) (tol : α)
    (r : EigenResult α) (hmatrix : matrix.wf)
    (h : dominant_eigen fuel junk matrix eigen_vector tol = Except.ok r) :
    dominant_eigen_ieee fuel junk' matrix.to_ieee eigen_vector.to_ieee (IEEE.number tol) =
      Except.ok (EigenResult.mk (IEEE.number r.value) r.eigen_vector.to_ieee r.iterations
        r.errors) := by
  by_cases hsq : matrix.get_rows = matrix.get_columns
  · have hsq' : matrix.to_ieee.get_rows = matrix.to_ieee.get_columns := hsq
    rw [dominant_eigen_square fuel junk matrix eigen_vector tol hsq] at h
    cases hloop : eigen_loop matrix tol fuel (column_vector matrix.rows (normalized matrix 0))
        (column_vector matrix.rows (fun _ => 0)) (estimate matrix 0) 0 with
    | error e =>
      rw [hloop, error_bind] at h
      cases h
    | ok res =>
      rw [hloop, ok_bind] at h
      have key := eigen_loop_ieee_extends matrix tol hsq.symm hmatrix.2.2 hmatrix.1 fuel 0
        (fun _ => 0) (fun _ => IEEE.number 0) res hloop
      unfold dominant_eigen_ieee
      rw [if_neg (not_not.mpr hsq'), eigen_start_ieee_eq, ok_bind]
      simp only [to_ieee_rows]
      have key' : eigen_loop_ieee matrix.to_ieee (IEEE.number tol) fuel
          (column_vector matrix.rows (fun _ => IEEE.number 1))
          (column_vector matrix.rows (fun _ => IEEE.number 0)) (IEEE.number 1) 0 =
          Except.ok (IEEE.number res.1, res.2.1.to_ieee, res.2.2) := key
      rw [key', ok_bind, ← Except.ok.inj h]
      rfl
  · have hsq' : matrix.to_ieee.get_rows ≠ matrix.to_ieee.get_columns := hsq
    unfold dominant_eigen at h
    rw [if_pos hsq] at h
    unfold dominant_eigen_ieee
    rw [if_pos hsq', ← Except.ok.inj h]
    rfl

end numcpp
